import Mathlib

/-!
# gmkOS kernel: a shallow embedding of the scheduler, queue and mutex code

The definitions below transcribe the C functions of `src/src/queue.c`,
`src/src/scheduler.c`, `src/src/kproc.c`, `src/src/kmutex.c`, `src/src/ksem.c`
and `src/src/ksyscall.c`.

Conventions of the embedding

* A pointer into the static process table (`proc_t *`) is the table index,
  `Option Nat`; `NULL` is `none`.  Pointer equality is index equality.
* A `queue_t *` stored in a PCB is a `queue_ref` tag naming the queue.
* C `int` values are `Int`.  Signed overflow is undefined in C; the counters
  that no execution can drive to the end of the `int` range (`next_pid`, lock
  counts, run times) are unbounded.  The semaphore count, which a process
  can increment without bound by calling `sem_post`, is a 32-bit value:
  `ksem_post` computes it with `wrap_int`, the two's-complement wrap-around
  of the 32-bit target.  `unsigned int` registers are `Nat` below `2 ^ 32`.
* A function that may call `kernel_panic` (which exits and never returns) or
  run into undefined behaviour (an access outside a table) returns `Option`;
  `none` is "no result".  `queue_in` and `queue_out` also return `Option`:
  there `none` is the C return code `-1` with the queue left untouched.
* Loops whose bound is re-read on every iteration are recursive functions
  over an explicit iteration budget equal to the number of iterations the
  C loop can take at most.
-/

namespace GmkOS

/-! ## Bounded queue (`src/src/queue.c`, `src/include/queue.h`) -/

/-- Capacity of every queue: `#define QUEUE_SIZE 32`. -/
def QUEUE_SIZE : Nat := 32

/-- The C struct `queue_t`; `head`, `tail`, `size` are C ints that the code only
ever sets to zero, increments or (when non-zero) decrements. -/
structure queue_t where
  head : Nat
  tail : Nat
  size : Nat
  items : List Int
deriving DecidableEq, Repr

/-- The queue left by `queue_init` (also what `memset(.., 0, ..)` leaves). -/
def queue_init : queue_t :=
  { head := 0, tail := 0, size := 0, items := List.replicate QUEUE_SIZE 0 }

/-- The function `queue_in`: `none` is the return code `-1` (queue full, nothing
changed), `some q` is return code `0` with the new queue. -/
def queue_in (q : queue_t) (item : Int) : Option queue_t :=
  if q.size = QUEUE_SIZE then none
  else
    some { head := q.head
           tail := if q.tail + 1 = QUEUE_SIZE then 0 else q.tail + 1
           size := q.size + 1
           items := q.items.set q.tail item }

/-- The function `queue_out`: `none` is the return code `-1` (queue empty, nothing
changed, `*item` not written), `some (item, q)` is return code `0`. -/
def queue_out (q : queue_t) : Option (Int × queue_t) :=
  if q.size = 0 then none
  else
    some (q.items.getD q.head 0,
          { head := if q.head + 1 = QUEUE_SIZE then 0 else q.head + 1
            tail := q.tail
            size := q.size - 1
            items := q.items.set q.head 0 })

/-- The items of a queue, oldest first. -/
def queue_t.toList (q : queue_t) : List Int :=
  (List.range q.size).map (fun i => q.items.getD ((q.head + i) % QUEUE_SIZE) 0)

/-- The circular-buffer invariant of a `queue_t`. -/
def queue_t.wf (q : queue_t) : Prop :=
  q.items.length = QUEUE_SIZE ∧ q.head < QUEUE_SIZE ∧ q.size ≤ QUEUE_SIZE ∧
    q.tail = (q.head + q.size) % QUEUE_SIZE

instance (q : queue_t) : Decidable q.wf := by
  unfold queue_t.wf; infer_instance

/-! ## Process table (`src/src/kproc.c`; `kproc.h` and `trapframe.h` are not in the tree) -/

/-- Modelled from the spec: the process states of `kproc.h` (section 3 of the
specification: one of NONE, IDLE, ACTIVE, SLEEPING, WAITING).  `NONE` is the
state of a zeroed PCB (`test_proc_list` skips entries whose state is `NONE`). -/
inductive proc_state where
  | NONE
  | IDLE
  | ACTIVE
  | SLEEPING
  | WAITING
deriving DecidableEq, Repr

/-- The queue a `queue_t *` can point at: the two scheduler queues and the wait
queue of a mutex or semaphore table entry. -/
inductive queue_ref where
  | run
  | sleep
  | mutex (i : Nat)
  | sem (i : Nat)
deriving DecidableEq, Repr

/-- Modelled from the spec: the registers of `trapframe_t` (`trapframe.h`) that the
C code reads or writes (section 6 of the specification). -/
structure trapframe_t where
  eax : Nat
  ebx : Nat
  ecx : Nat
  edx : Nat
  eip : Nat
  eflags : Nat
  cs : Nat
  ds : Nat
  es : Nat
  fs : Nat
  gs : Nat
  interrupt : Nat
deriving DecidableEq, Repr

/-- Modelled from the spec: the process control block `proc_t` of `kproc.h`, with
the fields the C code uses (section 3 of the specification).  The kernel stack is
represented by the trap frame stored in it; `io` holds indices of ring buffers. -/
structure proc_t where
  pid : Int
  state : proc_state
  type : Int
  name : List Nat
  trapframe : Option trapframe_t
  scheduler_queue : Option queue_ref
  sleep_time : Int
  run_time : Int
  cpu_time : Int
  start_time : Int
  io : List (Option Nat)
deriving DecidableEq, Repr

/-- A PCB after `memset(proc, 0, sizeof(proc_t))`. -/
def proc_zero : proc_t :=
  { pid := 0, state := proc_state.NONE, type := 0, name := [], trapframe := none,
    scheduler_queue := none, sleep_time := 0, run_time := 0, cpu_time := 0,
    start_time := 0, io := [none, none] }

/-- Time slice in ticks: `#define SCHEDULER_TIMESLICE 10`. -/
def SCHEDULER_TIMESLICE : Int := 10

/-- Number of mutexes: `#define MUTEX_MAX 16`. -/
def MUTEX_MAX : Nat := 16

/-- Number of semaphores: `#define SEM_MAX 16`. -/
def SEM_MAX : Nat := 16

/-- Ring buffer capacity: `#define RINGBUF_SIZE 2048`. -/
def RINGBUF_SIZE : Nat := 2048

/-- Modelled from the spec: `PROC_IO_MAX` of `kproc.h`, the length of `io[2]`. -/
def PROC_IO_MAX : Int := 2

/-- The C struct `mutex_t`; `owner` is a pointer into the process table. -/
structure mutex_t where
  allocated : Int
  locks : Int
  owner : Option Nat
  wait_queue : queue_t
deriving DecidableEq, Repr

/-- The C struct `sem_t`. -/
structure sem_t where
  allocated : Int
  count : Int
  wait_queue : queue_t
deriving DecidableEq, Repr

/-- The C struct `ringbuf_t`; `data` holds `char` values. -/
structure ringbuf_t where
  head : Nat
  tail : Nat
  size : Nat
  data : List Int
deriving DecidableEq, Repr

/-- A mutex entry after `memset(mutex_ptr, 0, sizeof(mutex_t))`. -/
def mutex_zero : mutex_t :=
  { allocated := 0, locks := 0, owner := none, wait_queue := queue_init }

/-- A semaphore entry after `memset(sem_ptr, 0, sizeof(sem_t))`. -/
def sem_zero : sem_t :=
  { allocated := 0, count := 0, wait_queue := queue_init }

/-- The global kernel state: `active_proc` (kernel.c), the process table, its
allocator and `next_pid` (kproc.c), the run and sleep queues (scheduler.c),
`timer_ticks` (timer.c), the mutex and semaphore tables with their id queues
(kmutex.c, ksem.c) and the ring buffers processes are attached to (tty.c).
`PROC_MAX` is the length of `proc_table`. -/
structure Kernel where
  active_proc : Option Nat
  proc_table : List proc_t
  run_queue : queue_t
  sleep_queue : queue_t
  proc_allocator : queue_t
  next_pid : Int
  timer_ticks : Int
  mutexes : List mutex_t
  mutex_queue : queue_t
  semaphores : List sem_t
  sem_queue : queue_t
  ringbufs : List ringbuf_t
deriving DecidableEq, Repr

/-- Dereference of a `queue_t *`. -/
def Kernel.queue (s : Kernel) : queue_ref → Option queue_t
  | queue_ref.run => some s.run_queue
  | queue_ref.sleep => some s.sleep_queue
  | queue_ref.mutex i => (s.mutexes[i]?).map (fun m => m.wait_queue)
  | queue_ref.sem i => (s.semaphores[i]?).map (fun m => m.wait_queue)

/-- Store through a `queue_t *`. -/
def Kernel.set_queue (s : Kernel) (r : queue_ref) (q : queue_t) : Kernel :=
  match r with
  | queue_ref.run => { s with run_queue := q }
  | queue_ref.sleep => { s with sleep_queue := q }
  | queue_ref.mutex i =>
      { s with mutexes := match s.mutexes[i]? with
                          | some m => s.mutexes.set i { m with wait_queue := q }
                          | none => s.mutexes }
  | queue_ref.sem i =>
      { s with semaphores := match s.semaphores[i]? with
                             | some m => s.semaphores.set i { m with wait_queue := q }
                             | none => s.semaphores }

/-- Store of a whole PCB at table index `e`. -/
def Kernel.set_proc (s : Kernel) (e : Nat) (p : proc_t) : Kernel :=
  { s with proc_table := s.proc_table.set e p }

/-- The scan of `pid_to_proc` over the table from index `i` on. -/
def pid_to_proc_from (pid : Int) : List proc_t → Nat → Option Nat
  | [], _ => none
  | p :: ps, i => if p.pid = pid then some i else pid_to_proc_from pid ps (i + 1)

/-- The function `pid_to_proc`: the first table entry whose `pid` field matches. -/
def pid_to_proc (s : Kernel) (pid : Int) : Option Nat :=
  pid_to_proc_from pid s.proc_table 0

/-- The function `proc_to_entry`: `-1` for `NULL`, else the index of the first
table entry with the same pid as `*proc`. -/
def proc_to_entry (s : Kernel) (proc : Option Nat) : Option Int :=
  match proc with
  | none => some (-1)
  | some e =>
    match s.proc_table[e]? with
    | none => none
    | some p =>
      match pid_to_proc s p.pid with
      | some i => some (i : Int)
      | none => some (-1)

/-- The function `entry_to_proc`. -/
def entry_to_proc (s : Kernel) (entry : Int) : Option Nat :=
  if 0 ≤ entry ∧ entry < s.proc_table.length then some entry.toNat else none

/-! ## Scheduler (`src/src/scheduler.c`) -/

/-- The function `scheduler_add`; `none` is `kernel_panic`. -/
def scheduler_add (s : Kernel) (proc : Option Nat) : Option Kernel :=
  match proc with
  | none => none
  | some e =>
    match s.proc_table[e]? with
    | none => none
    | some p =>
      let p1 := { p with scheduler_queue := some queue_ref.run,
                         state := proc_state.IDLE, cpu_time := 0 }
      match queue_in s.run_queue p1.pid with
      | none => none
      | some q => some { s with proc_table := s.proc_table.set e p1, run_queue := q }

/-- The loop of `scheduler_remove`:
`for (i = 0; i < queue->size; i++) { queue_out; if (pid matches) continue; queue_in; }`.
The bound `queue->size` is read again on every iteration.  The first argument is
the iteration budget; `none` is `kernel_panic`. -/
def scheduler_remove_loop (pid : Int) : Nat → Nat → queue_t → Option queue_t
  | 0, i, q => if i < q.size then none else some q
  | fuel + 1, i, q =>
    if i < q.size then
      match queue_out q with
      | none => none
      | some (x, q1) =>
        if pid = x then scheduler_remove_loop pid fuel (i + 1) q1
        else
          match queue_in q1 x with
          | none => none
          | some q2 => scheduler_remove_loop pid fuel (i + 1) q2
    else some q

/-- The function `scheduler_remove`; `none` is `kernel_panic`. -/
def scheduler_remove (s : Kernel) (proc : Option Nat) : Option Kernel :=
  match proc with
  | none => none
  | some e =>
    match s.proc_table[e]? with
    | none => none
    | some p =>
      let s1 : Option Kernel :=
        match p.scheduler_queue with
        | none => some s
        | some r =>
          match s.queue r with
          | none => none
          | some q =>
            match scheduler_remove_loop p.pid q.size 0 q with
            | none => none
            | some q1 =>
              some ((s.set_queue r q1).set_proc e { p with scheduler_queue := none })
      match s1 with
      | none => none
      | some s2 =>
        some (if s2.active_proc = some e then { s2 with active_proc := none } else s2)

/-- The function `scheduler_sleep`; the return code of its `queue_in` is ignored. -/
def scheduler_sleep (s : Kernel) (proc : Option Nat) (time : Int) : Option Kernel :=
  match proc with
  | none => none
  | some e =>
    match s.proc_table[e]? with
    | none => none
    | some p =>
      let s1 := s.set_proc e { p with sleep_time := time }
      if p.state = proc_state.SLEEPING then some s1
      else
        match scheduler_remove s1 (some e) with
        | none => none
        | some s2 =>
          match s2.proc_table[e]? with
          | none => none
          | some p2 =>
            let p3 := { p2 with state := proc_state.SLEEPING,
                                scheduler_queue := some queue_ref.sleep }
            some { s2 with proc_table := s2.proc_table.set e p3,
                           sleep_queue := (queue_in s2.sleep_queue p3.pid).getD
                                            s2.sleep_queue }

/-- The loop of `scheduler_timer` over the sleep queue:
`for (i = 0; i < sleep_queue.size; i++)`, the bound being read again on every
iteration; `proc->sleep_time-- >= 0` tests the value before the decrement.  The
first argument is the iteration budget. -/
def scheduler_timer_loop : Nat → Nat → Kernel → Option Kernel
  | 0, i, s => if i < s.sleep_queue.size then none else some s
  | fuel + 1, i, s =>
    if i < s.sleep_queue.size then
      match queue_out s.sleep_queue with
      | none => scheduler_timer_loop fuel (i + 1) s
      | some (pid, q) =>
        let s1 := { s with sleep_queue := q }
        match pid_to_proc s1 pid with
        | none => scheduler_timer_loop fuel (i + 1) s1
        | some e =>
          match s1.proc_table[e]? with
          | none => none
          | some p =>
            let s2 := s1.set_proc e { p with sleep_time := p.sleep_time - 1 }
            if p.sleep_time ≥ 0 then
              scheduler_timer_loop fuel (i + 1)
                { s2 with sleep_queue := (queue_in s2.sleep_queue pid).getD s2.sleep_queue }
            else
              match scheduler_add s2 (some e) with
              | none => none
              | some s3 => scheduler_timer_loop fuel (i + 1) s3
    else some s

/-- The function `scheduler_timer`, the scheduler's timer callback. -/
def scheduler_timer (s : Kernel) : Option Kernel :=
  let s1 : Option Kernel :=
    match s.active_proc with
    | none => some s
    | some a =>
      match s.proc_table[a]? with
      | none => none
      | some p => some (s.set_proc a { p with run_time := p.run_time + 1,
                                              cpu_time := p.cpu_time + 1 })
  match s1 with
  | none => none
  | some s2 => scheduler_timer_loop s2.sleep_queue.size 0 s2

/-- First block of `scheduler_run`: an active process that is not in state ACTIVE
is dropped. -/
def scheduler_run_drop (s : Kernel) : Option Kernel :=
  match s.active_proc with
  | none => some s
  | some a =>
    match s.proc_table[a]? with
    | none => none
    | some p => some (if p.state ≠ proc_state.ACTIVE then { s with active_proc := none } else s)

/-- Second block of `scheduler_run`: an active process whose `cpu_time` has reached
the time slice is unscheduled, and re-enqueued unless it is pid 0. -/
def scheduler_run_slice (s : Kernel) : Option Kernel :=
  match s.active_proc with
  | none => some s
  | some a =>
    match s.proc_table[a]? with
    | none => none
    | some p =>
      if p.cpu_time ≥ SCHEDULER_TIMESLICE then
        let p1 := { p with cpu_time := 0 }
        let s1 := s.set_proc a p1
        let s2 : Option Kernel :=
          if p1.pid ≠ 0 then scheduler_add s1 (some a)
          else some (s1.set_proc a { p1 with state := proc_state.IDLE })
        match s2 with
        | none => none
        | some s3 => some { s3 with active_proc := none }
      else some s

/-- Third block of `scheduler_run`: with no active process, take the pid at the
head of the run queue, or pid 0 when `queue_out` fails, and look it up. -/
def scheduler_run_select (s : Kernel) : Kernel :=
  match s.active_proc with
  | some _ => s
  | none =>
    match queue_out s.run_queue with
    | some (pid, q) => { s with run_queue := q, active_proc := pid_to_proc s pid }
    | none => { s with active_proc := pid_to_proc s 0 }

/-- The function `scheduler_run`; `none` is `kernel_panic` (or the dereference of a
null `active_proc` that precedes it). -/
def scheduler_run (s : Kernel) : Option Kernel :=
  match scheduler_run_drop s with
  | none => none
  | some s1 =>
    match scheduler_run_slice s1 with
    | none => none
    | some s2 =>
      let s3 := scheduler_run_select s2
      match s3.active_proc with
      | none => none
      | some a =>
        match s3.proc_table[a]? with
        | none => none
        | some p => some (s3.set_proc a { p with state := proc_state.ACTIVE })

/-- The function `scheduler_init` without its timer registration. -/
def scheduler_init (s : Kernel) : Kernel :=
  { s with run_queue := queue_init, sleep_queue := queue_init }

/-! ## Process destruction (`src/src/kproc.c`) -/

/-- The function `kproc_destroy`; the return code of its `queue_in` is only logged. -/
def kproc_destroy (s : Kernel) (proc : Option Nat) : Option (Kernel × Int) :=
  match proc with
  | none => none
  | some e =>
    match s.proc_table[e]? with
    | none => none
    | some p =>
      if p.pid = 0 then some (s, -1)
      else
        match scheduler_remove s (some e) with
        | none => none
        | some s1 =>
          match proc_to_entry s1 (some e) with
          | none => none
          | some entry =>
            if entry < 0 then none
            else
              let s2 := s1.set_proc e proc_zero
              some ({ s2 with proc_allocator :=
                        (queue_in s2.proc_allocator entry).getD s2.proc_allocator }, 0)

/-! ## Mutexes (`src/src/kmutex.c`) -/

/-- The fill loop of `kmutexes_init` and `ksemaphores_init`:
`for (i = 0; i < n; i++) if (queue_in(q, i) != 0) return -1;`. -/
def fill_id_queue (q : queue_t) : List Nat → Option queue_t
  | [] => some q
  | i :: rest =>
    match queue_in q (i : Int) with
    | none => none
    | some q1 => fill_id_queue q1 rest

/-- The function `kmutexes_init`: every table entry is reset and the id queue
receives `0 .. MUTEX_MAX-1`.  A failed fill returns `-1` with the queue as filled so
far; this cannot happen since `MUTEX_MAX` is below `QUEUE_SIZE`. -/
def kmutexes_init (s : Kernel) : Kernel × Int :=
  let tbl := List.replicate MUTEX_MAX mutex_zero
  match fill_id_queue queue_init (List.range MUTEX_MAX) with
  | some q => ({ s with mutexes := tbl, mutex_queue := q }, 0)
  | none => ({ s with mutexes := tbl }, -1)

/-- The function `kmutex_init`.  The local `id` is not initialised and the return
code of `queue_out` is not checked: `id0` is the indeterminate value `id` holds when
the id queue is empty.  An access outside the table has no result. -/
def kmutex_init (s : Kernel) (id0 : Int) : Option (Kernel × Int) :=
  let r : Int × queue_t :=
    match queue_out s.mutex_queue with
    | some (x, q) => (x, q)
    | none => (id0, s.mutex_queue)
  let s1 := { s with mutex_queue := r.2 }
  if r.1 > MUTEX_MAX then some (s1, -1)
  else if r.1 < 0 then none
  else
    match s1.mutexes[r.1.toNat]? with
    | none => none
    | some m =>
      some ({ s1 with mutexes := s1.mutexes.set r.1.toNat { m with allocated := 1 } }, r.1)

/-- The function `kmutex_destroy`.  An access outside the table has no result. -/
def kmutex_destroy (s : Kernel) (id : Int) : Option (Kernel × Int) :=
  if id < 0 then none
  else
    match s.mutexes[id.toNat]? with
    | none => none
    | some m =>
      if m.locks > 0 then some (s, -1)
      else
        match queue_in s.mutex_queue id with
        | none => some (s, -1)
        | some q =>
          some ({ s with mutex_queue := q, mutexes := s.mutexes.set id.toNat mutex_zero }, 0)

/-- The function `kmutex_lock`; `none` is `kernel_panic` (no active process) or an
access outside the table.  The return code of `queue_in` is ignored. -/
def kmutex_lock (s : Kernel) (id : Int) : Option (Kernel × Int) :=
  match s.active_proc with
  | none => none
  | some proc =>
    if id < 0 then none
    else
      match s.mutexes[id.toNat]? with
      | none => none
      | some m =>
        let s1 : Option Kernel :=
          if m.locks > 0 then
            match scheduler_remove s (some proc) with
            | none => none
            | some s2 =>
              match s2.proc_table[proc]?, s2.mutexes[id.toNat]? with
              | some p, some m2 =>
                let p1 := { p with state := proc_state.WAITING,
                                   scheduler_queue := some (queue_ref.mutex id.toNat) }
                some { s2 with
                  proc_table := s2.proc_table.set proc p1,
                  mutexes := s2.mutexes.set id.toNat
                    { m2 with wait_queue := (queue_in m2.wait_queue p1.pid).getD m2.wait_queue } }
              | _, _ => none
          else some s
        match s1 with
        | none => none
        | some s3 =>
          match s3.mutexes[id.toNat]? with
          | none => none
          | some m3 =>
            let m4 : mutex_t := if m3.locks = 0 then { m3 with owner := some proc } else m3
            let m5 : mutex_t := { m4 with locks := m4.locks + 1 }
            some ({ s3 with mutexes := s3.mutexes.set id.toNat m5 }, m5.locks)

/-- The function `kmutex_unlock`.  The local `temp_id` is not initialised and the
return code of `queue_out` is not checked: `temp_id0` is the indeterminate value
`temp_id` holds when the wait queue is empty.  `none` is `kernel_panic` (inside
`scheduler_remove` or `scheduler_add`) or an access outside the table. -/
def kmutex_unlock (s : Kernel) (id : Int) (temp_id0 : Int) : Option (Kernel × Int) :=
  if id < 0 then none
  else
    match s.mutexes[id.toNat]? with
    | none => none
    | some m =>
      if m.locks = 0 then some (s, m.locks)
      else
        let m1 : mutex_t := { m with locks := m.locks - 1 }
        if m1.locks = 0 then
          some ({ s with mutexes := s.mutexes.set id.toNat { m1 with owner := none } }, m1.locks)
        else
          let r : Int × queue_t :=
            match queue_out m1.wait_queue with
            | some (x, q) => (x, q)
            | none => (temp_id0, m1.wait_queue)
          let s1 := { s with mutexes := s.mutexes.set id.toNat { m1 with wait_queue := r.2 } }
          match pid_to_proc s1 r.1 with
          | none => some (s1, m1.locks)
          | some e =>
            match scheduler_remove s1 (some e) with
            | none => none
            | some s2 =>
              match scheduler_add s2 (some e) with
              | none => none
              | some s3 =>
                match s3.mutexes[id.toNat]? with
                | none => none
                | some m3 =>
                  some ({ s3 with mutexes := s3.mutexes.set id.toNat { m3 with owner := some e } },
                        m3.locks)

/-! ## Semaphores (`src/src/ksem.c`) -/

/-- The largest value of a C `int` on the 32-bit target. -/
def INT_MAX : Int := 2147483647

/-- The smallest value of a C `int` on the 32-bit target. -/
def INT_MIN : Int := -2147483648

/-- The value an `int` holds after an arithmetic operation with the mathematical
result `x` on the 32-bit target: `x` reduced modulo `2 ^ 32` into
`INT_MIN .. INT_MAX` (two's complement; in C an overflow is undefined). -/
def wrap_int (x : Int) : Int := (x + 2147483648) % 4294967296 - 2147483648

/-- The function `ksemaphores_init`. -/
def ksemaphores_init (s : Kernel) : Kernel × Int :=
  let tbl := List.replicate SEM_MAX sem_zero
  match fill_id_queue queue_init (List.range SEM_MAX) with
  | some q => ({ s with semaphores := tbl, sem_queue := q }, 0)
  | none => ({ s with semaphores := tbl }, -1)

/-- The function `ksem_init`.  The parameter `value` is never stored.  The local `id`
is not initialised: `id0` is its indeterminate value when the id queue is empty. -/
def ksem_init (s : Kernel) (value : Int) (id0 : Int) : Option (Kernel × Int) :=
  let _unused := value
  let r : Int × queue_t :=
    match queue_out s.sem_queue with
    | some (x, q) => (x, q)
    | none => (id0, s.sem_queue)
  let s1 := { s with sem_queue := r.2 }
  if r.1 > SEM_MAX then some (s1, -1)
  else if r.1 < 0 then none
  else
    match s1.semaphores[r.1.toNat]? with
    | none => none
    | some m =>
      some ({ s1 with semaphores := s1.semaphores.set r.1.toNat { m with allocated := 1 } }, r.1)

/-- The function `ksem_destroy`. -/
def ksem_destroy (s : Kernel) (id : Int) : Option (Kernel × Int) :=
  if id < 0 then none
  else
    match s.semaphores[id.toNat]? with
    | none => none
    | some m =>
      if m.count > 0 then some (s, -1)
      else
        match queue_in s.sem_queue id with
        | none => some (s, -1)
        | some q =>
          some ({ s with sem_queue := q, semaphores := s.semaphores.set id.toNat sem_zero }, 0)

/-- The function `ksem_wait`; `none` is `kernel_panic` (no active process) or an
access outside the table.  It does not call `scheduler_remove`. -/
def ksem_wait (s : Kernel) (id : Int) : Option (Kernel × Int) :=
  match s.active_proc with
  | none => none
  | some proc =>
    if id < 0 then none
    else
      match s.semaphores[id.toNat]?, s.proc_table[proc]? with
      | some m, some p =>
        let s1 : Kernel :=
          if m.count = 0 then
            let p1 := { p with state := proc_state.WAITING,
                               scheduler_queue := some (queue_ref.sem id.toNat) }
            { s with
              proc_table := s.proc_table.set proc p1,
              semaphores := s.semaphores.set id.toNat
                { m with wait_queue := (queue_in m.wait_queue p1.pid).getD m.wait_queue } }
          else s
        match s1.semaphores[id.toNat]? with
        | none => none
        | some m1 =>
          let m2 : sem_t := if m1.count > 0 then { m1 with count := m1.count - 1 } else m1
          some ({ s1 with semaphores := s1.semaphores.set id.toNat m2 }, m2.count)
      | _, _ => none

/-- The function `ksem_post`; `none` is `kernel_panic` (inside `scheduler_add`, also
for a pid that `pid_to_proc` does not find) or an access outside the table.  The
statements `sem_ptr->count++` and `sem_ptr->count--` act on an `int` that nothing
bounds: their results are wrapped into the 32-bit range by `wrap_int`. -/
def ksem_post (s : Kernel) (id : Int) : Option (Kernel × Int) :=
  if id < 0 then none
  else
    match s.semaphores[id.toNat]? with
    | none => none
    | some m =>
      let m1 : sem_t := { m with count := wrap_int (m.count + 1) }
      match queue_out m1.wait_queue with
      | none => some ({ s with semaphores := s.semaphores.set id.toNat m1 }, m1.count)
      | some (pid, q) =>
        let s1 := { s with semaphores := s.semaphores.set id.toNat { m1 with wait_queue := q } }
        match scheduler_add s1 (pid_to_proc s1 pid) with
        | none => none
        | some s2 =>
          match s2.semaphores[id.toNat]? with
          | none => none
          | some m2 =>
            let m3 : sem_t := { m2 with count := wrap_int (m2.count - 1) }
            some ({ s2 with semaphores := s2.semaphores.set id.toNat m3 }, m3.count)

/-! ## Byte ring buffer (`src/src/ringbuf.c`) -/

/-- The function `ringbuf_is_empty` for a non-null buffer. -/
def ringbuf_is_empty (b : ringbuf_t) : Bool := b.size == 0

/-- The function `ringbuf_is_full` for a non-null buffer. -/
def ringbuf_is_full (b : ringbuf_t) : Bool := b.size == RINGBUF_SIZE

/-- The function `ringbuf_write`: `none` is the return code `-1`. -/
def ringbuf_write (b : ringbuf_t) (byte : Int) : Option ringbuf_t :=
  if b.size = RINGBUF_SIZE then none
  else
    some { head := b.head
           tail := if b.tail + 1 = RINGBUF_SIZE then 0 else b.tail + 1
           size := b.size + 1
           data := b.data.set b.tail byte }

/-- The function `ringbuf_read` with the destination pointer `byte` (address `0` is
`NULL`): `none` is the return code `-1` (nothing read, nothing stored); `some (b1, x)`
is return code `0` with the new buffer and the value `x` stored at `*byte`. -/
def ringbuf_read (b : ringbuf_t) (byte : Nat) : Option (ringbuf_t × Int) :=
  if byte = 0 then none
  else if b.size = 0 then none
  else
    some ({ head := if b.head + 1 = RINGBUF_SIZE then 0 else b.head + 1
            tail := b.tail
            size := b.size - 1
            data := b.data },
          b.data.getD b.head 0)

/-- The loop `while (size-- && !ringbuf_is_full(buf)) ringbuf_write(buf, *mem++);` of
`ringbuf_write_mem`; `umem` is the content of memory and `mem` the source address. -/
def ringbuf_write_mem_loop (umem : Nat → Int) : Nat → Nat → ringbuf_t → ringbuf_t
  | 0, _, b => b
  | size + 1, mem, b =>
    if ringbuf_is_full b then b
    else ringbuf_write_mem_loop umem size (mem + 1) ((ringbuf_write b (umem mem)).getD b)

/-- The function `ringbuf_write_mem` for a non-null buffer; `size` is a 32-bit
`size_t`, and `buf->size + size` is computed in unsigned 32-bit arithmetic. -/
def ringbuf_write_mem (umem : Nat → Int) (b : ringbuf_t) (mem : Nat) (size : Nat) :
    ringbuf_t × Int :=
  if (b.size + size) % 2 ^ 32 > RINGBUF_SIZE then (b, -1)
  else (ringbuf_write_mem_loop umem size mem b, 0)

/-- The loop `while (size-- && !ringbuf_is_empty(buf)) { ringbuf_read(buf, mem++); count++; }`
of `ringbuf_read_mem`; the return code of `ringbuf_read` is ignored.  `out` collects
the stores `(address, value)` made through `mem`, oldest first. -/
def ringbuf_read_mem_loop :
    Nat → Nat → ringbuf_t → Int → List (Nat × Int) → ringbuf_t × Int × List (Nat × Int)
  | 0, _, b, count, out => (b, count, out)
  | size + 1, mem, b, count, out =>
    if ringbuf_is_empty b then (b, count, out)
    else
      match ringbuf_read b mem with
      | none => ringbuf_read_mem_loop size (mem + 1) b (count + 1) out
      | some (b1, x) => ringbuf_read_mem_loop size (mem + 1) b1 (count + 1) (out ++ [(mem, x)])

/-- The function `ringbuf_read_mem` for a non-null buffer: the buffer left, the
return value and the bytes stored at the destination. -/
def ringbuf_read_mem (b : ringbuf_t) (mem : Nat) (size : Nat) :
    ringbuf_t × Int × List (Nat × Int) :=
  ringbuf_read_mem_loop size mem b 0 []

/-- The function `ringbuf_init` for a non-null buffer: `memset(buf, 0, RINGBUF_SIZE)`
clears the first `RINGBUF_SIZE` bytes of the struct, that is the three 4-byte ints
and the first `RINGBUF_SIZE - 12` data bytes. -/
def ringbuf_init (b : ringbuf_t) : ringbuf_t :=
  { head := 0, tail := 0, size := 0,
    data := List.replicate (RINGBUF_SIZE - 12) 0 ++ b.data.drop (RINGBUF_SIZE - 12) }

/-- The function `ringbuf_flush` for a non-null buffer: `memset(buf, 0, RINGBUF_SIZE)`
clears the first `RINGBUF_SIZE` bytes of the struct, that is the three 4-byte ints
and the first `RINGBUF_SIZE - 12` data bytes. -/
def ringbuf_flush (b : ringbuf_t) : ringbuf_t :=
  { head := 0, tail := 0, size := 0,
    data := List.replicate (RINGBUF_SIZE - 12) 0 ++ b.data.drop (RINGBUF_SIZE - 12) }

/-! ## System calls (`src/src/ksyscall.c`, `src/include/syscall_common.h`) -/

/-- Conversion of an `unsigned int` register value to `int` (two's complement). -/
def to_int (u : Nat) : Int :=
  if u % 2 ^ 32 < 2 ^ 31 then ((u % 2 ^ 32 : Nat) : Int) else ((u % 2 ^ 32 : Nat) : Int) - 2 ^ 32

/-- Conversion of an `int` to `unsigned int`. -/
def to_uint (i : Int) : Nat := (i % 2 ^ 32).toNat

def SYSCALL_IO_READ : Int := 1
def SYSCALL_IO_WRITE : Int := 2
def SYSCALL_IO_FLUSH : Int := 3
def SYSCALL_SYS_GET_TIME : Int := 4
def SYSCALL_SYS_GET_NAME : Int := 5
def SYSCALL_PROC_SLEEP : Int := 6
def SYSCALL_PROC_EXIT : Int := 7
def SYSCALL_PROC_GET_PID : Int := 8
def SYSCALL_PROC_GET_NAME : Int := 9
def SYSCALL_MUTEX_INIT : Int := 10
def SYSCALL_MUTEX_DESTROY : Int := 11
def SYSCALL_MUTEX_LOCK : Int := 12
def SYSCALL_MUTEX_UNLOCK : Int := 13
def SYSCALL_SEM_INIT : Int := 14
def SYSCALL_SEM_DESTROY : Int := 15
def SYSCALL_SEM_WAIT : Int := 16
def SYSCALL_SEM_POST : Int := 17

/-- The ring buffer `active_proc->io[io]` after the three guards shared by the IO
system calls; `none` when a guard returns `-1`. -/
def active_io (s : Kernel) (io : Int) : Option Nat :=
  match s.active_proc with
  | none => none
  | some a =>
    if io < 0 ∨ io ≥ PROC_IO_MAX then none
    else
      match s.proc_table[a]? with
      | none => none
      | some p => (p.io[io.toNat]?).join

/-- The function `ksyscall_io_write`. -/
def ksyscall_io_write (umem : Nat → Int) (s : Kernel) (io : Int) (buf : Nat) (size : Int) :
    Option (Kernel × Int) :=
  match active_io s io with
  | none => some (s, -1)
  | some r =>
    match s.ringbufs[r]? with
    | none => none
    | some b =>
      let w := ringbuf_write_mem umem b buf (to_uint size)
      some ({ s with ringbufs := s.ringbufs.set r w.1 }, w.2)

/-- The function `ksyscall_io_read`; the bytes stored in the caller's buffer are
outside the kernel state. -/
def ksyscall_io_read (s : Kernel) (io : Int) (buf : Nat) (size : Int) :
    Option (Kernel × Int) :=
  match active_io s io with
  | none => some (s, -1)
  | some r =>
    match s.ringbufs[r]? with
    | none => none
    | some b =>
      let w := ringbuf_read_mem b buf (to_uint size)
      some ({ s with ringbufs := s.ringbufs.set r w.1 }, w.2.1)

/-- The function `ksyscall_io_flush`. -/
def ksyscall_io_flush (s : Kernel) (io : Int) : Option (Kernel × Int) :=
  match active_io s io with
  | none => some (s, -1)
  | some r =>
    match s.ringbufs[r]? with
    | none => none
    | some b => some ({ s with ringbufs := s.ringbufs.set r (ringbuf_flush b) }, 0)

/-- The function `ksyscall_sys_get_time`: `timer_get_ticks() / 100`. -/
def ksyscall_sys_get_time (s : Kernel) : Int := Int.tdiv s.timer_ticks 100

/-- The function `ksyscall_sys_get_name`; the bytes copied to the caller's buffer are
outside the kernel state. -/
def ksyscall_sys_get_name (name : Nat) : Int := if name = 0 then -1 else 0

/-- The function `ksyscall_proc_sleep`. -/
def ksyscall_proc_sleep (s : Kernel) (seconds : Int) : Option (Kernel × Int) :=
  match scheduler_sleep s s.active_proc (seconds * 100) with
  | none => none
  | some s1 => some (s1, 0)

/-- The function `ksyscall_proc_exit`. -/
def ksyscall_proc_exit (s : Kernel) : Option (Kernel × Int) :=
  kproc_destroy s s.active_proc

/-- The function `ksyscall_proc_get_pid`. -/
def ksyscall_proc_get_pid (s : Kernel) : Option Int :=
  match s.active_proc with
  | none => some (-1)
  | some a => (s.proc_table[a]?).map (fun p => p.pid)

/-- The function `ksyscall_proc_get_name`; it reads `active_proc->name`. -/
def ksyscall_proc_get_name (s : Kernel) (name : Nat) : Option Int :=
  if name = 0 then some (-1)
  else
    match s.active_proc with
    | none => none
    | some a => (s.proc_table[a]?).map (fun _ => 0)

/-- The function `ksyscall_mutex_init`. -/
def ksyscall_mutex_init (s : Kernel) (id0 : Int) : Option (Kernel × Int) :=
  kmutex_init s id0

/-- The function `ksyscall_mutex_destroy`: only the upper bound of the id is checked. -/
def ksyscall_mutex_destroy (s : Kernel) (mutex : Int) : Option (Kernel × Int) :=
  if mutex ≥ MUTEX_MAX then some (s, -1) else kmutex_destroy s mutex

/-- The function `ksyscall_mutex_lock`: `0` when `kmutex_lock` returns a count
`>= 0`, else `-1`. -/
def ksyscall_mutex_lock (s : Kernel) (mutex : Int) : Option (Kernel × Int) :=
  if mutex ≥ MUTEX_MAX then some (s, -1)
  else
    match kmutex_lock s mutex with
    | none => none
    | some (s1, lock_count) => some (s1, if lock_count ≥ 0 then 0 else -1)

/-- The function `ksyscall_mutex_unlock`: the guard is `mutex > MUTEX_MAX`. -/
def ksyscall_mutex_unlock (s : Kernel) (mutex : Int) (temp_id0 : Int) :
    Option (Kernel × Int) :=
  if mutex > MUTEX_MAX then some (s, -1)
  else
    match kmutex_unlock s mutex temp_id0 with
    | none => none
    | some (s1, lock_count) => some (s1, if lock_count ≥ 0 then 0 else -1)

/-- The function `ksyscall_sem_init`. -/
def ksyscall_sem_init (s : Kernel) (value : Int) (id0 : Int) : Option (Kernel × Int) :=
  ksem_init s value id0

/-- The function `ksyscall_sem_destroy`. -/
def ksyscall_sem_destroy (s : Kernel) (sem : Int) : Option (Kernel × Int) :=
  if sem ≥ SEM_MAX then some (s, -1) else ksem_destroy s sem

/-- The function `ksyscall_sem_wait`. -/
def ksyscall_sem_wait (s : Kernel) (sem : Int) : Option (Kernel × Int) :=
  if sem ≥ SEM_MAX then some (s, -1)
  else
    match ksem_wait s sem with
    | none => none
    | some (s1, sem_count) => some (s1, if sem_count ≥ 0 then sem_count else -1)

/-- The function `ksyscall_sem_post`. -/
def ksyscall_sem_post (s : Kernel) (sem : Int) : Option (Kernel × Int) :=
  if sem ≥ SEM_MAX then some (s, -1)
  else
    match ksem_post s sem with
    | none => none
    | some (s1, sem_count) => some (s1, if sem_count ≥ 0 then sem_count else -1)

/-- The `switch` of `ksyscall_irq_handler`: the handler selected by the system call
number, applied to the three argument registers.  `umem` is the memory content read
by `IO_WRITE`; `junk` is the indeterminate value of the uninitialised locals of
`kmutex_init`, `ksem_init` and `kmutex_unlock`.  `none` is `kernel_panic` (also for
an unknown number) or undefined behaviour. -/
def ksyscall_dispatch (umem : Nat → Int) (junk : Int) (s : Kernel)
    (syscall : Int) (arg1 arg2 arg3 : Nat) : Option (Kernel × Int) :=
  if syscall = SYSCALL_IO_WRITE then ksyscall_io_write umem s (to_int arg1) arg2 (to_int arg3)
  else if syscall = SYSCALL_IO_READ then ksyscall_io_read s (to_int arg1) arg2 (to_int arg3)
  else if syscall = SYSCALL_IO_FLUSH then ksyscall_io_flush s (to_int arg1)
  else if syscall = SYSCALL_SYS_GET_TIME then some (s, ksyscall_sys_get_time s)
  else if syscall = SYSCALL_SYS_GET_NAME then some (s, ksyscall_sys_get_name arg1)
  else if syscall = SYSCALL_PROC_SLEEP then ksyscall_proc_sleep s (to_int arg1)
  else if syscall = SYSCALL_PROC_EXIT then ksyscall_proc_exit s
  else if syscall = SYSCALL_PROC_GET_PID then (ksyscall_proc_get_pid s).map (fun rc => (s, rc))
  else if syscall = SYSCALL_PROC_GET_NAME then
    (ksyscall_proc_get_name s arg1).map (fun rc => (s, rc))
  else if syscall = SYSCALL_MUTEX_INIT then ksyscall_mutex_init s junk
  else if syscall = SYSCALL_MUTEX_DESTROY then ksyscall_mutex_destroy s (to_int arg1)
  else if syscall = SYSCALL_MUTEX_LOCK then ksyscall_mutex_lock s (to_int arg1)
  else if syscall = SYSCALL_MUTEX_UNLOCK then ksyscall_mutex_unlock s (to_int arg1) junk
  else if syscall = SYSCALL_SEM_INIT then ksyscall_sem_init s (to_int arg1) junk
  else if syscall = SYSCALL_SEM_DESTROY then ksyscall_sem_destroy s (to_int arg1)
  else if syscall = SYSCALL_SEM_POST then ksyscall_sem_post s (to_int arg1)
  else if syscall = SYSCALL_SEM_WAIT then ksyscall_sem_wait s (to_int arg1)
  else none

/-- The function `ksyscall_irq_handler`: the system call number and arguments are
read from the active process's trap frame, the call is dispatched, and the return
code is written to the saved `eax` of whatever process is active afterwards (nothing
is written when `active_proc` has become null). -/
def ksyscall_irq_handler (umem : Nat → Int) (junk : Int) (s : Kernel) : Option Kernel :=
  match s.active_proc with
  | none => none
  | some a =>
    match s.proc_table[a]? with
    | none => none
    | some p =>
      match p.trapframe with
      | none => none
      | some tf =>
        match ksyscall_dispatch umem junk s (to_int tf.eax) tf.ebx tf.ecx tf.edx with
        | none => none
        | some (s1, rc) =>
          match s1.active_proc with
          | none => some s1
          | some a1 =>
            match s1.proc_table[a1]? with
            | none => none
            | some p1 =>
              match p1.trapframe with
              | none => none
              | some tf1 =>
                some (s1.set_proc a1 { p1 with trapframe := some { tf1 with eax := to_uint rc } })

/-- One timer tick as seen by the scheduler: the callback `scheduler_timer` followed
by the `scheduler_run` of the same kernel entry. -/
def tick (s : Kernel) : Option Kernel :=
  match scheduler_timer s with
  | none => none
  | some s1 => scheduler_run s1

/-- Repetition of a fallible step: `iterate f n s` applies `f` to `s` `n` times. -/
def iterate (f : Kernel → Option Kernel) : Nat → Kernel → Option Kernel
  | 0, s => some s
  | n + 1, s =>
    match f s with
    | none => none
    | some s1 => iterate f n s1

/-- The pid of the active process, if any. -/
def active_pid (s : Kernel) : Option Int :=
  match s.active_proc with
  | none => none
  | some a => (s.proc_table[a]?).map (fun p => p.pid)

/-- The PCB the pointer `proc` refers to. -/
def Kernel.proc (s : Kernel) (e : Nat) : Option proc_t := s.proc_table[e]?

/-! ## Notions used to state the scheduler claims -/

/-- The pid that the time-slice check of `scheduler_run` puts back at the tail of the
run queue: that of the active process when it is in state ACTIVE, has used up its
time slice and is not pid 0. -/
def reenqueued_pid (s : Kernel) : Option Int :=
  match s.active_proc with
  | none => none
  | some b =>
    match s.proc_table[b]? with
    | none => none
    | some q =>
      if q.state = proc_state.ACTIVE ∧ q.cpu_time ≥ SCHEDULER_TIMESLICE ∧ q.pid ≠ 0 then
        some q.pid
      else none

/-- The pids of the run queue, oldest first, as it stands after the time-slice
re-enqueue of `scheduler_run`. -/
def run_list_after_slice (s : Kernel) : List Int :=
  s.run_queue.toList ++ (reenqueued_pid s).toList

/-- The active process keeps the CPU: it is in state ACTIVE with `cpu_time` below the
time slice. -/
def keeps_cpu (s : Kernel) : Prop :=
  ∃ b q, s.active_proc = some b ∧ s.proc_table[b]? = some q ∧
    q.state = proc_state.ACTIVE ∧ q.cpu_time < SCHEDULER_TIMESLICE

/-! ## Example states -/

/-- A PCB with the given pid, state and queue pointer, all else zero. -/
def ex_proc (pid : Int) (st : proc_state) (sq : Option queue_ref) : proc_t :=
  { proc_zero with pid := pid, state := st, scheduler_queue := sq }

/-- A kernel state with the given process table, no active process, empty queues and
mutex and semaphore tables as `kmutexes_init` and `ksemaphores_init` leave them. -/
def ex_kernel (tbl : List proc_t) : Kernel :=
  (ksemaphores_init (kmutexes_init
    { active_proc := none, proc_table := tbl, run_queue := queue_init,
      sleep_queue := queue_init, proc_allocator := queue_init, next_pid := 0,
      timer_ticks := 0, mutexes := [], mutex_queue := queue_init,
      semaphores := [], sem_queue := queue_init, ringbufs := [] }).1).1

/-- Sequencing of fallible steps. -/
def and_then (s : Option Kernel) (f : Kernel → Option Kernel) : Option Kernel :=
  match s with
  | none => none
  | some s1 => f s1

/-- Four table entries: pid 0 (idle) and pids 1, 2, 3, none queued. -/
def ex_table : List proc_t :=
  [ex_proc 0 proc_state.IDLE none, ex_proc 1 proc_state.IDLE none,
   ex_proc 2 proc_state.IDLE none, ex_proc 3 proc_state.IDLE none]

/-- A well-formed queue holding the pids `l` (at most `QUEUE_SIZE` of them), oldest
first, starting at slot 0. -/
def ex_queue (l : List Int) : queue_t :=
  { head := 0, tail := l.length % QUEUE_SIZE, size := l.length,
    items := l ++ List.replicate (QUEUE_SIZE - l.length) 0 }

/-- A state at the end of a time slice: A (entry 1, pid 1) is active in state ACTIVE
with `cpu_time` 10, B (pid 2) is in the run queue, pid 0 is the idle process. -/
def ex_slice_end : Kernel :=
  { ex_kernel
      [ex_proc 0 proc_state.IDLE (some queue_ref.run),
       { ex_proc 1 proc_state.ACTIVE (some queue_ref.run) with cpu_time := 10, run_time := 10 },
       ex_proc 2 proc_state.IDLE (some queue_ref.run)] with
    active_proc := some 1, run_queue := ex_queue [2] }

/-- The PCB after the three field assignments of `scheduler_add`. -/
def requeued (p : proc_t) : proc_t :=
  { p with scheduler_queue := some queue_ref.run, state := proc_state.IDLE, cpu_time := 0 }

/-- The PCB after `state = ACTIVE`. -/
def activated (p : proc_t) : proc_t := { p with state := proc_state.ACTIVE }

/-- The PCB after `run_time++` and `cpu_time++`. -/
def ticked (p : proc_t) : proc_t :=
  { p with run_time := p.run_time + 1, cpu_time := p.cpu_time + 1 }

/-- The pid stored in table entry `e` (0 for an index outside the table). -/
def pid_at (s : Kernel) (e : Nat) : Int :=
  ((s.proc_table[e]?).map (fun p => p.pid)).getD 0

/-- The starting state of the round-robin scenario: the run queue holds the pids of
the distinct table entries `es`, in order; each of them is IDLE with `cpu_time` 0 (as
`scheduler_add` leaves it), has a non-zero pid and is the entry `pid_to_proc` finds
for its pid; there is no active process and nobody sleeps. -/
def seeded (s : Kernel) (es : List Nat) : Prop :=
  es ≠ [] ∧ es.Nodup ∧ s.active_proc = none ∧ s.sleep_queue.size = 0 ∧ s.run_queue.wf ∧
    s.run_queue.toList = es.map (pid_at s) ∧
    ∀ e ∈ es, ∃ p, s.proc_table[e]? = some p ∧ p.state = proc_state.IDLE ∧ p.cpu_time = 0 ∧
      p.pid ≠ 0 ∧ pid_to_proc s p.pid = some e

/-- The round-robin invariant after a tick: `j` time slices have been completed since
the start `s0`, the active process is the head of `es` rotated `j` times and has run
for `r` ticks of its slice, and the run queue holds the others in rotation order. -/
def rr_inv (s0 : Kernel) (es : List Nat) (j : Nat) (r : Int) (s : Kernel) : Prop :=
  s.proc_table.map (fun p => p.pid) = s0.proc_table.map (fun p => p.pid) ∧
    s.sleep_queue.size = 0 ∧ s.run_queue.wf ∧
    ∃ hd rest, es.rotate j = hd :: rest ∧ s.active_proc = some hd ∧
      s.run_queue.toList = rest.map (pid_at s0) ∧
      (∃ p, s.proc_table[hd]? = some p ∧ p.state = proc_state.ACTIVE ∧ p.cpu_time = r) ∧
      (∀ e ∈ rest, ∃ p, s.proc_table[e]? = some p ∧ p.cpu_time = 0)

/-- The round-robin scenario state: run queue `[A, B, C]` (pids 1, 2, 3 at entries
1, 2, 3), all IDLE, no active process, empty sleep queue. -/
def ex_rr : Kernel :=
  { ex_kernel
      [ex_proc 0 proc_state.IDLE (some queue_ref.run),
       ex_proc 1 proc_state.IDLE (some queue_ref.run),
       ex_proc 2 proc_state.IDLE (some queue_ref.run),
       ex_proc 3 proc_state.IDLE (some queue_ref.run)] with
    run_queue := ex_queue [1, 2, 3] }

/-- The loop of `scheduler_remove` on the list of queued pids: entry `x` at the head
is dropped when it is `pid` and moved to the tail otherwise, while the loop counter
`i` is below the current length. -/
def rot_loop (pid : Int) : Nat → Nat → List Int → List Int
  | 0, _, l => l
  | fuel + 1, i, l =>
    if i < l.length then
      match l with
      | [] => l
      | x :: xs =>
        if pid = x then rot_loop pid fuel (i + 1) xs
        else rot_loop pid fuel (i + 1) (xs ++ [x])
    else l

/-- The effect `scheduler_remove` of the process with pid `pid` can have on a queue:
none, or the rotation loop applied to a well-formed queue. -/
def removed_from (pid : Int) (q q2 : queue_t) : Prop :=
  q2 = q ∨ (q.wf ∧ q2.wf ∧ q2.size ≤ q.size ∧ q2.toList = rot_loop pid q.size 0 q.toList)

/-- The PCB after `scheduler_queue = NULL`. -/
def unqueued (p : proc_t) : proc_t := { p with scheduler_queue := none }

/-- The state of a lone sleeper: table entry `e` with pid `pid` is SLEEPING with
`sleep_time = n` and is the only entry of the (well-formed) sleep queue; the run
queue is `rq`; the pids of the table are those of `s0`; `active_proc`, if set, points
into the table. -/
def sleep_inv (s0 : Kernel) (e : Nat) (pid : Int) (rq : queue_t) (n : Int) (s : Kernel) : Prop :=
  s.proc_table.map (fun p => p.pid) = s0.proc_table.map (fun p => p.pid) ∧
    s.sleep_queue.wf ∧ s.sleep_queue.toList = [pid] ∧ s.run_queue = rq ∧
    (∀ a, s.active_proc = some a → a < s.proc_table.length) ∧
    ∃ pe, s.proc_table[e]? = some pe ∧ pe.pid = pid ∧ pe.state = proc_state.SLEEPING ∧
      pe.sleep_time = n

/-- The PCB after `sleep_time--`. -/
def slept (p : proc_t) : proc_t := { p with sleep_time := p.sleep_time - 1 }

/-- Two processes A (entry 1, pid 1) and B (entry 2, pid 2) next to the idle process,
neither queued, no active process. -/
def ex_ab : Kernel :=
  ex_kernel [ex_proc 0 proc_state.IDLE none, ex_proc 1 proc_state.IDLE none,
             ex_proc 2 proc_state.IDLE none]

/-- The PCB after `state = WAITING; scheduler_queue = &mutex->wait_queue`. -/
def parked (i : Nat) (p : proc_t) : proc_t :=
  { p with state := proc_state.WAITING, scheduler_queue := some (queue_ref.mutex i) }

/-- A running system: A (entry 1, pid 1) is the active process in state ACTIVE, B
(entry 2, pid 2) waits in the run queue, entry 0 is the idle process; the mutex and
semaphore tables are freshly initialised. -/
def ex_a_running : Kernel :=
  { ex_kernel
      [ex_proc 0 proc_state.IDLE (some queue_ref.run),
       ex_proc 1 proc_state.ACTIVE (some queue_ref.run),
       ex_proc 2 proc_state.IDLE (some queue_ref.run)] with
    active_proc := some 1, run_queue := ex_queue [2] }

/-- The state `ex_a_running` with mutex 0 allocated and locked once by table entry
`owner`. -/
def ex_mutex_held (owner : Nat) : Kernel :=
  { ex_a_running with
    mutexes := ex_a_running.mutexes.set 0
      { mutex_zero with allocated := 1, locks := 1, owner := some owner } }

/-- What the mutex claims observe of a kernel state: `active_proc`, the states of the
processes after the idle one, and the lock count, owner and wait queue of mutex 0. -/
structure mutex_obs where
  rc : Int
  active : Option Nat
  states : List proc_state
  locks : Int
  owner : Option Nat
  waiting : List Int
  runnable : List Int
deriving DecidableEq, Repr

/-- The observation of a result of `kmutex_lock` or `kmutex_unlock` on mutex 0, with
its return value. -/
def mutex_view (r : Option (Kernel × Int)) : Option mutex_obs :=
  match r with
  | none => none
  | some (s, rc) =>
    match s.mutexes[0]? with
    | none => none
    | some m =>
      some { rc := rc, active := s.active_proc,
             states := (s.proc_table.drop 1).map (fun p => p.state),
             locks := m.locks, owner := m.owner, waiting := m.wait_queue.toList,
             runnable := s.run_queue.toList }

/-- Continuation of a call result with a step on its state. -/
def bind_k (r : Option (Kernel × Int)) (f : Kernel → Option Kernel) : Option Kernel :=
  match r with
  | none => none
  | some (s, _) => f s

/-- Hand-off scenario, step 1: the active process A locks the free mutex 0. -/
def ex_handoff_1 : Option (Kernel × Int) := kmutex_lock ex_a_running 0

/-- Hand-off scenario, the state in which B calls: ten ticks later A's time slice
is over and B is the active process. -/
def ex_handoff_b_runs : Option Kernel := bind_k ex_handoff_1 (iterate tick 10)

/-- Hand-off scenario, step 2: B locks mutex 0. -/
def ex_handoff_2 : Option (Kernel × Int) :=
  ex_handoff_b_runs.bind (fun s => kmutex_lock s 0)

/-- Hand-off scenario, the state in which A calls again: the `scheduler_run` of B's
kernel entry has made A the active process. -/
def ex_handoff_a_runs : Option Kernel := bind_k ex_handoff_2 scheduler_run

/-- Hand-off scenario, step 3: A unlocks mutex 0. -/
def ex_handoff_3 : Option (Kernel × Int) :=
  ex_handoff_a_runs.bind (fun s => kmutex_unlock s 0 0)

/-- Hand-off scenario, the state in which B calls again: ten ticks later B is the
active process. -/
def ex_handoff_b_runs_again : Option Kernel := bind_k ex_handoff_3 (iterate tick 10)

/-- Hand-off scenario, step 4: B unlocks mutex 0. -/
def ex_handoff_4 : Option (Kernel × Int) :=
  ex_handoff_b_runs_again.bind (fun s => kmutex_unlock s 0 0)

/-- The state `ex_a_running` with mutex 0 held by A (count 2) and B (pid 2, entry 2)
parked on its wait queue. -/
def ex_b_parked : Kernel :=
  { ex_kernel
      [ex_proc 0 proc_state.IDLE (some queue_ref.run),
       ex_proc 1 proc_state.ACTIVE (some queue_ref.run),
       ex_proc 2 proc_state.WAITING (some (queue_ref.mutex 0))] with
    active_proc := some 1,
    mutexes := (List.replicate MUTEX_MAX mutex_zero).set 0
      { allocated := 1, locks := 2, owner := some 1, wait_queue := ex_queue [2] } }

/-- The state `ex_a_running` at the moment A has issued `MUTEX_LOCK(0)`: mutex 0 has
been allocated and A's saved registers hold the system call number in `eax` and the
mutex id in `ebx`. -/
def ex_syscall_lock : Kernel :=
  { ex_kernel
      [ex_proc 0 proc_state.IDLE (some queue_ref.run),
       { ex_proc 1 proc_state.ACTIVE (some queue_ref.run) with
         trapframe := some { eax := 12, ebx := 0, ecx := 0, edx := 0, eip := 0, eflags := 0,
                             cs := 0, ds := 0, es := 0, fs := 0, gs := 0, interrupt := 128 } },
       ex_proc 2 proc_state.IDLE (some queue_ref.run)] with
    active_proc := some 1, run_queue := ex_queue [2],
    mutexes := (List.replicate MUTEX_MAX mutex_zero).set 0 { mutex_zero with allocated := 1 } }

/-- The saved `eax` of table entry `e`. -/
def saved_eax (s : Kernel) (e : Nat) : Option Nat :=
  match s.proc_table[e]? with
  | none => none
  | some p => p.trapframe.map (fun tf => tf.eax)

/-- One `kmutex_lock` immediately followed by one `kmutex_unlock` of the same mutex;
the return values are dropped. -/
def lock_unlock (id : Int) (junk : Int) (s : Kernel) : Option Kernel :=
  match kmutex_lock s id with
  | none => none
  | some (s1, _) =>
    match kmutex_unlock s1 id junk with
    | none => none
    | some (s2, _) => some s2

/-- Repeated `kmutex_destroy` of the same id, dropping the return values. -/
def destroy_n (id : Int) : Nat → Kernel → Option Kernel
  | 0, s => some s
  | n + 1, s =>
    match kmutex_destroy s id with
    | none => none
    | some (s1, _) => destroy_n id n s1

/-- A state reached from boot in which the mutex id queue is full while mutex 0 is
allocated and unlocked: `kmutexes_init`, one `kmutex_init` (which hands out id 0,
leaving 15 free ids), then seventeen `kmutex_destroy(1)` of the never-allocated,
unlocked mutex 1, each of which queues id 1 again. -/
def ex_free_list_full : Option Kernel :=
  match kmutex_init (ex_kernel ex_table) 0 with
  | none => none
  | some (s, _) => destroy_n 1 17 s

/-- What the destroy claim observes: the return value, the free list, and the
`allocated` flag and lock count of mutex 0. -/
structure destroy_obs where
  rc : Int
  free_ids : List Int
  allocated : Int
  locks : Int
deriving DecidableEq, Repr

/-- The observation of a result of `kmutex_destroy`. -/
def destroy_view (r : Option (Kernel × Int)) : Option destroy_obs :=
  match r with
  | none => none
  | some (s, rc) =>
    match s.mutexes[0]? with
    | none => none
    | some m =>
      some { rc := rc, free_ids := s.mutex_queue.toList, allocated := m.allocated,
             locks := m.locks }

/-- The state `ex_a_running` with mutex 0 allocated, unlocked, and taken off the id
queue, as `kmutex_init` leaves it. -/
def ex_mutex_allocated : Kernel :=
  { ex_a_running with
    mutexes := ex_a_running.mutexes.set 0 { mutex_zero with allocated := 1 },
    mutex_queue := ex_queue [1, 2, 3, 4, 5, 6, 7, 8, 9, 10, 11, 12, 13, 14, 15] }

/-! ## Process creation (`src/src/kproc.c`) -/

/-- Values `kproc_create` takes from outside the source tree: the segment registers
read by `get_cs()` .. `get_gs()`, the flag constants `EF_DEFAULT_VALUE` and `EF_INTR`
of the machine headers, and `PROC_NAME_LEN` of `kproc.h`. -/
structure create_env where
  cs : Nat
  ds : Nat
  es : Nat
  fs : Nat
  gs : Nat
  EF_DEFAULT_VALUE : Nat
  EF_INTR : Nat
  PROC_NAME_LEN : Nat
deriving DecidableEq, Repr

/-- The PCB `kproc_create` builds in a zeroed table entry before it calls
`scheduler_add`: pid, state, type, the two time counters, `start_time`, the name
copied by `strncpy` and the synthetic trap frame at the top of the cleared stack. -/
def created_pcb (env : create_env) (pid : Int) (ticks : Int) (proc_ptr : Nat)
    (name : List Nat) (proc_type : Int) : proc_t :=
  { proc_zero with
    pid := pid, state := proc_state.IDLE, type := proc_type, run_time := 0, cpu_time := 0,
    start_time := ticks, name := name.take env.PROC_NAME_LEN,
    trapframe := some { eax := 0, ebx := 0, ecx := 0, edx := 0, eip := proc_ptr,
                        eflags := env.EF_DEFAULT_VALUE ||| env.EF_INTR,
                        cs := env.cs, ds := env.ds, es := env.es, fs := env.fs, gs := env.gs,
                        interrupt := 0 } }

/-- The function `kproc_create`; `proc_ptr` is the entry address (0 is `NULL`) and
`proc_name` the name string (`none` is `NULL`).  `none` is `kernel_panic` (a null
argument, or a full run queue inside `scheduler_add`) or an allocator index outside
the process table. -/
def kproc_create (env : create_env) (s : Kernel) (proc_ptr : Nat)
    (proc_name : Option (List Nat)) (proc_type : Int) : Option (Kernel × Int) :=
  match proc_name with
  | none => none
  | some name =>
    if proc_ptr = 0 then none
    else
      match queue_out s.proc_allocator with
      | none => some (s, -1)
      | some (proc_entry, q) =>
        if proc_entry < 0 then none
        else
          match s.proc_table[proc_entry.toNat]? with
          | none => none
          | some _ =>
            let p := created_pcb env s.next_pid s.timer_ticks proc_ptr name proc_type
            let s1 : Kernel :=
              { s with proc_allocator := q, next_pid := s.next_pid + 1,
                       proc_table := s.proc_table.set proc_entry.toNat p }
            match scheduler_add s1 (some proc_entry.toNat) with
            | none => none
            | some s2 => some (s2, p.pid)

/-- The loop `for (i = 0; i < PROC_MAX; i++) queue_in(&proc_allocator, i);` of
`kproc_init`, whose return codes are ignored. -/
def alloc_fill (q : queue_t) : List Nat → queue_t
  | [] => q
  | i :: rest => alloc_fill ((queue_in q (i : Int)).getD q) rest

/-- The first part of `kproc_init`, before it creates the boot processes: the
allocator is initialised and filled with the indices `0 .. PROC_MAX-1`, and the
process table is zeroed. -/
def kproc_init_tables (s : Kernel) : Kernel :=
  { s with proc_allocator := alloc_fill queue_init (List.range s.proc_table.length),
           proc_table := List.replicate s.proc_table.length proc_zero }

/-- Repeated `kproc_create` with the same arguments: the state after `n` creations
and the values they returned, oldest first. -/
def create_n (env : create_env) (proc_ptr : Nat) (name : List Nat) (proc_type : Int) :
    Nat → Kernel → Option (Kernel × List Int)
  | 0, s => some (s, [])
  | n + 1, s =>
    match kproc_create env s proc_ptr (some name) proc_type with
    | none => none
    | some (s1, pid) =>
      match create_n env proc_ptr name proc_type n s1 with
      | none => none
      | some (s2, pids) => some (s2, pid :: pids)

/-- What the semaphore claims observe of a result of a semaphore call on semaphore 0:
the return value, `active_proc`, the states of the processes after the idle one, the
`allocated` flag, count and wait queue of the semaphore, the id free list and the run
queue. -/
structure sem_obs where
  rc : Int
  active : Option Nat
  states : List proc_state
  allocated : Int
  count : Int
  waiting : List Int
  free_ids : List Int
  runnable : List Int
deriving DecidableEq, Repr

/-- The observation of a result of `ksem_init`, `ksem_destroy`, `ksem_wait` or
`ksem_post` on semaphore 0. -/
def sem_view (r : Option (Kernel × Int)) : Option sem_obs :=
  match r with
  | none => none
  | some (s, rc) =>
    match s.semaphores[0]? with
    | none => none
    | some m =>
      some { rc := rc, active := s.active_proc,
             states := (s.proc_table.drop 1).map (fun p => p.state),
             allocated := m.allocated, count := m.count, waiting := m.wait_queue.toList,
             free_ids := s.sem_queue.toList, runnable := s.run_queue.toList }

/-- The state `ex_a_running` after `ksem_init(0)` has allocated semaphore 0 and the
active process A has called `ksem_wait(0)`: A is parked on semaphore 0. -/
def ex_sem_parked : Option Kernel :=
  match ksem_init ex_a_running 0 0 with
  | none => none
  | some (s, _) => bind_k (ksem_wait s 0) some

/-- The environment used in the examples: flat kernel segments, `EF_DEFAULT_VALUE` 2,
`EF_INTR` 0x200 and names of at most 32 bytes. -/
def ex_env : create_env :=
  { cs := 8, ds := 16, es := 16, fs := 16, gs := 16, EF_DEFAULT_VALUE := 2, EF_INTR := 512,
    PROC_NAME_LEN := 32 }

/-- The state after `scheduler_init` and the first part of `kproc_init` on a
four-entry process table: free list `[0, 1, 2, 3]`, no process yet. -/
def ex_boot : Kernel := kproc_init_tables (scheduler_init (ex_kernel ex_table))

/-- The state of the allocator after `j` creations since `kproc_init` on a table of
`P` entries: the free list holds the indices `j .. P-1` in order, and the run queue
has room for the creations still possible. -/
def create_inv (P j : Nat) (s : Kernel) : Prop :=
  s.proc_table.length = P ∧ s.proc_allocator.wf ∧
    s.proc_allocator.toList = ((List.range P).drop j).map (fun i : Nat => (i : Int)) ∧
    s.run_queue.wf ∧ s.run_queue.size + (P - j) ≤ QUEUE_SIZE

/-- The PCB after `state = WAITING; scheduler_queue = &sem->wait_queue`. -/
def sem_parked (i : Nat) (p : proc_t) : proc_t :=
  { p with state := proc_state.WAITING, scheduler_queue := some (queue_ref.sem i) }

/-- A state in which A (pid 1, entry 1) is the active process, the run queue is empty,
and semaphore 0 is allocated with count 0 and B (pid 2, entry 2) parked on its wait
queue. -/
def ex_sem_b_parked : Kernel :=
  { ex_kernel
      [ex_proc 0 proc_state.IDLE (some queue_ref.run),
       ex_proc 1 proc_state.ACTIVE (some queue_ref.run),
       ex_proc 2 proc_state.WAITING (some (queue_ref.sem 0))] with
    active_proc := some 1,
    semaphores := (List.replicate SEM_MAX sem_zero).set 0
      { allocated := 1, count := 0, wait_queue := ex_queue [2] } }

/-- The state `ex_a_running` with semaphore 0 allocated and the given count. -/
def ex_sem_count (c : Int) : Kernel :=
  { ex_a_running with
    semaphores := ex_a_running.semaphores.set 0 { sem_zero with allocated := 1, count := c } }

/-- A state in which the idle process (pid 0, entry 0) is the active process, the run
queue is empty and semaphore 0 has count 0. -/
def ex_idle_running : Kernel :=
  { ex_kernel [ex_proc 0 proc_state.ACTIVE (some queue_ref.run)] with
    active_proc := some 0,
    semaphores := (List.replicate SEM_MAX sem_zero).set 0 { sem_zero with allocated := 1 } }

/-- The handler `ksem_wait` followed by the `scheduler_run` of the same kernel entry. -/
def wait_then_run (s : Kernel) (id : Int) : Option Kernel :=
  match ksem_wait s id with
  | none => none
  | some (s1, _) => scheduler_run s1

/-- Every `queue_t` of the kernel state that a PCB's `scheduler_queue` can point at. -/
def queue_refs (s : Kernel) : List queue_ref :=
  [queue_ref.run, queue_ref.sleep]
    ++ (List.range s.mutexes.length).map queue_ref.mutex
    ++ (List.range s.semaphores.length).map queue_ref.sem

/-- The queue `r` exists and holds `pid`. -/
def holds (s : Kernel) (pid : Int) (r : queue_ref) : Bool :=
  match s.queue r with
  | some q => decide (pid ∈ q.toList)
  | none => false

/-- The queues that hold `pid`. -/
def queues_holding (s : Kernel) (pid : Int) : List queue_ref :=
  (queue_refs s).filter (holds s pid)

/-- A creation followed at once by the destruction of the created process, as its
`PROC_EXIT` does: `kproc_create`, then `kproc_destroy` of the PCB with the new pid. -/
def create_then_exit (env : create_env) (s : Kernel) (proc_ptr : Nat) (name : List Nat)
    (proc_type : Int) : Option Kernel :=
  match kproc_create env s proc_ptr (some name) proc_type with
  | none => none
  | some (s1, pid) =>
    match kproc_destroy s1 (pid_to_proc s1 pid) with
    | none => none
    | some (s2, _) => some s2

/-- The booted four-entry kernel `ex_boot` after the creation of the idle process
(pid 0 at index 0), which leaves the free list `[1, 2, 3]`. -/
def ex_idle_created : Kernel :=
  match kproc_create ex_env ex_boot 1 (some []) 0 with
  | some (s, _) => s
  | none => ex_boot

/-! ## Notions used to state the queue and ring buffer claims -/

/-- The function `queue_in` as a state transformer: the queue it leaves and its
return code. -/
def queue_in_rc (q : queue_t) (item : Int) : queue_t × Int :=
  match queue_in q item with
  | none => (q, -1)
  | some q1 => (q1, 0)

/-- The calls `queue_out(q, &x)` made `n` times in a row: the items obtained, in
order, and the queue left; `none` when one of the calls returns `-1`. -/
def queue_out_n : Nat → queue_t → Option (List Int × queue_t)
  | 0, q => some ([], q)
  | n + 1, q =>
    match queue_out q with
    | none => none
    | some (x, q1) =>
      match queue_out_n n q1 with
      | none => none
      | some (l, q2) => some (x :: l, q2)

/-- The queue `q` is reachable from `queue_init` by successful `queue_in` and
`queue_out` calls, and `l` lists the items enqueued and not yet dequeued, oldest
first. -/
inductive queue_holds : queue_t → List Int → Prop
  | init : queue_holds queue_init []
  | enq (q q1 : queue_t) (l : List Int) (x : Int) :
      queue_holds q l → queue_in q x = some q1 → queue_holds q1 (l ++ [x])
  | deq (q q1 : queue_t) (a : Int) (l : List Int) (y : Int) :
      queue_holds q (a :: l) → queue_out q = some (y, q1) → queue_holds q1 l

/-- The bytes of a ring buffer, oldest first. -/
def ringbuf_t.toList (b : ringbuf_t) : List Int :=
  (List.range b.size).map (fun i => b.data.getD ((b.head + i) % RINGBUF_SIZE) 0)

/-- The circular-buffer invariant of a `ringbuf_t`. -/
def ringbuf_t.wf (b : ringbuf_t) : Prop :=
  b.data.length = RINGBUF_SIZE ∧ b.head < RINGBUF_SIZE ∧ b.size ≤ RINGBUF_SIZE ∧
    b.tail = (b.head + b.size) % RINGBUF_SIZE

instance (b : ringbuf_t) : Decidable b.wf := by
  unfold ringbuf_t.wf; infer_instance

/-- The ring buffer `b` is reachable from `ringbuf_init` (applied to a struct whose
`data` array has `RINGBUF_SIZE` bytes) by successful `ringbuf_write` and
`ringbuf_read` calls and by `ringbuf_flush`, and `l` lists the bytes written and not
yet read, oldest first. -/
inductive ringbuf_holds : ringbuf_t → List Int → Prop
  | init (b0 : ringbuf_t) : b0.data.length = RINGBUF_SIZE → ringbuf_holds (ringbuf_init b0) []
  | write (b b1 : ringbuf_t) (l : List Int) (x : Int) :
      ringbuf_holds b l → ringbuf_write b x = some b1 → ringbuf_holds b1 (l ++ [x])
  | read (b b1 : ringbuf_t) (a : Int) (l : List Int) (dst : Nat) (y : Int) :
      ringbuf_holds b (a :: l) → ringbuf_read b dst = some (b1, y) → ringbuf_holds b1 l
  | flush (b : ringbuf_t) (l : List Int) : ringbuf_holds b l → ringbuf_holds (ringbuf_flush b) []

/-- The bytes `umem mem, umem (mem + 1), ..` at the `n` addresses from `mem` on. -/
def mem_bytes (umem : Nat → Int) : Nat → Nat → List Int
  | _, 0 => []
  | mem, n + 1 => umem mem :: mem_bytes umem (mem + 1) n

/-- The stores that copy the bytes `l` to the addresses from `mem` on, in order. -/
def stores_at : Nat → List Int → List (Nat × Int)
  | _, [] => []
  | mem, x :: l => (mem, x) :: stores_at (mem + 1) l

/-- A ring buffer holding the single byte 65. -/
def ex_ring_one : ringbuf_t :=
  { head := 0, tail := 1, size := 1, data := 65 :: List.replicate (RINGBUF_SIZE - 1) 0 }

/-- The ring buffer after `ringbuf_init` and one `ringbuf_write` of the byte 65. -/
def ex_ring_a : ringbuf_t :=
  ringbuf_write_mem_loop (fun _ => 65) 1 0 (ringbuf_init ex_ring_one)

/-- A ring buffer holding the bytes 65 and 66. -/
def ex_ring_ab : ringbuf_t :=
  { head := 0, tail := 2, size := 2, data := 65 :: 66 :: List.replicate (RINGBUF_SIZE - 2) 0 }

/-- The state `ex_a_running` with the ring buffer `ex_ring_ab` attached as `io[0]` of
the active process A. -/
def ex_io : Kernel :=
  { ex_a_running with
    proc_table :=
      [ex_proc 0 proc_state.IDLE (some queue_ref.run),
       { ex_proc 1 proc_state.ACTIVE (some queue_ref.run) with io := [some 0, none] },
       ex_proc 2 proc_state.IDLE (some queue_ref.run)],
    ringbufs := [ex_ring_ab] }

/-- The state `ex_a_running` at the moment A has issued a system call: A's saved
registers hold the system call number in `eax` and the first argument in `ebx`; mutex
0 is allocated and locked once by B (entry 2), semaphore 0 is allocated with count 0. -/
def ex_syscall (eax ebx : Nat) : Kernel :=
  { ex_kernel
      [ex_proc 0 proc_state.IDLE (some queue_ref.run),
       { ex_proc 1 proc_state.ACTIVE (some queue_ref.run) with
         trapframe := some { eax := eax, ebx := ebx, ecx := 0, edx := 0, eip := 0, eflags := 0,
                             cs := 0, ds := 0, es := 0, fs := 0, gs := 0, interrupt := 128 } },
       ex_proc 2 proc_state.IDLE (some queue_ref.run)] with
    active_proc := some 1, run_queue := ex_queue [2],
    mutexes := (List.replicate MUTEX_MAX mutex_zero).set 0
      { mutex_zero with allocated := 1, locks := 1, owner := some 2 },
    semaphores := (List.replicate SEM_MAX sem_zero).set 0 { sem_zero with allocated := 1 } }

/-- What the system call claims observe of the result of `ksyscall_irq_handler`:
`active_proc`, the state of A (entry 1) and A's saved `eax`. -/
def syscall_view (r : Option Kernel) : Option (Option Nat × Option proc_state × Option Nat) :=
  r.map (fun s => (s.active_proc, (s.proc_table[1]?).map (fun p => p.state), saved_eax s 1))

/-! ## Timer callbacks (`src/src/timer.c`; `timer.h` is not in the tree) -/

/-- The C struct `timer_t`; `callback` is a function pointer, `none` is `NULL`. -/
structure timer_t where
  callback : Option Nat
  interval : Int
  repeat_count : Int
deriving DecidableEq, Repr

/-- A timer entry after `memset(timer, 0, sizeof(timer_t))`. -/
def timer_zero : timer_t := { callback := none, interval := 0, repeat_count := 0 }

/-- The variables of `timer.c`: the tick counter, the timers table and its id
allocator.  `TIMERS_MAX` is the length of `timers`. -/
structure timer_state where
  timer_ticks : Int
  timers : List timer_t
  timer_allocator : queue_t
deriving DecidableEq, Repr

/-- The function `timer_callback_register`; `none` is an access outside the table. -/
def timer_callback_register (st : timer_state) (func_ptr : Option Nat) (interval : Int)
    (repeat_count : Int) : Option (timer_state × Int) :=
  match func_ptr with
  | none => some (st, -1)
  | some f =>
    match queue_out st.timer_allocator with
    | none => some (st, -1)
    | some (timer_id, q) =>
      if timer_id < 0 ∨ timer_id ≥ st.timers.length then none
      else
        some ({ st with
                  timer_allocator := q,
                  timers := st.timers.set timer_id.toNat
                    { callback := some f, interval := interval, repeat_count := repeat_count } },
              timer_id)

/-- The function `timer_callback_unregister`. -/
def timer_callback_unregister (st : timer_state) (id : Int) : timer_state × Int :=
  if id < 0 ∨ id ≥ st.timers.length then (st, -1)
  else
    let st1 := { st with timers := st.timers.set id.toNat timer_zero }
    match queue_in st1.timer_allocator id with
    | none => (st1, -1)
    | some q => ({ st1 with timer_allocator := q }, 0)

/-- The body of the loop of `timer_irq_handler` for the table index `i`; `fired`
collects the callbacks called, oldest first.  `none` is the division by a zero
interval. -/
def timer_irq_step (i : Nat) (r : timer_state × List Nat) : Option (timer_state × List Nat) :=
  match r.1.timers[i]? with
  | none => none
  | some timer =>
    match timer.callback with
    | none => some r
    | some f =>
      if timer.interval = 0 then none
      else
        let fired := if Int.tmod r.1.timer_ticks timer.interval = 0 then r.2 ++ [f] else r.2
        if timer.repeat_count > 0 then
          let timer1 : timer_t := { timer with repeat_count := timer.repeat_count - 1 }
          some ({ r.1 with timers := r.1.timers.set i timer1 }, fired)
        else if timer.repeat_count = 0 then
          some ((timer_callback_unregister r.1 (i : Int)).1, fired)
        else some (r.1, fired)

/-- The loop `for (int i = 0; i < TIMERS_MAX; i++)` of `timer_irq_handler` over the
given indices. -/
def timer_irq_loop : List Nat → timer_state × List Nat → Option (timer_state × List Nat)
  | [], r => some r
  | i :: rest, r =>
    match timer_irq_step i r with
    | none => none
    | some r1 => timer_irq_loop rest r1

/-- The function `timer_irq_handler`: the new timer state and the callbacks called
during this tick, in order.  The callbacks themselves are taken not to touch the
timers table. -/
def timer_irq_handler (st : timer_state) : Option (timer_state × List Nat) :=
  timer_irq_loop (List.range st.timers.length) ({ st with timer_ticks := st.timer_ticks + 1 }, [])

/-- The state left by `timer_init` for a table of `n` timers (`n` at most
`QUEUE_SIZE`), without the IRQ registration. -/
def timer_init (n : Nat) : timer_state :=
  { timer_ticks := 0, timers := List.replicate n timer_zero,
    timer_allocator := alloc_fill queue_init (List.range n) }

/-- The ticks `1 .. n` of `timer_irq_handler`: the state after each tick is not kept,
only the final one, together with the callbacks called on each tick. -/
def timer_ticks_n : Nat → timer_state → Option (timer_state × List (List Nat))
  | 0, st => some (st, [])
  | n + 1, st =>
    match timer_irq_handler st with
    | none => none
    | some (st1, fired) =>
      match timer_ticks_n n st1 with
      | none => none
      | some (st2, log) => some (st2, fired :: log)

/-- A table of four timers in which callback 7 has been registered with interval 3
and repeat count 1 at tick 0. -/
def ex_timer : Option timer_state :=
  (timer_callback_register (timer_init 4) (some 7) 3 1).map (fun r => r.1)

/-! ## Interrupt dispatch (`src/src/interrupts.c`) -/

/-- Size of the handler table: `#define IRQ_MAX 0xf0`. -/
def IRQ_MAX : Int := 0xf0

/-- What `interrupts_irq_handler` does besides its checks: the call of a registered
handler and `pic_irq_dismiss` with its argument. -/
inductive irq_event where
  | call (handler : Nat)
  | dismiss (irq : Int)
deriving DecidableEq, Repr

/-- The function `interrupts_irq_handler` over the table `irq_handlers` (`none` is a
`NULL` entry): the events it causes, in order, and whether it ends in `kernel_panic`. -/
def interrupts_irq_handler (irq_handlers : List (Option Nat)) (irq : Int) :
    List irq_event × Bool :=
  if irq < 0 ∨ irq ≥ IRQ_MAX then ([], true)
  else
    match (irq_handlers[irq.toNat]?).join with
    | none => ([], true)
    | some h =>
      ([irq_event.call h]
        ++ (if irq ≥ 0x20 ∧ irq ≤ 0x2F then [irq_event.dismiss (irq - 0x20)] else []), false)

/-- A handler table with the timer handler (1) at `IRQ_TIMER` = 0x20, the keyboard
handler (2) at 0x21 and the system call handler (3) at `IRQ_SYSCALL` = 0x80. -/
def ex_irq_handlers : List (Option Nat) :=
  ((List.replicate 240 none).set 0x20 (some 1) |>.set 0x21 (some 2)).set 0x80 (some 3)

/-! ## Notions used to state the scheduling invariant -/

/-- Every queue a PCB can be parked on (run, sleep, mutex and semaphore wait queues)
is a well-formed circular buffer that holds each pid at most once. -/
def queues_ok (s : Kernel) : Prop :=
  ∀ r q, s.queue r = some q → q.wf ∧ q.toList.Nodup

/-- No pid is in two queues. -/
def queues_disjoint (s : Kernel) : Prop :=
  ∀ r r1 q q1 pid, s.queue r = some q → s.queue r1 = some q1 →
    pid ∈ q.toList → pid ∈ q1.toList → r = r1

/-- The pid 0 of the idle process is in no queue other than the run queue. -/
def zero_unblocked (s : Kernel) : Prop :=
  ∀ r q, s.queue r = some q → r ≠ queue_ref.run → (0 : Int) ∉ q.toList

/-- A PCB in state ACTIVE is the one `active_proc` points at. -/
def active_is_current (s : Kernel) : Prop :=
  ∀ e p, s.proc_table[e]? = some p → p.state = proc_state.ACTIVE → s.active_proc = some e

/-- The pid of an active process in state ACTIVE is in no queue. -/
def active_unqueued (s : Kernel) : Prop :=
  ∀ a p, s.active_proc = some a → s.proc_table[a]? = some p →
    p.state = proc_state.ACTIVE → ∀ r q, s.queue r = some q → p.pid ∉ q.toList

/-- The scheduling invariant, as it holds between a handler and `scheduler_run`. -/
structure sched_inv (s : Kernel) : Prop where
  ok : queues_ok s
  disjoint : queues_disjoint s
  zero : zero_unblocked s
  current : active_is_current s
  unqueued : active_unqueued s

/-- Exactly one PCB is in state ACTIVE, it is the one `active_proc` points at, and
its pid is in no queue. -/
def one_active (s : Kernel) : Prop :=
  ∃ a p, s.active_proc = some a ∧ s.proc_table[a]? = some p ∧
    p.state = proc_state.ACTIVE ∧
    (∀ e p1, s.proc_table[e]? = some p1 → p1.state = proc_state.ACTIVE → e = a) ∧
    (∀ r q, s.queue r = some q → p.pid ∉ q.toList)

/-- From `s` to `s1` the queues only lose pids. -/
def qsub (s s1 : Kernel) : Prop :=
  ∀ r q1, s1.queue r = some q1 →
    q1.wf ∧ q1.toList.Nodup ∧ ∃ q, s.queue r = some q ∧ ∀ pid ∈ q1.toList, pid ∈ q.toList

/-- From `s` to `s1` the queue `r2` may have received `x` at its tail; the content of
every queue is otherwise the same. -/
def qadd (x : Int) (r2 : queue_ref) (s s1 : Kernel) : Prop :=
  ∀ r q1, s1.queue r = some q1 →
    q1.wf ∧ ∃ q, s.queue r = some q ∧
      (q1.toList = q.toList ∨ (r = r2 ∧ q1.toList = q.toList ++ [x]))

/-- From `s` to `s1` no PCB has entered the state ACTIVE, and a PCB that is ACTIVE
has kept its pid. -/
def tmono (s s1 : Kernel) : Prop :=
  ∀ (e : Nat) (p1 : proc_t), s1.proc_table[e]? = some p1 →
    p1.state ≠ proc_state.ACTIVE ∨
      ∃ p, s.proc_table[e]? = some p ∧ p1.state = p.state ∧ p1.pid = p.pid

/-- From `s` to `s1` the pointer `active_proc` is unchanged, or it has been cleared
and the PCB it pointed at is no longer ACTIVE. -/
def astep (s s1 : Kernel) : Prop :=
  s1.active_proc = s.active_proc ∨
    (s1.active_proc = none ∧
      ∀ (e : Nat) (p1 : proc_t), s.active_proc = some e → s1.proc_table[e]? = some p1 →
        p1.state ≠ proc_state.ACTIVE)

/-! ## Boot and kernel entries (`src/src/main.c`, `src/src/kproc.c`, `src/src/kernel.c`) -/

/-- Number of terminals: `#define TTY_MAX 10` (`tty.h`). -/
def TTY_MAX : Int := 10

/-- The function `tty_get`: the index of the terminal in `tty_table`; `none` is
`kernel_panic`. -/
def tty_get (tty : Int) : Option Nat :=
  if tty < 0 ∨ tty ≥ TTY_MAX then none else some tty.toNat

/-- The function `kproc_attach_tty`.  The ring buffers of terminal `t` are the entries
`2 * t` (`io_input`) and `2 * t + 1` (`io_output`) of `ringbufs`; `PROC_IO_IN` is 0
and `PROC_IO_OUT` is 1.  `tty_get` is evaluated before the test `proc && tty`, so a
terminal number out of range panics whatever the pid. -/
def kproc_attach_tty (s : Kernel) (pid : Int) (tty_number : Int) : Option (Kernel × Int) :=
  match tty_get tty_number with
  | none => none
  | some t =>
    match pid_to_proc s pid with
    | none => some (s, -1)
    | some e =>
      match s.proc_table[e]? with
      | none => none
      | some p =>
        some (s.set_proc e { p with io := (p.io.set 0 (some (2 * t))).set 1 (some (2 * t + 1)) }, 0)

/-- Values the boot sequence takes from outside the source tree: the number of table
entries `PROC_MAX` and the process types of `kproc.h`, the values `kproc_create`
needs, and the entry addresses of the four boot programs. -/
structure boot_env where
  env : create_env
  PROC_MAX : Nat
  PROC_TYPE_KERNEL : Int
  PROC_TYPE_USER : Int
  kproc_idle : Nat
  prog_shell : Nat
  prog_ping : Nat
  prog_pong : Nat
deriving DecidableEq, Repr

/-- One round of the creation loops of `kproc_init`:
`pid = kproc_create(prog, name, PROC_TYPE_USER); kproc_attach_tty(pid, tty(pid));`,
both return codes being ignored. -/
def create_attached (be : boot_env) (s : Kernel) (prog : Nat) (name : List Nat)
    (tty : Int → Int) : Option Kernel :=
  match kproc_create be.env s prog (some name) be.PROC_TYPE_USER with
  | none => none
  | some (s1, pid) =>
    match kproc_attach_tty s1 pid (tty pid) with
    | none => none
    | some (s2, _) => some s2

/-- A creation loop of `kproc_init`, one round per element of `ttys`. -/
def create_loop (be : boot_env) (prog : Nat) (name : List Nat) :
    List (Int → Int) → Kernel → Option Kernel
  | [], s => some s
  | tty :: rest, s =>
    match create_attached be s prog name tty with
    | none => none
    | some s1 => create_loop be prog name rest s1

/-- The terminal of a ping or pong process: `TTY_MAX - (pid % 2) - 1`, with the
truncating remainder of C. -/
def pingpong_tty (pid : Int) : Int := TTY_MAX - Int.tmod pid 2 - 1

/-- The function `kproc_init`: the tables are reset, then the idle process, four
shells on terminals 1 to 4, three ping and three pong processes are created.  The
names are the strings "idle", "shell", "ping" and "pong". -/
def kproc_init (be : boot_env) (s : Kernel) : Option Kernel :=
  match kproc_create be.env (kproc_init_tables s) be.kproc_idle (some [105, 100, 108, 101])
      be.PROC_TYPE_KERNEL with
  | none => none
  | some (s1, _) =>
    match create_loop be be.prog_shell [115, 104, 101, 108, 108]
        [fun _ => 1, fun _ => 2, fun _ => 3, fun _ => 4] s1 with
    | none => none
    | some s2 =>
      match create_loop be be.prog_ping [112, 105, 110, 103]
          [pingpong_tty, pingpong_tty, pingpong_tty] s2 with
      | none => none
      | some s3 =>
        create_loop be be.prog_pong [112, 111, 110, 103]
          [pingpong_tty, pingpong_tty, pingpong_tty] s3

/-- The kernel's global variables when `main` starts: zero-initialised storage, with
a process table of `P` entries and the two ring buffers of each terminal. -/
def kernel_zero (P : Nat) : Kernel :=
  { active_proc := none, proc_table := List.replicate P proc_zero, run_queue := queue_init,
    sleep_queue := queue_init, proc_allocator := queue_init, next_pid := 0,
    timer_ticks := 0, mutexes := List.replicate MUTEX_MAX mutex_zero,
    mutex_queue := queue_init, semaphores := List.replicate SEM_MAX sem_zero,
    sem_queue := queue_init,
    ringbufs := List.replicate (2 * TTY_MAX.toNat)
      { head := 0, tail := 0, size := 0, data := List.replicate RINGBUF_SIZE 0 } }

/-- The part of `main` that sets up the state modelled here: `kmutexes_init`,
`ksemaphores_init`, `scheduler_init` and `kproc_init`, in this order, the return codes
of the first two being ignored. -/
def kernel_boot (be : boot_env) : Option Kernel :=
  kproc_init be
    (scheduler_init (ksemaphores_init (kmutexes_init (kernel_zero be.PROC_MAX)).1).1)

/-- A kernel entry of one of the two kinds the scheduling invariant is stated for,
with the trap frame the entry stub passes to `kernel_context_enter`: a timer
interrupt, with the content `io` of the terminal ring buffers after the tick's other
callbacks; or a system call, with the user memory `umem` it reads and the
indeterminate value `junk` of the uninitialised local of `kmutex_unlock`. -/
inductive kernel_entry where
  | timer (tf : trapframe_t) (io : List ringbuf_t)
  | syscall (tf : trapframe_t) (umem : Nat → Int) (junk : Int)

/-- The trap frame of an entry. -/
def kernel_entry.tf : kernel_entry → trapframe_t
  | kernel_entry.timer tf _ => tf
  | kernel_entry.syscall tf _ _ => tf

/-- First statement of `kernel_context_enter`:
`if (active_proc) active_proc->trapframe = trapframe;`. -/
def save_trapframe (s : Kernel) (tf : trapframe_t) : Option Kernel :=
  match s.active_proc with
  | none => some s
  | some a =>
    match s.proc_table[a]? with
    | none => none
    | some p => some (s.set_proc a { p with trapframe := some tf })

/-- The handler `interrupts_irq_handler` dispatches to: for the timer interrupt
`timer_irq_handler`, which increments `timer_ticks` and runs the callbacks, of which
`scheduler_timer` (registered with interval 1) acts on the scheduler's state; for
the system call interrupt `ksyscall_irq_handler`. -/
def entry_handler (s : Kernel) : kernel_entry → Option Kernel
  | kernel_entry.timer _ io =>
    scheduler_timer { s with timer_ticks := s.timer_ticks + 1, ringbufs := io }
  | kernel_entry.syscall _ umem junk => ksyscall_irq_handler umem junk s

/-- The function `kernel_context_enter` up to `kernel_context_exit`: the trap frame
is saved, the interrupt handled and the scheduler run; `none` is `kernel_panic`. -/
def kernel_context_enter (s : Kernel) (e : kernel_entry) : Option Kernel :=
  match save_trapframe s e.tf with
  | none => none
  | some s1 =>
    match entry_handler s1 e with
    | none => none
    | some s2 =>
      match scheduler_run s2 with
      | none => none
      | some s3 => if s3.active_proc = none then none else some s3

/-- A sequence of kernel entries, oldest first. -/
def kernel_entries : Kernel → List kernel_entry → Option Kernel
  | s, [] => some s
  | s, e :: rest =>
    match kernel_context_enter s e with
    | none => none
    | some s1 => kernel_entries s1 rest

/-- The entry is a timer interrupt, or a system call that is not issued by the
process with pid 0 and for which the indeterminate value `junk` is the pid of no
table entry. -/
def user_syscall (s : Kernel) : kernel_entry → Bool
  | kernel_entry.timer _ _ => true
  | kernel_entry.syscall _ _ junk =>
    (match s.active_proc with
     | none => true
     | some a =>
       match s.proc_table[a]? with
       | none => true
       | some p => decide (p.pid ≠ 0)) && (pid_to_proc s junk).isNone

/-- Every entry of the sequence satisfies `user_syscall` in the state it is made in. -/
def user_syscalls : Kernel → List kernel_entry → Bool
  | _, [] => true
  | s, e :: rest =>
    user_syscall s e &&
      match kernel_context_enter s e with
      | none => true
      | some s1 => user_syscalls s1 rest

/-- At most one PCB is in state ACTIVE. -/
def at_most_one_active (s : Kernel) : Prop :=
  ∀ (e e1 : Nat) (p p1 : proc_t), s.proc_table[e]? = some p → s.proc_table[e1]? = some p1 →
    p.state = proc_state.ACTIVE → p1.state = proc_state.ACTIVE → e = e1

/-- The state of the scheduler during `kproc_init`: no process is active or in state
ACTIVE, the run queue holds distinct pids below `next_pid`, and every other queue is
empty. -/
def boot_inv (s : Kernel) : Prop :=
  s.active_proc = none ∧
    (∀ (e : Nat) (p : proc_t), s.proc_table[e]? = some p → p.state ≠ proc_state.ACTIVE) ∧
    s.run_queue.wf ∧ s.run_queue.toList.Nodup ∧
    (∀ x ∈ s.run_queue.toList, x < s.next_pid) ∧
    (∀ r q, s.queue r = some q → r ≠ queue_ref.run → q.wf ∧ q.toList = [])

/-- Boot values for the examples: a table of 16 entries and non-null program
addresses. -/
def ex_boot_env : boot_env :=
  { env := ex_env, PROC_MAX := 16, PROC_TYPE_KERNEL := 0, PROC_TYPE_USER := 1,
    kproc_idle := 4096, prog_shell := 8192, prog_ping := 12288, prog_pong := 16384 }

/-- A trap frame with the given interrupt number, whose `eax` and `ebx` hold a system
call number and its argument. -/
def ex_frame (interrupt eax ebx : Nat) : trapframe_t :=
  { eax := eax, ebx := ebx, ecx := 0, edx := 0, eip := 0, eflags := 0, cs := 0, ds := 0,
    es := 0, fs := 0, gs := 0, interrupt := interrupt }

/-- The system call `proc_sleep(1)` (call number 6). -/
def ex_sleep : kernel_entry := kernel_entry.syscall (ex_frame 128 6 1) (fun _ => 0) (-1)

/-- A timer interrupt (number 32) that finds and leaves the terminal buffers as they
are at boot. -/
def ex_tick : kernel_entry := kernel_entry.timer (ex_frame 32 0 0) (kernel_zero 0).ringbufs

/-- Every process put to sleep: after boot a timer tick makes the idle process
(pid 0, the head of the run queue) the active one; then each active process in turn,
the idle process first, calls `proc_sleep(1)`. -/
def ex_all_sleep : Option Kernel :=
  match kernel_boot ex_boot_env with
  | none => none
  | some b => kernel_entries b (ex_tick :: List.replicate 11 ex_sleep)

/-- Eleven timer ticks after boot, which end the idle process's time slice and make
pid 1 the active process, followed by `proc_sleep(1)` issued by pid 1. -/
def ex_entries : List kernel_entry := List.replicate 11 ex_tick ++ [ex_sleep]

/-- What the scheduling invariant observes of a state: `active_proc`, the pid and
state of every PCB, and the content of the run and sleep queues. -/
def sched_view (r : Option Kernel) :
    Option (Option Nat × List (Int × proc_state) × List Int × List Int) :=
  r.map (fun s => (s.active_proc, s.proc_table.map (fun p => (p.pid, p.state)),
    s.run_queue.toList, s.sleep_queue.toList))

/-! ## Examples: exhausted id free lists -/

/-- Repeated `kmutex_init`, the indeterminate value of `id` being `id0` each time: the
state after `n` calls and the values they returned, oldest first. -/
def kmutex_init_n (id0 : Int) : Nat → Kernel → Option (Kernel × List Int)
  | 0, s => some (s, [])
  | n + 1, s =>
    match kmutex_init s id0 with
    | none => none
    | some (s1, id) =>
      match kmutex_init_n id0 n s1 with
      | none => none
      | some (s2, ids) => some (s2, id :: ids)

/-- Repeated `ksem_init` with initial value `value`, the indeterminate value of `id`
being `id0` each time. -/
def ksem_init_n (value id0 : Int) : Nat → Kernel → Option (Kernel × List Int)
  | 0, s => some (s, [])
  | n + 1, s =>
    match ksem_init s value id0 with
    | none => none
    | some (s1, id) =>
      match ksem_init_n value id0 n s1 with
      | none => none
      | some (s2, ids) => some (s2, id :: ids)

/-- What the exhaustion claims observe of a result: the value returned last, the
content of the id free list, and the `allocated` flags of the table. -/
structure init_obs where
  rc : Option Int
  free_ids : List Int
  flags : List Int
deriving DecidableEq, Repr

/-- The observation of `n` calls of `kmutex_init` on the state `ex_a_running`. -/
def mutex_init_view (id0 : Int) (n : Nat) : Option init_obs :=
  (kmutex_init_n id0 n ex_a_running).map (fun r =>
    { rc := r.2.getLast?, free_ids := r.1.mutex_queue.toList,
      flags := r.1.mutexes.map (fun m => m.allocated) })

/-- The observation of `n` calls of `ksem_init(1)` on the state `ex_a_running`. -/
def sem_init_view (id0 : Int) (n : Nat) : Option init_obs :=
  (ksem_init_n 1 id0 n ex_a_running).map (fun r =>
    { rc := r.2.getLast?, free_ids := r.1.sem_queue.toList,
      flags := r.1.semaphores.map (fun m => m.allocated) })

/-- The observation "returned `rc`, free list empty, all sixteen entries allocated". -/
def ex_exhausted (rc : Int) : init_obs :=
  { rc := some rc, free_ids := [], flags := List.replicate 16 1 }

/-! ## Example: a tick on which a sleeper wakes -/

/-- A sleeping PCB with the given pid and `sleep_time`. -/
def ex_sleeper (pid : Int) (sleep_time : Int) : proc_t :=
  { ex_proc pid proc_state.SLEEPING (some queue_ref.sleep) with sleep_time := sleep_time }

/-- Three sleepers A, B, C (pids 1, 2, 3) on the sleep queue in this order, with
`sleep_time` -1, 5 and 7; the idle process (pid 0) is the active process. -/
def ex_three_sleepers : Kernel :=
  { ex_kernel [ex_proc 0 proc_state.ACTIVE none, ex_sleeper 1 (-1), ex_sleeper 2 5,
               ex_sleeper 3 7] with
    active_proc := some 0, sleep_queue := ex_queue [1, 2, 3] }

/-- The same sleepers with `sleep_time` 3, 5 and 7: nobody wakes on the next tick. -/
def ex_three_asleep : Kernel :=
  { ex_kernel [ex_proc 0 proc_state.ACTIVE none, ex_sleeper 1 3, ex_sleeper 2 5,
               ex_sleeper 3 7] with
    active_proc := some 0, sleep_queue := ex_queue [1, 2, 3] }

/-- What the timer claim observes of a state: the pid, state and `sleep_time` of every
PCB, and the content of the sleep and run queues. -/
structure timer_obs where
  procs : List (Int × proc_state × Int)
  sleeping : List Int
  runnable : List Int
deriving DecidableEq, Repr

/-- The observation of a result of `scheduler_timer`. -/
def timer_view (r : Option Kernel) : Option timer_obs :=
  r.map (fun s =>
    { procs := s.proc_table.map (fun p => (p.pid, p.state, p.sleep_time)),
      sleeping := s.sleep_queue.toList, runnable := s.run_queue.toList })

/-- The observation after the tick on `ex_three_sleepers`. -/
def ex_after_wake : timer_obs :=
  { procs := [(0, proc_state.ACTIVE, 0), (1, proc_state.IDLE, -2),
              (2, proc_state.SLEEPING, 4), (3, proc_state.SLEEPING, 7)],
    sleeping := [3, 2], runnable := [1] }

/-- The observation after the tick on `ex_three_asleep`. -/
def ex_after_tick : timer_obs :=
  { procs := [(0, proc_state.ACTIVE, 0), (1, proc_state.SLEEPING, 2),
              (2, proc_state.SLEEPING, 4), (3, proc_state.SLEEPING, 6)],
    sleeping := [1, 2, 3], runnable := [] }

/-! ## Reachability notions for the mutex and semaphore invariants -/

/-- The invariant of a semaphore entry: the count is not negative and at most
`INT_MAX`, and when it is positive the wait queue is empty. -/
def sem_ok (m : sem_t) : Prop :=
  0 ≤ m.count ∧ m.count ≤ INT_MAX ∧
    (0 < m.count → m.wait_queue.size = 0 ∧ m.wait_queue.toList = [])

/-- Every semaphore entry of the state satisfies `sem_ok`. -/
def sems_ok (l : List sem_t) : Prop :=
  ∀ (i : Nat) (m : sem_t), l[i]? = some m → sem_ok m

/-- The states reachable from `ksemaphores_init` by `ksem_init` with a non-negative
initial value, `ksem_destroy`, `ksem_wait` and `ksem_post`, interleaved with any other
kernel activity that leaves the semaphore table as it is (scheduling, a change of the
active process), where `ksem_post` is called only on a semaphore whose count is below
`INT_MAX`.  A call with an id outside the table has no result and is no step. -/
inductive sem_reach : Kernel → Prop
  | init (s : Kernel) : sem_reach (ksemaphores_init s).1
  | other (s s1 : Kernel) : sem_reach s → s1.semaphores = s.semaphores → sem_reach s1
  | sem_init (s s1 : Kernel) (value id0 rc : Int) : sem_reach s → 0 ≤ value →
      ksem_init s value id0 = some (s1, rc) → sem_reach s1
  | destroy (s s1 : Kernel) (id rc : Int) : sem_reach s →
      ksem_destroy s id = some (s1, rc) → sem_reach s1
  | wait (s s1 : Kernel) (id rc : Int) : sem_reach s →
      ksem_wait s id = some (s1, rc) → sem_reach s1
  | post (s s1 : Kernel) (id rc : Int) (m : sem_t) : sem_reach s →
      s.semaphores[id.toNat]? = some m → m.count < INT_MAX →
      ksem_post s id = some (s1, rc) → sem_reach s1

/-- Repeated `ksem_post(id)`: the state after `n` calls. -/
def ksem_post_n (id : Int) : Nat → Kernel → Option Kernel
  | 0, s => some s
  | n + 1, s =>
    match ksem_post s id with
    | none => none
    | some (s1, _) => ksem_post_n id n s1

/-- The count of semaphore 0 after `n` calls of `ksem_post(0)` on the semaphore table
`ksemaphores_init` leaves. -/
def posted_count (n : Nat) : Option Int :=
  match ksem_post_n 0 n (ksemaphores_init ex_a_running).1 with
  | none => none
  | some s => (s.semaphores[0]?).map (fun m => m.count)

/-- On freshly initialised semaphore tables: `ksem_init(1)`, which returns id 0, then
`ksem_post(0)`. -/
def ex_sem_posted : Option (Kernel × Int) :=
  match ksem_init (ksemaphores_init ex_a_running).1 1 0 with
  | none => none
  | some (s1, _) => ksem_post s1 0

/-- What the mutex invariants read of a mutex entry besides its wait queue: the
`allocated` flag, the lock count and the owner. -/
def mutex_t.core (m : mutex_t) : Int × Int × Option Nat := (m.allocated, m.locks, m.owner)

/-- The invariant of a mutex entry: the lock count is not negative, and it is 0
exactly when the mutex has no owner. -/
def mutex_ok (m : mutex_t) : Prop :=
  0 ≤ m.locks ∧ (m.locks = 0 ↔ m.owner = none)

/-- Every mutex entry of the table satisfies `mutex_ok`. -/
def mutexes_ok (l : List mutex_t) : Prop :=
  ∀ (i : Nat) (m : mutex_t), l[i]? = some m → mutex_ok m

/-- The states reachable from `kmutexes_init` by `kmutex_init`, `kmutex_destroy`,
`kmutex_lock` and `kmutex_unlock`, interleaved with any other kernel activity that
leaves the mutex table as it is (scheduling, a change of the active process).  A call
with an id outside the table, and `kmutex_lock` without an active process, have no
result and are no steps.  The indeterminate values of the uninitialised locals of
`kmutex_init` and `kmutex_unlock` are arbitrary. -/
inductive mutex_reach : Kernel → Prop
  | init (s : Kernel) : mutex_reach (kmutexes_init s).1
  | other (s s1 : Kernel) : mutex_reach s → s1.mutexes = s.mutexes → mutex_reach s1
  | mutex_init (s s1 : Kernel) (id0 rc : Int) : mutex_reach s →
      kmutex_init s id0 = some (s1, rc) → mutex_reach s1
  | destroy (s s1 : Kernel) (id rc : Int) : mutex_reach s →
      kmutex_destroy s id = some (s1, rc) → mutex_reach s1
  | lock (s s1 : Kernel) (id rc : Int) : mutex_reach s →
      kmutex_lock s id = some (s1, rc) → mutex_reach s1
  | unlock (s s1 : Kernel) (id junk rc : Int) : mutex_reach s →
      kmutex_unlock s id junk = some (s1, rc) → mutex_reach s1

/-- The pid is on the wait queue of no mutex. -/
def on_no_mutex_queue (s : Kernel) (pid : Int) : Prop :=
  ∀ m ∈ s.mutexes, pid ∉ m.wait_queue.toList

instance (s : Kernel) (pid : Int) : Decidable (on_no_mutex_queue s pid) := by
  unfold on_no_mutex_queue
  infer_instance

/-- Mutex accounting: the mutex is unlocked and nobody waits for it, or its lock count
is one more than the number of pids on its wait queue. -/
def mutex_accounted (m : mutex_t) : Prop :=
  (m.locks = 0 ∧ m.wait_queue.toList = []) ∨
    m.locks = 1 + (m.wait_queue.toList.length : Int)

/-- The invariant behind the accounting: every wait queue is a well-formed circular
buffer that holds each pid at most once and satisfies `mutex_accounted`, and no pid
is on the wait queues of two mutexes. -/
def mutex_queues_ok (l : List mutex_t) : Prop :=
  (∀ (i : Nat) (m : mutex_t), l[i]? = some m →
    m.wait_queue.wf ∧ m.wait_queue.toList.Nodup ∧ mutex_accounted m) ∧
  (∀ (i j : Nat) (m m1 : mutex_t) (x : Int), l[i]? = some m → l[j]? = some m1 →
    x ∈ m.wait_queue.toList → x ∈ m1.wait_queue.toList → i = j)

/-- The states reachable from `kmutexes_init` purely by `kmutex_lock` and
`kmutex_unlock`, interleaved with any other kernel activity that leaves the mutex
table as it is (scheduling, a change of the active process).  A lock is issued by the
active process, which is not itself waiting for a mutex (its pid is on no mutex wait
queue), on a mutex whose wait queue has room; an unlock is issued with any
indeterminate value `junk` of the uninitialised local. -/
inductive lock_reach : Kernel → Prop
  | init (s : Kernel) : lock_reach (kmutexes_init s).1
  | other (s s1 : Kernel) : lock_reach s → s1.mutexes = s.mutexes → lock_reach s1
  | lock (s s1 : Kernel) (id rc : Int) (a : Nat) (p : proc_t) (m : mutex_t) :
      lock_reach s → s.active_proc = some a → s.proc_table[a]? = some p →
      on_no_mutex_queue s p.pid → s.mutexes[id.toNat]? = some m →
      m.wait_queue.size < QUEUE_SIZE → kmutex_lock s id = some (s1, rc) → lock_reach s1
  | unlock (s s1 : Kernel) (id junk rc : Int) : lock_reach s →
      kmutex_unlock s id junk = some (s1, rc) → lock_reach s1

/-- On freshly initialised mutex tables the active process A (pid 1) locks mutex 0
twice: the second call parks A on the wait queue. -/
def ex_lock_twice : Option (Kernel × Int) :=
  match kmutex_lock (kmutexes_init ex_a_running).1 0 with
  | none => none
  | some (s1, _) => kmutex_lock s1 0

/-! ## Reachability notions for the process table invariants -/

/-- What the process table invariants read of the table besides the free list: the
pid of every entry and whether its state is NONE. -/
def proc_shape (s : Kernel) : List (Int × Bool) :=
  s.proc_table.map (fun p => (p.pid, decide (p.state = proc_state.NONE)))

/-- The states reachable from the seeding of `kproc_init` (allocator filled, table
zeroed, with `next_pid` at the 0 the zero-initialised variable holds at boot) by
`kproc_create` and `kproc_destroy`, interleaved with any other kernel activity that
leaves the pids, the NONE states, the free list and `next_pid` as they are
(scheduling, blocking and waking of processes).  The second component lists the pids
of the processes destroyed so far. -/
inductive proc_reach : Kernel → List Int → Prop
  | init (s : Kernel) : s.next_pid = 0 → proc_reach (kproc_init_tables s) []
  | other (s s1 : Kernel) (dead : List Int) : proc_reach s dead →
      proc_shape s1 = proc_shape s → s1.next_pid = s.next_pid →
      s1.proc_allocator = s.proc_allocator → proc_reach s1 dead
  | create (env : create_env) (s s1 : Kernel) (proc_ptr : Nat) (name : Option (List Nat))
      (proc_type rc : Int) (dead : List Int) : proc_reach s dead →
      kproc_create env s proc_ptr name proc_type = some (s1, rc) → proc_reach s1 dead
  | destroy (s s1 : Kernel) (e : Nat) (p : proc_t) (rc : Int) (dead : List Int) :
      proc_reach s dead → s.proc_table[e]? = some p →
      kproc_destroy s (some e) = some (s1, rc) →
      proc_reach s1 (if rc = 0 then p.pid :: dead else dead)

/-- The invariant of the pids: `next_pid` is not negative; an entry in state NONE has
pid 0; an entry in use has a pid in `0 .. next_pid-1`; the pids of entries in use are
pairwise distinct; an entry in use with pid 0 is entry 0; before the first creation
every entry is free and the free list starts with index 0; the pid of a destroyed
process is not 0, is below `next_pid`, and is the pid of no entry. -/
structure pid_inv (s : Kernel) (dead : List Int) : Prop where
  next : 0 ≤ s.next_pid
  free : ∀ (e : Nat) (p : proc_t), s.proc_table[e]? = some p →
    p.state = proc_state.NONE → p.pid = 0
  used : ∀ (e : Nat) (p : proc_t), s.proc_table[e]? = some p →
    p.state ≠ proc_state.NONE → 0 ≤ p.pid ∧ p.pid < s.next_pid
  distinct : ∀ (e e1 : Nat) (p p1 : proc_t), s.proc_table[e]? = some p →
    s.proc_table[e1]? = some p1 → p.state ≠ proc_state.NONE →
    p1.state ≠ proc_state.NONE → p.pid = p1.pid → e = e1
  idle : ∀ (e : Nat) (p : proc_t), s.proc_table[e]? = some p →
    p.state ≠ proc_state.NONE → p.pid = 0 → e = 0
  fresh : s.next_pid = 0 →
    (∀ (e : Nat) (p : proc_t), s.proc_table[e]? = some p → p.state = proc_state.NONE) ∧
      s.proc_allocator.wf ∧
      (s.proc_table ≠ [] → ∃ rest, s.proc_allocator.toList = 0 :: rest)
  gone : ∀ x ∈ dead, x ≠ 0 ∧ x < s.next_pid ∧
    ∀ (e : Nat) (p : proc_t), s.proc_table[e]? = some p → p.pid ≠ x

/-- The invariant of the free list: it is a well-formed queue without duplicates, and
it holds exactly the indices of the table entries in state NONE. -/
structure alloc_inv (s : Kernel) : Prop where
  wf : s.proc_allocator.wf
  nodup : s.proc_allocator.toList.Nodup
  free : ∀ i ∈ s.proc_allocator.toList,
    0 ≤ i ∧ ∃ p, s.proc_table[i.toNat]? = some p ∧ p.state = proc_state.NONE
  listed : ∀ (e : Nat) (p : proc_t), s.proc_table[e]? = some p →
    p.state = proc_state.NONE → (e : Int) ∈ s.proc_allocator.toList

/-- On the four-entry table of `ex_boot`: the idle process and a second process are
created (entries 0 and 1, pids 0 and 1), then the second one is destroyed. -/
def ex_exit_one : Option (Kernel × Int) :=
  match kproc_create ex_env ex_boot 4096 (some [105, 100, 108, 101]) 0 with
  | none => none
  | some (s1, _) =>
    match kproc_create ex_env s1 4096 (some [112]) 1 with
    | none => none
    | some (s2, _) => kproc_destroy s2 (some 1)

/-! ## Examples: the idle process parked twice, and the field `scheduler_queue` of a
selected process -/

/-- The system call `sem_wait(0)` (call number 16). -/
def ex_sem_wait : kernel_entry := kernel_entry.syscall (ex_frame 128 16 0) (fun _ => 0) (-1)

/-- The idle process parked twice: as in `ex_all_sleep` every process calls
`proc_sleep(1)`, the idle process first; `scheduler_run` then selects the idle process
again, which calls `sem_wait(0)` on semaphore 0, whose count is 0. -/
def ex_idle_waits : Option Kernel :=
  match kernel_boot ex_boot_env with
  | none => none
  | some b => kernel_entries b (ex_tick :: List.replicate 11 ex_sleep ++ [ex_sem_wait])

/-- The state after boot and one timer tick, whose `scheduler_run` selects the idle
process. -/
def ex_first_tick : Option Kernel :=
  match kernel_boot ex_boot_env with
  | none => none
  | some b => kernel_entries b [ex_tick]

/-- The state after boot and eleven timer ticks: the time slice of the idle process
has ended and pid 1 is the active process. -/
def ex_second_slice : Option Kernel :=
  match kernel_boot ex_boot_env with
  | none => none
  | some b => kernel_entries b (List.replicate 11 ex_tick)

/-- What the queue invariants observe of a table entry: `active_proc`, the pid,
state and `scheduler_queue` of the entry, and the queues that hold its pid. -/
structure pcb_obs where
  active : Option Nat
  pid : Int
  state : proc_state
  queue : Option queue_ref
  holding : List queue_ref
deriving DecidableEq, Repr

/-- The observation of table entry `e` of a state. -/
def pcb_view (r : Option Kernel) (e : Nat) : Option pcb_obs :=
  match r with
  | none => none
  | some s =>
    match s.proc_table[e]? with
    | none => none
    | some p =>
      some { active := s.active_proc, pid := p.pid, state := p.state,
             queue := p.scheduler_queue, holding := queues_holding s p.pid }
/-! ## Reachable kernel states and the invariant of the PCB fields -/

/-- The kernel states reachable from the boot state by the steps of a running
system: `kproc_create`; the saving of a trap frame at a kernel entry; a timer tick
(`timer_ticks` is incremented and `scheduler_timer` runs, `io` being the content of
the terminal buffers after the other callbacks); `scheduler_run`; and a system call
handled by `ksyscall_irq_handler`, issued by the active process while it is in state
ACTIVE and is not the idle process (pid 0), the indeterminate value `junk` of the
uninitialised locals being the pid of no table entry. -/
inductive kernel_reach : Kernel → Prop
  | boot (be : boot_env) (b : Kernel) : kernel_boot be = some b → kernel_reach b
  | create (env : create_env) (s s1 : Kernel) (proc_ptr : Nat) (name : Option (List Nat))
      (proc_type rc : Int) : kernel_reach s →
      kproc_create env s proc_ptr name proc_type = some (s1, rc) → kernel_reach s1
  | frame (s s1 : Kernel) (tf : trapframe_t) : kernel_reach s →
      save_trapframe s tf = some s1 → kernel_reach s1
  | tick (s s1 : Kernel) (io : List ringbuf_t) : kernel_reach s →
      scheduler_timer { s with timer_ticks := s.timer_ticks + 1, ringbufs := io } = some s1 →
      kernel_reach s1
  | run (s s1 : Kernel) : kernel_reach s → scheduler_run s = some s1 → kernel_reach s1
  | call (s s1 : Kernel) (umem : Nat → Int) (junk : Int) (a : Nat) (p : proc_t) :
      kernel_reach s → s.active_proc = some a → s.proc_table[a]? = some p →
      p.state = proc_state.ACTIVE → p.pid ≠ 0 → pid_to_proc s junk = none →
      ksyscall_irq_handler umem junk s = some s1 → kernel_reach s1

/-- The invariant of the PCB fields: a PCB in state NONE has pid 0; the pid of a PCB
in use is below `next_pid`; PCBs in use have distinct pids; a non-empty table has the
idle process (pid 0) in entry 0, in use and with `scheduler_queue` naming the run
queue; every queued pid is below `next_pid`; a PCB in use whose pid is on a queue has
`scheduler_queue` naming that queue; a PCB in state ACTIVE has `scheduler_queue`
naming the run queue; the free list is a well-formed queue without duplicates that
holds indices of PCBs in state NONE. -/
structure pcb_inv (s : Kernel) : Prop where
  free : ∀ (e : Nat) (p : proc_t), s.proc_table[e]? = some p →
    p.state = proc_state.NONE → p.pid = 0
  used : ∀ (e : Nat) (p : proc_t), s.proc_table[e]? = some p →
    p.state ≠ proc_state.NONE → p.pid < s.next_pid
  distinct : ∀ (e e1 : Nat) (p p1 : proc_t), s.proc_table[e]? = some p →
    s.proc_table[e1]? = some p1 → p.state ≠ proc_state.NONE →
    p1.state ≠ proc_state.NONE → p.pid = p1.pid → e = e1
  idle : ∀ (e : Nat) (p : proc_t), s.proc_table[e]? = some p →
    ∃ p0, s.proc_table[0]? = some p0 ∧ p0.pid = 0 ∧ p0.state ≠ proc_state.NONE ∧
      p0.scheduler_queue = some queue_ref.run
  bound : ∀ (r : queue_ref) (q : queue_t) (x : Int), s.queue r = some q →
    x ∈ q.toList → x < s.next_pid
  sq : ∀ (r : queue_ref) (q : queue_t) (e : Nat) (p : proc_t), s.queue r = some q →
    s.proc_table[e]? = some p → p.state ≠ proc_state.NONE → p.pid ∈ q.toList →
    p.scheduler_queue = some r
  act : ∀ (e : Nat) (p : proc_t), s.proc_table[e]? = some p →
    p.state = proc_state.ACTIVE → p.scheduler_queue = some queue_ref.run
  awf : s.proc_allocator.wf
  anodup : s.proc_allocator.toList.Nodup
  afree : ∀ i ∈ s.proc_allocator.toList,
    0 ≤ i ∧ ∃ p, s.proc_table[i.toNat]? = some p ∧ p.state = proc_state.NONE

/-- From `s` to `s1` every PCB has kept its pid, whether it is in use, and its
`scheduler_queue`; a PCB that is ACTIVE was ACTIVE or has `scheduler_queue` naming the
run queue. -/
def tsame (s s1 : Kernel) : Prop :=
  s1.proc_table.length = s.proc_table.length ∧
  ∀ (e : Nat) (p1 : proc_t), s1.proc_table[e]? = some p1 →
    ∃ p, s.proc_table[e]? = some p ∧ p1.pid = p.pid ∧
      (p1.state = proc_state.NONE ↔ p.state = proc_state.NONE) ∧
      p1.scheduler_queue = p.scheduler_queue ∧
      (p1.state = proc_state.ACTIVE →
        p.state = proc_state.ACTIVE ∨ p1.scheduler_queue = some queue_ref.run)

/-- From `s` to `s1` every PCB has kept its pid and whether it is in use; only a PCB
with pid `x` has changed its `scheduler_queue`; a PCB in use with pid `x` has
`scheduler_queue` naming the queue `r2`; a PCB that is ACTIVE was ACTIVE with the same
`scheduler_queue`, or has `scheduler_queue` naming the run queue. -/
def tstep (x : Int) (r2 : queue_ref) (s s1 : Kernel) : Prop :=
  s1.proc_table.length = s.proc_table.length ∧
  ∀ (e : Nat) (p1 : proc_t), s1.proc_table[e]? = some p1 →
    ∃ p, s.proc_table[e]? = some p ∧ p1.pid = p.pid ∧
      (p1.state = proc_state.NONE ↔ p.state = proc_state.NONE) ∧
      (p1.scheduler_queue = p.scheduler_queue ∨ p1.pid = x) ∧
      (p1.pid = x → p1.state ≠ proc_state.NONE → p1.scheduler_queue = some r2) ∧
      (p1.state = proc_state.ACTIVE →
        (p.state = proc_state.ACTIVE ∧ p1.scheduler_queue = p.scheduler_queue) ∨
          p1.scheduler_queue = some queue_ref.run)

/-- Eleven timer ticks after boot, which end the idle process's time slice and make
pid 1 the active process, followed by `sem_wait(0)` issued by pid 1. -/
def ex_wait_entries : List kernel_entry := List.replicate 11 ex_tick ++ [ex_sem_wait]

/-! # Theorems -/

/-! ### Queue lemmas -/

theorem queue_init_wf : queue_init.wf := by
  simp [queue_t.wf, queue_init, QUEUE_SIZE]

theorem queue_init_toList : queue_init.toList = [] := by
  simp [queue_t.toList, queue_init]

theorem queue_in_eq_none (q : queue_t) (x : Int) :
    queue_in q x = none ↔ q.size = QUEUE_SIZE := by
  unfold queue_in; split <;> simp [*]

theorem queue_out_eq_none (q : queue_t) : queue_out q = none ↔ q.size = 0 := by
  unfold queue_out; split <;> simp [*]

theorem queue_toList_length (q : queue_t) : q.toList.length = q.size := by
  simp [queue_t.toList]

theorem queue_toList_eq_nil (q : queue_t) : q.toList = [] ↔ q.size = 0 := by
  rw [← List.length_eq_zero, queue_toList_length]

/-- Enqueueing into a well-formed queue with room appends at the tail. -/
theorem queue_in_spec (q : queue_t) (x : Int) (hw : q.wf) (hs : q.size < QUEUE_SIZE) :
    ∃ q1, queue_in q x = some q1 ∧ q1.wf ∧ q1.toList = q.toList ++ [x] ∧
      q1.size = q.size + 1 := by
  obtain ⟨hl, hh, hsz, ht⟩ := hw
  have hne : q.size ≠ QUEUE_SIZE := Nat.ne_of_lt hs
  unfold QUEUE_SIZE at hl hh hsz ht hs
  have ht32 : q.tail < 32 := by omega
  refine ⟨_, if_neg hne, ?_, ?_, rfl⟩
  · refine ⟨by simpa [QUEUE_SIZE] using hl, by simpa [QUEUE_SIZE] using hh, ?_, ?_⟩
    · simp only [QUEUE_SIZE]; omega
    · simp only [QUEUE_SIZE]; split <;> omega
  · simp only [queue_t.toList, List.range_succ, List.map_append, List.map_cons, List.map_nil]
    congr 1
    · apply List.map_congr_left
      intro i hi
      rw [List.mem_range] at hi
      simp only [List.getD_eq_getElem?_getD, QUEUE_SIZE]
      rw [List.getElem?_set_ne (by omega)]
    · simp only [List.getD_eq_getElem?_getD, QUEUE_SIZE]
      rw [show (q.head + q.size) % 32 = q.tail from ht.symm,
        List.getElem?_set_self (by omega)]
      rfl

/-- Dequeueing from a well-formed non-empty queue returns the oldest item. -/
theorem queue_out_spec (q : queue_t) (hw : q.wf) (hs : 0 < q.size) :
    ∃ x q1, queue_out q = some (x, q1) ∧ q1.wf ∧ q.toList = x :: q1.toList ∧
      q1.size + 1 = q.size := by
  obtain ⟨hl, hh, hsz, ht⟩ := hw
  have hne : q.size ≠ 0 := Nat.pos_iff_ne_zero.mp hs
  unfold QUEUE_SIZE at hl hh hsz ht
  refine ⟨_, _, if_neg hne, ?_, ?_, by simp only; omega⟩
  · refine ⟨by simpa [QUEUE_SIZE] using hl, ?_, ?_, ?_⟩
    · simp only [QUEUE_SIZE]; split <;> omega
    · simp only [QUEUE_SIZE]; omega
    · simp only [QUEUE_SIZE]; split <;> omega
  · obtain ⟨n, hn⟩ : ∃ n, q.size = n + 1 := ⟨q.size - 1, by omega⟩
    simp only [queue_t.toList, hn, List.range_succ_eq_map, List.map_cons, List.map_map,
      Nat.add_sub_cancel, QUEUE_SIZE]
    congr 1
    · simp [Nat.mod_eq_of_lt hh]
    · apply List.map_congr_left
      intro i hi
      rw [List.mem_range] at hi
      simp only [List.getD_eq_getElem?_getD, Function.comp, Nat.succ_eq_add_one]
      have hidx : ((if q.head + 1 = 32 then 0 else q.head + 1) + i) % 32
          = (q.head + (i + 1)) % 32 := by split <;> omega
      rw [hidx, List.getElem?_set_ne (by omega)]

/-! ### Process table lemmas -/

theorem pid_to_proc_from_some (pid : Int) (l : List proc_t) (i a : Nat)
    (h : pid_to_proc_from pid l i = some a) :
    i ≤ a ∧ ∃ p, l[a - i]? = some p ∧ p.pid = pid := by
  induction l generalizing i with
  | nil => simp [pid_to_proc_from] at h
  | cons p ps ih =>
    unfold pid_to_proc_from at h
    split at h
    · rename_i hp
      injection h with h
      subst h
      exact ⟨Nat.le_refl _, p, by simp, hp⟩
    · obtain ⟨hle, q, hq, hqp⟩ := ih (i + 1) h
      refine ⟨by omega, q, ?_, hqp⟩
      have : a - i = (a - (i + 1)) + 1 := by omega
      rw [this, List.getElem?_cons_succ]
      exact hq

theorem pid_to_proc_some (s : Kernel) (pid : Int) (a : Nat) (h : pid_to_proc s pid = some a) :
    ∃ p, s.proc_table[a]? = some p ∧ p.pid = pid := by
  obtain ⟨_, p, hp, hpp⟩ := pid_to_proc_from_some pid s.proc_table 0 a h
  exact ⟨p, by simpa using hp, hpp⟩

theorem pid_to_proc_from_congr (pid : Int) (l l1 : List proc_t) (i : Nat)
    (h : l.map (fun p => p.pid) = l1.map (fun p => p.pid)) :
    pid_to_proc_from pid l i = pid_to_proc_from pid l1 i := by
  induction l generalizing l1 i with
  | nil =>
    cases l1 with
    | nil => rfl
    | cons q qs => simp at h
  | cons p ps ih =>
    cases l1 with
    | nil => simp at h
    | cons q qs =>
      simp only [List.map_cons, List.cons.injEq] at h
      simp only [pid_to_proc_from, h.1]
      rw [ih qs (i + 1) h.2]

theorem pid_to_proc_congr (s s1 : Kernel) (pid : Int)
    (h : s.proc_table.map (fun p => p.pid) = s1.proc_table.map (fun p => p.pid)) :
    pid_to_proc s pid = pid_to_proc s1 pid :=
  pid_to_proc_from_congr pid _ _ 0 h

theorem map_pid_set (l : List proc_t) (e : Nat) (p p1 : proc_t) (h : l[e]? = some p)
    (hp : p1.pid = p.pid) :
    (l.set e p1).map (fun p => p.pid) = l.map (fun p => p.pid) := by
  apply List.ext_getElem?
  intro i
  simp only [List.getElem?_map, List.getElem?_set]
  by_cases hi : e = i
  · subst hi
    have hlt : e < l.length := by
      rcases Nat.lt_or_ge e l.length with h1 | h1
      · exact h1
      · rw [List.getElem?_eq_none h1] at h; cases h
    simp [hlt, h, hp]
  · simp [hi]

theorem pid_to_proc_from_isSome (pid : Int) (l : List proc_t) (i : Nat) :
    (∃ p ∈ l, p.pid = pid) → ∃ a, pid_to_proc_from pid l i = some a := by
  induction l generalizing i with
  | nil => simp
  | cons p ps ih =>
    intro h
    unfold pid_to_proc_from
    split
    · exact ⟨i, rfl⟩
    · rename_i hne
      obtain ⟨q, hq, hqp⟩ := h
      rcases List.mem_cons.mp hq with h1 | h1
      · subst h1; exact absurd hqp hne
      · exact ih (i + 1) ⟨q, h1, hqp⟩

theorem pid_to_proc_of_mem (s : Kernel) (e : Nat) (p : proc_t) (h : s.proc_table[e]? = some p) :
    ∃ a, pid_to_proc s p.pid = some a :=
  pid_to_proc_from_isSome p.pid s.proc_table 0 ⟨p, List.getElem?_mem h, rfl⟩

theorem lt_length_of_getElem? {α : Type} (l : List α) (e : Nat) (p : α) (h : l[e]? = some p) :
    e < l.length := by
  rcases Nat.lt_or_ge e l.length with h1 | h1
  · exact h1
  · rw [List.getElem?_eq_none h1] at h; cases h

/-! ### Scheduler lemmas -/

theorem scheduler_add_spec (s : Kernel) (e : Nat) (p : proc_t)
    (hp : s.proc_table[e]? = some p) (hw : s.run_queue.wf) (hs : s.run_queue.size < QUEUE_SIZE) :
    ∃ q, queue_in s.run_queue p.pid = some q ∧ q.wf ∧ q.toList = s.run_queue.toList ++ [p.pid] ∧
      q.size = s.run_queue.size + 1 ∧
      scheduler_add s (some e) =
        some { s with proc_table := s.proc_table.set e
                        { p with scheduler_queue := some queue_ref.run,
                                 state := proc_state.IDLE, cpu_time := 0 },
                      run_queue := q } := by
  obtain ⟨q, hq, hqw, hql, hqs⟩ := queue_in_spec s.run_queue p.pid hw hs
  exact ⟨q, hq, hqw, hql, hqs, by simp [scheduler_add, hp, hq]⟩

theorem scheduler_add_full (s : Kernel) (proc : Option Nat)
    (h : s.run_queue.size = QUEUE_SIZE) : scheduler_add s proc = none := by
  unfold scheduler_add
  cases proc with
  | none => rfl
  | some e =>
    cases hp : s.proc_table[e]? <;> simp [hp, (queue_in_eq_none _ _).mpr h]

/-- The state before the selection block of `scheduler_run`: either the active
process keeps the CPU and nothing changed, or there is no active process and the
run queue holds `run_list_after_slice`. -/
theorem scheduler_run_pre (s s2 : Kernel) (hrq : s.run_queue.wf)
    (h : (scheduler_run_drop s).bind scheduler_run_slice = some s2) :
    (keeps_cpu s ∧ s2 = s) ∨
    (¬ keeps_cpu s ∧ s2.active_proc = none ∧ s2.run_queue.wf ∧
      s2.run_queue.toList = run_list_after_slice s ∧
      s2.proc_table.map (fun p => p.pid) = s.proc_table.map (fun p => p.pid)) := by
  cases ha : s.active_proc with
  | none =>
    have hk : ¬ keeps_cpu s := by
      rintro ⟨b, q, hb, -⟩; rw [ha] at hb; cases hb
    simp only [scheduler_run_drop, ha, Option.some_bind, scheduler_run_slice] at h
    injection h with h
    subst h
    exact Or.inr ⟨hk, ha, hrq, by simp [run_list_after_slice, reenqueued_pid, ha], rfl⟩
  | some b =>
    cases hb : s.proc_table[b]? with
    | none => simp [scheduler_run_drop, ha, hb] at h
    | some q =>
      by_cases hst : q.state = proc_state.ACTIVE
      · have hdrop : scheduler_run_drop s = some s := by
          simp [scheduler_run_drop, ha, hb, hst]
        rw [hdrop] at h
        simp only [Option.some_bind, scheduler_run_slice, ha, hb] at h
        by_cases hc : q.cpu_time ≥ SCHEDULER_TIMESLICE
        · have hk : ¬ keeps_cpu s := by
            rintro ⟨b1, q1, hb1, hq1, -, hlt⟩
            rw [ha] at hb1; cases hb1
            rw [hb] at hq1; cases hq1
            exact absurd hc (not_le.mpr hlt)
          simp only [hc, if_true] at h
          by_cases hpid : q.pid = 0
          · rw [if_neg (not_not.mpr hpid)] at h
            simp only [Kernel.set_proc] at h
            injection h with h
            subst h
            refine Or.inr ⟨hk, rfl, hrq, ?_, ?_⟩
            · simp [run_list_after_slice, reenqueued_pid, ha, hb, hpid]
            · simp only [List.set_set]
              exact map_pid_set _ _ q _ hb rfl
          · rw [if_pos hpid] at h
            cases hadd : scheduler_add (s.set_proc b { q with cpu_time := 0 }) (some b) with
            | none => simp [hadd] at h
            | some s3 =>
              simp only [hadd] at h
              injection h with h
              subst h
              have hlt : b < s.proc_table.length := lt_length_of_getElem? _ _ _ hb
              have hb1 : (s.set_proc b { q with cpu_time := 0 }).proc_table[b]?
                  = some { q with cpu_time := 0 } := by
                simp [Kernel.set_proc, List.getElem?_set_self hlt]
              have hsz : s.run_queue.size < QUEUE_SIZE := by
                rcases Nat.lt_or_ge s.run_queue.size QUEUE_SIZE with h1 | h1
                · exact h1
                · have : s.run_queue.size = QUEUE_SIZE := Nat.le_antisymm hrq.2.2.1 h1
                  rw [scheduler_add_full (s.set_proc b _) _ this] at hadd
                  cases hadd
              obtain ⟨q1, -, hq1w, hq1l, -, hq1⟩ :=
                scheduler_add_spec (s.set_proc b { q with cpu_time := 0 }) b _ hb1 hrq hsz
              rw [hq1] at hadd
              injection hadd with hadd
              subst hadd
              refine Or.inr ⟨hk, rfl, hq1w, ?_, ?_⟩
              · simp [hq1l, run_list_after_slice, reenqueued_pid, ha, hb, hpid, hst, hc,
                  Kernel.set_proc]
              · simp only [Kernel.set_proc, List.set_set]
                exact map_pid_set _ _ q _ hb rfl
        · simp only [hc, if_false] at h
          injection h with h
          exact Or.inl ⟨⟨b, q, ha, hb, hst, not_le.mp hc⟩, h.symm⟩
      · have hk : ¬ keeps_cpu s := by
          rintro ⟨b1, q1, hb1, hq1, hs1, -⟩
          rw [ha] at hb1; cases hb1
          rw [hb] at hq1; cases hq1
          exact hst hs1
        simp only [scheduler_run_drop, ha, hb, hst, ne_eq, not_false_eq_true, if_true,
          Option.some_bind, scheduler_run_slice] at h
        injection h with h
        subst h
        exact Or.inr ⟨hk, rfl, hrq,
          by simp [run_list_after_slice, reenqueued_pid, ha, hb, hst], rfl⟩

theorem scheduler_run_pre_some (s : Kernel) (hrq : s.run_queue.wf)
    (hv : ∀ a, s.active_proc = some a → a < s.proc_table.length)
    (hroom : s.run_queue.size < QUEUE_SIZE) :
    ∃ s2, (scheduler_run_drop s).bind scheduler_run_slice = some s2 := by
  cases ha : s.active_proc with
  | none => exact ⟨s, by simp [scheduler_run_drop, ha, scheduler_run_slice]⟩
  | some b =>
    have hlt := hv b ha
    obtain ⟨q, hb⟩ : ∃ q, s.proc_table[b]? = some q :=
      ⟨s.proc_table[b], List.getElem?_eq_getElem hlt⟩
    by_cases hst : q.state = proc_state.ACTIVE
    · have hdrop : scheduler_run_drop s = some s := by
        simp [scheduler_run_drop, ha, hb, hst]
      rw [hdrop]
      simp only [Option.some_bind, scheduler_run_slice, ha, hb]
      by_cases hc : q.cpu_time ≥ SCHEDULER_TIMESLICE
      · rw [if_pos hc]
        by_cases hpid : q.pid = 0
        · rw [if_neg (not_not.mpr hpid)]
          exact ⟨_, rfl⟩
        · rw [if_pos hpid]
          have hb1 : (s.set_proc b { q with cpu_time := 0 }).proc_table[b]?
              = some { q with cpu_time := 0 } := by
            simp [Kernel.set_proc, List.getElem?_set_self hlt]
          obtain ⟨q1, -, -, -, -, hq1⟩ :=
            scheduler_add_spec (s.set_proc b { q with cpu_time := 0 }) b _ hb1 hrq hroom
          rw [hq1]
          exact ⟨_, rfl⟩
      · rw [if_neg hc]
        exact ⟨_, rfl⟩
    · exact ⟨{ s with active_proc := none },
        by simp [scheduler_run_drop, ha, hb, hst, scheduler_run_slice]⟩

theorem scheduler_run_eq (s : Kernel) :
    scheduler_run s =
      ((scheduler_run_drop s).bind scheduler_run_slice).bind (fun s2 =>
        match (scheduler_run_select s2).active_proc with
        | none => none
        | some a =>
          match (scheduler_run_select s2).proc_table[a]? with
          | none => none
          | some p =>
            some ((scheduler_run_select s2).set_proc a { p with state := proc_state.ACTIVE })) := by
  unfold scheduler_run
  cases scheduler_run_drop s with
  | none => rfl
  | some s1 =>
    simp only [Option.some_bind]
    cases scheduler_run_slice s1 with
    | none => rfl
    | some s2 => rfl

theorem run_list_mem (s : Kernel) (pid : Int) (h : pid ∈ run_list_after_slice s) :
    pid ∈ s.run_queue.toList ∨ ∃ (b : Nat) (q : proc_t), s.proc_table[b]? = some q ∧ q.pid = pid := by
  unfold run_list_after_slice at h
  rcases List.mem_append.mp h with h1 | h1
  · exact Or.inl h1
  · right
    unfold reenqueued_pid at h1
    cases ha : s.active_proc with
    | none => simp [ha] at h1
    | some b =>
      cases hb : s.proc_table[b]? with
      | none => simp [ha, hb] at h1
      | some q =>
        simp only [ha, hb] at h1
        split at h1
        · simp at h1
          exact ⟨b, q, hb, h1.symm⟩
        · simp at h1

/-- C1. For a kernel state in which pid 0 is in the process table: whenever
`scheduler_run` returns, `active_proc` is non-null and in state ACTIVE; an active
process that was ACTIVE with `cpu_time` below the time slice is still the active
process; otherwise the chosen process is the one `pid_to_proc` finds for the pid at
the head of the run queue as it stands after the time-slice re-enqueue (pid 0 when
that queue is empty), and that head has been dequeued.  Moreover `scheduler_run`
does return when `active_proc` points into the table, every queued pid is in the
table and the run queue has room for the re-enqueue. -/
theorem C1_scheduler_run_selects (s : Kernel) (hrq : s.run_queue.wf)
    (h0 : pid_to_proc s 0 ≠ none) :
    (∀ s1, scheduler_run s = some s1 →
      ∃ a p, s1.active_proc = some a ∧ s1.proc_table[a]? = some p ∧
        p.state = proc_state.ACTIVE ∧
        (keeps_cpu s → s.active_proc = some a) ∧
        (¬ keeps_cpu s →
          pid_to_proc s ((run_list_after_slice s).headD 0) = some a ∧
          p.pid = (run_list_after_slice s).headD 0 ∧
          s1.run_queue.toList = (run_list_after_slice s).tail)) ∧
    ((∀ a, s.active_proc = some a → a < s.proc_table.length) →
      (∀ pid ∈ s.run_queue.toList, pid_to_proc s pid ≠ none) →
      s.run_queue.size < QUEUE_SIZE →
      ∃ s1, scheduler_run s = some s1) := by
  have key : ∀ s2, (scheduler_run_drop s).bind scheduler_run_slice = some s2 →
      ∀ a, (keeps_cpu s → s.active_proc = some a) →
        (¬ keeps_cpu s → pid_to_proc s ((run_list_after_slice s).headD 0) = some a) →
        (scheduler_run_select s2).active_proc = some a ∧
        (scheduler_run_select s2).proc_table = s2.proc_table ∧
        (¬ keeps_cpu s →
          (scheduler_run_select s2).run_queue.toList = (run_list_after_slice s).tail) := by
    intro s2 h2 a hk hnk
    rcases scheduler_run_pre s s2 hrq h2 with ⟨hkeep, rfl⟩ | ⟨hnot, hnone, hw2, hl2, hm2⟩
    · have ha := hk hkeep
      refine ⟨by simp [scheduler_run_select, ha], by simp [scheduler_run_select, ha], ?_⟩
      intro hn; exact absurd hkeep hn
    · have hpa := hnk hnot
      rcases Nat.eq_zero_or_pos s2.run_queue.size with hz | hpos
      · have hnil : run_list_after_slice s = [] := by
          rw [← hl2]; exact (queue_toList_eq_nil _).mpr hz
        have hq : queue_out s2.run_queue = none := (queue_out_eq_none _).mpr hz
        rw [hnil] at hpa
        simp only [List.headD_nil] at hpa
        rw [pid_to_proc_congr s s2 0 hm2.symm] at hpa
        refine ⟨by simp [scheduler_run_select, hnone, hq, hpa],
          by simp [scheduler_run_select, hnone, hq], ?_⟩
        intro _
        simp only [scheduler_run_select, hnone, hq, hnil, List.tail_nil]
        exact (queue_toList_eq_nil _).mpr hz
      · obtain ⟨x, q1, hq, -, hxl, -⟩ := queue_out_spec s2.run_queue hw2 hpos
        rw [← hl2, hxl] at hpa
        simp only [List.headD_cons] at hpa
        rw [pid_to_proc_congr s s2 x hm2.symm] at hpa
        refine ⟨by simp [scheduler_run_select, hnone, hq, hpa],
          by simp [scheduler_run_select, hnone, hq], ?_⟩
        intro _
        simp [scheduler_run_select, hnone, hq, ← hl2, hxl]
  constructor
  · intro s1 h
    rw [scheduler_run_eq] at h
    cases h2 : (scheduler_run_drop s).bind scheduler_run_slice with
    | none => rw [h2] at h; cases h
    | some s2 =>
      rw [h2] at h
      simp only [Option.some_bind] at h
      cases ha3 : (scheduler_run_select s2).active_proc with
      | none => simp [ha3] at h
      | some a =>
        cases hp3 : (scheduler_run_select s2).proc_table[a]? with
        | none => simp [ha3, hp3] at h
        | some p =>
          simp only [ha3, hp3] at h
          injection h with h
          subst h
          have hlt := lt_length_of_getElem? _ _ _ hp3
          refine ⟨a, { p with state := proc_state.ACTIVE }, ha3,
            by simp [Kernel.set_proc, List.getElem?_set_self hlt], rfl, ?_, ?_⟩
          · intro hkeep
            rcases scheduler_run_pre s s2 hrq h2 with ⟨-, rfl⟩ | ⟨hnot, -⟩
            · obtain ⟨b, q, hb, -⟩ := hkeep
              simpa [scheduler_run_select, hb] using ha3
            · exact absurd hkeep hnot
          · intro hnot
            rcases scheduler_run_pre s s2 hrq h2 with ⟨hkeep, -⟩ | ⟨-, hnone, hw2, hl2, hm2⟩
            · exact absurd hkeep hnot
            · have hsel : pid_to_proc s ((run_list_after_slice s).headD 0) = some a := by
                rcases Nat.eq_zero_or_pos s2.run_queue.size with hz | hpos
                · have hnil : run_list_after_slice s = [] := by
                    rw [← hl2]; exact (queue_toList_eq_nil _).mpr hz
                  have hq : queue_out s2.run_queue = none := (queue_out_eq_none _).mpr hz
                  rw [hnil, List.headD_nil, pid_to_proc_congr s s2 0 hm2.symm]
                  simpa [scheduler_run_select, hnone, hq] using ha3
                · obtain ⟨x, q1, hq, -, hxl, -⟩ := queue_out_spec s2.run_queue hw2 hpos
                  rw [← hl2, hxl, List.headD_cons, pid_to_proc_congr s s2 x hm2.symm]
                  simpa [scheduler_run_select, hnone, hq] using ha3
              obtain ⟨-, htbl, htl⟩ := key s2 h2 a (fun hk => absurd hk hnot) (fun _ => hsel)
              refine ⟨hsel, ?_, htl hnot⟩
              obtain ⟨p0, hp0, hpid0⟩ := pid_to_proc_some s _ a hsel
              have hmap := congrArg (fun l => l[a]?) hm2
              simp only [List.getElem?_map] at hmap
              rw [← htbl, hp3, hp0] at hmap
              simp only [Option.map_some'] at hmap
              injection hmap with hmap
              show p.pid = _
              rw [hmap, hpid0]
  · intro hv hlive hroom
    obtain ⟨s2, h2⟩ := scheduler_run_pre_some s hrq hv hroom
    have hex : ∃ a, (keeps_cpu s → s.active_proc = some a) ∧
        (¬ keeps_cpu s → pid_to_proc s ((run_list_after_slice s).headD 0) = some a) := by
      by_cases hk : keeps_cpu s
      · obtain ⟨b, q, hb, hrest⟩ := hk
        exact ⟨b, fun _ => hb, fun hn => absurd (⟨b, q, hb, hrest⟩ : keeps_cpu s) hn⟩
      · have : ∃ a, pid_to_proc s ((run_list_after_slice s).headD 0) = some a := by
          cases hl : run_list_after_slice s with
          | nil =>
            simp only [List.headD_nil]
            exact Option.ne_none_iff_exists'.mp h0
          | cons x xs =>
            simp only [List.headD_cons]
            have hx : x ∈ run_list_after_slice s := by rw [hl]; exact List.mem_cons_self _ _
            rcases run_list_mem s x hx with h1 | ⟨b, q, hb, hq⟩
            · exact Option.ne_none_iff_exists'.mp (hlive x h1)
            · rw [← hq]; exact pid_to_proc_of_mem s b q hb
        obtain ⟨a, ha⟩ := this
        exact ⟨a, fun h => absurd h hk, fun _ => ha⟩
    obtain ⟨a, hka, hna⟩ := hex
    obtain ⟨hact, htbl, -⟩ := key s2 h2 a hka hna
    have hin : ∃ p, s2.proc_table[a]? = some p := by
      rcases scheduler_run_pre s s2 hrq h2 with ⟨hkeep, rfl⟩ | ⟨hnot, -, -, -, hm2⟩
      · have := hv a (hka hkeep)
        exact ⟨_, List.getElem?_eq_getElem this⟩
      · obtain ⟨p0, hp0, -⟩ := pid_to_proc_some s _ a (hna hnot)
        have hlen : s2.proc_table.length = s.proc_table.length := by
          simpa using congrArg List.length hm2
        have hlt : a < s2.proc_table.length := by
          rw [hlen]; exact lt_length_of_getElem? _ _ _ hp0
        exact ⟨_, List.getElem?_eq_getElem hlt⟩
    obtain ⟨p, hp⟩ := hin
    rw [scheduler_run_eq, h2]
    simp only [Option.some_bind, hact, htbl, hp]
    exact ⟨_, rfl⟩

set_option maxRecDepth 100000 in
/-- Witness for C1: at the end of A's time slice, with B queued, `scheduler_run`
returns and selects B (entry 2). -/
theorem C1_witness :
    ex_slice_end.run_queue.wf ∧ pid_to_proc ex_slice_end 0 ≠ none ∧
      ∃ s1, scheduler_run ex_slice_end = some s1 :=
  ⟨by decide, by decide,
    (C1_scheduler_run_selects ex_slice_end (by decide) (by decide)).2
      (by intro a h; have : a = 1 := by { simp [ex_slice_end] at h; exact h.symm }
          subst this; decide)
      (by decide) (by decide)⟩

/-! ### Explicit results of `scheduler_timer` and `scheduler_run` -/

theorem scheduler_add_eq (s : Kernel) (e : Nat) (p : proc_t) (q : queue_t)
    (hp : s.proc_table[e]? = some p) (hq : queue_in s.run_queue p.pid = some q) :
    scheduler_add s (some e) =
      some { s with proc_table := s.proc_table.set e (requeued p), run_queue := q } := by
  simp [scheduler_add, hp, hq, requeued]

theorem scheduler_timer_no_sleepers (s : Kernel) (a : Nat) (p : proc_t)
    (ha : s.active_proc = some a) (hp : s.proc_table[a]? = some p)
    (hs : s.sleep_queue.size = 0) :
    scheduler_timer s = some (s.set_proc a (ticked p)) := by
  simp [scheduler_timer, ha, hp, Kernel.set_proc, hs, scheduler_timer_loop, ticked]

theorem scheduler_timer_no_sleepers_no_active (s : Kernel)
    (ha : s.active_proc = none) (hs : s.sleep_queue.size = 0) :
    scheduler_timer s = some s := by
  simp [scheduler_timer, ha, hs, scheduler_timer_loop]

theorem scheduler_run_of_none (s : Kernel) (pid : Int) (q : queue_t) (a : Nat) (p : proc_t)
    (ha : s.active_proc = none) (hq : queue_out s.run_queue = some (pid, q))
    (hpid : pid_to_proc s pid = some a) (hp : s.proc_table[a]? = some p) :
    scheduler_run s =
      some { s with run_queue := q, active_proc := some a,
                    proc_table := s.proc_table.set a (activated p) } := by
  simp [scheduler_run, scheduler_run_drop, scheduler_run_slice, scheduler_run_select, ha, hq,
    hpid, hp, Kernel.set_proc, activated]

theorem scheduler_run_keep (s : Kernel) (a : Nat) (p : proc_t)
    (ha : s.active_proc = some a) (hp : s.proc_table[a]? = some p)
    (hst : p.state = proc_state.ACTIVE) (hc : p.cpu_time < SCHEDULER_TIMESLICE) :
    scheduler_run s = some (s.set_proc a (activated p)) := by
  have hc1 : ¬ p.cpu_time ≥ SCHEDULER_TIMESLICE := not_le.mpr hc
  simp [scheduler_run, scheduler_run_drop, scheduler_run_slice, scheduler_run_select, ha, hp,
    hst, hc1, activated]

theorem scheduler_run_switch (s : Kernel) (b : Nat) (p : proc_t) (q1 q2 : queue_t)
    (pid : Int) (a : Nat)
    (ha : s.active_proc = some b) (hp : s.proc_table[b]? = some p)
    (hst : p.state = proc_state.ACTIVE) (hc : p.cpu_time ≥ SCHEDULER_TIMESLICE)
    (hnz : p.pid ≠ 0) (hin : queue_in s.run_queue p.pid = some q1)
    (hout : queue_out q1 = some (pid, q2)) (hpid : pid_to_proc s pid = some a) :
    ∃ p1, (s.proc_table.set b (requeued p))[a]? = some p1 ∧
      scheduler_run s =
        some { s with
          run_queue := q2, active_proc := some a,
          proc_table := (s.proc_table.set b (requeued p)).set a (activated p1) } := by
  have hblt := lt_length_of_getElem? _ _ _ hp
  obtain ⟨p0, hp0, -⟩ := pid_to_proc_some s pid a hpid
  have halt := lt_length_of_getElem? _ _ _ hp0
  obtain ⟨p1, hp1⟩ : ∃ p1, (s.proc_table.set b (requeued p))[a]? = some p1 :=
    ⟨_, List.getElem?_eq_getElem (by simpa using halt)⟩
  refine ⟨p1, hp1, ?_⟩
  have hdrop : scheduler_run_drop s = some s := by
    simp [scheduler_run_drop, ha, hp, hst]
  have hm : (s.proc_table.set b (requeued p)).map (fun p => p.pid)
      = s.proc_table.map (fun p => p.pid) := map_pid_set _ _ p _ hp rfl
  have hslice : scheduler_run_slice s = some { s with
      run_queue := q1, active_proc := none,
      proc_table := s.proc_table.set b (requeued p) } := by
    simp only [scheduler_run_slice, ha, hp]
    rw [if_pos hc, if_pos hnz]
    simp [scheduler_add, Kernel.set_proc, List.getElem?_set_self hblt, hin, requeued]
  have hpid1 : pid_to_proc { s with
      run_queue := q1, active_proc := none,
      proc_table := s.proc_table.set b (requeued p) } pid = some a := by
    rw [← hpid]; exact pid_to_proc_congr _ _ _ hm
  simp only [scheduler_run, hdrop, hslice, scheduler_run_select, hout, hpid1, hp1,
    Kernel.set_proc, activated]

/-! ### Round robin -/

theorem iterate_succ (f : Kernel → Option Kernel) (n : Nat) (s : Kernel) :
    iterate f (n + 1) s = (f s).bind (iterate f n) := by
  cases hf : f s <;> simp [iterate, hf]

theorem iterate_succ_last (f : Kernel → Option Kernel) (n : Nat) (s : Kernel) :
    iterate f (n + 1) s = (iterate f n s).bind f := by
  induction n generalizing s with
  | zero =>
    simp only [iterate, Option.some_bind]
    cases f s <;> rfl
  | succ n ih =>
    rw [iterate_succ f (n + 1) s, iterate_succ f n s]
    cases f s with
    | none => rfl
    | some s1 => simp only [Option.some_bind, ih s1]

theorem pid_at_congr (s s0 : Kernel) (e : Nat)
    (h : s.proc_table.map (fun p => p.pid) = s0.proc_table.map (fun p => p.pid)) :
    pid_at s e = pid_at s0 e := by
  have := congrArg (fun l => l[e]?) h
  simp only [List.getElem?_map] at this
  simp [pid_at, this]

theorem pid_at_of_getElem? (s : Kernel) (e : Nat) (p : proc_t) (h : s.proc_table[e]? = some p) :
    pid_at s e = p.pid := by
  simp [pid_at, h]

theorem seeded_entry (s0 : Kernel) (es : List Nat) (hs : seeded s0 es) (e : Nat) (he : e ∈ es) :
    pid_at s0 e ≠ 0 ∧ pid_to_proc s0 (pid_at s0 e) = some e := by
  obtain ⟨p, hp, -, -, hnz, hpp⟩ := hs.2.2.2.2.2.2 e he
  rw [pid_at_of_getElem? s0 e p hp]
  exact ⟨hnz, hpp⟩

theorem seeded_length (s0 : Kernel) (es : List Nat) (hs : seeded s0 es) :
    es.length ≤ QUEUE_SIZE := by
  have h1 := congrArg List.length hs.2.2.2.2.2.1
  rw [queue_toList_length, List.length_map] at h1
  rw [← h1]
  exact hs.2.2.2.2.1.2.2.1

/-- The first tick of the round-robin scenario schedules the head of the run queue. -/
theorem rr_first (s0 : Kernel) (es : List Nat) (hs : seeded s0 es) :
    ∃ s, tick s0 = some s ∧ rr_inv s0 es 0 0 s := by
  obtain ⟨hne, hnd, hact, hsl, hw, hl, hent⟩ := hs
  obtain ⟨hd, rest, rfl⟩ := List.exists_cons_of_ne_nil hne
  have hpos : 0 < s0.run_queue.size := by
    rw [← queue_toList_length, hl]; simp
  obtain ⟨x, q1, hq, hq1w, hxl, -⟩ := queue_out_spec s0.run_queue hw hpos
  rw [hl, List.map_cons] at hxl
  injection hxl with hx hrest
  obtain ⟨p, hp, -, hc, hnz, hpp⟩ := hent hd (List.mem_cons_self _ _)
  have hxp : x = p.pid := by rw [← hx, pid_at_of_getElem? s0 hd p hp]
  subst hxp
  have hlt := lt_length_of_getElem? _ _ _ hp
  have htick : tick s0 =
      some { s0 with run_queue := q1, active_proc := some hd,
                     proc_table := s0.proc_table.set hd (activated p) } := by
    simp only [tick, scheduler_timer_no_sleepers_no_active s0 hact hsl]
    exact scheduler_run_of_none s0 p.pid q1 hd p hact hq hpp hp
  refine ⟨_, htick, ?_⟩
  · refine ⟨map_pid_set _ _ p _ hp rfl, hsl, hq1w, hd, rest, by simp, rfl, hrest.symm, ?_, ?_⟩
    · exact ⟨activated p, by simp [List.getElem?_set_self hlt], rfl, hc⟩
    · intro e he
      have hne1 : hd ≠ e := by
        rintro rfl
        exact (List.nodup_cons.mp hnd).1 he
      obtain ⟨pe, hpe, -, hce, -⟩ := hent e (List.mem_cons_of_mem _ he)
      exact ⟨pe, by simp [List.getElem?_set_ne hne1, hpe], hce⟩

theorem rr_head_ne (es : List Nat) (j hd : Nat) (rest : List Nat) (hnd : es.Nodup)
    (hrot : es.rotate j = hd :: rest) (e : Nat) (he : e ∈ rest) : hd ≠ e := by
  have h1 : (hd :: rest).Nodup := by rw [← hrot]; exact List.nodup_rotate.mpr hnd
  rintro rfl
  exact (List.nodup_cons.mp h1).1 he

/-- A tick inside a time slice keeps the active process. -/
theorem rr_keep (s0 : Kernel) (es : List Nat) (j : Nat) (r : Int) (s : Kernel)
    (hnd : es.Nodup) (hi : rr_inv s0 es j r s) (hr : r + 1 < SCHEDULER_TIMESLICE) :
    ∃ s1, tick s = some s1 ∧ rr_inv s0 es j (r + 1) s1 := by
  obtain ⟨hm, hsl, hw, hd, rest, hrot, hact, hl, ⟨p, hp, hst, hc⟩, hrest⟩ := hi
  have hlt := lt_length_of_getElem? _ _ _ hp
  have ht := scheduler_timer_no_sleepers s hd p hact hp hsl
  have hp1 : (s.set_proc hd (ticked p)).proc_table[hd]? = some (ticked p) := by
    simp [Kernel.set_proc, List.getElem?_set_self hlt]
  have hrun := scheduler_run_keep (s.set_proc hd (ticked p)) hd (ticked p) hact hp1 hst
    (by show p.cpu_time + 1 < _; rw [hc]; exact hr)
  have htick : tick s = some ((s.set_proc hd (ticked p)).set_proc hd (activated (ticked p))) := by
    simp only [tick, ht]; exact hrun
  refine ⟨_, htick, ?_⟩
  refine ⟨?_, hsl, hw, hd, rest, hrot, hact, hl, ?_, ?_⟩
  · simp only [Kernel.set_proc, List.set_set]
    rw [map_pid_set s.proc_table hd p (activated (ticked p)) hp rfl]
    exact hm
  · exact ⟨activated (ticked p), by simp [Kernel.set_proc, List.getElem?_set_self hlt], rfl,
      by show p.cpu_time + 1 = _; rw [hc]⟩
  · intro e he
    have hne := rr_head_ne es j hd rest hnd hrot e he
    obtain ⟨pe, hpe, hce⟩ := hrest e he
    exact ⟨pe, by simp [Kernel.set_proc, List.getElem?_set_ne hne, hpe], hce⟩

/-- The tick that ends a time slice re-enqueues the active process and schedules the
head of the run queue. -/
theorem rr_switch (s0 : Kernel) (es : List Nat) (j : Nat) (r : Int) (s : Kernel)
    (hs0 : seeded s0 es) (hi : rr_inv s0 es j r s) (hr : r + 1 = SCHEDULER_TIMESLICE) :
    ∃ s1, tick s = some s1 ∧ rr_inv s0 es (j + 1) 0 s1 := by
  have hnd : es.Nodup := hs0.2.1
  obtain ⟨hm, hsl, hw, hd, rest, hrot, hact, hl, ⟨p, hp, hst, hc⟩, hrest⟩ := hi
  have hlt := lt_length_of_getElem? _ _ _ hp
  have ht := scheduler_timer_no_sleepers s hd p hact hp hsl
  have hp1 : (s.set_proc hd (ticked p)).proc_table[hd]? = some (ticked p) := by
    simp [Kernel.set_proc, List.getElem?_set_self hlt]
  have hm1 : (s.set_proc hd (ticked p)).proc_table.map (fun p => p.pid)
      = s0.proc_table.map (fun p => p.pid) := by
    simp only [Kernel.set_proc]
    rw [map_pid_set s.proc_table hd p (ticked p) hp rfl]
    exact hm
  have hmem : ∀ e ∈ hd :: rest, e ∈ es := by
    intro e he
    rw [← hrot] at he
    exact List.mem_rotate.mp he
  -- the pid of the active process
  have hpid : p.pid = pid_at s0 hd := by
    rw [← pid_at_congr s s0 hd hm, pid_at_of_getElem? s hd p hp]
  have hnz : p.pid ≠ 0 := by
    rw [hpid]; exact (seeded_entry s0 es hs0 hd (hmem hd (List.mem_cons_self _ _))).1
  -- the re-enqueue has room
  have hlen : rest.length + 1 ≤ QUEUE_SIZE := by
    have h1 := seeded_length s0 es hs0
    have h2 : (es.rotate j).length = es.length := List.length_rotate _ _
    rw [hrot] at h2
    simp only [List.length_cons] at h2
    omega
  have hsz : s.run_queue.size < QUEUE_SIZE := by
    have h1 := congrArg List.length hl
    rw [queue_toList_length, List.length_map] at h1
    omega
  obtain ⟨q1, hq1, hq1w, hq1l, hq1s⟩ := queue_in_spec s.run_queue p.pid hw hsz
  obtain ⟨x, q2, hq2, hq2w, hxl, -⟩ := queue_out_spec q1 hq1w (by omega)
  -- the rotated list
  have hrot1 : es.rotate (j + 1) = rest ++ [hd] := by
    rw [← List.rotate_rotate, hrot, List.rotate_cons_succ, List.rotate_zero]
  obtain ⟨hd1, rest1, hr1⟩ : ∃ hd1 rest1, rest ++ [hd] = hd1 :: rest1 := by
    cases rest with
    | nil => exact ⟨hd, [], rfl⟩
    | cons y ys => exact ⟨y, ys ++ [hd], rfl⟩
  have hlist : x :: q2.toList = (hd1 :: rest1).map (pid_at s0) := by
    rw [← hxl, hq1l, hl, ← hr1, List.map_append, List.map_cons, List.map_nil, hpid]
  rw [List.map_cons] at hlist
  injection hlist with hx hq2l
  have hmem1 : ∀ e ∈ hd1 :: rest1, e ∈ es := by
    intro e he
    rw [← hr1, ← hrot1] at he
    exact List.mem_rotate.mp he
  have hpx : pid_to_proc (s.set_proc hd (ticked p)) x = some hd1 := by
    rw [pid_to_proc_congr _ s0 x hm1, hx]
    exact (seeded_entry s0 es hs0 hd1 (hmem1 hd1 (List.mem_cons_self _ _))).2
  obtain ⟨p1, hp1a, hrun⟩ := scheduler_run_switch (s.set_proc hd (ticked p)) hd (ticked p)
    q1 q2 x hd1 hact hp1 hst (by show p.cpu_time + 1 ≥ _; rw [hc, hr]) hnz hq1 hq2 hpx
  refine ⟨_, by simp only [tick, ht]; exact hrun, ?_⟩
  have hnd1 : (hd1 :: rest1).Nodup := by
    rw [← hr1, ← hrot1]; exact List.nodup_rotate.mpr hnd
  simp only [Kernel.set_proc, List.set_set] at hp1a ⊢
  have hlt1 := lt_length_of_getElem? _ _ _ hp1a
  have hcpu1 : p1.cpu_time = 0 := by
    by_cases heq : hd = hd1
    · subst heq
      rw [List.getElem?_set_self hlt] at hp1a
      injection hp1a with hp1a
      rw [← hp1a]; rfl
    · rw [List.getElem?_set_ne heq] at hp1a
      have hin : hd1 ∈ rest := by
        have : hd1 ∈ rest ++ [hd] := by rw [hr1]; exact List.mem_cons_self _ _
        rcases List.mem_append.mp this with h | h
        · exact h
        · simp at h; exact absurd h.symm heq
      obtain ⟨pe, hpe, hce⟩ := hrest hd1 hin
      rw [hpe] at hp1a
      injection hp1a with hp1a
      rw [← hp1a]; exact hce
  refine ⟨?_, hsl, hq2w, hd1, rest1, by rw [hrot1, hr1], rfl, hq2l, ?_, ?_⟩
  · rw [map_pid_set _ hd1 p1 (activated p1) hp1a rfl,
      map_pid_set s.proc_table hd p (requeued (ticked p)) hp rfl]
    exact hm
  · exact ⟨activated p1, List.getElem?_set_self hlt1, rfl, hcpu1⟩
  · intro e he
    have hne1 : hd1 ≠ e := by
      rintro rfl
      exact (List.nodup_cons.mp hnd1).1 he
    rw [List.getElem?_set_ne hne1]
    by_cases heq : hd = e
    · subst heq
      exact ⟨requeued (ticked p), List.getElem?_set_self hlt, rfl⟩
    · rw [List.getElem?_set_ne heq]
      have hin : e ∈ rest := by
        have : e ∈ rest ++ [hd] := by rw [hr1]; exact List.mem_cons_of_mem _ he
        rcases List.mem_append.mp this with h | h
        · exact h
        · simp at h; exact absurd h.symm heq
      exact hrest e hin

/-- After `t + 1` ticks of the round-robin scenario, `t / 10` slices are complete and
the active process has used `t % 10` ticks of its slice. -/
theorem rr_after (s0 : Kernel) (es : List Nat) (hs0 : seeded s0 es) (t : Nat) :
    ∃ s, iterate tick (t + 1) s0 = some s ∧
      rr_inv s0 es (t / 10) ((t % 10 : Nat) : Int) s := by
  induction t with
  | zero =>
    obtain ⟨s, hs, hi⟩ := rr_first s0 es hs0
    exact ⟨s, by simp [iterate, hs], hi⟩
  | succ t ih =>
    obtain ⟨s, hs, hi⟩ := ih
    rw [iterate_succ_last, hs, Option.some_bind]
    by_cases hlt : t % 10 + 1 < 10
    · have h1 : (t + 1) / 10 = t / 10 := by omega
      have h2 : (((t + 1) % 10 : Nat) : Int) = ((t % 10 : Nat) : Int) + 1 := by
        have : (t + 1) % 10 = t % 10 + 1 := by omega
        rw [this]; push_cast; rfl
      rw [h1, h2]
      exact rr_keep s0 es _ _ s hs0.2.1 hi (by simp only [SCHEDULER_TIMESLICE]; omega)
    · have h1 : (t + 1) / 10 = t / 10 + 1 := by omega
      have h2 : (((t + 1) % 10 : Nat) : Int) = 0 := by
        have : (t + 1) % 10 = 0 := by omega
        rw [this]; rfl
      rw [h1, h2]
      exact rr_switch s0 es _ _ s hs0 hi (by simp only [SCHEDULER_TIMESLICE]; omega)

set_option maxRecDepth 100000 in
/-- C2. Round-robin fairness.  From a run queue seeded with the pids of `k >= 1`
distinct IDLE processes `es` with non-zero pids, no active process and an empty sleep
queue, every tick (`scheduler_timer` then `scheduler_run`) returns, and after tick
`t >= 1` the active process is entry `((t-1) div SCHEDULER_TIMESLICE) mod k` of `es`.
For the run queue `[A, B, C]`, 31 ticks give the active pids A x10, B x10, C x10, A. -/
theorem C2_round_robin (s0 : Kernel) (es : List Nat) (hs0 : seeded s0 es) :
    (∀ t, 1 ≤ t → ∃ s, iterate tick t s0 = some s ∧
      s.active_proc = es[((t - 1) / SCHEDULER_TIMESLICE.toNat) % es.length]?) ∧
    (List.range 31).map (fun n => (iterate tick (n + 1) ex_rr).bind active_pid)
      = List.replicate 10 (some 1) ++ List.replicate 10 (some 2)
          ++ List.replicate 10 (some 3) ++ [some 1] := by
  refine ⟨?_, by decide⟩
  intro t ht
  obtain ⟨n, rfl⟩ : ∃ n, t = n + 1 := ⟨t - 1, by omega⟩
  obtain ⟨s, hs, -, -, -, hd, rest, hrot, hact, -⟩ := rr_after s0 es hs0 n
  refine ⟨s, hs, ?_⟩
  have hlen : 0 < es.length := List.length_pos.mpr hs0.1
  have hmod : n / 10 % es.length < es.length := Nat.mod_lt _ hlen
  have h1 : (es.rotate (n / 10)).head? = es[n / 10 % es.length]? := by
    rw [← List.rotate_mod, List.head?_rotate hmod]
  rw [hrot, List.head?_cons] at h1
  rw [hact, h1]
  rfl

/-- Witness for C2: the scenario state is seeded with `[A, B, C]`, and after 31 ticks
the active process is A again. -/
theorem C2_witness :
    seeded ex_rr [1, 2, 3] ∧
      ∃ s, iterate tick 31 ex_rr = some s ∧ s.active_proc = some 1 := by
  have h : seeded ex_rr [1, 2, 3] := by
    refine ⟨by decide, by decide, by decide, by decide, by decide, by decide, ?_⟩
    intro e he
    simp only [List.mem_cons, List.mem_singleton, List.not_mem_nil, or_false] at he
    rcases he with rfl | rfl | rfl
    · exact ⟨_, rfl, rfl, rfl, by decide, by decide⟩
    · exact ⟨_, rfl, rfl, rfl, by decide, by decide⟩
    · exact ⟨_, rfl, rfl, rfl, by decide, by decide⟩
  exact ⟨h, (C2_round_robin ex_rr [1, 2, 3] h).1 31 (by decide)⟩

/-! ### The loop of `scheduler_remove` -/

/-- The loop of `scheduler_remove` on a well-formed queue never panics, keeps the
queue well-formed, and acts on the queued pids as `rot_loop`. -/
theorem scheduler_remove_loop_spec (pid : Int) (fuel i : Nat) (q : queue_t)
    (hw : q.wf) (hf : q.size - i ≤ fuel) :
    ∃ q1, scheduler_remove_loop pid fuel i q = some q1 ∧ q1.wf ∧
      q1.toList = rot_loop pid fuel i q.toList ∧ q1.size ≤ q.size := by
  induction fuel generalizing i q with
  | zero =>
    have : ¬ i < q.size := by omega
    exact ⟨q, by simp [scheduler_remove_loop, this], hw, by simp [rot_loop], Nat.le_refl _⟩
  | succ fuel ih =>
    by_cases hi : i < q.size
    · have hpos : 0 < q.size := by omega
      obtain ⟨x, q1, hq1, hq1w, hxl, hq1s⟩ := queue_out_spec q hw hpos
      have hlen : i < q.toList.length := by rw [queue_toList_length]; exact hi
      by_cases hx : pid = x
      · obtain ⟨q2, hq2, hq2w, hq2l, hq2s⟩ := ih (i + 1) q1 hq1w (by omega)
        refine ⟨q2, ?_, hq2w, ?_, by omega⟩
        · simp only [scheduler_remove_loop, hi, if_true, hq1, hx]
          rw [← hx]; exact hq2
        · rw [hq2l, hxl]
          simp only [rot_loop, List.length_cons]
          rw [if_pos (by rw [hxl] at hlen; simpa using hlen), if_pos hx]
      · have hroom : q1.size < QUEUE_SIZE := by
          have := hw.2.2.1
          omega
        obtain ⟨q2, hq2, hq2w, hq2l, hq2s⟩ := queue_in_spec q1 x hq1w hroom
        obtain ⟨q3, hq3, hq3w, hq3l, hq3s⟩ := ih (i + 1) q2 hq2w (by omega)
        refine ⟨q3, ?_, hq3w, ?_, by omega⟩
        · simp only [scheduler_remove_loop, hi, if_true, hq1, hx, if_false, hq2]
          exact hq3
        · rw [hq3l, hq2l, hxl]
          simp only [rot_loop, List.length_cons]
          rw [if_pos (by rw [hxl] at hlen; simpa using hlen), if_neg hx]
    · refine ⟨q, by simp [scheduler_remove_loop, hi], hw, ?_, Nat.le_refl _⟩
      have : ¬ i < q.toList.length := by rw [queue_toList_length]; exact hi
      simp [rot_loop, this]

/-- When the pid is not queued, the loop of `scheduler_remove` is a full rotation. -/
theorem rot_loop_absent (pid : Int) (fuel i : Nat) (l : List Int) (hn : pid ∉ l)
    (hf : fuel = l.length - i) : rot_loop pid fuel i l = l.rotate fuel := by
  induction fuel generalizing i l with
  | zero => simp [rot_loop]
  | succ fuel ih =>
    have hi : i < l.length := by omega
    cases l with
    | nil => simp at hi
    | cons x xs =>
      have hx : pid ≠ x := fun h => hn (by rw [h]; exact List.mem_cons_self _ _)
      simp only [rot_loop, hi, if_true, if_neg hx]
      rw [ih (i + 1) (xs ++ [x]) (by
        intro h
        rcases List.mem_append.mp h with h1 | h1
        · exact hn (List.mem_cons_of_mem _ h1)
        · simp at h1; exact hx h1) (by simp at hf ⊢; omega), List.rotate_cons_succ]

theorem rot_loop_absent_full (pid : Int) (l : List Int) (hn : pid ∉ l) :
    rot_loop pid l.length 0 l = l := by
  rw [rot_loop_absent pid l.length 0 l hn (by simp), List.rotate_length]

theorem removed_from_wf (pid : Int) (q q2 : queue_t) (h : removed_from pid q q2) (hw : q.wf) :
    q2.wf ∧ q2.size ≤ q.size ∧ (pid ∉ q.toList → q2.toList = q.toList) := by
  rcases h with rfl | ⟨-, h2, h3, h4⟩
  · exact ⟨hw, Nat.le_refl _, fun _ => rfl⟩
  · refine ⟨h2, h3, fun hn => ?_⟩
    rw [h4, ← queue_toList_length q]
    exact rot_loop_absent_full pid q.toList hn

theorem removed_from_loop (pid : Int) (q q1 : queue_t) (hw : q.wf)
    (h : scheduler_remove_loop pid q.size 0 q = some q1) : removed_from pid q q1 := by
  obtain ⟨q2, h2, h2w, h2l, h2s⟩ := scheduler_remove_loop_spec pid q.size 0 q hw (by omega)
  rw [h] at h2
  injection h2 with h2
  subst h2
  exact Or.inr ⟨hw, h2w, h2s, h2l⟩

/-- The frame of `scheduler_remove`: for a PCB whose `scheduler_queue` is null or
points at a well-formed queue, the call returns; it clears the PCB's queue pointer,
clears `active_proc` when it is that PCB, rotates at most the pointed-at queue and
changes nothing else. -/
theorem scheduler_remove_spec (s : Kernel) (e : Nat) (p : proc_t)
    (hp : s.proc_table[e]? = some p)
    (hq : ∀ r, p.scheduler_queue = some r → ∃ q, s.queue r = some q ∧ q.wf) :
    ∃ s2, scheduler_remove s (some e) = some s2 ∧
      s2.active_proc = (if s.active_proc = some e then none else s.active_proc) ∧
      s2.proc_table = s.proc_table.set e (unqueued p) ∧
      removed_from p.pid s.run_queue s2.run_queue ∧
      removed_from p.pid s.sleep_queue s2.sleep_queue ∧
      s2.mutexes.length = s.mutexes.length ∧
      (∀ i m, s.mutexes[i]? = some m → ∃ m2, s2.mutexes[i]? = some m2 ∧
        m2.allocated = m.allocated ∧ m2.locks = m.locks ∧ m2.owner = m.owner ∧
        removed_from p.pid m.wait_queue m2.wait_queue ∧
        (p.scheduler_queue ≠ some (queue_ref.mutex i) → m2 = m)) ∧
      s2.semaphores.length = s.semaphores.length ∧
      (∀ i m, s.semaphores[i]? = some m → ∃ m2, s2.semaphores[i]? = some m2 ∧
        m2.allocated = m.allocated ∧ m2.count = m.count ∧
        removed_from p.pid m.wait_queue m2.wait_queue ∧
        (p.scheduler_queue ≠ some (queue_ref.sem i) → m2 = m)) ∧
      s2.proc_allocator = s.proc_allocator ∧ s2.next_pid = s.next_pid ∧
      s2.timer_ticks = s.timer_ticks ∧ s2.mutex_queue = s.mutex_queue ∧
      s2.sem_queue = s.sem_queue ∧ s2.ringbufs = s.ringbufs ∧
      (p.scheduler_queue ≠ some queue_ref.run → s2.run_queue = s.run_queue) ∧
      (p.scheduler_queue ≠ some queue_ref.sleep → s2.sleep_queue = s.sleep_queue) := by
  have hlt := lt_length_of_getElem? _ _ _ hp
  cases hsq : p.scheduler_queue with
  | none =>
    have hun : unqueued p = p := by
      cases p; simp only [unqueued] at hsq ⊢; simp_all
    have htbl : s.proc_table.set e (unqueued p) = s.proc_table := by
      rw [hun]
      apply List.ext_getElem?
      intro i
      by_cases hi : e = i
      · subst hi; rw [List.getElem?_set_self hlt, hp]
      · rw [List.getElem?_set_ne hi]
    have hrun : scheduler_remove s (some e) =
        some (if s.active_proc = some e then { s with active_proc := none } else s) := by
      simp only [scheduler_remove, hp, hsq]
    refine ⟨_, hrun, ?_⟩
    by_cases ha : s.active_proc = some e
    · rw [if_pos ha, if_pos ha]
      exact ⟨rfl, htbl.symm, Or.inl rfl, Or.inl rfl, rfl,
        fun i m hm => ⟨m, hm, rfl, rfl, rfl, Or.inl rfl, fun _ => rfl⟩, rfl,
        fun i m hm => ⟨m, hm, rfl, rfl, Or.inl rfl, fun _ => rfl⟩, rfl, rfl, rfl, rfl, rfl, rfl, fun _ => rfl, fun _ => rfl⟩
    · rw [if_neg ha, if_neg ha]
      exact ⟨rfl, htbl.symm, Or.inl rfl, Or.inl rfl, rfl,
        fun i m hm => ⟨m, hm, rfl, rfl, rfl, Or.inl rfl, fun _ => rfl⟩, rfl,
        fun i m hm => ⟨m, hm, rfl, rfl, Or.inl rfl, fun _ => rfl⟩, rfl, rfl, rfl, rfl, rfl, rfl, fun _ => rfl, fun _ => rfl⟩
  | some r =>
    obtain ⟨q, hqr, hqw⟩ := hq r hsq
    obtain ⟨q1, hq1, hq1w, hq1l, hq1s⟩ :=
      scheduler_remove_loop_spec p.pid q.size 0 q hqw (by omega)
    have hrem : removed_from p.pid q q1 := Or.inr ⟨hqw, hq1w, hq1s, hq1l⟩
    have hrun : scheduler_remove s (some e) =
        some (if ((s.set_queue r q1).set_proc e (unqueued p)).active_proc = some e then
                { (s.set_queue r q1).set_proc e (unqueued p) with active_proc := none }
              else (s.set_queue r q1).set_proc e (unqueued p)) := by
      simp only [scheduler_remove, hp, hsq, hqr, hq1, unqueued]
    refine ⟨_, hrun, ?_⟩
    have hact : ((s.set_queue r q1).set_proc e (unqueued p)).active_proc = s.active_proc := by
      cases r <;> rfl
    rw [hact]
    have hgoal : ∀ s3 : Kernel, s3 = (s.set_queue r q1).set_proc e (unqueued p) →
        s3.proc_table = s.proc_table.set e (unqueued p) ∧
        removed_from p.pid s.run_queue s3.run_queue ∧
        removed_from p.pid s.sleep_queue s3.sleep_queue ∧
        s3.mutexes.length = s.mutexes.length ∧
        (∀ i m, s.mutexes[i]? = some m → ∃ m2, s3.mutexes[i]? = some m2 ∧
          m2.allocated = m.allocated ∧ m2.locks = m.locks ∧ m2.owner = m.owner ∧
          removed_from p.pid m.wait_queue m2.wait_queue ∧
          (some r ≠ some (queue_ref.mutex i) → m2 = m)) ∧
        s3.semaphores.length = s.semaphores.length ∧
        (∀ i m, s.semaphores[i]? = some m → ∃ m2, s3.semaphores[i]? = some m2 ∧
          m2.allocated = m.allocated ∧ m2.count = m.count ∧
          removed_from p.pid m.wait_queue m2.wait_queue ∧
          (some r ≠ some (queue_ref.sem i) → m2 = m)) ∧
        s3.proc_allocator = s.proc_allocator ∧ s3.next_pid = s.next_pid ∧
        s3.timer_ticks = s.timer_ticks ∧ s3.mutex_queue = s.mutex_queue ∧
        s3.sem_queue = s.sem_queue ∧ s3.ringbufs = s.ringbufs ∧
        (some r ≠ some queue_ref.run → s3.run_queue = s.run_queue) ∧
        (some r ≠ some queue_ref.sleep → s3.sleep_queue = s.sleep_queue) := by
      intro s3 hs3
      subst hs3
      cases r with
      | run =>
        simp only [Kernel.queue] at hqr
        injection hqr with hqr
        subst hqr
        exact ⟨rfl, hrem, Or.inl rfl, rfl,
          fun i m hm => ⟨m, hm, rfl, rfl, rfl, Or.inl rfl, fun _ => rfl⟩, rfl,
          fun i m hm => ⟨m, hm, rfl, rfl, Or.inl rfl, fun _ => rfl⟩, rfl, rfl, rfl, rfl, rfl, rfl, fun h => absurd rfl h, fun _ => rfl⟩
      | sleep =>
        simp only [Kernel.queue] at hqr
        injection hqr with hqr
        subst hqr
        exact ⟨rfl, Or.inl rfl, hrem, rfl,
          fun i m hm => ⟨m, hm, rfl, rfl, rfl, Or.inl rfl, fun _ => rfl⟩, rfl,
          fun i m hm => ⟨m, hm, rfl, rfl, Or.inl rfl, fun _ => rfl⟩, rfl, rfl, rfl, rfl, rfl, rfl, fun _ => rfl, fun h => absurd rfl h⟩
      | mutex k =>
        simp only [Kernel.queue] at hqr
        cases hk : s.mutexes[k]? with
        | none => simp [hk] at hqr
        | some mk =>
          simp only [hk, Option.map_some', Option.some.injEq] at hqr
          subst hqr
          have hklt := lt_length_of_getElem? _ _ _ hk
          refine ⟨rfl, Or.inl rfl, Or.inl rfl, by simp [Kernel.set_queue, Kernel.set_proc, hk],
            ?_, rfl, fun i m hm => ⟨m, hm, rfl, rfl, Or.inl rfl, fun _ => rfl⟩,
            rfl, rfl, rfl, rfl, rfl, rfl, fun _ => rfl, fun _ => rfl⟩
          intro i m hm
          by_cases hik : k = i
          · subst hik
            rw [hk] at hm
            injection hm with hm
            subst hm
            exact ⟨{ mk with wait_queue := q1 },
              by simp [Kernel.set_queue, Kernel.set_proc, hk, List.getElem?_set_self hklt],
              rfl, rfl, rfl, hrem, fun h => absurd rfl h⟩
          · exact ⟨m, by simp [Kernel.set_queue, Kernel.set_proc, hk,
              List.getElem?_set_ne hik, hm], rfl, rfl, rfl, Or.inl rfl, fun _ => rfl⟩
      | sem k =>
        simp only [Kernel.queue] at hqr
        cases hk : s.semaphores[k]? with
        | none => simp [hk] at hqr
        | some mk =>
          simp only [hk, Option.map_some', Option.some.injEq] at hqr
          subst hqr
          have hklt := lt_length_of_getElem? _ _ _ hk
          refine ⟨rfl, Or.inl rfl, Or.inl rfl, rfl,
            fun i m hm => ⟨m, hm, rfl, rfl, rfl, Or.inl rfl, fun _ => rfl⟩,
            by simp [Kernel.set_queue, Kernel.set_proc, hk], ?_,
            rfl, rfl, rfl, rfl, rfl, rfl, fun _ => rfl, fun _ => rfl⟩
          intro i m hm
          by_cases hik : k = i
          · subst hik
            rw [hk] at hm
            injection hm with hm
            subst hm
            exact ⟨{ mk with wait_queue := q1 },
              by simp [Kernel.set_queue, Kernel.set_proc, hk, List.getElem?_set_self hklt],
              rfl, rfl, hrem, fun h => absurd rfl h⟩
          · exact ⟨m, by simp [Kernel.set_queue, Kernel.set_proc, hk,
              List.getElem?_set_ne hik, hm], rfl, rfl, Or.inl rfl, fun _ => rfl⟩
    by_cases ha : s.active_proc = some e
    · rw [if_pos ha, if_pos ha]
      exact ⟨rfl, hgoal ((s.set_queue r q1).set_proc e (unqueued p)) rfl⟩
    · rw [if_neg ha, if_neg ha]
      exact ⟨hact, hgoal _ rfl⟩

/-! ### Sleeping -/

set_option maxRecDepth 100000 in
/-- C4 (code evaluated at the failing input). With the run queue `[1, 2, 3]`,
`scheduler_remove` of the process with pid 1 leaves the queue `[3, 2]`: the other
pids are kept but not in their original order (which would be `[2, 3]`). -/
theorem C4_scheduler_remove_reorders :
    (scheduler_remove ex_rr (some 1)).map
        (fun s => (s.run_queue.toList, (s.proc_table[1]?).map (fun p => p.scheduler_queue)))
      = some ([3, 2], some none) := by
  decide

theorem set_proc_queue (s : Kernel) (e : Nat) (p : proc_t) (r : queue_ref) :
    (s.set_proc e p).queue r = s.queue r := by
  cases r <;> rfl

/-- The active-process half of `scheduler_timer` keeps the state of a lone sleeper. -/
theorem sleep_inv_timer_head (s0 : Kernel) (e : Nat) (pid : Int) (rq : queue_t) (n : Int)
    (s : Kernel) (hi : sleep_inv s0 e pid rq n s) :
    ∃ s1, scheduler_timer s = scheduler_timer_loop s1.sleep_queue.size 0 s1 ∧
      sleep_inv s0 e pid rq n s1 := by
  obtain ⟨hm, hsw, hsl, hrq, hv, pe, hpe, hpid, hst, hn⟩ := hi
  cases ha : s.active_proc with
  | none =>
    exact ⟨s, by simp [scheduler_timer, ha], hm, hsw, hsl, hrq, hv, pe, hpe, hpid, hst, hn⟩
  | some a =>
    have hlt := hv a ha
    obtain ⟨pa, hpa⟩ : ∃ pa, s.proc_table[a]? = some pa := ⟨_, List.getElem?_eq_getElem hlt⟩
    refine ⟨s.set_proc a (ticked pa), by simp [scheduler_timer, ha, hpa, ticked], ?_, hsw, hsl,
      hrq, ?_, ?_⟩
    · simp only [Kernel.set_proc]
      rw [map_pid_set s.proc_table a pa (ticked pa) hpa rfl]
      exact hm
    · intro b hb
      simp only [Kernel.set_proc, List.length_set]
      exact hv b hb
    · by_cases hae : a = e
      · subst hae
        rw [hpa] at hpe
        injection hpe with hpe
        subst hpe
        exact ⟨ticked pa, by simp [Kernel.set_proc, List.getElem?_set_self hlt], hpid, hst, hn⟩
      · exact ⟨pe, by simp [Kernel.set_proc, List.getElem?_set_ne hae, hpe], hpid, hst, hn⟩

/-- A tick on which the lone sleeper's `sleep_time` is still `>= 0` decrements it and
leaves the process asleep. -/
theorem sleep_inv_tick (s0 : Kernel) (e : Nat) (pid : Int) (rq : queue_t) (n : Int)
    (s : Kernel) (hfind : pid_to_proc s0 pid = some e)
    (hi : sleep_inv s0 e pid rq n s) (hn0 : n ≥ 0) :
    ∃ s1, scheduler_timer s = some s1 ∧ sleep_inv s0 e pid rq (n - 1) s1 := by
  obtain ⟨s1, hs1, hm, hsw, hsl, hrq, hv, pe, hpe, hpid, hst, hn⟩ :=
    sleep_inv_timer_head s0 e pid rq n s hi
  have hsz : s1.sleep_queue.size = 1 := by
    rw [← queue_toList_length, hsl]; rfl
  obtain ⟨x, q, hq, hqw, hxl, hqs⟩ := queue_out_spec s1.sleep_queue hsw (by omega)
  rw [hsl] at hxl
  injection hxl with hx hql
  subst hx
  have hq0 : q.size = 0 := by omega
  have hfind1 : pid_to_proc { s1 with sleep_queue := q } pid = some e := by
    rw [← hfind]; exact pid_to_proc_congr _ _ _ hm
  obtain ⟨q2, hq2, hq2w, hq2l, hq2s⟩ := queue_in_spec q pid hqw (by rw [hq0]; decide)
  have hge : pe.sleep_time ≥ 0 := by rw [hn]; exact hn0
  have hlt := lt_length_of_getElem? _ _ _ hpe
  have hloop : scheduler_timer_loop s1.sleep_queue.size 0 s1 =
      some { s1 with sleep_queue := q2, proc_table := s1.proc_table.set e (slept pe) } := by
    rw [hsz]
    simp only [scheduler_timer_loop, hsz, Nat.lt_one_iff, if_true, hq, hfind1, hpe,
      Kernel.set_proc, hge, hq2, Option.getD_some, hq2s, hq0, slept]
    simp
  refine ⟨_, hs1.trans hloop, ?_, hq2w, by rw [hq2l, ← hql]; rfl, hrq, ?_, ?_⟩
  · show (s1.proc_table.set e (slept pe)).map _ = _
    rw [map_pid_set s1.proc_table e pe (slept pe) hpe rfl]
    exact hm
  · intro b hb
    show b < (s1.proc_table.set e (slept pe)).length
    rw [List.length_set]
    exact hv b hb
  · exact ⟨slept pe, List.getElem?_set_self hlt, hpid, hst, by show pe.sleep_time - 1 = _; rw [hn]⟩

/-- The tick on which the lone sleeper's `sleep_time` is negative moves it to the tail
of the run queue in state IDLE. -/
theorem sleep_inv_wake (s0 : Kernel) (e : Nat) (pid : Int) (rq : queue_t) (n : Int)
    (s : Kernel) (hfind : pid_to_proc s0 pid = some e)
    (hi : sleep_inv s0 e pid rq n s) (hn0 : n < 0) (hrw : rq.wf) (hroom : rq.size < QUEUE_SIZE) :
    ∃ s1 p1, scheduler_timer s = some s1 ∧ s1.proc_table[e]? = some p1 ∧
      p1.state = proc_state.IDLE ∧ p1.pid = pid ∧
      s1.run_queue.toList = rq.toList ++ [pid] ∧ s1.sleep_queue.toList = [] := by
  obtain ⟨s1, hs1, hm, hsw, hsl, hrq, hv, pe, hpe, hpid, hst, hn⟩ :=
    sleep_inv_timer_head s0 e pid rq n s hi
  have hsz : s1.sleep_queue.size = 1 := by
    rw [← queue_toList_length, hsl]; rfl
  obtain ⟨x, q, hq, hqw, hxl, hqs⟩ := queue_out_spec s1.sleep_queue hsw (by omega)
  rw [hsl] at hxl
  injection hxl with hx hql
  subst hx
  have hq0 : q.size = 0 := by omega
  have hfind1 : pid_to_proc { s1 with sleep_queue := q } pid = some e := by
    rw [← hfind]; exact pid_to_proc_congr _ _ _ hm
  have hge : ¬ pe.sleep_time ≥ 0 := by rw [hn]; exact not_le.mpr hn0
  have hlt := lt_length_of_getElem? _ _ _ hpe
  subst hrq
  obtain ⟨q2, hq2, hq2w, hq2l, hq2s⟩ := queue_in_spec s1.run_queue pe.pid hrw hroom
  have hloop : scheduler_timer_loop s1.sleep_queue.size 0 s1 =
      some { s1 with sleep_queue := q, run_queue := q2,
                     proc_table := s1.proc_table.set e (requeued (slept pe)) } := by
    rw [hsz]
    simp only [scheduler_timer_loop, hsz, Nat.lt_one_iff, if_true, hq, hfind1, hpe,
      Kernel.set_proc, hge, if_false, scheduler_add, List.getElem?_set_self hlt, hq2,
      List.set_set, hq0, slept, requeued]
    simp
  refine ⟨_, requeued (slept pe), hs1.trans hloop, List.getElem?_set_self hlt, rfl, hpid, ?_, ?_⟩
  · show q2.toList = _
    rw [hq2l, hpid]
  · exact (queue_toList_eq_nil q).mpr hq0

/-- What `scheduler_sleep` leaves behind when nobody else sleeps. -/
theorem sleep_start (s : Kernel) (e : Nat) (p : proc_t) (k : Int)
    (hp : s.proc_table[e]? = some p) (hst : p.state ≠ proc_state.SLEEPING)
    (hsq : ∀ r, p.scheduler_queue = some r → ∃ q, s.queue r = some q ∧ q.wf)
    (hsw : s.sleep_queue.wf) (hs0 : s.sleep_queue.size = 0)
    (hrw : s.run_queue.wf) (hroom : s.run_queue.size < QUEUE_SIZE)
    (hv : ∀ a, s.active_proc = some a → a < s.proc_table.length) :
    ∃ s1, scheduler_sleep s (some e) k = some s1 ∧
      sleep_inv s e p.pid s1.run_queue k s1 ∧ s1.run_queue.wf ∧
      s1.run_queue.size < QUEUE_SIZE := by
  have hlt := lt_length_of_getElem? _ _ _ hp
  have hp1 : (s.set_proc e { p with sleep_time := k }).proc_table[e]?
      = some { p with sleep_time := k } := by
    simp [Kernel.set_proc, List.getElem?_set_self hlt]
  obtain ⟨s2, hs2, hact, htbl, hrun, hsleep, -⟩ :=
    scheduler_remove_spec (s.set_proc e { p with sleep_time := k }) e _ hp1
      (by intro r hr; rw [set_proc_queue]; exact hsq r hr)
  have hp2 : s2.proc_table[e]? = some (unqueued { p with sleep_time := k }) := by
    rw [htbl]; simp [Kernel.set_proc, List.getElem?_set_self hlt]
  obtain ⟨hsw2, hss2, -⟩ := removed_from_wf _ _ _ hsleep hsw
  obtain ⟨hrw2, hrs2, -⟩ := removed_from_wf _ _ _ hrun hrw
  have hs20 : s2.sleep_queue.size = 0 := by
    have : (s.set_proc e { p with sleep_time := k }).sleep_queue.size = 0 := hs0
    omega
  obtain ⟨q, hq, hqw, hql, -⟩ := queue_in_spec s2.sleep_queue p.pid hsw2
    (by rw [hs20]; decide)
  have hnil : s2.sleep_queue.toList = [] := (queue_toList_eq_nil _).mpr hs20
  have hlen2 : s2.proc_table.length = s.proc_table.length := by
    rw [htbl]; simp [Kernel.set_proc]
  have hres : scheduler_sleep s (some e) k =
      some { s2 with
        proc_table := s2.proc_table.set e
          { unqueued { p with sleep_time := k } with
              state := proc_state.SLEEPING, scheduler_queue := some queue_ref.sleep },
        sleep_queue := q } := by
    simp only [scheduler_sleep, hp, hst, if_false, hs2, hp2]
    have : queue_in s2.sleep_queue (unqueued { p with sleep_time := k }).pid = some q := hq
    simp only [this, Option.getD_some]
  refine ⟨_, hres, ⟨?_, hqw, by rw [hql, hnil]; rfl, rfl, ?_, ?_⟩, hrw2,
    Nat.lt_of_le_of_lt hrs2 hroom⟩
  · refine Eq.trans (map_pid_set s2.proc_table e _ _ hp2 rfl) ?_
    rw [htbl]
    simp only [Kernel.set_proc, List.set_set]
    exact map_pid_set s.proc_table e p _ hp rfl
  · intro a ha
    show a < (s2.proc_table.set e _).length
    rw [List.length_set, hlen2]
    have ha2 : s2.active_proc = some a := ha
    rw [hact] at ha2
    split at ha2
    · cases ha2
    · exact hv a ha2
  · exact ⟨_, List.getElem?_set_self (by rw [hlen2]; exact hlt), rfl, rfl, rfl⟩

/-- A lone sleeper put to sleep for `k` ticks is still asleep after `j <= k + 1`
ticks, with `sleep_time = k - j`. -/
theorem sleep_inv_after (s0 : Kernel) (e : Nat) (pid : Int) (rq : queue_t) (k : Nat)
    (s1 : Kernel) (hfind : pid_to_proc s0 pid = some e)
    (hi : sleep_inv s0 e pid rq k s1) (j : Nat) (hj : j ≤ k + 1) :
    ∃ s2, iterate scheduler_timer j s1 = some s2 ∧
      sleep_inv s0 e pid rq ((k : Int) - j) s2 := by
  induction j with
  | zero => exact ⟨s1, rfl, by simpa using hi⟩
  | succ j ih =>
    obtain ⟨s2, hs2, hi2⟩ := ih (by omega)
    obtain ⟨s3, hs3, hi3⟩ := sleep_inv_tick s0 e pid rq _ s2 hfind hi2 (by omega)
    refine ⟨s3, by rw [iterate_succ_last, hs2]; exact hs3, ?_⟩
    have : ((k : Int) - j - 1) = (k : Int) - ((j + 1 : Nat) : Int) := by push_cast; ring
    rw [← this]; exact hi3

/-- C3 (amended). For every process `p` that is not already sleeping, when nobody
else sleeps, `scheduler_sleep(p, k)` with `k >= 0` returns; after any `j <= k + 1`
calls of `scheduler_timer` the process is still in state SLEEPING on the sleep queue;
after exactly `k + 2` calls it is in state IDLE and its pid is at the tail of the run
queue. -/
theorem C3_sleep_wakes_after_k_plus_2 (s : Kernel) (e : Nat) (p : proc_t) (k : Nat)
    (hp : s.proc_table[e]? = some p) (hfind : pid_to_proc s p.pid = some e)
    (hst : p.state ≠ proc_state.SLEEPING)
    (hsq : ∀ r, p.scheduler_queue = some r → ∃ q, s.queue r = some q ∧ q.wf)
    (hsw : s.sleep_queue.wf) (hs0 : s.sleep_queue.size = 0)
    (hrw : s.run_queue.wf) (hroom : s.run_queue.size < QUEUE_SIZE)
    (hv : ∀ a, s.active_proc = some a → a < s.proc_table.length) :
    ∃ s1, scheduler_sleep s (some e) k = some s1 ∧
      (∀ j, j ≤ k + 1 → ∃ s2 p2, iterate scheduler_timer j s1 = some s2 ∧
        s2.proc_table[e]? = some p2 ∧ p2.state = proc_state.SLEEPING ∧
        s2.sleep_queue.toList = [p.pid] ∧ s2.run_queue = s1.run_queue) ∧
      (∃ s3 p3, iterate scheduler_timer (k + 2) s1 = some s3 ∧
        s3.proc_table[e]? = some p3 ∧ p3.state = proc_state.IDLE ∧
        s3.run_queue.toList = s1.run_queue.toList ++ [p.pid] ∧
        s3.sleep_queue.toList = []) := by
  obtain ⟨s1, hs1, hi, hrw1, hroom1⟩ := sleep_start s e p k hp hst hsq hsw hs0 hrw hroom hv
  refine ⟨s1, hs1, ?_, ?_⟩
  · intro j hj
    obtain ⟨s2, hs2, -, -, hsl, hrq, -, pe, hpe, -, hste, -⟩ :=
      sleep_inv_after s e p.pid s1.run_queue k s1 hfind hi j hj
    exact ⟨s2, pe, hs2, hpe, hste, hsl, hrq⟩
  · obtain ⟨s2, hs2, hi2⟩ :=
      sleep_inv_after s e p.pid s1.run_queue k s1 hfind hi (k + 1) (Nat.le_refl _)
    obtain ⟨s3, p3, hs3, hp3, hst3, -, hrun3, hsl3⟩ :=
      sleep_inv_wake s e p.pid s1.run_queue _ s2 hfind hi2 (by push_cast; omega) hrw1 hroom1
    exact ⟨s3, p3, by rw [iterate_succ_last, hs2]; exact hs3, hp3, hst3, hrun3, hsl3⟩

set_option maxRecDepth 1000000 in
/-- C3 (counterexample). One tick after `scheduler_sleep(A, 0)` process A is still
SLEEPING and not on the run queue; and when A and then B sleep 100 ticks, after 101
ticks both are still SLEEPING on the sleep queue and the run queue is empty. -/
theorem C3_counterexample :
    (and_then (scheduler_sleep ex_ab (some 1) 0) (iterate scheduler_timer 1)).map
        (fun s => (s.run_queue.toList, s.sleep_queue.toList,
          s.proc_table.map (fun p => p.state)))
      = some ([], [1], [proc_state.IDLE, proc_state.SLEEPING, proc_state.IDLE]) ∧
    (and_then (and_then (scheduler_sleep ex_ab (some 1) 100)
        (fun s => scheduler_sleep s (some 2) 100)) (iterate scheduler_timer 101)).map
        (fun s => (s.run_queue.toList, s.sleep_queue.toList,
          s.proc_table.map (fun p => p.state)))
      = some ([], [1, 2], [proc_state.IDLE, proc_state.SLEEPING, proc_state.SLEEPING]) := by
  constructor <;> decide

/-- Witness for C3: process A of `ex_ab`, asleep for 3 ticks, is back on the run
queue after 5 calls of `scheduler_timer`. -/
theorem C3_witness :
    ∃ s1, scheduler_sleep ex_ab (some 1) 3 = some s1 ∧
      ∃ s3 p3, iterate scheduler_timer 5 s1 = some s3 ∧
        s3.proc_table[1]? = some p3 ∧ p3.state = proc_state.IDLE ∧
        s3.run_queue.toList = s1.run_queue.toList ++ [1] ∧ s3.sleep_queue.toList = [] := by
  obtain ⟨s1, h1, -, h3⟩ :=
    C3_sleep_wakes_after_k_plus_2 ex_ab 1 (ex_proc 1 proc_state.IDLE none) 3 rfl (by decide)
      (by decide) (by intro r hr; cases hr) (by decide) (by decide) (by decide) (by decide)
      (by intro a ha; cases ha)
  exact ⟨s1, h1, h3⟩

/-! ### Mutexes -/

/-- The locked branch of `kmutex_lock`, whoever owns the mutex: the active process is
taken off the scheduler, parked in state WAITING at the tail of the wait queue, and
the lock count is incremented and returned; the owner does not change. -/
theorem kmutex_lock_locked (s : Kernel) (a i : Nat) (p : proc_t) (m : mutex_t)
    (ha : s.active_proc = some a) (hp : s.proc_table[a]? = some p)
    (hm : s.mutexes[i]? = some m) (hl : m.locks ≥ 1)
    (hsq : ∀ r, p.scheduler_queue = some r → ∃ q, s.queue r = some q ∧ q.wf)
    (hwq : m.wait_queue.wf) (hroom : m.wait_queue.size < QUEUE_SIZE)
    (hnot : p.pid ∉ m.wait_queue.toList) :
    ∃ s1 m1, kmutex_lock s (i : Int) = some (s1, m.locks + 1) ∧
      s1.active_proc = none ∧
      s1.proc_table = s.proc_table.set a (parked i (unqueued p)) ∧
      s1.mutexes[i]? = some m1 ∧ m1.locks = m.locks + 1 ∧ m1.owner = m.owner ∧
      m1.allocated = m.allocated ∧ m1.wait_queue.wf ∧
      m1.wait_queue.toList = m.wait_queue.toList ++ [p.pid] ∧
      removed_from p.pid s.run_queue s1.run_queue ∧
      removed_from p.pid s.sleep_queue s1.sleep_queue := by
  have hlt := lt_length_of_getElem? _ _ _ hp
  have hilt := lt_length_of_getElem? _ _ _ hm
  obtain ⟨s2, hs2, hact, htbl, hrun, hsleep, hmlen, hmut, -⟩ := scheduler_remove_spec s a p hp hsq
  obtain ⟨m2, hm2, hm2a, hm2l, hm2o, hm2q, -⟩ := hmut i m hm
  obtain ⟨hm2w, hm2s, hm2t⟩ := removed_from_wf _ _ _ hm2q hwq
  obtain ⟨q, hq, hqw, hql, -⟩ := queue_in_spec m2.wait_queue p.pid hm2w (by omega)
  have hp2 : s2.proc_table[a]? = some (unqueued p) := by
    rw [htbl]; exact List.getElem?_set_self hlt
  have hi2 : i < s2.mutexes.length := by rw [hmlen]; exact hilt
  have hpos : m.locks > 0 := by omega
  have hne : ¬ m2.locks = 0 := by rw [hm2l]; omega
  have hidx : ¬ ((i : Int) < 0) := by omega
  have hres : kmutex_lock s (i : Int) =
      some ({ s2 with
                proc_table := s2.proc_table.set a (parked i (unqueued p)),
                mutexes := (s2.mutexes.set i { m2 with wait_queue := q }).set i
                  { m2 with wait_queue := q, locks := m2.locks + 1 } }, m2.locks + 1) := by
    have hq1 : queue_in m2.wait_queue (unqueued p).pid = some q := hq
    simp only [kmutex_lock, ha, hidx, if_false, Int.toNat_ofNat, hm, hpos, if_true, hs2, hp2,
      hm2, hq1, Option.getD_some, List.getElem?_set_self hi2, hne, parked]
  rw [hm2l] at hres
  refine ⟨_, { m2 with wait_queue := q, locks := m.locks + 1 }, hres,
    ?_, ?_, ?_, rfl, hm2o, hm2a, hqw, ?_, hrun, hsleep⟩
  · show s2.active_proc = none
    rw [hact, if_pos ha]
  · show s2.proc_table.set a _ = _
    rw [htbl, List.set_set]
  · exact List.getElem?_set_self (by simpa using hi2)
  · show q.toList = _
    rw [hql, hm2t hnot]

theorem mutexes_set_queue (s : Kernel) (i : Nat) (m : mutex_t) (r : queue_ref)
    (hi : i < s.mutexes.length) :
    ({ s with mutexes := s.mutexes.set i m }).queue r =
      if r = queue_ref.mutex i then some m.wait_queue else s.queue r := by
  cases r with
  | run => simp [Kernel.queue]
  | sleep => simp [Kernel.queue]
  | sem k => simp [Kernel.queue]
  | mutex k =>
    by_cases hk : i = k
    · subst hk
      simp [Kernel.queue, List.getElem?_set_self hi]
    · have hk1 : ¬ k = i := fun h => hk h.symm
      simp [Kernel.queue, List.getElem?_set_ne hk, hk1]

/-- The hand-off branch of `kmutex_unlock`: with a lock count of at least 2 and the
pid `B` of a process parked on this mutex at the head of the wait queue, the count is
decremented and returned, `B` is dequeued, put in state IDLE at the tail of the run
queue, and made the owner. -/
theorem kmutex_unlock_handoff (s : Kernel) (i b : Nat) (m : mutex_t) (B : Int)
    (rest : List Int) (pb : proc_t) (junk : Int)
    (hm : s.mutexes[i]? = some m) (hl : m.locks ≥ 2)
    (hwq : m.wait_queue.wf) (hhead : m.wait_queue.toList = B :: rest)
    (hfind : pid_to_proc s B = some b) (hpb : s.proc_table[b]? = some pb)
    (hsq : pb.scheduler_queue = some (queue_ref.mutex i)) (hnot : B ∉ rest)
    (hrw : s.run_queue.wf) (hroom : s.run_queue.size < QUEUE_SIZE) :
    ∃ s1 m1 q, kmutex_unlock s (i : Int) junk = some (s1, m.locks - 1) ∧
      s1.mutexes[i]? = some m1 ∧ m1.locks = m.locks - 1 ∧ m1.owner = some b ∧
      m1.allocated = m.allocated ∧ m1.wait_queue.wf ∧ m1.wait_queue.toList = rest ∧
      s1.proc_table = s.proc_table.set b (requeued (unqueued pb)) ∧
      s1.run_queue = q ∧ q.wf ∧ q.toList = s.run_queue.toList ++ [B] ∧
      s1.active_proc = (if s.active_proc = some b then none else s.active_proc) ∧
      s1.sleep_queue = s.sleep_queue := by
  have hblt := lt_length_of_getElem? _ _ _ hpb
  have hilt := lt_length_of_getElem? _ _ _ hm
  have hpid : pb.pid = B := by
    obtain ⟨p0, hp0, hp0p⟩ := pid_to_proc_some s B b hfind
    rw [hpb] at hp0
    injection hp0 with hp0
    rw [hp0]; exact hp0p
  have hpos : 0 < m.wait_queue.size := by
    rw [← queue_toList_length, hhead]; simp
  obtain ⟨x, q0, hq0, hq0w, hxl, -⟩ := queue_out_spec m.wait_queue hwq hpos
  rw [hhead] at hxl
  injection hxl with hx hq0l
  subst hx
  -- the state after the dequeue
  obtain ⟨s1, hs1⟩ : ∃ s1 : Kernel, s1 =
      { s with mutexes := s.mutexes.set i { m with locks := m.locks - 1, wait_queue := q0 } } :=
    ⟨_, rfl⟩
  have hs1q : s1.queue (queue_ref.mutex i) = some q0 := by
    rw [hs1, mutexes_set_queue s i _ _ hilt]; simp
  have hs1p : s1.proc_table[b]? = some pb := by rw [hs1]; exact hpb
  have hs1m : s1.mutexes[i]? = some { m with locks := m.locks - 1, wait_queue := q0 } := by
    rw [hs1]; exact List.getElem?_set_self hilt
  obtain ⟨s2, hs2, hact2, htbl2, -, -, hmlen2, hmut2, -, -, -, -, -, -, -, -, hrun2, hsl2⟩ :=
    scheduler_remove_spec s1 b pb hs1p
      (by intro r hr; rw [hsq] at hr; injection hr with hr; subst hr; exact ⟨q0, hs1q, hq0w⟩)
  obtain ⟨m2, hm2, hm2a, hm2l, hm2o, hm2q, -⟩ := hmut2 i _ hs1m
  obtain ⟨hm2w, -, hm2t⟩ := removed_from_wf _ _ _ hm2q hq0w
  have hrq2 : s2.run_queue = s.run_queue := by
    rw [hrun2 (by rw [hsq]; simp), hs1]
  have hp2 : s2.proc_table[b]? = some (unqueued pb) := by
    rw [htbl2, hs1]; exact List.getElem?_set_self hblt
  obtain ⟨q, hq, hqw, hql, -⟩ := queue_in_spec s2.run_queue (unqueued pb).pid
    (by rw [hrq2]; exact hrw) (by rw [hrq2]; exact hroom)
  have hadd := scheduler_add_eq s2 b (unqueued pb) q hp2 hq
  have hi2 : i < s2.mutexes.length := by
    rw [hmlen2, hs1]; simpa using hilt
  have hne0 : ¬ m.locks = 0 := by omega
  have hne1 : ¬ m.locks - 1 = 0 := by omega
  have hidx : ¬ ((i : Int) < 0) := by omega
  have hfind1 : pid_to_proc s1 pb.pid = some b := by
    rw [hpid, hs1]; exact hfind
  have hres : kmutex_unlock s (i : Int) junk =
      some ({ s2 with
                proc_table := s2.proc_table.set b (requeued (unqueued pb)),
                run_queue := q,
                mutexes := s2.mutexes.set i { m2 with owner := some b } }, m.locks - 1) := by
    have hm2l1 : m2.locks = m.locks - 1 := hm2l
    rw [← hpid] at hq0
    rw [hs1] at hs2 hfind1
    simp only [kmutex_unlock, hidx, if_false, Int.toNat_ofNat, hm, hne0, hne1, hq0, hfind1,
      hs2, hadd, hm2, hm2l1]
  refine ⟨_, { m2 with owner := some b }, q, hres, ?_, ?_, rfl, hm2a,
    hm2w, ?_, ?_, rfl, hqw, ?_, ?_, ?_⟩
  · exact List.getElem?_set_self hi2
  · show m2.locks = _
    rw [hm2l]
  · show m2.wait_queue.toList = rest
    rw [hm2t (by rw [← hq0l]; rw [hpid]; exact hnot), hq0l]
  · show s2.proc_table.set b _ = _
    rw [htbl2, hs1, List.set_set]
  · rw [hql, hrq2]
    show _ ++ [pb.pid] = _
    rw [hpid]
  · show s2.active_proc = _
    rw [hact2, hs1]
  · show s2.sleep_queue = _
    rw [hsl2 (by rw [hsq]; simp), hs1]

set_option maxRecDepth 100000 in
/-- C7. Mutex hand-off: for every mutex with `lock_count >= 2` and a non-empty wait
queue whose head pid `B` is that of a process parked on it, `kmutex_unlock` decrements
the lock count by one and returns it, removes `B` from the wait queue, puts the
process in state IDLE at the tail of the run queue and makes it the owner.  In the
sequence A locks, B locks, A unlocks, B unlocks (with the scheduler switching
processes in between) the mutex goes through (count 1, owner A), (count 2, B WAITING),
(count 1, owner B, B runnable), (count 0, no owner). -/
theorem C7_mutex_handoff (s : Kernel) (i b : Nat) (m : mutex_t) (B : Int)
    (rest : List Int) (pb : proc_t) (junk : Int)
    (hm : s.mutexes[i]? = some m) (hl : m.locks ≥ 2)
    (hwq : m.wait_queue.wf) (hhead : m.wait_queue.toList = B :: rest)
    (hfind : pid_to_proc s B = some b) (hpb : s.proc_table[b]? = some pb)
    (hsq : pb.scheduler_queue = some (queue_ref.mutex i)) (hnot : B ∉ rest)
    (hrw : s.run_queue.wf) (hroom : s.run_queue.size < QUEUE_SIZE) :
    (∃ s1 m1 p1, kmutex_unlock s (i : Int) junk = some (s1, m.locks - 1) ∧
      s1.mutexes[i]? = some m1 ∧ m1.locks = m.locks - 1 ∧
      m1.wait_queue.toList = rest ∧
      s1.proc_table[b]? = some p1 ∧ p1.pid = B ∧ p1.state = proc_state.IDLE ∧
      s1.run_queue.toList = s.run_queue.toList ++ [B] ∧
      m1.owner = some b) ∧
    (mutex_view ex_handoff_1
        = some { rc := 1, active := some 1,
                 states := [proc_state.ACTIVE, proc_state.IDLE],
                 locks := 1, owner := some 1, waiting := [], runnable := [2] } ∧
      ex_handoff_b_runs.bind active_pid = some 2 ∧
      mutex_view ex_handoff_2
        = some { rc := 2, active := none,
                 states := [proc_state.IDLE, proc_state.WAITING],
                 locks := 2, owner := some 1, waiting := [2], runnable := [1] } ∧
      ex_handoff_a_runs.bind active_pid = some 1 ∧
      mutex_view ex_handoff_3
        = some { rc := 1, active := some 1,
                 states := [proc_state.ACTIVE, proc_state.IDLE],
                 locks := 1, owner := some 2, waiting := [], runnable := [2] } ∧
      ex_handoff_b_runs_again.bind active_pid = some 2 ∧
      mutex_view ex_handoff_4
        = some { rc := 0, active := some 2,
                 states := [proc_state.IDLE, proc_state.ACTIVE],
                 locks := 0, owner := none, waiting := [], runnable := [1] }) := by
  refine ⟨?_, by decide, by decide, by decide, by decide, by decide, by decide, by decide⟩
  obtain ⟨s1, m1, q, h1, hm1, hl1, ho1, -, -, hq1, htbl, hrq, -, hql, -⟩ :=
    kmutex_unlock_handoff s i b m B rest pb junk hm hl hwq hhead hfind hpb hsq hnot hrw hroom
  have hblt := lt_length_of_getElem? _ _ _ hpb
  have hpid : pb.pid = B := by
    obtain ⟨p0, hp0, hp0p⟩ := pid_to_proc_some s B b hfind
    rw [hpb] at hp0
    injection hp0 with hp0
    rw [hp0]; exact hp0p
  exact ⟨s1, m1, requeued (unqueued pb), h1, hm1, hl1, hq1,
    by rw [htbl]; exact List.getElem?_set_self hblt, hpid, rfl, by rw [hrq, hql], ho1⟩

set_option maxRecDepth 100000 in
/-- Witness for C7: mutex 0 with count 2, held by A, with B parked on it. -/
theorem C7_witness :
    ∃ s1 m1 p1, kmutex_unlock ex_b_parked 0 0 = some (s1, 1) ∧
      s1.mutexes[0]? = some m1 ∧ m1.locks = 1 ∧ m1.wait_queue.toList = [] ∧
      s1.proc_table[2]? = some p1 ∧ p1.pid = 2 ∧ p1.state = proc_state.IDLE ∧
      s1.run_queue.toList = [2] ∧ m1.owner = some 2 :=
  (C7_mutex_handoff ex_b_parked 0 2
    { allocated := 1, locks := 2, owner := some 1, wait_queue := ex_queue [2] } 2 []
    (ex_proc 2 proc_state.WAITING (some (queue_ref.mutex 0))) 0
    rfl (by decide) (by decide) (by decide) (by decide) rfl rfl (by decide) (by decide)
    (by decide)).1

/-! ### The MUTEX_LOCK system call -/

theorem to_int_small (u : Nat) (h : u < 2 ^ 31) : to_int u = (u : Int) := by
  have h1 : u % 2 ^ 32 = u := Nat.mod_eq_of_lt (by omega)
  unfold to_int
  rw [h1, if_pos h]

/-- The free branch of `kmutex_lock`: the caller becomes the owner, the count becomes
1 and is returned; nothing else changes. -/
theorem kmutex_lock_free (s : Kernel) (a i : Nat) (m : mutex_t)
    (ha : s.active_proc = some a) (hm : s.mutexes[i]? = some m) (hl : m.locks = 0) :
    kmutex_lock s (i : Int) =
      some ({ s with mutexes := s.mutexes.set i { m with owner := some a, locks := 1 } }, 1) := by
  have hidx : ¬ ((i : Int) < 0) := by omega
  simp [kmutex_lock, ha, hidx, hm, hl]

/-- C8 (amended). For every allocated mutex `i` with `lock_count == 0`, the
`MUTEX_LOCK(i)` system call issued by the active process A makes A the owner with
`lock_count` 1 and leaves A the active process; `kmutex_lock` returns 1, which
`ksyscall_mutex_lock` turns into 0: the value `ksyscall_irq_handler` writes into A's
saved `eax` is 0. -/
theorem C8_mutex_lock_syscall_writes_zero (umem : Nat → Int) (junk : Int) (s : Kernel)
    (a i : Nat) (p : proc_t) (tf : trapframe_t) (m : mutex_t)
    (ha : s.active_proc = some a) (hp : s.proc_table[a]? = some p)
    (htf : p.trapframe = some tf)
    (heax : (tf.eax : Int) = SYSCALL_MUTEX_LOCK) (hebx : tf.ebx = i) (hi : i < MUTEX_MAX)
    (hm : s.mutexes[i]? = some m) (halloc : m.allocated = 1) (hl : m.locks = 0) :
    ∃ s1 m1, ksyscall_irq_handler umem junk s = some s1 ∧
      s1.active_proc = some a ∧
      s1.mutexes[i]? = some m1 ∧ m1.owner = some a ∧ m1.locks = 1 ∧ m1.allocated = 1 ∧
      (∃ s0, kmutex_lock s (i : Int) = some (s0, 1)) ∧
      ksyscall_mutex_lock s (i : Int) =
        some ({ s with mutexes := s.mutexes.set i { m with owner := some a, locks := 1 } }, 0) ∧
      saved_eax s1 a = some 0 := by
  have hlt := lt_length_of_getElem? _ _ _ hp
  have hilt := lt_length_of_getElem? _ _ _ hm
  have hlock := kmutex_lock_free s a i m ha hm hl
  have hi16 : i < 16 := hi
  have hsys : ksyscall_mutex_lock s (i : Int) =
      some ({ s with mutexes := s.mutexes.set i { m with owner := some a, locks := 1 } }, 0) := by
    have : ¬ ((i : Int) ≥ (MUTEX_MAX : Nat)) := by
      simp only [MUTEX_MAX]; omega
    simp [ksyscall_mutex_lock, this, hlock]
  have heax1 : to_int tf.eax = 12 := by
    have h12 : tf.eax = 12 := by
      have : (tf.eax : Int) = 12 := heax
      omega
    rw [h12]; decide
  have hebx1 : to_int tf.ebx = (i : Int) := by
    rw [hebx]; exact to_int_small i (by omega)
  have hdisp : ksyscall_dispatch umem junk s (to_int tf.eax) tf.ebx tf.ecx tf.edx =
      ksyscall_mutex_lock s (i : Int) := by
    rw [heax1]
    simp [ksyscall_dispatch, SYSCALL_IO_WRITE, SYSCALL_IO_READ, SYSCALL_IO_FLUSH,
      SYSCALL_SYS_GET_TIME, SYSCALL_SYS_GET_NAME, SYSCALL_PROC_SLEEP, SYSCALL_PROC_EXIT,
      SYSCALL_PROC_GET_PID, SYSCALL_PROC_GET_NAME, SYSCALL_MUTEX_INIT, SYSCALL_MUTEX_DESTROY,
      SYSCALL_MUTEX_LOCK, hebx1]
  have hres : ksyscall_irq_handler umem junk s =
      some (({ s with mutexes := s.mutexes.set i { m with owner := some a, locks := 1 } }
              : Kernel).set_proc a { p with trapframe := some { tf with eax := to_uint 0 } }) := by
    simp only [ksyscall_irq_handler, ha, hp, htf, hdisp, hsys]
  refine ⟨_, { m with owner := some a, locks := 1 }, hres, ha, ?_, rfl, rfl, halloc,
    ⟨_, hlock⟩, hsys, ?_⟩
  · exact List.getElem?_set_self hilt
  · simp [saved_eax, Kernel.set_proc, List.getElem?_set_self hlt, to_uint]

set_option maxRecDepth 100000 in
/-- C8 (counterexample). A issues `MUTEX_LOCK(0)` on the allocated, unlocked mutex 0:
`kmutex_lock` returns 1, but the value written into A's saved `eax` is 0, not 1. -/
theorem C8_counterexample :
    (kmutex_lock ex_syscall_lock 0).map (fun r => r.2) = some 1 ∧
    (ksyscall_irq_handler (fun _ => 0) 0 ex_syscall_lock).bind (fun s => saved_eax s 1)
      = some 0 ∧
    (ksyscall_irq_handler (fun _ => 0) 0 ex_syscall_lock).bind (fun s => saved_eax s 1)
      ≠ some 1 := by
  refine ⟨by decide, by decide, by decide⟩

set_option maxRecDepth 100000 in
/-- Witness for C8: the state `ex_syscall_lock`. -/
theorem C8_witness :
    ∃ s1, ksyscall_irq_handler (fun _ => 0) 0 ex_syscall_lock = some s1 ∧
      s1.active_proc = some 1 ∧ saved_eax s1 1 = some 0 := by
  obtain ⟨s1, m1, h1, h2, -, -, -, -, -, -, h3⟩ :=
    C8_mutex_lock_syscall_writes_zero (fun _ => 0) 0 ex_syscall_lock 1 0
      { ex_proc 1 proc_state.ACTIVE (some queue_ref.run) with
        trapframe := some { eax := 12, ebx := 0, ecx := 0, edx := 0, eip := 0, eflags := 0,
                            cs := 0, ds := 0, es := 0, fs := 0, gs := 0, interrupt := 128 } }
      { eax := 12, ebx := 0, ecx := 0, edx := 0, eip := 0, eflags := 0,
        cs := 0, ds := 0, es := 0, fs := 0, gs := 0, interrupt := 128 }
      { mutex_zero with allocated := 1 }
      rfl rfl rfl (by decide) rfl (by decide) rfl rfl rfl
  exact ⟨s1, h1, h2, h3⟩

/-! ### Lock and unlock counting -/

/-- The last unlock: with a lock count of 1, `kmutex_unlock` sets the count to 0,
clears the owner and returns 0. -/
theorem kmutex_unlock_last (s : Kernel) (i : Nat) (m : mutex_t) (junk : Int)
    (hm : s.mutexes[i]? = some m) (hl : m.locks = 1) :
    kmutex_unlock s (i : Int) junk =
      some ({ s with mutexes := s.mutexes.set i { m with locks := 0, owner := none } }, 0) := by
  have hidx : ¬ ((i : Int) < 0) := by omega
  simp [kmutex_unlock, hidx, hm, hl]

/-- One lock-then-unlock round on a free mutex leaves it free with no owner. -/
theorem lock_unlock_free (s : Kernel) (a i : Nat) (m : mutex_t) (junk : Int)
    (ha : s.active_proc = some a) (hm : s.mutexes[i]? = some m) (hl : m.locks = 0) :
    lock_unlock (i : Int) junk s =
      some { s with mutexes := s.mutexes.set i { m with locks := 0, owner := none } } := by
  have hilt := lt_length_of_getElem? _ _ _ hm
  have h1 := kmutex_lock_free s a i m ha hm hl
  have h2 := kmutex_unlock_last
    { s with mutexes := s.mutexes.set i { m with owner := some a, locks := 1 } } i
    { m with owner := some a, locks := 1 } junk (List.getElem?_set_self hilt) rfl
  simp only [lock_unlock, h1, h2, List.set_set]

theorem lock_unlock_iterate (a i : Nat) (junk : Int) (N : Nat) (s : Kernel) (m : mutex_t)
    (ha : s.active_proc = some a) (hm : s.mutexes[i]? = some m) (hl : m.locks = 0) :
    ∃ s1 m1, iterate (lock_unlock (i : Int) junk) N s = some s1 ∧
      s1.active_proc = some a ∧ s1.mutexes[i]? = some m1 ∧ m1.locks = 0 ∧
      (1 ≤ N → m1.owner = none) := by
  induction N generalizing s m with
  | zero => exact ⟨s, m, rfl, ha, hm, hl, fun h => absurd h (by decide)⟩
  | succ N ih =>
    have hilt := lt_length_of_getElem? _ _ _ hm
    have h1 := lock_unlock_free s a i m junk ha hm hl
    obtain ⟨s1, m1, hs1, ha1, hm1, hl1, ho1⟩ :=
      ih { s with mutexes := s.mutexes.set i { m with locks := 0, owner := none } }
        { m with locks := 0, owner := none } ha (List.getElem?_set_self hilt) rfl
    refine ⟨s1, m1, by rw [iterate_succ, h1]; exact hs1, ha1, hm1, hl1, fun _ => ?_⟩
    cases N with
    | zero =>
      simp only [iterate] at hs1
      injection hs1 with hs1
      subst hs1
      rw [List.getElem?_set_self hilt] at hm1
      injection hm1 with hm1
      rw [← hm1]
    | succ n => exact ho1 (by omega)

/-- C9 (amended). For a single process A and a mutex with lock count 0 and an empty
wait queue: `N` repetitions of lock-then-unlock leave the lock count 0 and, for
`N >= 1`, no owner.  Nested locks do not recurse: A's first `kmutex_lock` returns 1,
its second returns 2 but parks A (no active process is left), so a third
`kmutex_lock` has no result; after the two locks one `kmutex_unlock` leaves the count
at 1 and a second one leaves it at 0 with no owner. -/
theorem C9_lock_unlock_counting (s : Kernel) (a i : Nat) (p : proc_t) (m : mutex_t)
    (junk : Int) (N : Nat)
    (ha : s.active_proc = some a) (hp : s.proc_table[a]? = some p)
    (hfind : pid_to_proc s p.pid = some a)
    (hm : s.mutexes[i]? = some m) (hl : m.locks = 0)
    (hwq : m.wait_queue.wf) (hempty : m.wait_queue.toList = [])
    (hsq : ∀ r, p.scheduler_queue = some r → ∃ q, s.queue r = some q ∧ q.wf)
    (hrw : s.run_queue.wf) (hroom : s.run_queue.size < QUEUE_SIZE) :
    (∃ sN mN, iterate (lock_unlock (i : Int) junk) N s = some sN ∧
      sN.mutexes[i]? = some mN ∧ mN.locks = 0 ∧ (1 ≤ N → mN.owner = none)) ∧
    (∃ s1 s2 s3 s4 m4,
      kmutex_lock s (i : Int) = some (s1, 1) ∧
      kmutex_lock s1 (i : Int) = some (s2, 2) ∧ s2.active_proc = none ∧
      kmutex_lock s2 (i : Int) = none ∧
      kmutex_unlock s2 (i : Int) junk = some (s3, 1) ∧
      kmutex_unlock s3 (i : Int) junk = some (s4, 0) ∧
      s4.mutexes[i]? = some m4 ∧ m4.locks = 0 ∧ m4.owner = none) := by
  constructor
  · obtain ⟨sN, mN, h1, -, h2, h3, h4⟩ := lock_unlock_iterate a i junk N s m ha hm hl
    exact ⟨sN, mN, h1, h2, h3, h4⟩
  · have hlt := lt_length_of_getElem? _ _ _ hp
    have hilt := lt_length_of_getElem? _ _ _ hm
    have h1 := kmutex_lock_free s a i m ha hm hl
    obtain ⟨s1, hs1⟩ : ∃ s1 : Kernel, s1 =
        { s with mutexes := s.mutexes.set i { m with owner := some a, locks := 1 } } :=
      ⟨_, rfl⟩
    rw [← hs1] at h1
    have hm1 : s1.mutexes[i]? = some { m with owner := some a, locks := 1 } := by
      rw [hs1]; exact List.getElem?_set_self hilt
    have hsize : m.wait_queue.size = 0 := (queue_toList_eq_nil _).mp hempty
    obtain ⟨s2, m2, h2, hact2, htbl2, hm2, hl2, ho2, -, hw2, hq2, hrun2, -⟩ :=
      kmutex_lock_locked s1 a i p { m with owner := some a, locks := 1 }
        (by rw [hs1]; exact ha) (by rw [hs1]; exact hp) hm1 (by show (1 : Int) ≥ 1; decide)
        (by
          intro r hr
          rw [hs1, mutexes_set_queue s i _ r hilt]
          by_cases hri : r = queue_ref.mutex i
          · rw [if_pos hri]; exact ⟨_, rfl, hwq⟩
          · rw [if_neg hri]; exact hsq r hr)
        hwq (by show m.wait_queue.size < _; rw [hsize]; decide)
        (by show p.pid ∉ m.wait_queue.toList; rw [hempty]; simp)
    have h3 : kmutex_lock s2 (i : Int) = none := by
      simp [kmutex_lock, hact2]
    have hmap2 : s2.proc_table.map (fun p => p.pid) = s.proc_table.map (fun p => p.pid) := by
      rw [htbl2, hs1]
      exact map_pid_set s.proc_table a p _ hp rfl
    obtain ⟨hrw2, hrs2, -⟩ := removed_from_wf _ _ _ hrun2 (by rw [hs1]; exact hrw)
    obtain ⟨s3, m3, q3, h4, hm3, hl3, ho3, -, -, hq3, -⟩ :=
      kmutex_unlock_handoff s2 i a m2 p.pid [] (parked i (unqueued p)) junk hm2
        (by rw [hl2]; show (1 : Int) + 1 ≥ 2; decide) hw2
        (by rw [hq2]; show m.wait_queue.toList ++ [p.pid] = _; rw [hempty]; rfl)
        (by rw [pid_to_proc_congr s2 s p.pid hmap2]; exact hfind)
        (by rw [htbl2, hs1]; exact List.getElem?_set_self hlt)
        rfl (by simp) hrw2
        (by
          have : s1.run_queue.size = s.run_queue.size := by rw [hs1]
          omega)
    have hl3a : m3.locks = 1 := by
      rw [hl3, hl2]; show (1 : Int) + 1 - 1 = 1; decide
    have h4a : kmutex_unlock s2 (i : Int) junk = some (s3, 1) := by
      rw [h4, hl2]; show some (s3, (1 : Int) + 1 - 1) = _; rfl
    have h5 := kmutex_unlock_last s3 i m3 junk hm3 hl3a
    have hi3 : i < s3.mutexes.length := lt_length_of_getElem? _ _ _ hm3
    exact ⟨s1, s2, s3, _, { m3 with locks := 0, owner := none }, h1,
      by rw [h2]; rfl, hact2, h3, h4a, h5, List.getElem?_set_self hi3, rfl, rfl⟩

set_option maxRecDepth 100000 in
/-- C9 (counterexample, N = 3). A single process A cannot take mutex 0 three times:
its second `kmutex_lock` leaves it WAITING on the mutex's own wait queue with no
active process, and the third `kmutex_lock` has no result (kernel panic), so there is
no state in which three unlocks could follow three locks. -/
theorem C9_counterexample :
    mutex_view ((kmutex_lock ex_a_running 0).bind (fun r => kmutex_lock r.1 0))
      = some { rc := 2, active := none, states := [proc_state.WAITING, proc_state.IDLE],
               locks := 2, owner := some 1, waiting := [1], runnable := [2] } ∧
    (((kmutex_lock ex_a_running 0).bind (fun r => kmutex_lock r.1 0)).bind
        (fun r => kmutex_lock r.1 0)) = none := by
  constructor <;> decide

set_option maxRecDepth 100000 in
/-- Witness for C9: process A of `ex_a_running` and mutex 0, five rounds. -/
theorem C9_witness :
    ∃ sN mN, iterate (lock_unlock 0 0) 5 ex_a_running = some sN ∧
      sN.mutexes[0]? = some mN ∧ mN.locks = 0 ∧ mN.owner = none := by
  obtain ⟨sN, mN, h1, h2, h3, h4⟩ :=
    (C9_lock_unlock_counting ex_a_running 1 0
      (ex_proc 1 proc_state.ACTIVE (some queue_ref.run)) mutex_zero 0 5
      rfl rfl (by decide) rfl rfl (by decide) (by decide)
      (by intro r hr; cases hr; exact ⟨_, rfl, by decide⟩)
      (by decide) (by decide)).1
  exact ⟨sN, mN, h1, h2, h3, h4 (by decide)⟩

/-! ### Destroying a mutex -/

/-- C10 (amended). For every mutex id in range: with `lock_count > 0`,
`kmutex_destroy` returns -1 and leaves the whole state (mutex table and id free list
included) unchanged; with `lock_count == 0` and a free list that is not full it
returns 0, clears the entry (allocated 0, lock count 0, no owner, empty wait queue)
and appends the id at the tail of the free list; with `lock_count == 0` and a full
free list it returns -1 and changes nothing. -/
theorem C10_mutex_destroy (s : Kernel) (i : Nat) (m : mutex_t)
    (hm : s.mutexes[i]? = some m) :
    (m.locks > 0 → kmutex_destroy s (i : Int) = some (s, -1)) ∧
    (m.locks = 0 → s.mutex_queue.wf → s.mutex_queue.size < QUEUE_SIZE →
      ∃ s1 m1, kmutex_destroy s (i : Int) = some (s1, 0) ∧
        s1.mutexes[i]? = some m1 ∧ m1.allocated = 0 ∧ m1.locks = 0 ∧ m1.owner = none ∧
        m1.wait_queue.toList = [] ∧ m1.wait_queue = queue_init ∧
        s1.mutex_queue.toList = s.mutex_queue.toList ++ [(i : Int)] ∧
        (∀ j, j ≠ i → s1.mutexes[j]? = s.mutexes[j]?)) ∧
    (m.locks = 0 → s.mutex_queue.size = QUEUE_SIZE →
      kmutex_destroy s (i : Int) = some (s, -1)) := by
  have hidx : ¬ ((i : Int) < 0) := by omega
  have hilt := lt_length_of_getElem? _ _ _ hm
  refine ⟨?_, ?_, ?_⟩
  · intro hl
    simp [kmutex_destroy, hidx, hm, hl]
  · intro hl hw hroom
    obtain ⟨q, hq, -, hql, -⟩ := queue_in_spec s.mutex_queue (i : Int) hw hroom
    have hng : ¬ m.locks > 0 := by omega
    have hres : kmutex_destroy s (i : Int) =
        some ({ s with mutex_queue := q, mutexes := s.mutexes.set i mutex_zero }, 0) := by
      simp [kmutex_destroy, hidx, hm, hng, hq]
    refine ⟨_, mutex_zero, hres, List.getElem?_set_self hilt, rfl, rfl, rfl,
      queue_init_toList, rfl, hql, ?_⟩
    intro j hj
    exact List.getElem?_set_ne (fun h => hj h.symm)
  · intro hl hfull
    have hng : ¬ m.locks > 0 := by omega
    simp [kmutex_destroy, hidx, hm, hng, (queue_in_eq_none _ _).mpr hfull]

set_option maxRecDepth 100000 in
/-- C10 (counterexample). In a state reached from boot by `kmutexes_init`,
`kmutex_init` and seventeen `kmutex_destroy(1)`, mutex 0 is allocated with lock count
0 and the id free list is full; `kmutex_destroy(0)` returns -1 and mutex 0 stays
allocated, the free list unchanged. -/
theorem C10_counterexample :
    destroy_view (ex_free_list_full.map (fun s => (s, 0)))
      = some { rc := 0, free_ids := [1, 2, 3, 4, 5, 6, 7, 8, 9, 10, 11, 12, 13, 14, 15,
                                     1, 1, 1, 1, 1, 1, 1, 1, 1, 1, 1, 1, 1, 1, 1, 1, 1],
               allocated := 1, locks := 0 } ∧
    destroy_view (ex_free_list_full.bind (fun s => kmutex_destroy s 0))
      = some { rc := -1, free_ids := [1, 2, 3, 4, 5, 6, 7, 8, 9, 10, 11, 12, 13, 14, 15,
                                      1, 1, 1, 1, 1, 1, 1, 1, 1, 1, 1, 1, 1, 1, 1, 1, 1],
               allocated := 1, locks := 0 } := by
  constructor <;> decide

set_option maxRecDepth 100000 in
/-- Witness for C10: the allocated, unlocked mutex 0 of `ex_mutex_allocated` is
destroyed and its id queued behind ids 1 to 15. -/
theorem C10_witness :
    ∃ s1 m1, kmutex_destroy ex_mutex_allocated 0 = some (s1, 0) ∧
      s1.mutexes[0]? = some m1 ∧ m1.allocated = 0 ∧ m1.locks = 0 ∧ m1.owner = none ∧
      m1.wait_queue.toList = [] ∧
      s1.mutex_queue.toList = [1, 2, 3, 4, 5, 6, 7, 8, 9, 10, 11, 12, 13, 14, 15, 0] := by
  obtain ⟨s1, m1, h1, h2, h3, h4, h5, h6, -, h7, -⟩ :=
    (C10_mutex_destroy ex_mutex_allocated 0 { mutex_zero with allocated := 1 } rfl).2.1
      rfl (by decide) (by decide)
  exact ⟨s1, m1, h1, h2, h3, h4, h5, h6, h7⟩

/-! ### Semaphores -/

set_option maxRecDepth 100000 in
/-- C11 (code evaluated at the failing input). On freshly initialised tables
`ksem_init(1)` returns id 0 and marks entry 0 allocated, but the entry's count is 0,
not the initial value 1: the parameter is never stored. -/
theorem C11_ksem_init_ignores_value :
    sem_view (ksem_init ex_a_running 1 0)
      = some { rc := 0, active := some 1, states := [proc_state.ACTIVE, proc_state.IDLE],
               allocated := 1, count := 0, waiting := [],
               free_ids := [1, 2, 3, 4, 5, 6, 7, 8, 9, 10, 11, 12, 13, 14, 15],
               runnable := [2] } := by
  decide

set_option maxRecDepth 100000 in
/-- C14 (code evaluated at the failing input). With process A (pid 1) parked on
semaphore 0 and count 0, `ksem_destroy(0)` returns 0, clears the entry together with
its wait queue and queues id 0 for reuse, while A stays in state WAITING. -/
theorem C14_ksem_destroy_ignores_waiters :
    sem_view (ex_sem_parked.map (fun s => (s, 0)))
      = some { rc := 0, active := some 1, states := [proc_state.WAITING, proc_state.IDLE],
               allocated := 1, count := 0, waiting := [1],
               free_ids := [1, 2, 3, 4, 5, 6, 7, 8, 9, 10, 11, 12, 13, 14, 15],
               runnable := [2] } ∧
    sem_view (ex_sem_parked.bind (fun s => ksem_destroy s 0))
      = some { rc := 0, active := some 1, states := [proc_state.WAITING, proc_state.IDLE],
               allocated := 0, count := 0, waiting := [],
               free_ids := [1, 2, 3, 4, 5, 6, 7, 8, 9, 10, 11, 12, 13, 14, 15, 0],
               runnable := [2] } := by
  constructor <;> decide

set_option maxRecDepth 100000 in
/-- C20 (code evaluated at the failing inputs). With the 16-entry tables of
`ex_a_running`: for the id -1 each of the six handlers passes its guard and indexes
the table outside its bounds (no defined result) instead of returning -1; for the id
`MUTEX_MAX` = 16 `ksyscall_mutex_unlock`, whose guard is `mutex > MUTEX_MAX`, does
the same, while the five handlers with a `>=` guard return -1 and change nothing. -/
theorem C20_bad_ids_reach_the_tables :
    (ksyscall_mutex_destroy ex_a_running (-1) = none ∧
      ksyscall_mutex_lock ex_a_running (-1) = none ∧
      ksyscall_mutex_unlock ex_a_running (-1) 0 = none ∧
      ksyscall_sem_destroy ex_a_running (-1) = none ∧
      ksyscall_sem_wait ex_a_running (-1) = none ∧
      ksyscall_sem_post ex_a_running (-1) = none) ∧
    (ksyscall_mutex_unlock ex_a_running 16 0 = kmutex_unlock ex_a_running 16 0 ∧
      ksyscall_mutex_unlock ex_a_running 16 0 = none) ∧
    (ksyscall_mutex_destroy ex_a_running 16 = some (ex_a_running, -1) ∧
      ksyscall_mutex_lock ex_a_running 16 = some (ex_a_running, -1) ∧
      ksyscall_sem_destroy ex_a_running 16 = some (ex_a_running, -1) ∧
      ksyscall_sem_wait ex_a_running 16 = some (ex_a_running, -1) ∧
      ksyscall_sem_post ex_a_running 16 = some (ex_a_running, -1)) := by
  refine ⟨⟨?_, ?_, ?_, ?_, ?_, ?_⟩, ⟨?_, ?_⟩, ⟨?_, ?_, ?_, ?_, ?_⟩⟩ <;> decide

/-! ### Process creation and destruction -/

/-- The successful path of `kproc_create`: with the table index `e` at the head of a
well-formed free list and room in the run queue, the index is popped, the entry is
filled with the new PCB as `scheduler_add` leaves it, the pid is the old `next_pid`
and is appended to the run queue. -/
theorem kproc_create_spec (env : create_env) (s : Kernel) (proc_ptr : Nat) (name : List Nat)
    (proc_type : Int) (e : Nat) (rest : List Int) (p0 : proc_t)
    (hptr : proc_ptr ≠ 0) (haw : s.proc_allocator.wf)
    (hal : s.proc_allocator.toList = (e : Int) :: rest) (he : s.proc_table[e]? = some p0)
    (hrw : s.run_queue.wf) (hroom : s.run_queue.size < QUEUE_SIZE) :
    ∃ q rq, kproc_create env s proc_ptr (some name) proc_type =
        some ({ s with
                  proc_allocator := q, next_pid := s.next_pid + 1, run_queue := rq,
                  proc_table := s.proc_table.set e
                    (requeued (created_pcb env s.next_pid s.timer_ticks proc_ptr name
                      proc_type)) }, s.next_pid) ∧
      q.wf ∧ q.toList = rest ∧ q.size + 1 = s.proc_allocator.size ∧
      rq.wf ∧ rq.toList = s.run_queue.toList ++ [s.next_pid] ∧
      rq.size = s.run_queue.size + 1 := by
  have hpos : 0 < s.proc_allocator.size := by
    rw [← queue_toList_length, hal]; simp
  obtain ⟨x, q, hq, hqw, hxl, hqs⟩ := queue_out_spec s.proc_allocator haw hpos
  rw [hal] at hxl
  injection hxl with hx hql
  subst hx
  obtain ⟨rq, hrq, hrqw, hrql, hrqs⟩ := queue_in_spec s.run_queue s.next_pid hrw hroom
  have helt := lt_length_of_getElem? _ _ _ he
  have hidx : ¬ ((e : Int) < 0) := by omega
  refine ⟨q, rq, ?_, hqw, hql.symm, hqs, hrqw, hrql, hrqs⟩
  have hrq1 : queue_in s.run_queue
      (created_pcb env s.next_pid s.timer_ticks proc_ptr name proc_type).pid = some rq := hrq
  simp only [kproc_create, hptr, if_false, hq, hidx, Int.toNat_ofNat, he, scheduler_add,
    List.getElem?_set_self helt, hrq1, List.set_set, requeued]
  rfl

/-- C15. For every kernel state with a non-empty (well-formed) process free list
whose head is a table index and a run queue that is not full, `kproc_create` with
non-null entry and name pops the index at the head of the free list, returns a pid
equal to the previous `next_pid`, increments `next_pid` by one, and leaves the PCB at
that index with that pid, the given type, state IDLE, `run_time` 0, `cpu_time` 0 and
`scheduler_queue` the run queue, its pid appended at the tail of the run queue after
the unchanged earlier entries. -/
theorem C15_kproc_create (env : create_env) (s : Kernel) (proc_ptr : Nat) (name : List Nat)
    (proc_type : Int) (e : Nat) (rest : List Int) (p0 : proc_t)
    (hptr : proc_ptr ≠ 0) (haw : s.proc_allocator.wf)
    (hal : s.proc_allocator.toList = (e : Int) :: rest) (he : s.proc_table[e]? = some p0)
    (hrw : s.run_queue.wf) (hroom : s.run_queue.size < QUEUE_SIZE) :
    ∃ s1 p, kproc_create env s proc_ptr (some name) proc_type = some (s1, s.next_pid) ∧
      s1.proc_allocator.toList = rest ∧
      s1.next_pid = s.next_pid + 1 ∧
      s1.proc_table[e]? = some p ∧
      p.pid = s.next_pid ∧ p.type = proc_type ∧ p.state = proc_state.IDLE ∧
      p.run_time = 0 ∧ p.cpu_time = 0 ∧ p.scheduler_queue = some queue_ref.run ∧
      s1.run_queue.toList = s.run_queue.toList ++ [s.next_pid] ∧
      (∀ j, j ≠ e → s1.proc_table[j]? = s.proc_table[j]?) := by
  obtain ⟨q, rq, h, -, hql, -, -, hrql, -⟩ :=
    kproc_create_spec env s proc_ptr name proc_type e rest p0 hptr haw hal he hrw hroom
  have helt := lt_length_of_getElem? _ _ _ he
  exact ⟨_, _, h, hql, rfl, List.getElem?_set_self helt, rfl, rfl, rfl, rfl, rfl, rfl, hrql,
    fun j hj => List.getElem?_set_ne (fun h => hj h.symm)⟩

set_option maxRecDepth 100000 in
/-- Witness for C15: the first creation after boot takes table index 0 and pid 0. -/
theorem C15_witness :
    ∃ s1 p, kproc_create ex_env ex_boot 4096 (some [105, 100, 108, 101]) 0 = some (s1, 0) ∧
      s1.proc_allocator.toList = [1, 2, 3] ∧ s1.next_pid = 1 ∧
      s1.proc_table[0]? = some p ∧ p.pid = 0 ∧ p.state = proc_state.IDLE ∧
      p.scheduler_queue = some queue_ref.run ∧ s1.run_queue.toList = [0] := by
  obtain ⟨s1, p, h1, h2, h3, h4, h5, -, h7, -, -, h10, h11, -⟩ :=
    C15_kproc_create ex_env ex_boot 4096 [105, 100, 108, 101] 0 0 [1, 2, 3] proc_zero
      (by decide) (by decide) (by decide) (by decide) (by decide) (by decide)
  exact ⟨s1, p, h1, h2, h3, h4, h5, h7, h10, h11⟩

/-- C18. `kproc_destroy` applied to a PCB whose pid is 0 returns -1 and leaves the
whole kernel state unchanged. -/
theorem C18_kproc_destroy_idle (s : Kernel) (e : Nat) (p : proc_t)
    (hp : s.proc_table[e]? = some p) (hpid : p.pid = 0) :
    kproc_destroy s (some e) = some (s, -1) := by
  simp [kproc_destroy, hp, hpid]

set_option maxRecDepth 100000 in
/-- Witness for C18: the idle process (entry 0, pid 0) of `ex_a_running`. -/
theorem C18_witness : kproc_destroy ex_a_running (some 0) = some (ex_a_running, -1) :=
  C18_kproc_destroy_idle ex_a_running 0 (ex_proc 0 proc_state.IDLE (some queue_ref.run))
    rfl rfl

theorem alloc_fill_spec (q : queue_t) (l : List Nat) (hw : q.wf)
    (hroom : q.size + l.length ≤ QUEUE_SIZE) :
    (alloc_fill q l).wf ∧ (alloc_fill q l).toList = q.toList ++ l.map (fun i : Nat => (i : Int)) := by
  induction l generalizing q with
  | nil => exact ⟨hw, by simp [alloc_fill]⟩
  | cons i rest ih =>
    simp only [List.length_cons] at hroom
    obtain ⟨q1, hq1, hq1w, hq1l, hq1s⟩ := queue_in_spec q (i : Int) hw (by omega)
    obtain ⟨h1, h2⟩ := ih q1 hq1w (by omega)
    simp only [alloc_fill, hq1, Option.getD_some]
    exact ⟨h1, by rw [h2, hq1l]; simp⟩

theorem kproc_init_tables_inv (s : Kernel) (hP : s.proc_table.length ≤ QUEUE_SIZE)
    (hrw : s.run_queue.wf) (hr0 : s.run_queue.size = 0) :
    create_inv s.proc_table.length 0 (kproc_init_tables s) := by
  obtain ⟨h1, h2⟩ := alloc_fill_spec queue_init (List.range s.proc_table.length) queue_init_wf
    (by simp [queue_init]; exact hP)
  refine ⟨by simp [kproc_init_tables], h1, ?_, hrw, ?_⟩
  · show (alloc_fill queue_init (List.range s.proc_table.length)).toList = _
    rw [h2, queue_init_toList]; simp
  · show s.run_queue.size + _ ≤ _
    rw [hr0]; simpa using hP

theorem range_drop_cons (P j : Nat) (h : j < P) :
    ((List.range P).drop j).map (fun i : Nat => (i : Int))
      = (j : Int) :: ((List.range P).drop (j + 1)).map (fun i : Nat => (i : Int)) := by
  have hlen : j < (List.range P).length := by simpa using h
  rw [List.drop_eq_getElem_cons hlen]
  simp

/-- One creation moves the allocator invariant from `j` to `j + 1` and returns the
old `next_pid`. -/
theorem create_inv_step (env : create_env) (proc_ptr : Nat) (name : List Nat)
    (proc_type : Int) (P j : Nat) (s : Kernel) (hptr : proc_ptr ≠ 0)
    (hi : create_inv P j s) (hj : j < P) :
    ∃ s1, kproc_create env s proc_ptr (some name) proc_type = some (s1, s.next_pid) ∧
      create_inv P (j + 1) s1 ∧ s1.next_pid = s.next_pid + 1 := by
  obtain ⟨hlen, haw, hal, hrw, hroom⟩ := hi
  rw [range_drop_cons P j hj] at hal
  obtain ⟨p0, hp0⟩ : ∃ p0, s.proc_table[j]? = some p0 :=
    ⟨_, List.getElem?_eq_getElem (by rw [hlen]; exact hj)⟩
  obtain ⟨q, rq, h, hqw, hql, -, hrqw, -, hrqs⟩ :=
    kproc_create_spec env s proc_ptr name proc_type j _ p0 hptr haw hal hp0 hrw (by omega)
  refine ⟨_, h, ⟨?_, hqw, hql, hrqw, ?_⟩, rfl⟩
  · show (s.proc_table.set j _).length = P
    rw [List.length_set]; exact hlen
  · show rq.size + _ ≤ _
    rw [hrqs]; omega

theorem create_n_spec (env : create_env) (proc_ptr : Nat) (name : List Nat)
    (proc_type : Int) (P : Nat) (hptr : proc_ptr ≠ 0) (n j : Nat) (s : Kernel)
    (hi : create_inv P j s) (hn : j + n ≤ P) :
    ∃ s1 pids, create_n env proc_ptr name proc_type n s = some (s1, pids) ∧
      create_inv P (j + n) s1 ∧
      pids = (List.range n).map (fun k : Nat => s.next_pid + (k : Int)) := by
  induction n generalizing j s with
  | zero => exact ⟨s, [], rfl, hi, rfl⟩
  | succ n ih =>
    obtain ⟨s1, h1, hi1, hnp⟩ :=
      create_inv_step env proc_ptr name proc_type P j s hptr hi (by omega)
    obtain ⟨s2, pids, h2, hi2, hp2⟩ := ih (j + 1) s1 hi1 (by omega)
    refine ⟨s2, s.next_pid :: pids, by simp only [create_n, h1, h2], ?_, ?_⟩
    · have : j + (n + 1) = j + 1 + n := by omega
      rw [this]; exact hi2
    · rw [hp2, hnp, List.range_succ_eq_map]
      simp only [List.map_cons, List.map_map, Nat.cast_zero, add_zero, List.cons.injEq,
        true_and]
      apply List.map_congr_left
      intro k _
      simp only [Function.comp, Nat.succ_eq_add_one, Nat.cast_add, Nat.cast_one]
      ring

/-- C16. For every kernel state whose process free list is empty, `kproc_create`
with non-null entry and name returns -1 and leaves the whole state (`next_pid`,
process table, run queue and free list) unchanged.  In particular, after
`kproc_init` has seeded the allocator of a table of `PROC_MAX <= QUEUE_SIZE`
entries, `PROC_MAX` creations succeed, returning the pids `next_pid ..
next_pid + PROC_MAX - 1`, and leave the free list empty, so that one more creation
returns -1. -/
theorem C16_kproc_create_exhausted (env : create_env) (proc_ptr : Nat) (name : List Nat)
    (proc_type : Int) (hptr : proc_ptr ≠ 0) :
    (∀ s : Kernel, s.proc_allocator.size = 0 →
      kproc_create env s proc_ptr (some name) proc_type = some (s, -1)) ∧
    (∀ s : Kernel, s.proc_table.length ≤ QUEUE_SIZE → s.run_queue.wf →
      s.run_queue.size = 0 → 0 ≤ s.next_pid →
      ∃ s1 pids, create_n env proc_ptr name proc_type s.proc_table.length
          (kproc_init_tables s) = some (s1, pids) ∧
        pids = (List.range s.proc_table.length).map (fun k : Nat => s.next_pid + (k : Int)) ∧
        (∀ pid ∈ pids, pid ≠ -1) ∧
        s1.proc_allocator.size = 0 ∧
        kproc_create env s1 proc_ptr (some name) proc_type = some (s1, -1)) := by
  have hfirst : ∀ s : Kernel, s.proc_allocator.size = 0 →
      kproc_create env s proc_ptr (some name) proc_type = some (s, -1) := by
    intro s hs
    simp [kproc_create, hptr, (queue_out_eq_none _).mpr hs]
  refine ⟨hfirst, ?_⟩
  intro s hP hrw hr0 hnp
  have hinv := kproc_init_tables_inv s hP hrw hr0
  obtain ⟨s1, pids, h1, hi1, hp1⟩ :=
    create_n_spec env proc_ptr name proc_type s.proc_table.length hptr s.proc_table.length 0
      (kproc_init_tables s) hinv (by omega)
  have hsz : s1.proc_allocator.size = 0 := by
    have h := hi1.2.2.1
    rw [← queue_toList_length, h]
    simp
  refine ⟨s1, pids, h1, hp1, ?_, hsz, hfirst s1 hsz⟩
  intro pid hpid
  rw [hp1] at hpid
  simp only [List.mem_map, List.mem_range] at hpid
  obtain ⟨k, -, hk⟩ := hpid
  have : (kproc_init_tables s).next_pid = s.next_pid := rfl
  rw [this] at hk
  omega

set_option maxRecDepth 100000 in
/-- Witness for C16: on the four-entry table of `ex_boot`, four creations empty the
free list and the fifth returns -1. -/
theorem C16_witness :
    ∃ s1 pids, create_n ex_env 4096 [112] 1 4
        (kproc_init_tables (scheduler_init (ex_kernel ex_table))) = some (s1, pids) ∧
      pids = [0, 1, 2, 3] ∧ s1.proc_allocator.size = 0 ∧
      kproc_create ex_env s1 4096 (some [112]) 1 = some (s1, -1) := by
  obtain ⟨s1, pids, h1, h2, -, h4, h5⟩ :=
    (C16_kproc_create_exhausted ex_env 4096 [112] 1 (by decide)).2
      (scheduler_init (ex_kernel ex_table)) (by decide) (by decide) (by decide) (by decide)
  exact ⟨s1, pids, h1, h2, h4, h5⟩

/-! ### `ksem_post` and `ksem_wait` -/

theorem wrap_int_succ (c : Int) (h0 : INT_MIN ≤ c) (h1 : c < INT_MAX) :
    wrap_int (c + 1) = c + 1 := by
  unfold wrap_int
  unfold INT_MIN at h0
  unfold INT_MAX at h1
  omega

theorem wrap_int_succ_pred (c : Int) (h0 : INT_MIN ≤ c) (h1 : c ≤ INT_MAX) :
    wrap_int (wrap_int (c + 1) - 1) = c := by
  unfold wrap_int
  unfold INT_MIN at h0
  unfold INT_MAX at h1
  omega

theorem wrap_int_max : wrap_int (INT_MAX + 1) = INT_MIN := by
  decide

set_option maxRecDepth 100000 in
/-- C13 (counterexample). Semaphore 0 has the count `INT_MAX` = 2147483647 and an
empty wait queue.  `ksem_post` does not store and return the count plus one: the
32-bit count wraps around to `INT_MIN` = -2147483648, which is stored and returned. -/
theorem C13_counterexample :
    sem_view (ksem_post (ex_sem_count 2147483647) 0)
      = some { rc := -2147483648, active := some 1,
               states := [proc_state.ACTIVE, proc_state.IDLE],
               allocated := 1, count := -2147483648, waiting := [],
               free_ids := [0, 1, 2, 3, 4, 5, 6, 7, 8, 9, 10, 11, 12, 13, 14, 15],
               runnable := [2] } := by
  decide

/-- C13 (amended). For every semaphore with a well-formed wait queue whose count is
a 32-bit value: when the wait queue is empty and the count is below `INT_MAX`,
`ksem_post` increments the count by one and returns the new count; when its head is
the pid `W` of a table entry (and the run queue has room) `ksem_post` leaves the
count unchanged, removes `W` from the wait queue, puts that process in state IDLE at
the tail of the run queue and returns the unchanged count; when the wait queue is
empty and the count is `INT_MAX`, the count becomes `INT_MIN`, which is returned.  In
all cases `active_proc` is not changed. -/
theorem C13_ksem_post (s : Kernel) (i : Nat) (m : sem_t)
    (hm : s.semaphores[i]? = some m) (hwq : m.wait_queue.wf)
    (hmin : INT_MIN ≤ m.count) (hmax : m.count ≤ INT_MAX) :
    (m.wait_queue.toList = [] → m.count < INT_MAX →
      ∃ s1 m1, ksem_post s (i : Int) = some (s1, m.count + 1) ∧
        s1.semaphores[i]? = some m1 ∧ m1.count = m.count + 1 ∧
        m1.wait_queue = m.wait_queue ∧ s1.active_proc = s.active_proc ∧
        s1.proc_table = s.proc_table ∧ s1.run_queue = s.run_queue) ∧
    (∀ (W : Int) (rest : List Int) (w : Nat) (pw : proc_t),
      m.wait_queue.toList = W :: rest → pid_to_proc s W = some w →
      s.proc_table[w]? = some pw → s.run_queue.wf → s.run_queue.size < QUEUE_SIZE →
      ∃ s1 m1 p1, ksem_post s (i : Int) = some (s1, m.count) ∧
        s1.semaphores[i]? = some m1 ∧ m1.count = m.count ∧
        m1.wait_queue.toList = rest ∧
        s1.proc_table[w]? = some p1 ∧ p1.pid = W ∧ p1.state = proc_state.IDLE ∧
        p1.scheduler_queue = some queue_ref.run ∧
        s1.run_queue.toList = s.run_queue.toList ++ [W] ∧
        s1.active_proc = s.active_proc) ∧
    (m.wait_queue.toList = [] → m.count = INT_MAX →
      ∃ s1 m1, ksem_post s (i : Int) = some (s1, INT_MIN) ∧
        s1.semaphores[i]? = some m1 ∧ m1.count = INT_MIN ∧
        m1.wait_queue = m.wait_queue ∧ s1.active_proc = s.active_proc ∧
        s1.proc_table = s.proc_table ∧ s1.run_queue = s.run_queue) := by
  have hidx : ¬ ((i : Int) < 0) := by omega
  have hilt := lt_length_of_getElem? _ _ _ hm
  have hpost : m.wait_queue.toList = [] → ksem_post s (i : Int) =
      some ({ s with semaphores := s.semaphores.set i
                       { m with count := wrap_int (m.count + 1) } },
            wrap_int (m.count + 1)) := by
    intro hempty
    have hsz : m.wait_queue.size = 0 := (queue_toList_eq_nil _).mp hempty
    have hq : queue_out m.wait_queue = none := (queue_out_eq_none _).mpr hsz
    simp only [ksem_post, hidx, if_false, Int.toNat_ofNat, hm, hq]
  refine ⟨?_, ?_, ?_⟩
  · intro hempty hlt
    have hres := hpost hempty
    rw [wrap_int_succ m.count hmin hlt] at hres
    exact ⟨_, { m with count := m.count + 1 }, hres, List.getElem?_set_self hilt, rfl, rfl,
      rfl, rfl, rfl⟩
  · intro W rest w pw hhead hfind hpw hrw hroom
    have hpos : 0 < m.wait_queue.size := by
      rw [← queue_toList_length, hhead]; simp
    obtain ⟨x, q, hq, hqw, hxl, -⟩ := queue_out_spec m.wait_queue hwq hpos
    rw [hhead] at hxl
    injection hxl with hx hql
    subst hx
    have hpid : pw.pid = W := by
      obtain ⟨p0, hp0, hp0p⟩ := pid_to_proc_some s W w hfind
      rw [hpw] at hp0
      injection hp0 with hp0
      rw [hp0]; exact hp0p
    obtain ⟨rq, hrq, hrqw, hrql, -⟩ := queue_in_spec s.run_queue pw.pid hrw hroom
    have hwlt := lt_length_of_getElem? _ _ _ hpw
    have hfind1 : pid_to_proc
        { s with semaphores := s.semaphores.set i
                   { m with count := wrap_int (m.count + 1), wait_queue := q } } W
        = some w := hfind
    have hres : ksem_post s (i : Int) =
        some ({ s with
                  proc_table := s.proc_table.set w (requeued pw), run_queue := rq,
                  semaphores := (s.semaphores.set i
                    { m with count := wrap_int (m.count + 1), wait_queue := q }).set i
                    { m with count := wrap_int (wrap_int (m.count + 1) - 1),
                             wait_queue := q } },
              wrap_int (wrap_int (m.count + 1) - 1)) := by
      simp only [ksem_post, hidx, if_false, Int.toNat_ofNat, hm, hq, hfind1, scheduler_add,
        hpw, hrq, List.getElem?_set_self hilt, requeued]
    rw [wrap_int_succ_pred m.count hmin hmax] at hres
    refine ⟨_, { m with count := m.count, wait_queue := q }, requeued pw, hres,
      List.getElem?_set_self (by simpa using hilt), rfl, hql.symm,
      List.getElem?_set_self hwlt, hpid, rfl, rfl, ?_, rfl⟩
    show rq.toList = _
    rw [hrql, hpid]
  · intro hempty heq
    have hres := hpost hempty
    rw [heq, wrap_int_max] at hres
    exact ⟨_, { m with count := INT_MIN }, hres, List.getElem?_set_self hilt, rfl, rfl,
      rfl, rfl, rfl⟩

set_option maxRecDepth 100000 in
/-- Witness for C13: B (pid 2) is parked on semaphore 0 and A posts it. -/
theorem C13_witness :
    ∃ s1 m1 p1, ksem_post ex_sem_b_parked 0 = some (s1, 0) ∧
      s1.semaphores[0]? = some m1 ∧ m1.count = 0 ∧ m1.wait_queue.toList = [] ∧
      s1.proc_table[2]? = some p1 ∧ p1.pid = 2 ∧ p1.state = proc_state.IDLE ∧
      p1.scheduler_queue = some queue_ref.run ∧
      s1.run_queue.toList = [2] ∧ s1.active_proc = some 1 :=
  (C13_ksem_post ex_sem_b_parked 0 { allocated := 1, count := 0, wait_queue := ex_queue [2] }
    rfl (by decide) (by decide) (by decide)).2.1 2 [] 2
    (ex_proc 2 proc_state.WAITING (some (queue_ref.sem 0)))
    (by decide) (by decide) rfl (by decide) (by decide)

/-! ### `ksem_wait` followed by `scheduler_run` -/

/-- With an active process that is not in state ACTIVE, `scheduler_run` drops it and
schedules the entry `pid_to_proc` finds for the head of the run queue, or for pid 0
when the run queue is empty; it returns exactly when that lookup succeeds. -/
theorem scheduler_run_blocked (s : Kernel) (a : Nat) (p : proc_t)
    (ha : s.active_proc = some a) (hp : s.proc_table[a]? = some p)
    (hst : p.state ≠ proc_state.ACTIVE) (hrw : s.run_queue.wf) :
    (∀ s2, scheduler_run s = some s2 →
      s2.active_proc = pid_to_proc s (s.run_queue.toList.head?.getD 0)) ∧
    (∀ b, pid_to_proc s (s.run_queue.toList.head?.getD 0) = some b →
      ∃ s2, scheduler_run s = some s2 ∧ s2.active_proc = some b) := by
  have hdrop : scheduler_run_drop s = some { s with active_proc := none } := by
    simp [scheduler_run_drop, ha, hp, hst]
  have hslice : scheduler_run_slice { s with active_proc := none }
      = some { s with active_proc := none } := rfl
  have hsel : ∃ q, scheduler_run_select { s with active_proc := none } =
      { s with run_queue := q,
               active_proc := pid_to_proc s (s.run_queue.toList.head?.getD 0) } := by
    by_cases hsz : s.run_queue.size = 0
    · have hq : queue_out s.run_queue = none := (queue_out_eq_none _).mpr hsz
      have hl : s.run_queue.toList = [] := (queue_toList_eq_nil _).mpr hsz
      refine ⟨s.run_queue, ?_⟩
      simp only [scheduler_run_select, hq, hl, List.head?_nil, Option.getD_none]
      rfl
    · obtain ⟨x, q, hq, -, hl, -⟩ := queue_out_spec s.run_queue hrw (Nat.pos_of_ne_zero hsz)
      refine ⟨q, ?_⟩
      simp only [scheduler_run_select, hq, hl, List.head?_cons, Option.getD_some]
      rfl
  obtain ⟨q, hsel⟩ := hsel
  have hrun : scheduler_run s =
      match pid_to_proc s (s.run_queue.toList.head?.getD 0) with
      | none => none
      | some b =>
        match s.proc_table[b]? with
        | none => none
        | some pb =>
          some (({ s with run_queue := q, active_proc := some b } : Kernel).set_proc b
            (activated pb)) := by
    simp only [scheduler_run, hdrop, hslice, hsel]
    cases pid_to_proc s (s.run_queue.toList.head?.getD 0) with
    | none => rfl
    | some b =>
      simp only []
      cases s.proc_table[b]? with
      | none => rfl
      | some pb => rfl
  constructor
  · intro s2 h2
    rw [hrun] at h2
    cases hb : pid_to_proc s (s.run_queue.toList.head?.getD 0) with
    | none => rw [hb] at h2; cases h2
    | some b =>
      rw [hb] at h2
      simp only [] at h2
      cases hpb : s.proc_table[b]? with
      | none => rw [hpb] at h2; cases h2
      | some pb =>
        rw [hpb] at h2
        injection h2 with h2
        rw [← h2]; rfl
  · intro b hb
    obtain ⟨pb, hpb, -⟩ := pid_to_proc_some s _ b hb
    rw [hrun, hb]
    simp only [hpb]
    exact ⟨_, rfl, rfl⟩

/-- The blocking branch of `ksem_wait`. -/
theorem ksem_wait_zero (s : Kernel) (a i : Nat) (p : proc_t) (m : sem_t)
    (ha : s.active_proc = some a) (hp : s.proc_table[a]? = some p)
    (hm : s.semaphores[i]? = some m) (hc : m.count = 0)
    (hwq : m.wait_queue.wf) (hroom : m.wait_queue.size < QUEUE_SIZE) :
    ∃ q, ksem_wait s (i : Int) =
        some ({ s with
                  proc_table := s.proc_table.set a (sem_parked i p),
                  semaphores := (s.semaphores.set i { m with wait_queue := q }).set i
                    { m with wait_queue := q } }, 0) ∧
      q.wf ∧ q.toList = m.wait_queue.toList ++ [p.pid] := by
  have hidx : ¬ ((i : Int) < 0) := by omega
  have hilt := lt_length_of_getElem? _ _ _ hm
  obtain ⟨q, hq, hqw, hql, -⟩ := queue_in_spec m.wait_queue p.pid hwq hroom
  refine ⟨q, ?_, hqw, hql⟩
  have hnp : ¬ (0 : Int) > 0 := by omega
  simp only [ksem_wait, ha, hidx, if_false, Int.toNat_ofNat, hm, hp, hc, if_true, hq,
    Option.getD_some, List.getElem?_set_self hilt, hnp, sem_parked]

/-- The non-blocking branch of `ksem_wait`. -/
theorem ksem_wait_pos (s : Kernel) (a i : Nat) (p : proc_t) (m : sem_t)
    (ha : s.active_proc = some a) (hp : s.proc_table[a]? = some p)
    (hm : s.semaphores[i]? = some m) (hc : m.count > 0) :
    ksem_wait s (i : Int) =
      some ({ s with semaphores := s.semaphores.set i { m with count := m.count - 1 } },
            m.count - 1) := by
  have hidx : ¬ ((i : Int) < 0) := by omega
  have hc0 : ¬ m.count = 0 := by omega
  simp only [ksem_wait, ha, hidx, if_false, Int.toNat_ofNat, hm, hp, hc0, hc, if_true]

set_option maxRecDepth 100000 in
/-- C12 (counterexample to the claim as stated). The idle process (pid 0) is the
active process, the run queue is empty and semaphore 0 has count 0: `ksem_wait(0)`
returns 0 and parks pid 0 on the wait queue, yet the `scheduler_run` of the same
entry finds the run queue empty, falls back to pid 0 and makes the caller the active
process again, in state ACTIVE, with its pid still on the wait queue. -/
theorem C12_counterexample :
    ex_idle_running.active_proc = some 0 ∧
    (ksem_wait ex_idle_running 0).map (fun r => r.2) = some 0 ∧
    (ksem_wait ex_idle_running 0).map (fun r => r.1.proc_table.map (fun p => p.state))
      = some [proc_state.WAITING] ∧
    (wait_then_run ex_idle_running 0).map (fun s => s.active_proc) = some (some 0) ∧
    (wait_then_run ex_idle_running 0).map (fun s => s.proc_table.map (fun p => p.state))
      = some [proc_state.ACTIVE] ∧
    (wait_then_run ex_idle_running 0).map
        (fun s => s.semaphores.take 1 |>.map (fun m => m.wait_queue.toList))
      = some [[0]] := by
  refine ⟨rfl, ?_, ?_, ?_, ?_, ?_⟩ <;> decide

/-- C12 (amended). For every semaphore with a well-formed wait queue that is not full
and every active process A whose pid is not in the well-formed run queue and which is
not the process the scheduler falls back to (A's pid is not 0, or the run queue is
not empty): if count is 0, `ksem_wait` returns 0, leaves count at 0, sets A's state to
WAITING and appends A's pid at the tail of the wait queue, and the `scheduler_run` of
the same kernel entry never leaves A the active process (it returns, with another
process active, whenever the pid it looks up is in the table); if count is positive,
`ksem_wait` decrements it by one, returns the new count and leaves the process table,
the active process and the wait queue unchanged. -/
theorem C12_ksem_wait (s : Kernel) (a i : Nat) (p : proc_t) (m : sem_t)
    (ha : s.active_proc = some a) (hp : s.proc_table[a]? = some p)
    (hm : s.semaphores[i]? = some m)
    (hwq : m.wait_queue.wf) (hroom : m.wait_queue.size < QUEUE_SIZE)
    (hrw : s.run_queue.wf) (hnq : p.pid ∉ s.run_queue.toList)
    (hidle : p.pid ≠ 0 ∨ s.run_queue.toList ≠ []) :
    (m.count = 0 →
      ∃ s1 m1 p1, ksem_wait s (i : Int) = some (s1, 0) ∧
        s1.semaphores[i]? = some m1 ∧ m1.count = 0 ∧
        m1.wait_queue.toList = m.wait_queue.toList ++ [p.pid] ∧
        s1.proc_table[a]? = some p1 ∧ p1.state = proc_state.WAITING ∧ p1.pid = p.pid ∧
        (∀ s2, scheduler_run s1 = some s2 → s2.active_proc ≠ some a) ∧
        (∀ b, pid_to_proc s (s.run_queue.toList.head?.getD 0) = some b →
          ∃ s2, scheduler_run s1 = some s2 ∧ s2.active_proc = some b ∧ b ≠ a)) ∧
    (m.count > 0 →
      ∃ s1 m1, ksem_wait s (i : Int) = some (s1, m.count - 1) ∧
        s1.semaphores[i]? = some m1 ∧ m1.count = m.count - 1 ∧
        m1.wait_queue = m.wait_queue ∧ s1.proc_table = s.proc_table ∧
        s1.active_proc = some a) := by
  have hilt := lt_length_of_getElem? _ _ _ hm
  have halt := lt_length_of_getElem? _ _ _ hp
  constructor
  · intro hc
    obtain ⟨q, hres, -, hql⟩ := ksem_wait_zero s a i p m ha hp hm hc hwq hroom
    obtain ⟨s1, hs1⟩ : ∃ s1 : Kernel, s1 =
        { s with
            proc_table := s.proc_table.set a (sem_parked i p),
            semaphores := (s.semaphores.set i { m with wait_queue := q }).set i
              { m with wait_queue := q } } := ⟨_, rfl⟩
    rw [← hs1] at hres
    have hp1 : s1.proc_table[a]? = some (sem_parked i p) := by
      rw [hs1]; exact List.getElem?_set_self halt
    have ha1 : s1.active_proc = some a := by rw [hs1]; exact ha
    have hrq1 : s1.run_queue = s.run_queue := by rw [hs1]
    have hpids : s1.proc_table.map (fun p => p.pid) = s.proc_table.map (fun p => p.pid) := by
      rw [hs1]; exact map_pid_set s.proc_table a p _ hp rfl
    have hfind : ∀ pid, pid_to_proc s1 pid = pid_to_proc s pid :=
      fun pid => pid_to_proc_congr s1 s pid hpids
    obtain ⟨hb1, hb2⟩ := scheduler_run_blocked s1 a (sem_parked i p) ha1 hp1
      (by simp [sem_parked]) (by rw [hrq1]; exact hrw)
    rw [hrq1, hfind] at hb1 hb2
    have hne : ∀ b, pid_to_proc s (s.run_queue.toList.head?.getD 0) = some b → b ≠ a := by
      intro b hb hba
      subst hba
      obtain ⟨p0, hp0, hpid0⟩ := pid_to_proc_some s _ b hb
      rw [hp] at hp0
      injection hp0 with hp0
      subst hp0
      cases hl : s.run_queue.toList with
      | nil =>
        rw [hl] at hpid0
        rcases hidle with h | h
        · exact h hpid0
        · exact h hl
      | cons x xs =>
        rw [hl] at hpid0 hnq
        simp only [List.head?_cons, Option.getD_some] at hpid0
        exact hnq (by rw [hpid0]; exact List.mem_cons_self _ _)
    refine ⟨s1, { m with wait_queue := q }, sem_parked i p, hres, ?_, hc, hql, hp1, rfl, rfl,
      ?_, ?_⟩
    · rw [hs1]; exact List.getElem?_set_self (by simpa using hilt)
    · intro s2 h2 hact
      have h3 := hb1 s2 h2
      rw [hact] at h3
      exact hne a h3.symm rfl
    · intro b hb
      obtain ⟨s2, h2, h3⟩ := hb2 b hb
      exact ⟨s2, h2, h3, hne b hb⟩
  · intro hc
    exact ⟨_, { m with count := m.count - 1 }, ksem_wait_pos s a i p m ha hp hm hc,
      List.getElem?_set_self hilt, rfl, rfl, rfl, ha⟩

set_option maxRecDepth 100000 in
/-- Witness for C12: A (pid 1, entry 1) is active, B (pid 2) is in the run queue, and
semaphore 0 has count 0. -/
theorem C12_witness :
    ∃ s1 m1 p1, ksem_wait (ex_sem_count 0) 0 = some (s1, 0) ∧
      s1.semaphores[0]? = some m1 ∧ m1.count = 0 ∧ m1.wait_queue.toList = [1] ∧
      s1.proc_table[1]? = some p1 ∧ p1.state = proc_state.WAITING ∧ p1.pid = 1 ∧
      (∀ s2, scheduler_run s1 = some s2 → s2.active_proc ≠ some 1) ∧
      (∀ b, pid_to_proc (ex_sem_count 0) 2 = some b →
        ∃ s2, scheduler_run s1 = some s2 ∧ s2.active_proc = some b ∧ b ≠ 1) :=
  (C12_ksem_wait (ex_sem_count 0) 1 0 (ex_proc 1 proc_state.ACTIVE (some queue_ref.run))
    { sem_zero with allocated := 1, count := 0 } rfl rfl rfl (by decide) (by decide)
    (by decide) (by decide) (Or.inl (by decide))).1 rfl

/-! ### `kproc_destroy` -/

theorem mem_queue_refs (s : Kernel) (r : queue_ref) (q : queue_t) (h : s.queue r = some q) :
    r ∈ queue_refs s := by
  cases r with
  | run => simp [queue_refs]
  | sleep => simp [queue_refs]
  | mutex i =>
    simp only [Kernel.queue] at h
    cases hm : s.mutexes[i]? with
    | none => rw [hm] at h; cases h
    | some m =>
      have := lt_length_of_getElem? _ _ _ hm
      simp [queue_refs, this]
  | sem i =>
    simp only [Kernel.queue] at h
    cases hm : s.semaphores[i]? with
    | none => rw [hm] at h; cases h
    | some m =>
      have := lt_length_of_getElem? _ _ _ hm
      simp [queue_refs, this]

theorem mem_queues_holding (s : Kernel) (pid : Int) (r : queue_ref) :
    r ∈ queues_holding s pid ↔ ∃ q, s.queue r = some q ∧ pid ∈ q.toList := by
  unfold queues_holding
  rw [List.mem_filter]
  constructor
  · rintro ⟨-, h⟩
    unfold holds at h
    cases hq : s.queue r with
    | none => rw [hq] at h; cases h
    | some q =>
      rw [hq] at h
      exact ⟨q, rfl, of_decide_eq_true h⟩
  · rintro ⟨q, hq, hmem⟩
    refine ⟨mem_queue_refs s r q hq, ?_⟩
    unfold holds
    rw [hq]
    exact decide_eq_true hmem

/-- The pid is in no other queue than the one its `scheduler_queue` names. -/
theorem only_in_of_holding (s : Kernel) (pid : Int) (sq : Option queue_ref)
    (h : ∀ r ∈ queues_holding s pid, sq = some r) :
    ∀ r q, s.queue r = some q → pid ∈ q.toList → sq = some r :=
  fun r q hq hmem => h r ((mem_queues_holding s pid r).mpr ⟨q, hq, hmem⟩)

theorem rot_loop_subset (pid : Int) (fuel : Nat) :
    ∀ (i : Nat) (l : List Int) (x : Int), x ∈ rot_loop pid fuel i l → x ∈ l := by
  induction fuel with
  | zero => intro i l x h; simpa [rot_loop] using h
  | succ fuel ih =>
    intro i l x h
    by_cases hi : i < l.length
    · cases l with
      | nil => simp at hi
      | cons y ys =>
        by_cases hy : pid = y
        · simp only [rot_loop, hi, if_true, if_pos hy] at h
          exact List.mem_cons_of_mem _ (ih _ _ _ h)
        · simp only [rot_loop, hi, if_true, if_neg hy] at h
          have := ih _ _ _ h
          rcases List.mem_append.mp this with h1 | h1
          · exact List.mem_cons_of_mem _ h1
          · simp only [List.mem_singleton] at h1
            rw [h1]; exact List.mem_cons_self _ _
    · simpa [rot_loop, hi] using h

/-- The loop of `scheduler_remove` drops a pid that is queued once. -/
theorem rot_loop_drops (pid : Int) (fuel : Nat) :
    ∀ (i : Nat) (l1 l2 : List Int), pid ∉ l1 → pid ∉ l2 → i ≤ l2.length →
      l1.length < fuel → pid ∉ rot_loop pid fuel i (l1 ++ pid :: l2) := by
  induction fuel with
  | zero => intro i l1 l2 _ _ _ hf; omega
  | succ fuel ih =>
    intro i l1 l2 h1 h2 hi hf
    cases l1 with
    | nil =>
      have hlt : i < (pid :: l2).length := by simp; omega
      simp only [List.nil_append, rot_loop, hlt, if_true]
      intro h
      exact h2 (rot_loop_subset pid fuel _ _ _ h)
    | cons x xs =>
      have hx : pid ≠ x := fun h => h1 (by rw [h]; exact List.mem_cons_self _ _)
      have hxs : pid ∉ xs := fun h => h1 (List.mem_cons_of_mem _ h)
      have hlt : i < (x :: (xs ++ pid :: l2)).length := by simp; omega
      simp only [List.cons_append, rot_loop, hlt, if_true, if_neg hx]
      have hre : xs ++ pid :: l2 ++ [x] = xs ++ pid :: (l2 ++ [x]) := by simp
      rw [hre]
      refine ih (i + 1) xs (l2 ++ [x]) hxs ?_ (by simp; omega) (by simp at hf; omega)
      intro h
      rcases List.mem_append.mp h with h3 | h3
      · exact h2 h3
      · simp only [List.mem_singleton] at h3; exact hx h3

/-- After the loop of `scheduler_remove` over a whole queue, a pid that was queued at
most once is gone. -/
theorem rot_loop_removes (pid : Int) (l : List Int) (hc : l.count pid ≤ 1) :
    pid ∉ rot_loop pid l.length 0 l := by
  by_cases hmem : pid ∈ l
  · obtain ⟨l1, l2, hl⟩ := List.append_of_mem hmem
    have hcnt : (l1 ++ pid :: l2).count pid = l1.count pid + 1 + l2.count pid := by
      simp [List.count_append, List.count_cons]; omega
    rw [hl, hcnt] at hc
    have h1 : pid ∉ l1 := List.count_eq_zero.mp (by omega)
    have h2 : pid ∉ l2 := List.count_eq_zero.mp (by omega)
    rw [hl]
    exact rot_loop_drops pid _ 0 l1 l2 h1 h2 (Nat.zero_le _) (by simp)
  · intro h
    exact hmem (rot_loop_subset pid _ _ _ _ h)

theorem set_queue_queue (s : Kernel) (r0 : queue_ref) (q0 q1 : queue_t)
    (h : s.queue r0 = some q0) (r : queue_ref) :
    (s.set_queue r0 q1).queue r = if r = r0 then some q1 else s.queue r := by
  cases r0 with
  | run => cases r <;> simp [Kernel.queue, Kernel.set_queue]
  | sleep => cases r <;> simp [Kernel.queue, Kernel.set_queue]
  | mutex i =>
    simp only [Kernel.queue] at h
    cases hm : s.mutexes[i]? with
    | none => rw [hm] at h; cases h
    | some m =>
      have hlt := lt_length_of_getElem? _ _ _ hm
      cases r with
      | run => simp [Kernel.queue, Kernel.set_queue]
      | sleep => simp [Kernel.queue, Kernel.set_queue]
      | sem k => simp [Kernel.queue, Kernel.set_queue]
      | mutex k =>
        by_cases hk : i = k
        · subst hk
          simp [Kernel.queue, Kernel.set_queue, hm, List.getElem?_set_self hlt]
        · have hk1 : ¬ k = i := fun h => hk h.symm
          simp [Kernel.queue, Kernel.set_queue, hm, List.getElem?_set_ne hk, hk1]
  | sem i =>
    simp only [Kernel.queue] at h
    cases hm : s.semaphores[i]? with
    | none => rw [hm] at h; cases h
    | some m =>
      have hlt := lt_length_of_getElem? _ _ _ hm
      cases r with
      | run => simp [Kernel.queue, Kernel.set_queue]
      | sleep => simp [Kernel.queue, Kernel.set_queue]
      | mutex k => simp [Kernel.queue, Kernel.set_queue]
      | sem k =>
        by_cases hk : i = k
        · subst hk
          simp [Kernel.queue, Kernel.set_queue, hm, List.getElem?_set_self hlt]
        · have hk1 : ¬ k = i := fun h => hk h.symm
          simp [Kernel.queue, Kernel.set_queue, hm, List.getElem?_set_ne hk, hk1]

theorem clear_active_queue (s : Kernel) (r : queue_ref) :
    ({ s with active_proc := none } : Kernel).queue r = s.queue r := by
  cases r <;> rfl

/-- What `scheduler_remove` does to each queue: the queue the PCB points at goes
through the removal loop and every other queue is left as it is. -/
theorem scheduler_remove_queues (s : Kernel) (e : Nat) (p : proc_t)
    (hp : s.proc_table[e]? = some p)
    (hq : ∀ r, p.scheduler_queue = some r → ∃ q, s.queue r = some q ∧ q.wf) :
    ∃ s2, scheduler_remove s (some e) = some s2 ∧
      s2.active_proc = (if s.active_proc = some e then none else s.active_proc) ∧
      s2.proc_table = s.proc_table.set e (unqueued p) ∧
      s2.proc_allocator = s.proc_allocator ∧
      (∀ r q2, s2.queue r = some q2 → ∃ q, s.queue r = some q ∧
        (if p.scheduler_queue = some r then
           q.wf ∧ q2.wf ∧ q2.toList = rot_loop p.pid q.size 0 q.toList
         else q2 = q)) := by
  obtain ⟨s2, hrun, hact, htbl, -, -, -, -, -, -, hal, -⟩ := scheduler_remove_spec s e p hp hq
  refine ⟨s2, hrun, hact, htbl, hal, ?_⟩
  intro r q2 hq2
  cases hsq : p.scheduler_queue with
  | none =>
    have hrun1 : scheduler_remove s (some e) =
        some (if s.active_proc = some e then { s with active_proc := none } else s) := by
      simp only [scheduler_remove, hp, hsq]
    rw [hrun1] at hrun
    injection hrun with hrun
    have hqq : s2.queue r = s.queue r := by
      rw [← hrun]
      by_cases ha : s.active_proc = some e
      · rw [if_pos ha]; exact clear_active_queue s r
      · rw [if_neg ha]
    rw [hqq] at hq2
    exact ⟨q2, hq2, by simp⟩
  | some r0 =>
    obtain ⟨q, hqr, hqw⟩ := hq r0 hsq
    obtain ⟨q1, hq1, hq1w, hq1l, -⟩ :=
      scheduler_remove_loop_spec p.pid q.size 0 q hqw (by omega)
    have hrun1 : scheduler_remove s (some e) =
        some (if ((s.set_queue r0 q1).set_proc e (unqueued p)).active_proc = some e then
                { (s.set_queue r0 q1).set_proc e (unqueued p) with active_proc := none }
              else (s.set_queue r0 q1).set_proc e (unqueued p)) := by
      simp only [scheduler_remove, hp, hsq, hqr, hq1, unqueued]
    rw [hrun1] at hrun
    injection hrun with hrun
    have hqq : s2.queue r = if r = r0 then some q1 else s.queue r := by
      rw [← hrun, ← set_queue_queue s r0 q q1 hqr r, ← set_proc_queue (s.set_queue r0 q1) e
        (unqueued p) r]
      by_cases ha : ((s.set_queue r0 q1).set_proc e (unqueued p)).active_proc = some e
      · rw [if_pos ha]; exact clear_active_queue _ r
      · rw [if_neg ha]
    rw [hqq] at hq2
    by_cases hr : r = r0
    · subst hr
      rw [if_pos rfl] at hq2
      injection hq2 with hq2
      subst hq2
      exact ⟨q, hqr, by rw [if_pos rfl]; exact ⟨hqw, hq1w, hq1l⟩⟩
    · rw [if_neg hr] at hq2
      have hne : ¬ (some r0 = some r) := fun h => hr (Option.some.inj h).symm
      exact ⟨q2, hq2, by rw [if_neg hne]⟩

/-- The effect of `kproc_destroy` on a live PCB: for a PCB at entry `e` whose pid is
not 0 and is found by `pid_to_proc` at `e`, whose `scheduler_queue` is null or points
at a well-formed queue holding the pid at most once, whose pid is in no other queue,
and with room in the free list, the call returns 0, the pid is in no queue, the PCB
is zeroed, `e` is appended to the free list and `active_proc` is cleared exactly when
it was this PCB. -/
theorem kproc_destroy_spec (s : Kernel) (e : Nat) (p : proc_t)
    (hp : s.proc_table[e]? = some p) (hpid : p.pid ≠ 0)
    (hfind : pid_to_proc s p.pid = some e)
    (hq : ∀ r, p.scheduler_queue = some r →
      ∃ q, s.queue r = some q ∧ q.wf ∧ q.toList.count p.pid ≤ 1)
    (hother : ∀ r q, s.queue r = some q → p.pid ∈ q.toList → p.scheduler_queue = some r)
    (haw : s.proc_allocator.wf) (hroom : s.proc_allocator.size < QUEUE_SIZE) :
    ∃ s1, kproc_destroy s (some e) = some (s1, 0) ∧
      (∀ r q, s1.queue r = some q → p.pid ∉ q.toList) ∧
      s1.proc_table = s.proc_table.set e proc_zero ∧
      s1.proc_allocator.wf ∧
      s1.proc_allocator.toList = s.proc_allocator.toList ++ [(e : Int)] ∧
      s1.active_proc = (if s.active_proc = some e then none else s.active_proc) ∧
      s1.next_pid = s.next_pid ∧ s1.timer_ticks = s.timer_ticks ∧
      (∀ r q2, s1.queue r = some q2 → ∃ q, s.queue r = some q ∧
        (if p.scheduler_queue = some r then
           q.wf ∧ q2.wf ∧ q2.toList = rot_loop p.pid q.size 0 q.toList
         else q2 = q)) := by
  have hlt := lt_length_of_getElem? _ _ _ hp
  obtain ⟨s2, hrun, hact, htbl, hal, hqs⟩ := scheduler_remove_queues s e p hp
    (fun r hr => by obtain ⟨q, h1, h2, -⟩ := hq r hr; exact ⟨q, h1, h2⟩)
  obtain ⟨s2b, hrunb, -, -, -, -, -, -, -, -, -, hnp, htt, -⟩ :=
    scheduler_remove_spec s e p hp
      (fun r hr => by obtain ⟨q, h1, h2, -⟩ := hq r hr; exact ⟨q, h1, h2⟩)
  have hs2b : s2b = s2 := Option.some.inj (hrunb.symm.trans hrun)
  subst hs2b
  have hp2 : s2b.proc_table[e]? = some (unqueued p) := by
    rw [htbl]; exact List.getElem?_set_self hlt
  have hpids : s2b.proc_table.map (fun p => p.pid) = s.proc_table.map (fun p => p.pid) := by
    rw [htbl]; exact map_pid_set s.proc_table e p _ hp rfl
  have hfind2 : pid_to_proc s2b (unqueued p).pid = some e := by
    rw [pid_to_proc_congr s2b s _ hpids]; exact hfind
  have hentry : proc_to_entry s2b (some e) = some (e : Int) := by
    simp only [proc_to_entry, hp2, hfind2]
  obtain ⟨qa, hqa, hqaw, hqal, -⟩ := queue_in_spec s2b.proc_allocator (e : Int)
    (by rw [hal]; exact haw) (by rw [hal]; exact hroom)
  have hneg : ¬ ((e : Int) < 0) := by omega
  have hres : kproc_destroy s (some e) =
      some ({ s2b.set_proc e proc_zero with proc_allocator := qa }, 0) := by
    have hqa1 : queue_in (s2b.set_proc e proc_zero).proc_allocator (e : Int) = some qa := hqa
    simp only [kproc_destroy, hp, hpid, if_false, hrun, hentry, hneg, hqa1, Option.getD_some]
  have hqueue : ∀ r, ({ s2b.set_proc e proc_zero with proc_allocator := qa } : Kernel).queue r
      = s2b.queue r := by
    intro r; cases r <;> rfl
  refine ⟨_, hres, ?_, ?_, hqaw, ?_, hact, hnp, htt, ?_⟩
  · intro r q hqr hmem
    have hqr2 : s2b.queue r = some q := by
      rw [← hqr, hqueue]
    obtain ⟨q0, hq0, hif⟩ := hqs r q hqr2
    by_cases hsq : p.scheduler_queue = some r
    · rw [if_pos hsq] at hif
      obtain ⟨q1, hq1, -, hcnt⟩ := hq r hsq
      rw [hq0] at hq1
      injection hq1 with hq1
      subst hq1
      rw [hif.2.2, ← queue_toList_length] at hmem
      exact rot_loop_removes p.pid q0.toList hcnt hmem
    · rw [if_neg hsq] at hif
      subst hif
      exact hsq (hother r q hq0 hmem)
  · show (s2b.proc_table.set e proc_zero) = _
    rw [htbl, List.set_set]
  · show qa.toList = _
    rw [hqal, hal]
  · intro r q2 hq2
    rw [hqueue] at hq2
    exact hqs r q2 hq2

/-- C17. For every live PCB `p` at table entry `e` with a pid other than 0 (whether
it is the active process or parked on the run queue, the sleep queue or a mutex or
semaphore wait queue), in a state where the pid is the one `pid_to_proc` finds at `e`,
is queued at most once and only in the well-formed queue `scheduler_queue` points at,
and the free list has room: `kproc_destroy(p)` returns 0, after which the former pid
occurs in no queue, the PCB is zeroed (state NONE), the index `e` is appended at the
tail of the free list, and `active_proc` is null if `p` was the active process and
unchanged otherwise. -/
theorem C17_kproc_destroy (s : Kernel) (e : Nat) (p : proc_t)
    (hp : s.proc_table[e]? = some p) (hpid : p.pid ≠ 0)
    (hfind : pid_to_proc s p.pid = some e)
    (hq : ∀ r, p.scheduler_queue = some r →
      ∃ q, s.queue r = some q ∧ q.wf ∧ q.toList.count p.pid ≤ 1)
    (hother : ∀ r q, s.queue r = some q → p.pid ∈ q.toList → p.scheduler_queue = some r)
    (haw : s.proc_allocator.wf) (hroom : s.proc_allocator.size < QUEUE_SIZE) :
    ∃ s1, kproc_destroy s (some e) = some (s1, 0) ∧
      (∀ r q, s1.queue r = some q → p.pid ∉ q.toList) ∧
      s1.proc_table[e]? = some proc_zero ∧ proc_zero.state = proc_state.NONE ∧
      s1.proc_allocator.toList = s.proc_allocator.toList ++ [(e : Int)] ∧
      s1.active_proc = (if s.active_proc = some e then none else s.active_proc) := by
  obtain ⟨s1, h1, h2, h3, -, h5, h6, -⟩ :=
    kproc_destroy_spec s e p hp hpid hfind hq hother haw hroom
  exact ⟨s1, h1, h2, by rw [h3]; exact List.getElem?_set_self (lt_length_of_getElem? _ _ _ hp),
    rfl, h5, h6⟩

set_option maxRecDepth 100000 in
/-- Witness for C17: B (pid 2, entry 2) is parked on the wait queue of semaphore 0
while A (entry 1) is the active process, and B is destroyed. -/
theorem C17_witness :
    ∃ s1, kproc_destroy ex_sem_b_parked (some 2) = some (s1, 0) ∧
      (∀ r q, s1.queue r = some q → (2 : Int) ∉ q.toList) ∧
      s1.proc_table[2]? = some proc_zero ∧ proc_zero.state = proc_state.NONE ∧
      s1.proc_allocator.toList = [2] ∧ s1.active_proc = some 1 :=
  C17_kproc_destroy ex_sem_b_parked 2 (ex_proc 2 proc_state.WAITING (some (queue_ref.sem 0)))
    rfl (by decide) (by decide)
    (by intro r hr; cases hr; exact ⟨ex_queue [2], rfl, by decide, by decide⟩)
    (only_in_of_holding _ _ _ (by decide)) (by decide) (by decide)

/-! ### Creation followed by exit -/

theorem pid_to_proc_from_first (pid : Int) :
    ∀ (l : List proc_t) (i e : Nat) (p : proc_t), l[e]? = some p → p.pid = pid →
      (∀ j pj, j < e → l[j]? = some pj → pj.pid ≠ pid) →
      pid_to_proc_from pid l i = some (i + e) := by
  intro l
  induction l with
  | nil => intro i e p h; simp at h
  | cons x xs ih =>
    intro i e p h hp hlt
    cases e with
    | zero =>
      simp only [List.getElem?_cons_zero, Option.some.injEq] at h
      subst h
      simp [pid_to_proc_from, hp]
    | succ e =>
      have hx : x.pid ≠ pid := hlt 0 x (Nat.succ_pos _) (by simp)
      simp only [List.getElem?_cons_succ] at h
      simp only [pid_to_proc_from, if_neg hx]
      rw [ih (i + 1) e p h hp (fun j pj hj hpj => hlt (j + 1) pj (by omega) (by simpa using hpj))]
      congr 1
      omega

/-- Removing a pid that sits once, at the tail of a queue, leaves the rest in order. -/
theorem rot_loop_tail (pid : Int) :
    ∀ (l1 done : List Int) (i : Nat), pid ∉ l1 → i ≤ done.length →
      rot_loop pid (l1.length + 1) i (l1 ++ pid :: done) = done ++ l1 := by
  intro l1
  induction l1 with
  | nil =>
    intro done i _ hi
    have hlt : i < (pid :: done).length := by simp; omega
    show rot_loop pid (0 + 1) i (pid :: done) = done ++ []
    rw [rot_loop, if_pos hlt]
    simp [rot_loop]
  | cons x xs ih =>
    intro done i h1 hi
    have hx : pid ≠ x := fun h => h1 (by rw [h]; exact List.mem_cons_self _ _)
    have hxs : pid ∉ xs := fun h => h1 (List.mem_cons_of_mem _ h)
    have hlt : i < (x :: (xs ++ pid :: done)).length := by simp; omega
    show rot_loop pid ((xs.length + 1) + 1) i (x :: (xs ++ pid :: done)) = done ++ x :: xs
    rw [rot_loop, if_pos hlt, if_neg hx]
    have hre : xs ++ pid :: done ++ [x] = xs ++ pid :: (done ++ [x]) := by simp
    rw [hre, ih (done ++ [x]) (i + 1) hxs (by simp; omega)]
    simp

/-- A creation followed by the exit of the created process: for a state whose free
list starts with `e`, whose `next_pid` is not 0, is carried by no PCB and is in no
queue, the pair of calls returns; the free list loses its head `e` and gets it back
at the tail, the PCB at `e` is zeroed, the run queue is as before and `next_pid` has
advanced by one. -/
theorem create_then_exit_spec (env : create_env) (s : Kernel) (proc_ptr : Nat)
    (name : List Nat) (proc_type : Int) (e : Nat) (rest : List Int) (p0 : proc_t)
    (hptr : proc_ptr ≠ 0) (haw : s.proc_allocator.wf)
    (hal : s.proc_allocator.toList = (e : Int) :: rest) (he : s.proc_table[e]? = some p0)
    (hrw : s.run_queue.wf) (hroom : s.run_queue.size < QUEUE_SIZE)
    (hnz : s.next_pid ≠ 0) (hfresh : ∀ pj ∈ s.proc_table, pj.pid ≠ s.next_pid)
    (hnq : queues_holding s s.next_pid = []) :
    ∃ s2, create_then_exit env s proc_ptr name proc_type = some s2 ∧
      s2.proc_allocator.wf ∧ s2.proc_allocator.toList = rest ++ [(e : Int)] ∧
      s2.proc_table = s.proc_table.set e proc_zero ∧
      s2.run_queue.wf ∧ s2.run_queue.toList = s.run_queue.toList ∧
      s2.next_pid = s.next_pid + 1 := by
  have helt := lt_length_of_getElem? _ _ _ he
  have hnq1 : ∀ r q, s.queue r = some q → s.next_pid ∉ q.toList := by
    intro r q hq hmem
    have := (mem_queues_holding s s.next_pid r).mpr ⟨q, hq, hmem⟩
    rw [hnq] at this
    cases this
  obtain ⟨qa, rq, hcreate, hqaw, hqal, hqas, hrqw, hrql, hrqs⟩ :=
    kproc_create_spec env s proc_ptr name proc_type e rest p0 hptr haw hal he hrw hroom
  obtain ⟨pc, hpc⟩ : ∃ pc : proc_t, pc =
      requeued (created_pcb env s.next_pid s.timer_ticks proc_ptr name proc_type) := ⟨_, rfl⟩
  obtain ⟨s1, hs1⟩ : ∃ s1 : Kernel, s1 =
      { s with
          proc_allocator := qa, next_pid := s.next_pid + 1, run_queue := rq,
          proc_table := s.proc_table.set e pc } := ⟨_, rfl⟩
  rw [← hpc, ← hs1] at hcreate
  have hpcpid : pc.pid = s.next_pid := by rw [hpc]; rfl
  have hpcsq : pc.scheduler_queue = some queue_ref.run := by rw [hpc]; rfl
  have hp1 : s1.proc_table[e]? = some pc := by
    rw [hs1]; exact List.getElem?_set_self helt
  have hfind : pid_to_proc s1 s.next_pid = some e := by
    have := pid_to_proc_from_first s.next_pid s1.proc_table 0 e pc hp1 hpcpid (by
      intro j pj hj hpj
      rw [hs1] at hpj
      have hne : e ≠ j := by omega
      have hpj1 : s.proc_table[j]? = some pj := by
        rw [← hpj]; exact (List.getElem?_set_ne hne).symm
      exact hfresh pj (List.getElem?_mem hpj1))
    rw [Nat.zero_add] at this
    exact this
  have hqueue : ∀ r, r ≠ queue_ref.run → s1.queue r = s.queue r := by
    intro r hr
    rw [hs1]
    cases r with
    | run => exact absurd rfl hr
    | sleep => rfl
    | mutex i => rfl
    | sem i => rfl
  have hrun1 : s1.queue queue_ref.run = some rq := by rw [hs1]; rfl
  have hnotin : s.next_pid ∉ s.run_queue.toList := hnq1 queue_ref.run s.run_queue rfl
  have hsize := haw.2.2.1
  obtain ⟨s2, hdestroy, -, htbl, haw2, hal2, -, hnp2, -, hqs⟩ :=
    kproc_destroy_spec s1 e pc hp1 (by rw [hpcpid]; exact hnz) (by rw [hpcpid]; exact hfind)
      (by
        intro r hr
        rw [hpcsq] at hr
        injection hr with hr
        subst hr
        refine ⟨rq, hrun1, hrqw, ?_⟩
        rw [hrql, hpcpid, List.count_append, List.count_eq_zero.mpr hnotin]
        simp)
      (by
        intro r q hq hmem
        by_cases hr : r = queue_ref.run
        · rw [hr, hpcsq]
        · rw [hqueue r hr] at hq
          rw [hpcpid] at hmem
          exact absurd hmem (hnq1 r q hq))
      (by rw [hs1]; exact hqaw) (by rw [hs1]; show qa.size < QUEUE_SIZE; omega)
  obtain ⟨q0, hq0, hif⟩ := hqs queue_ref.run s2.run_queue rfl
  rw [hrun1] at hq0
  injection hq0 with hq0
  subst hq0
  rw [if_pos hpcsq] at hif
  obtain ⟨-, hrw2, hrl2⟩ := hif
  have hlen : rq.size = s.run_queue.toList.length + 1 := by
    rw [hrqs, queue_toList_length]
  rw [hrql, hlen, hpcpid, rot_loop_tail s.next_pid s.run_queue.toList [] 0 hnotin
    (Nat.le_refl _), List.nil_append] at hrl2
  refine ⟨s2, ?_, haw2, ?_, ?_, hrw2, hrl2, ?_⟩
  · simp only [create_then_exit, hcreate, hfind, hdestroy]
  · rw [hal2, hs1]; show qa.toList ++ _ = _; rw [hqal]
  · rw [htbl, hs1]; show (s.proc_table.set e pc).set e proc_zero = _; rw [List.set_set]
  · rw [hnp2, hs1]

set_option maxRecDepth 100000 in
/-- C19 (counterexample to the claim as stated). In the four-entry kernel with only
the idle process created the free list is `[1, 2, 3]`.  A creation takes index 1
(pid 1); destroying that process leaves the free list `[2, 3, 1]`, index 1 at the
tail; the next creation (pid 2) is handed index 2, the head of the free list, and
entry 1 stays a zeroed PCB. -/
theorem C19_counterexample :
    ex_idle_created.proc_allocator.toList = [1, 2, 3] ∧
    (kproc_create ex_env ex_idle_created 1 (some []) 0).map
        (fun r => (r.2, r.1.proc_table.map (fun p => p.pid))) = some (1, [0, 1, 0, 0]) ∧
    (create_then_exit ex_env ex_idle_created 1 [] 0).map
        (fun s => s.proc_allocator.toList) = some [2, 3, 1] ∧
    ((create_then_exit ex_env ex_idle_created 1 [] 0).bind
        (fun s => kproc_create ex_env s 1 (some []) 0)).map
        (fun r => (r.2, r.1.proc_table.map (fun p => p.pid))) = some (2, [0, 0, 2, 0]) ∧
    ((create_then_exit ex_env ex_idle_created 1 [] 0).bind
        (fun s => kproc_create ex_env s 1 (some []) 0)).map
        (fun r => r.1.proc_table.map (fun p => p.state))
      = some [proc_state.IDLE, proc_state.NONE, proc_state.IDLE, proc_state.NONE] := by
  refine ⟨?_, ?_, ?_, ?_, ?_⟩ <;> decide

/-- C19 (amended). For every kernel state in which `kproc_create` succeeds at the
free-list head `e` with a pid that is not 0, is carried by no PCB and is in no queue:
creating a process and then immediately destroying it leaves the PCB at `e` zeroed
and `e` at the tail of the free list, behind the indices `rest` that were free before.
The next `kproc_create` hands out the head of that list: it is `e` only when no other
index was free; otherwise it is the index `f` that followed `e`, and `e` stays free
at the tail. -/
theorem C19_exit_frees_id (env : create_env) (s : Kernel) (proc_ptr : Nat)
    (name : List Nat) (proc_type : Int) (e : Nat) (rest : List Int) (p0 : proc_t)
    (hptr : proc_ptr ≠ 0) (haw : s.proc_allocator.wf)
    (hal : s.proc_allocator.toList = (e : Int) :: rest) (he : s.proc_table[e]? = some p0)
    (hrw : s.run_queue.wf) (hroom : s.run_queue.size < QUEUE_SIZE)
    (hnz : s.next_pid ≠ 0) (hfresh : ∀ pj ∈ s.proc_table, pj.pid ≠ s.next_pid)
    (hnq : queues_holding s s.next_pid = []) :
    ∃ s2, create_then_exit env s proc_ptr name proc_type = some s2 ∧
      s2.proc_allocator.toList = rest ++ [(e : Int)] ∧
      s2.proc_table[e]? = some proc_zero ∧
      (rest = [] →
        ∃ s3 p3, kproc_create env s2 proc_ptr (some name) proc_type
            = some (s3, s.next_pid + 1) ∧
          s3.proc_table[e]? = some p3 ∧ p3.pid = s.next_pid + 1 ∧
          s3.proc_allocator.toList = []) ∧
      (∀ (f : Nat) (rest2 : List Int) (pf : proc_t),
        rest = (f : Int) :: rest2 → s.proc_table[f]? = some pf → f ≠ e →
        ∃ s3 p3, kproc_create env s2 proc_ptr (some name) proc_type
            = some (s3, s.next_pid + 1) ∧
          s3.proc_table[f]? = some p3 ∧ p3.pid = s.next_pid + 1 ∧
          s3.proc_table[e]? = some proc_zero ∧
          s3.proc_allocator.toList = rest2 ++ [(e : Int)]) := by
  have helt := lt_length_of_getElem? _ _ _ he
  obtain ⟨s2, h1, haw2, hal2, htbl2, hrw2, hrl2, hnp2⟩ :=
    create_then_exit_spec env s proc_ptr name proc_type e rest p0 hptr haw hal he hrw hroom
      hnz hfresh hnq
  have he2 : s2.proc_table[e]? = some proc_zero := by
    rw [htbl2]; exact List.getElem?_set_self helt
  have hroom2 : s2.run_queue.size < QUEUE_SIZE := by
    rw [← queue_toList_length, hrl2, queue_toList_length]; exact hroom
  refine ⟨s2, h1, hal2, he2, ?_, ?_⟩
  · intro hrest
    rw [hrest] at hal2
    obtain ⟨qa, rq, hc, -, hqal, -⟩ :=
      kproc_create_spec env s2 proc_ptr name proc_type e [] proc_zero hptr haw2 hal2 he2
        hrw2 hroom2
    rw [hnp2] at hc
    refine ⟨_, _, hc, List.getElem?_set_self (lt_length_of_getElem? _ _ _ he2), rfl, hqal⟩
  · intro f rest2 pf hrest hf hfe
    rw [hrest] at hal2
    have hf2 : s2.proc_table[f]? = some pf := by
      rw [htbl2, List.getElem?_set_ne (fun h => hfe h.symm)]; exact hf
    obtain ⟨qa, rq, hc, -, hqal, -⟩ :=
      kproc_create_spec env s2 proc_ptr name proc_type f (rest2 ++ [(e : Int)]) pf hptr haw2
        hal2 hf2 hrw2 hroom2
    rw [hnp2] at hc
    refine ⟨_, _, hc, List.getElem?_set_self (lt_length_of_getElem? _ _ _ hf2), rfl, ?_, hqal⟩
    show (s2.proc_table.set f _)[e]? = some proc_zero
    rw [List.getElem?_set_ne hfe]; exact he2

set_option maxRecDepth 100000 in
/-- Witness for C19: the four-entry kernel with only the idle process created, whose
free list is `[1, 2, 3]`. -/
theorem C19_witness :
    ∃ s2, create_then_exit ex_env ex_idle_created 1 [] 0 = some s2 ∧
      s2.proc_allocator.toList = [2, 3, 1] ∧
      s2.proc_table[1]? = some proc_zero ∧
      ∃ s3 p3, kproc_create ex_env s2 1 (some []) 0 = some (s3, 2) ∧
        s3.proc_table[2]? = some p3 ∧ p3.pid = 2 ∧
        s3.proc_table[1]? = some proc_zero ∧
        s3.proc_allocator.toList = [3, 1] := by
  obtain ⟨s2, h1, h2, h3, -, h4⟩ :=
    C19_exit_frees_id ex_env ex_idle_created 1 [] 0 1 [2, 3] proc_zero (by decide)
      (by decide) (by decide) (by decide) (by decide) (by decide) (by decide) (by decide)
      (by decide)
  exact ⟨s2, h1, h2, h3, h4 2 [3] proc_zero rfl (by decide) (by decide)⟩

/-! ### Queue FIFO -/

theorem queue_holds_wf (q : queue_t) (l : List Int) (h : queue_holds q l) :
    q.wf ∧ q.toList = l := by
  induction h with
  | init => exact ⟨queue_init_wf, queue_init_toList⟩
  | enq q q1 l x _ hin ih =>
    obtain ⟨hw, hl⟩ := ih
    have hne : q.size ≠ QUEUE_SIZE := fun h => by
      rw [(queue_in_eq_none q x).mpr h] at hin; cases hin
    have hlt : q.size < QUEUE_SIZE := Nat.lt_of_le_of_ne hw.2.2.1 hne
    obtain ⟨q2, hq2, hq2w, hq2l, -⟩ := queue_in_spec q x hw hlt
    rw [hin] at hq2
    injection hq2 with hq2
    subst hq2
    exact ⟨hq2w, by rw [hq2l, hl]⟩
  | deq q q1 a l y _ hout ih =>
    obtain ⟨hw, hl⟩ := ih
    have hpos : 0 < q.size := by
      rw [← queue_toList_length, hl]; simp
    obtain ⟨x, q2, hq2, hq2w, hq2l, -⟩ := queue_out_spec q hw hpos
    rw [hout] at hq2
    injection hq2 with hq2
    injection hq2 with hx hq
    subst hq
    rw [hl] at hq2l
    injection hq2l with _ hq2l
    exact ⟨hq2w, hq2l.symm⟩

/-- Dequeueing as many times as a well-formed queue has items yields them oldest
first and empties the queue. -/
theorem queue_out_n_spec (n : Nat) :
    ∀ q : queue_t, q.wf → q.size = n →
      ∃ q2, queue_out_n n q = some (q.toList, q2) ∧ q2.wf ∧ q2.size = 0 := by
  induction n with
  | zero =>
    intro q hw hs
    exact ⟨q, by rw [(queue_toList_eq_nil q).mpr hs]; rfl, hw, hs⟩
  | succ n ih =>
    intro q hw hs
    obtain ⟨x, q1, hq1, hq1w, hq1l, hq1s⟩ := queue_out_spec q hw (by omega)
    obtain ⟨q2, hq2, hq2w, hq2s⟩ := ih q1 hq1w (by omega)
    exact ⟨q2, by simp only [queue_out_n, hq1, hq2, hq1l], hq2w, hq2s⟩

theorem queue_holds_alloc_fill (l : List Nat) :
    ∀ (q : queue_t) (l0 : List Int), queue_holds q l0 → l0.length + l.length ≤ QUEUE_SIZE →
      queue_holds (alloc_fill q l) (l0 ++ l.map (fun i : Nat => (i : Int))) := by
  induction l with
  | nil => intro q l0 h _; simpa [alloc_fill] using h
  | cons i rest ih =>
    intro q l0 h hlen
    simp only [List.length_cons] at hlen
    obtain ⟨hw, hl⟩ := queue_holds_wf q l0 h
    have hlt : q.size < QUEUE_SIZE := by
      rw [← queue_toList_length, hl]; omega
    obtain ⟨q1, hq1, -⟩ := queue_in_spec q (i : Int) hw hlt
    have h1 := queue_holds.enq q q1 l0 (i : Int) h hq1
    have h2 := ih q1 (l0 ++ [(i : Int)]) h1 (by simp; omega)
    simp only [alloc_fill, hq1, Option.getD_some]
    simpa using h2

/-- C26. Queue FIFO: for every queue reachable from `queue_init` by `queue_in` and
`queue_out` that holds the items `l` (oldest first) with fewer than `QUEUE_SIZE` of
them, `queue_in(q, x)` returns 0 and the next `|l| + 1` calls of `queue_out` each
return 0 and yield the items of `l` followed by `x`, in that order, leaving the queue
empty; in particular on an empty queue `queue_in` followed by one `queue_out` yields
`x` and leaves the queue empty. -/
theorem C26_queue_fifo (q : queue_t) (l : List Int) (x : Int)
    (h : queue_holds q l) (hn : l.length < QUEUE_SIZE) :
    ∃ q1 q2, queue_in q x = some q1 ∧ queue_in_rc q x = (q1, 0) ∧
      queue_out_n (l.length + 1) q1 = some (l ++ [x], q2) ∧ q2.size = 0 ∧
      (l = [] → queue_out q1 = some (x, q2)) := by
  obtain ⟨hw, hl⟩ := queue_holds_wf q l h
  have hlt : q.size < QUEUE_SIZE := by rw [← queue_toList_length, hl]; exact hn
  obtain ⟨q1, hq1, hq1w, hq1l, hq1s⟩ := queue_in_spec q x hw hlt
  obtain ⟨q2, hq2, -, hq2s⟩ := queue_out_n_spec (l.length + 1) q1 hq1w
    (by rw [hq1s, ← queue_toList_length, hl])
  rw [hq1l, hl] at hq2
  refine ⟨q1, q2, hq1, by simp only [queue_in_rc, hq1], hq2, hq2s, ?_⟩
  intro hnil
  subst hnil
  simp only [List.length_nil, Nat.zero_add, List.nil_append, queue_out_n] at hq2
  cases hout : queue_out q1 with
  | none => rw [hout] at hq2; cases hq2
  | some r =>
    obtain ⟨y, q3⟩ := r
    rw [hout] at hq2
    simp only [Option.some.injEq, Prod.mk.injEq, List.cons.injEq, and_true] at hq2
    rw [hq2.1, hq2.2]

/-- Witness for C26: the queue holding 7 and 8 after two `queue_in` calls on the
initial queue. -/
theorem C26_witness :
    ∃ q1 q2, queue_in (ex_queue [7, 8]) 9 = some q1 ∧
      queue_in_rc (ex_queue [7, 8]) 9 = (q1, 0) ∧
      queue_out_n 3 q1 = some ([7, 8, 9], q2) ∧ q2.size = 0 ∧
      (([7, 8] : List Int) = [] → queue_out q1 = some (9, q2)) :=
  C26_queue_fifo (ex_queue [7, 8]) [7, 8] 9
    (queue_holds.enq _ _ [7] 8 (queue_holds.enq queue_init _ [] 7 queue_holds.init rfl) rfl)
    (by decide)

/-- C27. For every queue reachable from `queue_init` that holds `QUEUE_SIZE` items,
`queue_in` returns -1 and leaves the queue (head, tail, size and every stored item)
unchanged, so that `QUEUE_SIZE` calls of `queue_out` still yield the items in their
original order. -/
theorem C27_queue_in_full (q : queue_t) (l : List Int) (x : Int)
    (h : queue_holds q l) (hn : l.length = QUEUE_SIZE) :
    queue_in q x = none ∧ queue_in_rc q x = (q, -1) ∧
      ∃ q2, queue_out_n QUEUE_SIZE (queue_in_rc q x).1 = some (l, q2) := by
  obtain ⟨hw, hl⟩ := queue_holds_wf q l h
  have hs : q.size = QUEUE_SIZE := by rw [← queue_toList_length, hl]; exact hn
  have hin : queue_in q x = none := (queue_in_eq_none q x).mpr hs
  have hrc : queue_in_rc q x = (q, -1) := by simp only [queue_in_rc, hin]
  obtain ⟨q2, hq2, -⟩ := queue_out_n_spec QUEUE_SIZE q hw hs
  rw [hl] at hq2
  exact ⟨hin, hrc, q2, by rw [hrc]; exact hq2⟩

set_option maxRecDepth 100000 in
/-- Witness for C27: the queue filled with `0 .. 31`. -/
theorem C27_witness :
    queue_in (alloc_fill queue_init (List.range 32)) 99 = none ∧
      queue_in_rc (alloc_fill queue_init (List.range 32)) 99
        = (alloc_fill queue_init (List.range 32), -1) ∧
      ∃ q2, queue_out_n QUEUE_SIZE (queue_in_rc (alloc_fill queue_init (List.range 32)) 99).1
        = some ((List.range 32).map (fun i : Nat => (i : Int)), q2) :=
  C27_queue_in_full (alloc_fill queue_init (List.range 32))
    ((List.range 32).map (fun i : Nat => (i : Int))) 99
    (by
      have := queue_holds_alloc_fill (List.range 32) queue_init [] queue_holds.init (by decide)
      simpa using this)
    (by decide)

/-! ### Ring buffer -/

theorem ringbuf_toList_length (b : ringbuf_t) : b.toList.length = b.size := by
  simp [ringbuf_t.toList]

theorem ringbuf_init_wf (b0 : ringbuf_t) (h : b0.data.length = RINGBUF_SIZE) :
    (ringbuf_init b0).wf ∧ (ringbuf_init b0).toList = [] := by
  refine ⟨⟨?_, ?_, ?_, ?_⟩, ?_⟩
  · simp only [ringbuf_init, List.length_append, List.length_replicate, List.length_drop, h]
    unfold RINGBUF_SIZE
    omega
  · show 0 < RINGBUF_SIZE
    unfold RINGBUF_SIZE
    omega
  · exact Nat.zero_le _
  · show 0 = (0 + 0) % RINGBUF_SIZE
    rfl
  · show (List.range 0).map _ = []
    rfl

theorem ringbuf_flush_wf (b : ringbuf_t) (h : b.wf) :
    (ringbuf_flush b).wf ∧ (ringbuf_flush b).toList = [] :=
  ringbuf_init_wf b h.1

/-- Writing into a well-formed ring buffer with room appends the byte. -/
theorem ringbuf_write_spec (b : ringbuf_t) (x : Int) (hw : b.wf) (hs : b.size < RINGBUF_SIZE) :
    ∃ b1, ringbuf_write b x = some b1 ∧ b1.wf ∧ b1.toList = b.toList ++ [x] ∧
      b1.size = b.size + 1 := by
  obtain ⟨hl, hh, hsz, ht⟩ := hw
  have hne : b.size ≠ RINGBUF_SIZE := Nat.ne_of_lt hs
  unfold RINGBUF_SIZE at hl hh hsz ht hs
  have ht32 : b.tail < 2048 := by omega
  refine ⟨_, if_neg hne, ?_, ?_, rfl⟩
  · refine ⟨by simpa [RINGBUF_SIZE] using hl, by simpa [RINGBUF_SIZE] using hh, ?_, ?_⟩
    · simp only [RINGBUF_SIZE]; omega
    · simp only [RINGBUF_SIZE]; split <;> omega
  · simp only [ringbuf_t.toList, List.range_succ, List.map_append, List.map_cons, List.map_nil]
    congr 1
    · apply List.map_congr_left
      intro i hi
      rw [List.mem_range] at hi
      simp only [List.getD_eq_getElem?_getD, RINGBUF_SIZE]
      rw [List.getElem?_set_ne (by omega)]
    · simp only [List.getD_eq_getElem?_getD, RINGBUF_SIZE]
      rw [show (b.head + b.size) % 2048 = b.tail from ht.symm,
        List.getElem?_set_self (by omega)]
      rfl

/-- Reading from a well-formed non-empty ring buffer through a non-null pointer
stores the oldest byte and removes it. -/
theorem ringbuf_read_spec (b : ringbuf_t) (dst : Nat) (hw : b.wf) (hs : 0 < b.size)
    (hd : dst ≠ 0) :
    ∃ x b1, ringbuf_read b dst = some (b1, x) ∧ b1.wf ∧ b.toList = x :: b1.toList ∧
      b1.size + 1 = b.size := by
  obtain ⟨hl, hh, hsz, ht⟩ := hw
  have hne : b.size ≠ 0 := Nat.pos_iff_ne_zero.mp hs
  unfold RINGBUF_SIZE at hl hh hsz ht
  refine ⟨b.data.getD b.head 0,
    { head := if b.head + 1 = RINGBUF_SIZE then 0 else b.head + 1, tail := b.tail,
      size := b.size - 1, data := b.data },
    by simp only [ringbuf_read, if_neg hd, if_neg hne], ?_, ?_, by simp only; omega⟩
  · refine ⟨by simpa [RINGBUF_SIZE] using hl, ?_, ?_, ?_⟩
    · simp only [RINGBUF_SIZE]; split <;> omega
    · simp only [RINGBUF_SIZE]; omega
    · simp only [RINGBUF_SIZE]; split <;> omega
  · obtain ⟨n, hn⟩ : ∃ n, b.size = n + 1 := ⟨b.size - 1, by omega⟩
    simp only [ringbuf_t.toList, hn, List.range_succ_eq_map, List.map_cons, List.map_map,
      Nat.add_sub_cancel, RINGBUF_SIZE]
    congr 1
    · simp [Nat.mod_eq_of_lt hh]
    · apply List.map_congr_left
      intro i hi
      rw [List.mem_range] at hi
      simp only [List.getD_eq_getElem?_getD, Function.comp, Nat.succ_eq_add_one]
      have hidx : ((if b.head + 1 = 2048 then 0 else b.head + 1) + i) % 2048
          = (b.head + (i + 1)) % 2048 := by split <;> omega
      rw [hidx]

theorem ringbuf_holds_wf (b : ringbuf_t) (l : List Int) (h : ringbuf_holds b l) :
    b.wf ∧ b.toList = l := by
  induction h with
  | init b0 h0 => exact ringbuf_init_wf b0 h0
  | write b b1 l x _ hin ih =>
    obtain ⟨hw, hl⟩ := ih
    have hne : b.size ≠ RINGBUF_SIZE := fun h => by
      simp [ringbuf_write, h] at hin
    have hlt : b.size < RINGBUF_SIZE := Nat.lt_of_le_of_ne hw.2.2.1 hne
    obtain ⟨b2, hb2, hb2w, hb2l, -⟩ := ringbuf_write_spec b x hw hlt
    rw [hin] at hb2
    injection hb2 with hb2
    subst hb2
    exact ⟨hb2w, by rw [hb2l, hl]⟩
  | read b b1 a l dst y _ hout ih =>
    obtain ⟨hw, hl⟩ := ih
    have hpos : 0 < b.size := by
      rw [← ringbuf_toList_length, hl]; simp
    have hd : dst ≠ 0 := fun h => by simp [ringbuf_read, h] at hout
    obtain ⟨x, b2, hb2, hb2w, hb2l, -⟩ := ringbuf_read_spec b dst hw hpos hd
    rw [hout] at hb2
    injection hb2 with hb2
    injection hb2 with hb hx
    subst hb
    rw [hl] at hb2l
    injection hb2l with _ hb2l
    exact ⟨hb2w, hb2l.symm⟩
  | flush b l _ ih => exact ringbuf_flush_wf b ih.1

theorem mem_bytes_length (umem : Nat → Int) (n : Nat) :
    ∀ mem, (mem_bytes umem mem n).length = n := by
  induction n with
  | zero => intro mem; rfl
  | succ n ih => intro mem; simp [mem_bytes, ih]

/-- The loop of `ringbuf_write_mem` appends bytes until the count is used up or the
buffer is full. -/
theorem ringbuf_write_mem_loop_spec (umem : Nat → Int) (fuel : Nat) :
    ∀ (mem : Nat) (b : ringbuf_t) (l : List Int), ringbuf_holds b l →
      ringbuf_holds (ringbuf_write_mem_loop umem fuel mem b)
        (l ++ mem_bytes umem mem (min fuel (RINGBUF_SIZE - l.length))) := by
  induction fuel with
  | zero =>
    intro mem b l h
    simpa [ringbuf_write_mem_loop, mem_bytes] using h
  | succ fuel ih =>
    intro mem b l h
    obtain ⟨hw, hl⟩ := ringbuf_holds_wf b l h
    have hsz : b.size = l.length := by rw [← ringbuf_toList_length, hl]
    by_cases hfull : b.size = RINGBUF_SIZE
    · have hk : min (fuel + 1) (RINGBUF_SIZE - l.length) = 0 := by omega
      simp only [ringbuf_write_mem_loop, ringbuf_is_full, hfull, beq_self_eq_true, if_true]
      rw [hk]
      simpa [mem_bytes] using h
    · have hlt : b.size < RINGBUF_SIZE := Nat.lt_of_le_of_ne hw.2.2.1 hfull
      obtain ⟨b1, hb1, -⟩ := ringbuf_write_spec b (umem mem) hw hlt
      have h1 := ringbuf_holds.write b b1 l (umem mem) h hb1
      have h2 := ih (mem + 1) b1 (l ++ [umem mem]) h1
      have hk : min (fuel + 1) (RINGBUF_SIZE - l.length)
          = min fuel (RINGBUF_SIZE - (l ++ [umem mem]).length) + 1 := by
        simp only [List.length_append, List.length_singleton]; omega
      have hnf : (b.size == RINGBUF_SIZE) = false := by simpa using hfull
      simp only [ringbuf_write_mem_loop, ringbuf_is_full, hnf, hb1, Option.getD_some]
      rw [hk]
      simpa [mem_bytes] using h2

/-- The function `ringbuf_write_mem` when the sum `buf->size + size` does not wrap
around: either -1 with the buffer unchanged, or 0 with all `n` bytes appended. -/
theorem ringbuf_write_mem_spec (umem : Nat → Int) (b : ringbuf_t) (l : List Int)
    (mem n : Nat) (h : ringbuf_holds b l) (hn : l.length + n < 2 ^ 32) :
    (l.length + n > RINGBUF_SIZE → ringbuf_write_mem umem b mem n = (b, -1)) ∧
    (l.length + n ≤ RINGBUF_SIZE →
      ∃ b1, ringbuf_write_mem umem b mem n = (b1, 0) ∧
        ringbuf_holds b1 (l ++ mem_bytes umem mem n)) := by
  obtain ⟨hw, hl⟩ := ringbuf_holds_wf b l h
  have hsz : b.size = l.length := by rw [← ringbuf_toList_length, hl]
  have hmod : (b.size + n) % 2 ^ 32 = l.length + n := by
    rw [hsz]; exact Nat.mod_eq_of_lt hn
  constructor
  · intro hgt
    simp only [ringbuf_write_mem, hmod, hgt, if_true]
  · intro hle
    have hng : ¬ (l.length + n > RINGBUF_SIZE) := by omega
    have hres : ringbuf_write_mem umem b mem n = (ringbuf_write_mem_loop umem n mem b, 0) := by
      simp only [ringbuf_write_mem, hmod, hng, if_false]
    have := ringbuf_write_mem_loop_spec umem n mem b l h
    rw [show min n (RINGBUF_SIZE - l.length) = n by omega] at this
    exact ⟨_, hres, this⟩

/-- The loop of `ringbuf_read_mem` with a non-null destination copies the oldest
bytes until the count is used up or the buffer is empty. -/
theorem ringbuf_read_mem_loop_spec (fuel : Nat) :
    ∀ (mem : Nat) (b : ringbuf_t) (l : List Int) (count : Int) (out : List (Nat × Int)),
      ringbuf_holds b l → mem ≠ 0 →
      ∃ b1, ringbuf_read_mem_loop fuel mem b count out
          = (b1, count + ((min fuel l.length : Nat) : Int),
             out ++ stores_at mem (l.take (min fuel l.length))) ∧
        ringbuf_holds b1 (l.drop (min fuel l.length)) := by
  induction fuel with
  | zero =>
    intro mem b l count out h _
    exact ⟨b, by simp [ringbuf_read_mem_loop, stores_at], by simpa using h⟩
  | succ fuel ih =>
    intro mem b l count out h hmem
    obtain ⟨hw, hl⟩ := ringbuf_holds_wf b l h
    have hsz : b.size = l.length := by rw [← ringbuf_toList_length, hl]
    cases l with
    | nil =>
      have h0 : b.size = 0 := by simpa using hsz
      exact ⟨b, by simp [ringbuf_read_mem_loop, ringbuf_is_empty, h0, stores_at],
        by simpa using h⟩
    | cons a l1 =>
      have hpos : 0 < b.size := by rw [hsz]; simp
      obtain ⟨x, b1, hb1, -, hb1l, -⟩ := ringbuf_read_spec b mem hw hpos hmem
      rw [hl] at hb1l
      injection hb1l with hxa _
      subst hxa
      have h1 := ringbuf_holds.read b b1 a l1 mem a h hb1
      obtain ⟨b2, hb2, hb2h⟩ := ih (mem + 1) b1 l1 (count + 1) (out ++ [(mem, a)]) h1
        (Nat.succ_ne_zero _)
      have hne : (b.size == 0) = false := by
        simpa using Nat.pos_iff_ne_zero.mp hpos
      have hk : min (fuel + 1) (a :: l1).length = min fuel l1.length + 1 := by
        simp only [List.length_cons]; omega
      refine ⟨b2, ?_, ?_⟩
      · simp only [ringbuf_read_mem_loop, ringbuf_is_empty, hne, hb1, hb2]
        rw [hk]
        simp only [List.take_succ_cons, stores_at, List.append_assoc, List.singleton_append,
          Nat.cast_add, Nat.cast_one, Bool.false_eq_true, if_false, Prod.mk.injEq, true_and,
          and_true]
        omega
      · rw [hk]
        simpa using hb2h

theorem ex_ring_one_length : ex_ring_one.data.length = RINGBUF_SIZE := by
  simp only [ex_ring_one, List.length_cons, List.length_replicate]
  unfold RINGBUF_SIZE
  omega

/-- C24. Ring buffer round trip: for every empty ring buffer reachable from
`ringbuf_init` (at any head position), every byte sequence `s` of at most
`RINGBUF_SIZE` bytes found in memory at `src` and every non-null destination `dst`,
`ringbuf_write_mem(b, src, |s|)` returns 0 and the following
`ringbuf_read_mem(b, dst, |s|)` returns `|s|`, stores exactly the bytes of `s`, in
order, at `dst` and leaves the buffer empty. -/
theorem C24_ringbuf_round_trip (umem : Nat → Int) (b : ringbuf_t) (s : List Int)
    (src dst : Nat) (h : ringbuf_holds b []) (hs : s.length ≤ RINGBUF_SIZE)
    (hsrc : mem_bytes umem src s.length = s) (hdst : dst ≠ 0) :
    ∃ b1 b2, ringbuf_write_mem umem b src s.length = (b1, 0) ∧
      ringbuf_holds b1 s ∧
      ringbuf_read_mem b1 dst s.length = (b2, (s.length : Int), stores_at dst s) ∧
      ringbuf_holds b2 [] ∧ b2.size = 0 := by
  have hR : RINGBUF_SIZE = 2048 := rfl
  obtain ⟨b1, hb1, hb1h⟩ := (ringbuf_write_mem_spec umem b [] src s.length h
    (by simp only [List.length_nil, Nat.zero_add]; omega)).2
    (by simpa using hs)
  rw [List.nil_append, hsrc] at hb1h
  obtain ⟨b2, hb2, hb2h⟩ := ringbuf_read_mem_loop_spec s.length dst b1 s 0 [] hb1h hdst
  simp only [Nat.min_self, List.take_length, List.drop_length, List.nil_append,
    Int.zero_add] at hb2 hb2h
  have hsz : b2.size = 0 := by
    rw [← ringbuf_toList_length, (ringbuf_holds_wf b2 [] hb2h).2]; rfl
  exact ⟨b1, b2, hb1, hb1h, hb2, hb2h, hsz⟩

/-- Witness for C24: the three bytes 104, 105, 33 through a freshly initialised
buffer. -/
theorem C24_witness :
    ∃ b1 b2, ringbuf_write_mem (fun a => if a = 100 then 104 else if a = 101 then 105 else 33)
        (ringbuf_init ex_ring_one) 100 3 = (b1, 0) ∧
      ringbuf_holds b1 [104, 105, 33] ∧
      ringbuf_read_mem b1 200 3 = (b2, 3, [(200, 104), (201, 105), (202, 33)]) ∧
      ringbuf_holds b2 [] ∧ b2.size = 0 :=
  C24_ringbuf_round_trip (fun a => if a = 100 then 104 else if a = 101 then 105 else 33)
    (ringbuf_init ex_ring_one) [104, 105, 33] 100 200
    (ringbuf_holds.init ex_ring_one ex_ring_one_length) (by decide)
    (by decide) (by decide)

/-- C25. For every ring buffer reachable from `ringbuf_init` that holds the bytes `l`
(oldest first), every count `n` and every non-null destination,
`ringbuf_read_mem(b, dst, n)` returns `min(n, |l|)`, stores the `min(n, |l|)` oldest
bytes at `dst` in FIFO order and leaves the remaining bytes in the buffer in order;
on an empty buffer it returns 0 and changes nothing. -/
theorem C25_ringbuf_read_mem (b : ringbuf_t) (l : List Int) (dst n : Nat)
    (h : ringbuf_holds b l) (hdst : dst ≠ 0) :
    (∃ b1, ringbuf_read_mem b dst n
        = (b1, ((min n l.length : Nat) : Int), stores_at dst (l.take (min n l.length))) ∧
      ringbuf_holds b1 (l.drop (min n l.length))) ∧
    (l = [] → ringbuf_read_mem b dst n = (b, 0, [])) := by
  constructor
  · obtain ⟨b1, hb1, hb1h⟩ := ringbuf_read_mem_loop_spec n dst b l 0 [] h hdst
    simp only [List.nil_append, Int.zero_add] at hb1
    exact ⟨b1, hb1, hb1h⟩
  · intro hnil
    subst hnil
    obtain ⟨-, hl⟩ := ringbuf_holds_wf b [] h
    have h0 : b.size = 0 := by rw [← ringbuf_toList_length, hl]; rfl
    cases n with
    | zero => rfl
    | succ n => simp [ringbuf_read_mem, ringbuf_read_mem_loop, ringbuf_is_empty, h0]

/-- Witness for C25: two of the three bytes held are read. -/
theorem C25_witness :
    (∃ b1, ringbuf_read_mem
        (ringbuf_write_mem_loop (fun a => (a : Int)) 3 7 (ringbuf_init ex_ring_one)) 200 2
        = (b1, 2, [(200, 7), (201, 8)]) ∧
      ringbuf_holds b1 [9]) ∧
    (([7, 8, 9] : List Int) = [] → ringbuf_read_mem
        (ringbuf_write_mem_loop (fun a => (a : Int)) 3 7 (ringbuf_init ex_ring_one)) 200 2
        = (ringbuf_write_mem_loop (fun a => (a : Int)) 3 7 (ringbuf_init ex_ring_one), 0, [])) :=
  C25_ringbuf_read_mem
    (ringbuf_write_mem_loop (fun a => (a : Int)) 3 7 (ringbuf_init ex_ring_one)) [7, 8, 9] 200 2
    (ringbuf_write_mem_loop_spec (fun a => (a : Int)) 3 7 (ringbuf_init ex_ring_one) []
      (ringbuf_holds.init ex_ring_one ex_ring_one_length))
    (by decide)

/-- C23 (code evaluated at the failing input). The ring buffer holds one byte and
`ringbuf_write_mem` is called with the 32-bit size 4294967295, which is what the
`IO_WRITE` system call passes for the int -1: the sum `buf->size + size` wraps to 0,
the guard passes, the loop stops when the buffer is full, and the call returns 0
after appending 2047 bytes. -/
theorem C23_write_mem_wraps (umem : Nat → Int) (src : Nat) :
    to_uint (-1) = 4294967295 ∧ ringbuf_holds ex_ring_a [65] ∧
    ∃ b1, ringbuf_write_mem umem ex_ring_a src (to_uint (-1)) = (b1, 0) ∧
      ringbuf_holds b1 (65 :: mem_bytes umem src 2047) ∧ b1.size = RINGBUF_SIZE := by
  have hu : to_uint (-1) = 4294967295 := by decide
  have hh : ringbuf_holds ex_ring_a [65] :=
    ringbuf_write_mem_loop_spec (fun _ => 65) 1 0 (ringbuf_init ex_ring_one) []
      (ringbuf_holds.init ex_ring_one ex_ring_one_length)
  obtain ⟨-, hl⟩ := ringbuf_holds_wf ex_ring_a [65] hh
  have hsz : ex_ring_a.size = 1 := by rw [← ringbuf_toList_length, hl]; rfl
  have hguard : ¬ ((ex_ring_a.size + to_uint (-1)) % 2 ^ 32 > RINGBUF_SIZE) := by
    rw [hsz, hu]; decide
  have hres : ringbuf_write_mem umem ex_ring_a src (to_uint (-1))
      = (ringbuf_write_mem_loop umem (to_uint (-1)) src ex_ring_a, 0) := by
    simp only [ringbuf_write_mem, hguard, if_false]
  have hloop := ringbuf_write_mem_loop_spec umem (to_uint (-1)) src ex_ring_a [65] hh
  rw [hu, show min 4294967295 (RINGBUF_SIZE - ([65] : List Int).length) = 2047 by decide]
    at hloop
  rw [hu] at hres
  refine ⟨hu, hh, _, by rw [hu]; exact hres, hloop, ?_⟩
  rw [← ringbuf_toList_length, (ringbuf_holds_wf _ _ hloop).2]
  simp [mem_bytes_length, RINGBUF_SIZE]

set_option maxRecDepth 1000000 in
/-- C22 (code evaluated at the failing input). The active process has a ring buffer
holding the bytes 65, 66 attached as `io[0]`.  `ksyscall_io_read(0, NULL, 2)` returns
2, not -1, and consumes the byte 65, which `ringbuf_read_mem` stores at address 1;
`ksyscall_io_read(0, NULL, 1)` returns 1 and `ksyscall_io_read(0, NULL, 0)` returns
0.  The two name calls do return -1 for a null pointer. -/
theorem C22_io_read_null_destination :
    (ksyscall_io_read ex_io 0 0 2).map
        (fun r => (r.2, r.1.ringbufs.map (fun b => b.toList))) = some (2, [[66]]) ∧
    (ringbuf_read_mem ex_ring_ab 0 2).2 = (2, [(1, 65)]) ∧
    (ksyscall_io_read ex_io 0 0 1).map
        (fun r => (r.2, r.1.ringbufs.map (fun b => b.toList))) = some (1, [[65, 66]]) ∧
    (ksyscall_io_read ex_io 0 0 0).map
        (fun r => (r.2, r.1.ringbufs.map (fun b => b.toList))) = some (0, [[65, 66]]) ∧
    ksyscall_sys_get_name 0 = -1 ∧ ksyscall_proc_get_name ex_io 0 = some (-1) := by
  refine ⟨?_, ?_, ?_, ?_, ?_, ?_⟩ <;> decide

/-! ### System call return values -/

set_option maxRecDepth 100000 in
/-- C21 (code evaluated at the failing inputs). A issues `MUTEX_LOCK(0)` on a mutex
held by B: the dispatched routine returns 0, A is blocked and `active_proc` is null,
so nothing is written and A's saved `eax` still holds the system call number 12.
The same happens for `PROC_SLEEP(1)` (return code 0, saved `eax` still 6).  For
`SEM_WAIT(0)` at count 0 the caller is still `active_proc` and its saved `eax`
receives the return code 0. -/
theorem C21_blocked_caller_keeps_eax :
    ((ksyscall_dispatch (fun _ => 0) 0 (ex_syscall 12 0) 12 0 0 0).map (fun r => r.2) = some 0 ∧
      syscall_view (ksyscall_irq_handler (fun _ => 0) 0 (ex_syscall 12 0))
        = some (none, some proc_state.WAITING, some 12)) ∧
    ((ksyscall_dispatch (fun _ => 0) 0 (ex_syscall 6 1) 6 1 0 0).map (fun r => r.2) = some 0 ∧
      syscall_view (ksyscall_irq_handler (fun _ => 0) 0 (ex_syscall 6 1))
        = some (none, some proc_state.SLEEPING, some 6)) ∧
    ((ksyscall_dispatch (fun _ => 0) 0 (ex_syscall 16 0) 16 0 0 0).map (fun r => r.2) = some 0 ∧
      syscall_view (ksyscall_irq_handler (fun _ => 0) 0 (ex_syscall 16 0))
        = some (some 1, some proc_state.WAITING, some 0)) := by
  refine ⟨⟨?_, ?_⟩, ⟨?_, ?_⟩, ⟨?_, ?_⟩⟩ <;> decide

/-! ### Timer and interrupt dispatch -/

set_option maxRecDepth 100000 in
/-- C28 (code evaluated at the failing input). Callback 7 is registered at tick 0
with interval 3 and repeat count 1.  Tick 1 does not call it but decrements the
repeat count to 0; tick 2 does not call it and unregisters the entry; on tick 3, a
multiple of the interval, nothing is called.  The callback never fires. -/
theorem C28_repeat_counts_ticks :
    ex_timer.map (fun st => st.timers.map (fun t => (t.callback, t.repeat_count)))
      = some [(some 7, 1), (none, 0), (none, 0), (none, 0)] ∧
    (ex_timer.bind (timer_ticks_n 1)).map
        (fun r => (r.1.timers.map (fun t => (t.callback, t.repeat_count)), r.2))
      = some ([(some 7, 0), (none, 0), (none, 0), (none, 0)], [[]]) ∧
    (ex_timer.bind (timer_ticks_n 2)).map
        (fun r => (r.1.timers.map (fun t => (t.callback, t.repeat_count)), r.2))
      = some ([(none, 0), (none, 0), (none, 0), (none, 0)], [[], []]) ∧
    (ex_timer.bind (timer_ticks_n 3)).map (fun r => (r.1.timer_ticks, r.2))
      = some (3, [[], [], []]) := by
  refine ⟨?_, ?_, ?_, ?_⟩ <;> decide

/-- C29. For a handler table of `IRQ_MAX` entries: `interrupts_irq_handler(n)` panics
without calling any handler when `n` is outside `0 .. IRQ_MAX-1` or when the entry
for `n` is null; otherwise it calls the handler registered for `n` exactly once and
afterwards dismisses the IRQ at the PIC (with argument `n - 0x20`) if and only if
`0x20 <= n <= 0x2F`. -/
theorem C29_interrupts_irq_handler (irq_handlers : List (Option Nat)) (n : Int)
    (hlen : (irq_handlers.length : Int) = IRQ_MAX) :
    ((n < 0 ∨ n ≥ IRQ_MAX ∨ irq_handlers[n.toNat]? = some none) →
      interrupts_irq_handler irq_handlers n = ([], true)) ∧
    (∀ h, 0 ≤ n → n < IRQ_MAX → irq_handlers[n.toNat]? = some (some h) →
      ((0x20 ≤ n ∧ n ≤ 0x2F) →
        interrupts_irq_handler irq_handlers n
          = ([irq_event.call h, irq_event.dismiss (n - 0x20)], false)) ∧
      (¬ (0x20 ≤ n ∧ n ≤ 0x2F) →
        interrupts_irq_handler irq_handlers n = ([irq_event.call h], false))) ∧
    (0 ≤ n → n < IRQ_MAX → ∃ e, irq_handlers[n.toNat]? = some e) := by
  refine ⟨?_, ?_, ?_⟩
  · rintro (h | h | h)
    · simp [interrupts_irq_handler, h]
    · simp [interrupts_irq_handler, h]
    · by_cases hr : n < 0 ∨ n ≥ IRQ_MAX
      · simp [interrupts_irq_handler, hr]
      · simp [interrupts_irq_handler, hr, h]
  · intro h h0 h1 hh
    have hr : ¬ (n < 0 ∨ n ≥ IRQ_MAX) := by omega
    constructor
    · intro hp
      have hp1 : n ≥ 0x20 ∧ n ≤ 0x2F := ⟨hp.1, hp.2⟩
      simp only [interrupts_irq_handler, hr, if_false, hh, Option.join, hp1]
      rfl
    · intro hp
      have hp1 : ¬ (n ≥ 0x20 ∧ n ≤ 0x2F) := fun h => hp ⟨h.1, h.2⟩
      simp only [interrupts_irq_handler, hr, if_false, hh, Option.join, hp1]
      rfl
  · intro h0 h1
    have hlt : n.toNat < irq_handlers.length := by omega
    exact ⟨_, List.getElem?_eq_getElem hlt⟩

set_option maxRecDepth 100000 in
/-- Witness for C29: the timer interrupt 0x20 with the timer handler registered. -/
theorem C29_witness :
    interrupts_irq_handler ex_irq_handlers 0x20
      = ([irq_event.call 1, irq_event.dismiss 0], false) :=
  ((C29_interrupts_irq_handler ex_irq_handlers 0x20 (by decide)).2.1 1 (by decide) (by decide)
    (by decide)).1 ⟨by decide, by decide⟩

/-! ### The scheduling invariant -/

theorem qsub_refl (s : Kernel) (h : queues_ok s) : qsub s s :=
  fun r q hq => ⟨(h r q hq).1, (h r q hq).2, q, hq, fun _ hp => hp⟩

theorem qsub_trans (s s1 s2 : Kernel) (h1 : qsub s s1) (h2 : qsub s1 s2) : qsub s s2 := by
  intro r q2 hq2
  obtain ⟨hw, hn, q1, hq1, hsub⟩ := h2 r q2 hq2
  obtain ⟨-, -, q, hq, hsub1⟩ := h1 r q1 hq1
  exact ⟨hw, hn, q, hq, fun pid hp => hsub1 pid (hsub pid hp)⟩

theorem qsub_ok (s s1 : Kernel) (h : qsub s s1) : queues_ok s1 :=
  fun r q hq => ⟨(h r q hq).1, (h r q hq).2.1⟩

theorem tmono_refl (s : Kernel) : tmono s s :=
  fun _ p hp => Or.inr ⟨p, hp, rfl, rfl⟩

theorem tmono_trans (s s1 s2 : Kernel) (h1 : tmono s s1) (h2 : tmono s1 s2) : tmono s s2 := by
  intro e p2 hp2
  rcases h2 e p2 hp2 with h | ⟨p1, hp1, hst, hpid⟩
  · exact Or.inl h
  · rcases h1 e p1 hp1 with h | ⟨p, hp, hst1, hpid1⟩
    · exact Or.inl (by rw [hst]; exact h)
    · exact Or.inr ⟨p, hp, hst.trans hst1, hpid.trans hpid1⟩

/-- The invariant is kept by a step that removes pids from queues, may then append
one pid `x`, held by no queue, to the queue `r2`, makes no PCB ACTIVE and clears
`active_proc` only together with the state ACTIVE of the PCB it pointed at. -/
theorem sched_inv_step (s s1 s2 : Kernel) (x : Int) (r2 : queue_ref)
    (hinv : sched_inv s) (hsub : qsub s s1)
    (hx : ∀ r q, s1.queue r = some q → x ∉ q.toList)
    (hadd : qadd x r2 s1 s2) (hz : x ≠ 0 ∨ r2 = queue_ref.run)
    (ht : tmono s s2) (ha : astep s s2)
    (hfx : ∀ a p, s2.active_proc = some a → s2.proc_table[a]? = some p →
      p.state = proc_state.ACTIVE → p.pid ≠ x) :
    sched_inv s2 := by
  have hmem : ∀ r q2 pid, s2.queue r = some q2 → pid ∈ q2.toList →
      (∃ q, s.queue r = some q ∧ pid ∈ q.toList) ∨ (pid = x ∧ r = r2) := by
    intro r q2 pid hq2 hp
    obtain ⟨-, q1, hq1, hl⟩ := hadd r q2 hq2
    obtain ⟨-, -, q, hq, hs⟩ := hsub r q1 hq1
    rcases hl with hl | ⟨hr, hl⟩
    · rw [hl] at hp
      exact Or.inl ⟨q, hq, hs pid hp⟩
    · rw [hl] at hp
      rcases List.mem_append.mp hp with h | h
      · exact Or.inl ⟨q, hq, hs pid h⟩
      · exact Or.inr ⟨by simpa using h, hr⟩
  have hxin : ∀ r q2, s2.queue r = some q2 → x ∈ q2.toList → r = r2 := by
    intro r q2 hq2 hp
    obtain ⟨-, q1, hq1, hl⟩ := hadd r q2 hq2
    rcases hl with hl | ⟨hr, -⟩
    · rw [hl] at hp
      exact absurd hp (hx r q1 hq1)
    · exact hr
  have hact : ∀ e p2, s2.proc_table[e]? = some p2 → p2.state = proc_state.ACTIVE →
      ∃ p, s.proc_table[e]? = some p ∧ p.state = proc_state.ACTIVE ∧ p2.pid = p.pid ∧
        s.active_proc = some e ∧ s2.active_proc = some e := by
    intro e p2 hp2 hst
    rcases ht e p2 hp2 with h | ⟨p, hp, hst1, hpid⟩
    · exact absurd hst h
    · have hsa : s.active_proc = some e := hinv.current e p hp (by rw [← hst1]; exact hst)
      refine ⟨p, hp, by rw [← hst1]; exact hst, hpid, hsa, ?_⟩
      rcases ha with h | ⟨-, h⟩
      · rw [h]; exact hsa
      · exact absurd hst (h e p2 hsa hp2)
  refine ⟨?_, ?_, ?_, ?_, ?_⟩
  · intro r q2 hq2
    obtain ⟨hw, q1, hq1, hl⟩ := hadd r q2 hq2
    obtain ⟨-, hn, -⟩ := hsub r q1 hq1
    refine ⟨hw, ?_⟩
    rcases hl with hl | ⟨-, hl⟩
    · rw [hl]; exact hn
    · rw [hl]
      exact List.Nodup.append hn (List.nodup_singleton x)
        (by
          intro a ha1 ha2
          simp only [List.mem_singleton] at ha2
          subst ha2
          exact hx r q1 hq1 ha1)
  · intro r r1 q q1 pid hq hq1 hp hp1
    rcases hmem r q pid hq hp with ⟨q0, hq0, hp0⟩ | ⟨hpx, hr⟩
    · rcases hmem r1 q1 pid hq1 hp1 with ⟨q01, hq01, hp01⟩ | ⟨hpx, hr1⟩
      · exact hinv.disjoint r r1 q0 q01 pid hq0 hq01 hp0 hp01
      · subst hpx
        rw [hr1]; exact hxin r q hq hp
    · subst hpx
      rw [hr]; exact (hxin r1 q1 hq1 hp1).symm
  · intro r q hq hr h0
    rcases hmem r q 0 hq h0 with ⟨q0, hq0, hp0⟩ | ⟨hpx, hr2⟩
    · exact hinv.zero r q0 hq0 hr hp0
    · rcases hz with h | h
      · exact h hpx.symm
      · exact hr (hr2.trans h)
  · intro e p2 hp2 hst
    obtain ⟨-, -, -, -, -, h⟩ := hact e p2 hp2 hst
    exact h
  · intro a p2 ha2 hp2 hst r q hq hp
    obtain ⟨p, hp0, hst0, hpid, hsa, -⟩ := hact a p2 hp2 hst
    rcases hmem r q p2.pid hq hp with ⟨q0, hq0, hpq⟩ | ⟨hpx, -⟩
    · rw [hpid] at hpq
      exact hinv.unqueued a p hsa hp0 hst0 r q0 hq0 hpq
    · exact hfx a p2 ha2 hp2 hst hpx

/-- The invariant is kept by a step that only removes pids from queues. -/
theorem sched_inv_shrink (s s1 : Kernel) (hinv : sched_inv s) (hsub : qsub s s1)
    (ht : tmono s s1) (ha : astep s s1) : sched_inv s1 := by
  have hact : ∀ e p2, s1.proc_table[e]? = some p2 → p2.state = proc_state.ACTIVE →
      ∃ p, s.proc_table[e]? = some p ∧ p.state = proc_state.ACTIVE ∧ p2.pid = p.pid ∧
        s.active_proc = some e ∧ s1.active_proc = some e := by
    intro e p2 hp2 hst
    rcases ht e p2 hp2 with h | ⟨p, hp, hst1, hpid⟩
    · exact absurd hst h
    · have hsa : s.active_proc = some e := hinv.current e p hp (by rw [← hst1]; exact hst)
      refine ⟨p, hp, by rw [← hst1]; exact hst, hpid, hsa, ?_⟩
      rcases ha with h | ⟨-, h⟩
      · rw [h]; exact hsa
      · exact absurd hst (h e p2 hsa hp2)
  refine ⟨qsub_ok s s1 hsub, ?_, ?_, ?_, ?_⟩
  · intro r r1 q q1 pid hq hq1 hp hp1
    obtain ⟨-, -, q0, hq0, hs0⟩ := hsub r q hq
    obtain ⟨-, -, q01, hq01, hs01⟩ := hsub r1 q1 hq1
    exact hinv.disjoint r r1 q0 q01 pid hq0 hq01 (hs0 pid hp) (hs01 pid hp1)
  · intro r q hq hr h0
    obtain ⟨-, -, q0, hq0, hs0⟩ := hsub r q hq
    exact hinv.zero r q0 hq0 hr (hs0 0 h0)
  · intro e p2 hp2 hst
    exact (hact e p2 hp2 hst).choose_spec.2.2.2.2
  · intro a p2 ha2 hp2 hst r q hq hp
    obtain ⟨p, hp0, hst0, hpid, hsa, -⟩ := hact a p2 hp2 hst
    obtain ⟨-, -, q0, hq0, hs0⟩ := hsub r q hq
    have := hs0 _ hp
    rw [hpid] at this
    exact hinv.unqueued a p hsa hp0 hst0 r q0 hq0 this

/-! ### Effect of the scheduler primitives on the invariant -/

theorem queue_in_getD_spec (q : queue_t) (x : Int) (hw : q.wf) :
    ((queue_in q x).getD q).wf ∧
      (((queue_in q x).getD q).toList = q.toList ∨
        ((queue_in q x).getD q).toList = q.toList ++ [x]) := by
  by_cases hs : q.size = QUEUE_SIZE
  · rw [(queue_in_eq_none q x).mpr hs]
    exact ⟨hw, Or.inl rfl⟩
  · have hlt : q.size < QUEUE_SIZE := Nat.lt_of_le_of_ne hw.2.2.1 hs
    obtain ⟨q1, hq1, hq1w, hq1l, -⟩ := queue_in_spec q x hw hlt
    rw [hq1]
    exact ⟨hq1w, Or.inr hq1l⟩

theorem queue_eq_of_fields (s s1 : Kernel) (h1 : s1.run_queue = s.run_queue)
    (h2 : s1.sleep_queue = s.sleep_queue) (h3 : s1.mutexes = s.mutexes)
    (h4 : s1.semaphores = s.semaphores) (r : queue_ref) : s1.queue r = s.queue r := by
  cases r <;> simp [Kernel.queue, h1, h2, h3, h4]

theorem queue_run_update (s s1 : Kernel) (h2 : s1.sleep_queue = s.sleep_queue)
    (h3 : s1.mutexes = s.mutexes) (h4 : s1.semaphores = s.semaphores) (r : queue_ref) :
    s1.queue r = if r = queue_ref.run then some s1.run_queue else s.queue r := by
  cases r <;> simp [Kernel.queue, h2, h3, h4]

theorem queue_sleep_update (s s1 : Kernel) (h1 : s1.run_queue = s.run_queue)
    (h3 : s1.mutexes = s.mutexes) (h4 : s1.semaphores = s.semaphores) (r : queue_ref) :
    s1.queue r = if r = queue_ref.sleep then some s1.sleep_queue else s.queue r := by
  cases r <;> simp [Kernel.queue, h1, h3, h4]

theorem queue_mutex_update (s s1 : Kernel) (i : Nat) (m : mutex_t)
    (h1 : s1.run_queue = s.run_queue) (h2 : s1.sleep_queue = s.sleep_queue)
    (h3 : s1.mutexes = s.mutexes.set i m) (h4 : s1.semaphores = s.semaphores)
    (hi : i < s.mutexes.length) (r : queue_ref) :
    s1.queue r = if r = queue_ref.mutex i then some m.wait_queue else s.queue r := by
  cases r with
  | run => simp [Kernel.queue, h1]
  | sleep => simp [Kernel.queue, h2]
  | sem k => simp [Kernel.queue, h4]
  | mutex k =>
    by_cases hk : i = k
    · subst hk
      simp [Kernel.queue, h3, List.getElem?_set_self hi]
    · have hk1 : ¬ k = i := fun h => hk h.symm
      simp [Kernel.queue, h3, List.getElem?_set_ne hk, hk1]

theorem queue_sem_update (s s1 : Kernel) (i : Nat) (m : sem_t)
    (h1 : s1.run_queue = s.run_queue) (h2 : s1.sleep_queue = s.sleep_queue)
    (h3 : s1.mutexes = s.mutexes) (h4 : s1.semaphores = s.semaphores.set i m)
    (hi : i < s.semaphores.length) (r : queue_ref) :
    s1.queue r = if r = queue_ref.sem i then some m.wait_queue else s.queue r := by
  cases r with
  | run => simp [Kernel.queue, h1]
  | sleep => simp [Kernel.queue, h2]
  | mutex k => simp [Kernel.queue, h3]
  | sem k =>
    by_cases hk : i = k
    · subst hk
      simp [Kernel.queue, h4, List.getElem?_set_self hi]
    · have hk1 : ¬ k = i := fun h => hk h.symm
      simp [Kernel.queue, h4, List.getElem?_set_ne hk, hk1]

/-- A step that leaves every queue as it is. -/
theorem qsub_of_queue_eq (s s1 : Kernel) (hok : queues_ok s)
    (h : ∀ r, s1.queue r = s.queue r) : qsub s s1 := by
  intro r q1 hq1
  rw [h r] at hq1
  exact ⟨(hok r q1 hq1).1, (hok r q1 hq1).2, q1, hq1, fun _ hp => hp⟩

/-- A step that replaces the queue `r0` by one holding some of its pids. -/
theorem qsub_of_update (s s1 : Kernel) (r0 : queue_ref) (q0 q1 : queue_t) (hok : queues_ok s)
    (h0 : s.queue r0 = some q0)
    (h : ∀ r, s1.queue r = if r = r0 then some q1 else s.queue r)
    (hw : q1.wf) (hn : q1.toList.Nodup) (hs : ∀ pid ∈ q1.toList, pid ∈ q0.toList) :
    qsub s s1 := by
  intro r q hq
  rw [h r] at hq
  by_cases hr : r = r0
  · rw [if_pos hr] at hq
    injection hq with hq
    subst hq
    subst hr
    exact ⟨hw, hn, q0, h0, hs⟩
  · rw [if_neg hr] at hq
    exact ⟨(hok r q hq).1, (hok r q hq).2, q, hq, fun _ hp => hp⟩

/-- A step that replaces the queue `r0` by itself with `x` possibly appended. -/
theorem qadd_of_update (s s1 : Kernel) (r0 : queue_ref) (q0 q1 : queue_t) (x : Int)
    (hok : queues_ok s) (h0 : s.queue r0 = some q0)
    (h : ∀ r, s1.queue r = if r = r0 then some q1 else s.queue r)
    (hw : q1.wf) (hl : q1.toList = q0.toList ∨ q1.toList = q0.toList ++ [x]) :
    qadd x r0 s s1 := by
  intro r q hq
  rw [h r] at hq
  by_cases hr : r = r0
  · rw [if_pos hr] at hq
    injection hq with hq
    subst hq
    subst hr
    refine ⟨hw, q0, h0, ?_⟩
    rcases hl with hl | hl
    · exact Or.inl hl
    · exact Or.inr ⟨rfl, hl⟩
  · rw [if_neg hr] at hq
    exact ⟨(hok r q hq).1, q, hq, Or.inl rfl⟩

theorem qadd_of_queue_eq (s s1 : Kernel) (x : Int) (r2 : queue_ref) (hok : queues_ok s)
    (h : ∀ r, s1.queue r = s.queue r) : qadd x r2 s s1 := by
  intro r q hq
  rw [h r] at hq
  exact ⟨(hok r q hq).1, q, hq, Or.inl rfl⟩

theorem rot_loop_nodup (pid : Int) (fuel : Nat) :
    ∀ (i : Nat) (l : List Int), l.Nodup → (rot_loop pid fuel i l).Nodup := by
  induction fuel with
  | zero => intro i l h; simpa [rot_loop] using h
  | succ fuel ih =>
    intro i l h
    by_cases hi : i < l.length
    · cases l with
      | nil => simp at hi
      | cons y ys =>
        have hy := List.nodup_cons.mp h
        by_cases hp : pid = y
        · simp only [rot_loop, hi, if_true, if_pos hp]
          exact ih _ _ hy.2
        · simp only [rot_loop, hi, if_true, if_neg hp]
          apply ih
          exact List.Nodup.append hy.2 (List.nodup_singleton y)
            (by
              intro a ha1 ha2
              simp only [List.mem_singleton] at ha2
              subst ha2
              exact hy.1 ha1)
    · simpa [rot_loop, hi] using h

/-- What `scheduler_remove` does when it returns, in a state with well-formed queues. -/
theorem scheduler_remove_inv (s s2 : Kernel) (e : Nat) (hok : queues_ok s)
    (h : scheduler_remove s (some e) = some s2) :
    ∃ p, s.proc_table[e]? = some p ∧ s2.proc_table = s.proc_table.set e (unqueued p) ∧
      s2.active_proc = (if s.active_proc = some e then none else s.active_proc) ∧
      qsub s s2 := by
  cases hp : s.proc_table[e]? with
  | none => simp [scheduler_remove, hp] at h
  | some p =>
    have hq : ∀ r, p.scheduler_queue = some r → ∃ q, s.queue r = some q ∧ q.wf := by
      intro r hr
      cases hqr : s.queue r with
      | none => simp [scheduler_remove, hp, hr, hqr] at h
      | some q => exact ⟨q, rfl, (hok r q hqr).1⟩
    obtain ⟨s3, h3, hact, htbl, -, hqs⟩ := scheduler_remove_queues s e p hp hq
    rw [h] at h3
    injection h3 with h3
    subst h3
    refine ⟨p, rfl, htbl, hact, ?_⟩
    intro r q2 hq2
    obtain ⟨q, hqr, hif⟩ := hqs r q2 hq2
    by_cases hsq : p.scheduler_queue = some r
    · rw [if_pos hsq] at hif
      obtain ⟨-, hw2, hl2⟩ := hif
      refine ⟨hw2, ?_, q, hqr, ?_⟩
      · rw [hl2]; exact rot_loop_nodup _ _ _ _ (hok r q hqr).2
      · intro pid hpid
        rw [hl2] at hpid
        exact rot_loop_subset _ _ _ _ _ hpid
    · rw [if_neg hsq] at hif
      subst hif
      exact ⟨(hok r q2 hqr).1, (hok r q2 hqr).2, q2, hqr, fun _ hp => hp⟩

/-- What `scheduler_add` does when it returns. -/
theorem scheduler_add_inv (s s2 : Kernel) (e : Nat) (h : scheduler_add s (some e) = some s2) :
    ∃ p q, s.proc_table[e]? = some p ∧ queue_in s.run_queue p.pid = some q ∧
      s2 = { s with proc_table := s.proc_table.set e (requeued p), run_queue := q } := by
  cases hp : s.proc_table[e]? with
  | none => simp [scheduler_add, hp] at h
  | some p =>
    cases hq : queue_in s.run_queue p.pid with
    | none => simp [scheduler_add, hp, hq] at h
    | some q =>
      rw [scheduler_add_eq s e p q hp hq] at h
      injection h with h
      exact ⟨p, q, rfl, hq, h.symm⟩

theorem scheduler_add_qadd (s s2 : Kernel) (e : Nat) (hok : queues_ok s)
    (h : scheduler_add s (some e) = some s2) :
    ∃ p, s.proc_table[e]? = some p ∧ s2.proc_table = s.proc_table.set e (requeued p) ∧
      s2.active_proc = s.active_proc ∧ qadd p.pid queue_ref.run s s2 := by
  obtain ⟨p, q, hp, hq, hs2⟩ := scheduler_add_inv s s2 e h
  subst hs2
  refine ⟨p, hp, rfl, rfl, ?_⟩
  have hrw := (hok queue_ref.run s.run_queue rfl).1
  have hspec := queue_in_getD_spec s.run_queue p.pid hrw
  rw [hq] at hspec
  exact qadd_of_update s _ queue_ref.run s.run_queue q p.pid hok rfl
    (fun r => queue_run_update s
      { s with proc_table := s.proc_table.set e (requeued p), run_queue := q } rfl rfl rfl r)
    hspec.1 hspec.2

theorem tmono_set (s s1 : Kernel) (e : Nat) (p p1 : proc_t)
    (hp : s.proc_table[e]? = some p) (ht : s1.proc_table = s.proc_table.set e p1)
    (h : p1.state ≠ proc_state.ACTIVE ∨ (p1.state = p.state ∧ p1.pid = p.pid)) :
    tmono s s1 := by
  intro e1 p2 hp2
  rw [ht] at hp2
  have hlt := lt_length_of_getElem? _ _ _ hp
  by_cases he : e = e1
  · subst he
    rw [List.getElem?_set_self hlt] at hp2
    injection hp2 with hp2
    subst hp2
    rcases h with h | ⟨h1, h2⟩
    · exact Or.inl h
    · exact Or.inr ⟨p, hp, h1, h2⟩
  · rw [List.getElem?_set_ne he] at hp2
    exact Or.inr ⟨p2, hp2, rfl, rfl⟩

theorem tmono_of_table_eq (s s1 : Kernel) (h : s1.proc_table = s.proc_table) : tmono s s1 := by
  intro e p hp
  rw [h] at hp
  exact Or.inr ⟨p, hp, rfl, rfl⟩

/-- The invariant is kept by a step that changes neither the queues nor the states
and pids of the PCBs nor `active_proc`. -/
theorem sched_inv_same (s s1 : Kernel) (hinv : sched_inv s)
    (hq : ∀ r, s1.queue r = s.queue r) (ht : tmono s s1)
    (ha : s1.active_proc = s.active_proc) : sched_inv s1 :=
  sched_inv_shrink s s1 hinv (qsub_of_queue_eq s s1 hinv.ok hq) ht (Or.inl ha)

/-- The invariant is kept when the active process, in state ACTIVE, blocks: after a
step that removes pids from queues, its pid may be appended to the queue `r2` while
its state leaves ACTIVE, and `active_proc` stays or is cleared. -/
theorem sched_inv_block (s s1 s2 : Kernel) (a : Nat) (p p1 : proc_t) (r2 : queue_ref)
    (q0 q1 : queue_t) (hinv : sched_inv s)
    (ha : s.active_proc = some a) (hp : s.proc_table[a]? = some p)
    (hst : p.state = proc_state.ACTIVE) (hz : p.pid ≠ 0 ∨ r2 = queue_ref.run)
    (hsub : qsub s s1) (h0 : s1.queue r2 = some q0)
    (hq : ∀ r, s2.queue r = if r = r2 then some q1 else s1.queue r)
    (hw : q1.wf) (hl : q1.toList = q0.toList ∨ q1.toList = q0.toList ++ [p.pid])
    (ht : s2.proc_table = s.proc_table.set a p1) (hst1 : p1.state ≠ proc_state.ACTIVE)
    (hact : s2.active_proc = s.active_proc ∨ s2.active_proc = none) :
    sched_inv s2 := by
  have halt := lt_length_of_getElem? _ _ _ hp
  have hp2 : s2.proc_table[a]? = some p1 := by
    rw [ht]; exact List.getElem?_set_self halt
  refine sched_inv_step s s1 s2 p.pid r2 hinv hsub ?_
    (qadd_of_update s1 s2 r2 q0 q1 p.pid (qsub_ok s s1 hsub) h0 hq hw hl) hz
    (tmono_set s s2 a p p1 hp ht (Or.inl hst1)) ?_ ?_
  · intro r q hq1 hmem
    obtain ⟨-, -, q2, hq2, hs⟩ := hsub r q hq1
    exact hinv.unqueued a p ha hp hst r q2 hq2 (hs _ hmem)
  · rcases hact with h | h
    · exact Or.inl h
    · refine Or.inr ⟨h, ?_⟩
      intro e p2 he hp3
      rw [ha] at he
      injection he with he
      subst he
      rw [hp2] at hp3
      injection hp3 with hp3
      subst hp3
      exact hst1
  · intro a1 p2 ha1 hp3 hst2
    rcases hact with h | h
    · rw [h, ha] at ha1
      injection ha1 with ha1
      subst ha1
      rw [hp2] at hp3
      injection hp3 with hp3
      subst hp3
      exact absurd hst2 hst1
    · rw [h] at ha1
      cases ha1

/-- The pid of an ACTIVE active process after a step differs from every pid that was
queued before the step. -/
theorem active_ne_queued (s s2 : Kernel) (x : Int) (hinv : sched_inv s) (ht : tmono s s2)
    (r0 : queue_ref) (q0 : queue_t) (h0 : s.queue r0 = some q0) (hx : x ∈ q0.toList) :
    ∀ a p, s2.active_proc = some a → s2.proc_table[a]? = some p →
      p.state = proc_state.ACTIVE → p.pid ≠ x := by
  intro a p2 _ hp2 hst hpx
  rcases ht a p2 hp2 with h | ⟨p, hp, hst1, hpid⟩
  · exact h hst
  · have hst0 : p.state = proc_state.ACTIVE := by rw [← hst1]; exact hst
    have hsa := hinv.current a p hp hst0
    have := hinv.unqueued a p hsa hp hst0 r0 q0 h0
    rw [← hpid, hpx] at this
    exact this hx

/-- The invariant is kept when a queued pid is woken: the head `x` of the queue `r0`
is taken out, further pids may be removed from queues, `x` is then appended to the
queue `r2`, no PCB becomes ACTIVE and `active_proc` is cleared only together with the
state ACTIVE of its PCB. -/
theorem sched_inv_wake (s s1 s2 s3 : Kernel) (x : Int) (rest : List Int)
    (r0 r2 : queue_ref) (q0 q1 : queue_t) (hinv : sched_inv s)
    (h0 : s.queue r0 = some q0) (hx : q0.toList = x :: rest)
    (hq1 : ∀ r, s1.queue r = if r = r0 then some q1 else s.queue r)
    (hw1 : q1.wf) (hl1 : q1.toList = rest)
    (hsub : qsub s1 s2) (hadd : qadd x r2 s2 s3) (hz : x ≠ 0 ∨ r2 = queue_ref.run)
    (ht : tmono s s3) (ha : astep s s3) : sched_inv s3 := by
  have hnd := (hinv.ok r0 q0 h0).2
  rw [hx] at hnd
  have hnd1 := List.nodup_cons.mp hnd
  have hsub1 : qsub s s1 :=
    qsub_of_update s s1 r0 q0 q1 hinv.ok h0 hq1 hw1 (by rw [hl1]; exact hnd1.2)
      (by intro pid hpid; rw [hl1] at hpid; rw [hx]; exact List.mem_cons_of_mem _ hpid)
  refine sched_inv_step s s2 s3 x r2 hinv (qsub_trans s s1 s2 hsub1 hsub) ?_ hadd hz ht ha
    (active_ne_queued s s3 x hinv ht r0 q0 h0 (by rw [hx]; exact List.mem_cons_self _ _))
  intro r q hq hmem
  obtain ⟨-, -, q2, hq2, hs⟩ := hsub r q hq
  have hmem2 := hs _ hmem
  rw [hq1 r] at hq2
  by_cases hr : r = r0
  · rw [if_pos hr] at hq2
    injection hq2 with hq2
    subst hq2
    rw [hl1] at hmem2
    exact hnd1.1 hmem2
  · rw [if_neg hr] at hq2
    exact hr (hinv.disjoint r r0 q2 q0 x hq2 h0 hmem2
      (by rw [hx]; exact List.mem_cons_self _ _))

/-! ### The handlers keep the invariant -/

theorem ksem_wait_inv (s s1 : Kernel) (id rc : Int) (a : Nat) (p : proc_t)
    (hinv : sched_inv s) (ha : s.active_proc = some a) (hp : s.proc_table[a]? = some p)
    (hst : p.state = proc_state.ACTIVE) (hpid : p.pid ≠ 0)
    (h : ksem_wait s id = some (s1, rc)) : sched_inv s1 := by
  by_cases hidx : id < 0
  · simp [ksem_wait, ha, hidx] at h
  cases hm : s.semaphores[id.toNat]? with
  | none => simp [ksem_wait, ha, hidx, hm] at h
  | some m =>
    have hilt := lt_length_of_getElem? _ _ _ hm
    have hq0 : s.queue (queue_ref.sem id.toNat) = some m.wait_queue := by
      simp [Kernel.queue, hm]
    by_cases hc : m.count = 0
    · have hnp : ¬ (0 : Int) > 0 := by omega
      simp only [ksem_wait, ha, hidx, if_false, hm, hp, hc, if_true,
        List.getElem?_set_self hilt, hnp, List.set_set, Option.some.injEq,
        Prod.mk.injEq] at h
      obtain ⟨hs1, -⟩ := h
      have h1 : s1.run_queue = s.run_queue := by rw [← hs1]
      have h2 : s1.sleep_queue = s.sleep_queue := by rw [← hs1]
      have h3 : s1.mutexes = s.mutexes := by rw [← hs1]
      have h4 : s1.semaphores = s.semaphores.set id.toNat
          { m with count := 0,
                   wait_queue := (queue_in m.wait_queue p.pid).getD m.wait_queue } := by
        rw [← hs1]
      have h5 : s1.proc_table = s.proc_table.set a (sem_parked id.toNat p) := by rw [← hs1]; rfl
      have h6 : s1.active_proc = s.active_proc := by rw [← hs1, ha]
      have hspec := queue_in_getD_spec m.wait_queue p.pid (hinv.ok _ _ hq0).1
      exact sched_inv_block s s s1 a p (sem_parked id.toNat p) (queue_ref.sem id.toNat)
        m.wait_queue ((queue_in m.wait_queue p.pid).getD m.wait_queue) hinv ha hp hst
        (Or.inl hpid) (qsub_refl s hinv.ok) hq0
        (fun r => queue_sem_update s s1 id.toNat _ h1 h2 h3 h4 hilt r)
        hspec.1 hspec.2 h5 (by simp [sem_parked]) (Or.inl h6)
    · simp only [ksem_wait, ha, hidx, if_false, hm, hp, hc, Option.some.injEq,
        Prod.mk.injEq] at h
      obtain ⟨hs1, -⟩ := h
      have h1 : s1.run_queue = s.run_queue := by rw [← hs1]
      have h2 : s1.sleep_queue = s.sleep_queue := by rw [← hs1]
      have h3 : s1.mutexes = s.mutexes := by rw [← hs1]
      have h4 : s1.semaphores = s.semaphores.set id.toNat
          (if m.count > 0 then { m with count := m.count - 1 } else m) := by
        rw [← hs1]
      have h5 : s1.proc_table = s.proc_table := by rw [← hs1]
      have h6 : s1.active_proc = s.active_proc := by rw [← hs1, ha]
      refine sched_inv_same s s1 hinv ?_ (tmono_of_table_eq s s1 h5) h6
      intro r
      rw [queue_sem_update s s1 id.toNat _ h1 h2 h3 h4 hilt r]
      by_cases hr : r = queue_ref.sem id.toNat
      · rw [if_pos hr, hr, hq0]
        split <;> rfl
      · rw [if_neg hr]

theorem queue_out_some_spec (q q1 : queue_t) (x : Int) (hw : q.wf)
    (h : queue_out q = some (x, q1)) : q1.wf ∧ q.toList = x :: q1.toList := by
  have hpos : 0 < q.size := by
    rcases Nat.eq_zero_or_pos q.size with h0 | h0
    · rw [(queue_out_eq_none q).mpr h0] at h; cases h
    · exact h0
  obtain ⟨y, q2, hq2, hq2w, hq2l, -⟩ := queue_out_spec q hw hpos
  rw [h] at hq2
  injection hq2 with hq2
  injection hq2 with hx hq
  subst hx
  subst hq
  exact ⟨hq2w, hq2l⟩

/-- Taking the head out of a queue only removes a pid. -/
theorem qsub_dequeue (s s1 : Kernel) (r0 : queue_ref) (q0 q1 : queue_t) (x : Int)
    (hok : queues_ok s) (h0 : s.queue r0 = some q0)
    (hq1 : ∀ r, s1.queue r = if r = r0 then some q1 else s.queue r)
    (hout : queue_out q0 = some (x, q1)) : qsub s s1 := by
  obtain ⟨hw1, hl⟩ := queue_out_some_spec q0 q1 x (hok r0 q0 h0).1 hout
  have hnd := (hok r0 q0 h0).2
  rw [hl] at hnd
  exact qsub_of_update s s1 r0 q0 q1 hok h0 hq1 hw1 (List.nodup_cons.mp hnd).2
    (by intro pid hpid; rw [hl]; exact List.mem_cons_of_mem _ hpid)

theorem qadd_congr (s s2 s3 : Kernel) (x : Int) (r2 : queue_ref) (h : qadd x r2 s s2)
    (heq : ∀ r, s3.queue r = s2.queue r) : qadd x r2 s s3 := by
  intro r q hq
  rw [heq r] at hq
  exact h r q hq

theorem qsub_congr (s s2 s3 : Kernel) (h : qsub s s2)
    (heq : ∀ r, s3.queue r = s2.queue r) : qsub s s3 := by
  intro r q hq
  rw [heq r] at hq
  exact h r q hq

/-- Storing a semaphore entry with the same wait queue changes no queue. -/
theorem queue_eq_sem_set (s s1 : Kernel) (j : Nat) (m m1 : sem_t)
    (h1 : s1.run_queue = s.run_queue) (h2 : s1.sleep_queue = s.sleep_queue)
    (h3 : s1.mutexes = s.mutexes) (h4 : s1.semaphores = s.semaphores.set j m1)
    (hm : s.semaphores[j]? = some m) (hwq : m1.wait_queue = m.wait_queue) (r : queue_ref) :
    s1.queue r = s.queue r := by
  rw [queue_sem_update s s1 j m1 h1 h2 h3 h4 (lt_length_of_getElem? _ _ _ hm) r]
  by_cases hr : r = queue_ref.sem j
  · rw [if_pos hr, hr, hwq]
    simp [Kernel.queue, hm]
  · rw [if_neg hr]

/-- Storing a mutex entry with the same wait queue changes no queue. -/
theorem queue_eq_mutex_set (s s1 : Kernel) (j : Nat) (m m1 : mutex_t)
    (h1 : s1.run_queue = s.run_queue) (h2 : s1.sleep_queue = s.sleep_queue)
    (h3 : s1.mutexes = s.mutexes.set j m1) (h4 : s1.semaphores = s.semaphores)
    (hm : s.mutexes[j]? = some m) (hwq : m1.wait_queue = m.wait_queue) (r : queue_ref) :
    s1.queue r = s.queue r := by
  rw [queue_mutex_update s s1 j m1 h1 h2 h3 h4 (lt_length_of_getElem? _ _ _ hm) r]
  by_cases hr : r = queue_ref.mutex j
  · rw [if_pos hr, hr, hwq]
    simp [Kernel.queue, hm]
  · rw [if_neg hr]

theorem ksem_init_inv (s s1 : Kernel) (value id0 rc : Int) (hinv : sched_inv s)
    (h : ksem_init s value id0 = some (s1, rc)) : sched_inv s1 := by
  unfold ksem_init at h
  simp only [] at h
  split at h
  · injection h with h
    injection h with h _
    exact sched_inv_same s s1 hinv (fun r => queue_eq_of_fields s s1 (by rw [← h])
      (by rw [← h]) (by rw [← h]) (by rw [← h]) r) (tmono_of_table_eq s s1 (by rw [← h]))
      (by rw [← h])
  · split at h
    · cases h
    · split at h
      · cases h
      · rename_i m hm
        injection h with h
        injection h with h _
        exact sched_inv_same s s1 hinv
          (fun r => queue_eq_sem_set s s1 _ m { m with allocated := 1 } (by rw [← h]) (by rw [← h]) (by rw [← h])
            (by rw [← h]) hm rfl r)
          (tmono_of_table_eq s s1 (by rw [← h])) (by rw [← h])

theorem kmutex_init_inv (s s1 : Kernel) (id0 rc : Int) (hinv : sched_inv s)
    (h : kmutex_init s id0 = some (s1, rc)) : sched_inv s1 := by
  unfold kmutex_init at h
  simp only [] at h
  split at h
  · injection h with h
    injection h with h _
    exact sched_inv_same s s1 hinv (fun r => queue_eq_of_fields s s1 (by rw [← h])
      (by rw [← h]) (by rw [← h]) (by rw [← h]) r) (tmono_of_table_eq s s1 (by rw [← h]))
      (by rw [← h])
  · split at h
    · cases h
    · split at h
      · cases h
      · rename_i m hm
        injection h with h
        injection h with h _
        exact sched_inv_same s s1 hinv
          (fun r => queue_eq_mutex_set s s1 _ m { m with allocated := 1 } (by rw [← h]) (by rw [← h]) (by rw [← h])
            (by rw [← h]) hm rfl r)
          (tmono_of_table_eq s s1 (by rw [← h])) (by rw [← h])

theorem ksem_destroy_inv (s s1 : Kernel) (id rc : Int) (hinv : sched_inv s)
    (h : ksem_destroy s id = some (s1, rc)) : sched_inv s1 := by
  unfold ksem_destroy at h
  split at h
  · cases h
  · split at h
    · cases h
    · rename_i m hm
      split at h
      · injection h with h
        injection h with h _
        rw [← h]; exact hinv
      · split at h
        · injection h with h
          injection h with h _
          rw [← h]; exact hinv
        · injection h with h
          injection h with h _
          have hq0 : s.queue (queue_ref.sem id.toNat) = some m.wait_queue := by
            simp [Kernel.queue, hm]
          refine sched_inv_shrink s s1 hinv
            (qsub_of_update s s1 (queue_ref.sem id.toNat) m.wait_queue sem_zero.wait_queue
              hinv.ok hq0
              (fun r => queue_sem_update s s1 id.toNat sem_zero (by rw [← h]) (by rw [← h])
                (by rw [← h]) (by rw [← h]) (lt_length_of_getElem? _ _ _ hm) r)
              queue_init_wf (by rw [show sem_zero.wait_queue = queue_init from rfl,
                queue_init_toList]; exact List.nodup_nil)
              (by rw [show sem_zero.wait_queue = queue_init from rfl, queue_init_toList]
                  intro pid hpid; cases hpid))
            (tmono_of_table_eq s s1 (by rw [← h])) (Or.inl (by rw [← h]))

theorem kmutex_destroy_inv (s s1 : Kernel) (id rc : Int) (hinv : sched_inv s)
    (h : kmutex_destroy s id = some (s1, rc)) : sched_inv s1 := by
  unfold kmutex_destroy at h
  split at h
  · cases h
  · split at h
    · cases h
    · rename_i m hm
      split at h
      · injection h with h
        injection h with h _
        rw [← h]; exact hinv
      · split at h
        · injection h with h
          injection h with h _
          rw [← h]; exact hinv
        · injection h with h
          injection h with h _
          have hq0 : s.queue (queue_ref.mutex id.toNat) = some m.wait_queue := by
            simp [Kernel.queue, hm]
          refine sched_inv_shrink s s1 hinv
            (qsub_of_update s s1 (queue_ref.mutex id.toNat) m.wait_queue mutex_zero.wait_queue
              hinv.ok hq0
              (fun r => queue_mutex_update s s1 id.toNat mutex_zero (by rw [← h]) (by rw [← h])
                (by rw [← h]) (by rw [← h]) (lt_length_of_getElem? _ _ _ hm) r)
              queue_init_wf (by rw [show mutex_zero.wait_queue = queue_init from rfl,
                queue_init_toList]; exact List.nodup_nil)
              (by rw [show mutex_zero.wait_queue = queue_init from rfl, queue_init_toList]
                  intro pid hpid; cases hpid))
            (tmono_of_table_eq s s1 (by rw [← h])) (Or.inl (by rw [← h]))

theorem ksem_post_inv (s s1 : Kernel) (id rc : Int) (hinv : sched_inv s)
    (h : ksem_post s id = some (s1, rc)) : sched_inv s1 := by
  by_cases hidx : id < 0
  · simp [ksem_post, hidx] at h
  cases hm : s.semaphores[id.toNat]? with
  | none => simp [ksem_post, hidx, hm] at h
  | some m =>
    have hilt := lt_length_of_getElem? _ _ _ hm
    have hq0 : s.queue (queue_ref.sem id.toNat) = some m.wait_queue := by
      simp [Kernel.queue, hm]
    cases hout : queue_out m.wait_queue with
    | none =>
      simp only [ksem_post, hidx, if_false, hm, hout, Option.some.injEq, Prod.mk.injEq] at h
      obtain ⟨hs1, -⟩ := h
      exact sched_inv_same s s1 hinv
        (fun r => queue_eq_sem_set s s1 id.toNat m { m with count := wrap_int (m.count + 1) }
          (by rw [← hs1]) (by rw [← hs1]) (by rw [← hs1]) (by rw [← hs1]) hm rfl r)
        (tmono_of_table_eq s s1 (by rw [← hs1])) (by rw [← hs1])
    | some r0 =>
      obtain ⟨x, q⟩ := r0
      obtain ⟨sA, hsA⟩ : ∃ sA : Kernel, sA =
          { s with semaphores := s.semaphores.set id.toNat
                     { m with count := wrap_int (m.count + 1), wait_queue := q } } := ⟨_, rfl⟩
      simp only [ksem_post, hidx, if_false, hm, hout] at h
      rw [← hsA] at h
      have hqA : ∀ r, sA.queue r = if r = queue_ref.sem id.toNat then some q else s.queue r :=
        fun r => queue_sem_update s sA id.toNat
          { m with count := wrap_int (m.count + 1), wait_queue := q } (by rw [hsA]) (by rw [hsA])
          (by rw [hsA]) (by rw [hsA]) hilt r
      have hsubA : qsub s sA :=
        qsub_dequeue s sA (queue_ref.sem id.toNat) m.wait_queue q x hinv.ok hq0 hqA hout
      have hokA := qsub_ok s sA hsubA
      obtain ⟨hqw, hql⟩ := queue_out_some_spec m.wait_queue q x (hinv.ok _ _ hq0).1 hout
      cases hfind : pid_to_proc sA x with
      | none => simp [hfind, scheduler_add] at h
      | some e =>
        rw [hfind] at h
        cases hadd : scheduler_add sA (some e) with
        | none => simp [hadd] at h
        | some s2 =>
          rw [hadd] at h
          obtain ⟨pe, rq, hpe, -, hs2⟩ := scheduler_add_inv sA s2 e hadd
          obtain ⟨pe1, hpe1, -, -, hqadd⟩ := scheduler_add_qadd sA s2 e hokA hadd
          rw [hpe] at hpe1
          injection hpe1 with hpe1
          subst hpe1
          obtain ⟨p0, hp0, hp0x⟩ := pid_to_proc_some sA x e hfind
          rw [hpe] at hp0
          injection hp0 with hp0
          subst hp0
          have hsem2 : s2.semaphores[id.toNat]?
              = some { m with count := wrap_int (m.count + 1), wait_queue := q } := by
            rw [hs2, hsA]; exact List.getElem?_set_self hilt
          simp only [hsem2, Option.some.injEq, Prod.mk.injEq] at h
          obtain ⟨hs1, -⟩ := h
          have heq : ∀ r, s1.queue r = s2.queue r :=
            fun r => queue_eq_sem_set s2 s1 id.toNat _
              { m with count := wrap_int (wrap_int (m.count + 1) - 1), wait_queue := q }
              (by rw [← hs1]) (by rw [← hs1]) (by rw [← hs1]) (by rw [← hs1]) hsem2 rfl r
          have hpes : s.proc_table[e]? = some pe := by rw [← hpe, hsA]
          rw [hp0x] at hqadd
          exact sched_inv_wake s sA sA s1 x q.toList (queue_ref.sem id.toNat) queue_ref.run
            m.wait_queue q hinv hq0 hql hqA hqw rfl (qsub_refl sA hokA)
            (qadd_congr sA s2 s1 x queue_ref.run hqadd heq) (Or.inr rfl)
            (tmono_set s s1 e pe (requeued pe) hpes (by rw [← hs1, hs2, hsA])
              (Or.inl (by simp [requeued])))
            (Or.inl (by rw [← hs1, hs2, hsA]))

theorem kmutex_lock_inv (s s1 : Kernel) (id rc : Int) (a : Nat) (p : proc_t)
    (hinv : sched_inv s) (ha : s.active_proc = some a) (hp : s.proc_table[a]? = some p)
    (hst : p.state = proc_state.ACTIVE) (hpid : p.pid ≠ 0)
    (h : kmutex_lock s id = some (s1, rc)) : sched_inv s1 := by
  by_cases hidx : id < 0
  · simp [kmutex_lock, ha, hidx] at h
  cases hm : s.mutexes[id.toNat]? with
  | none => simp [kmutex_lock, ha, hidx, hm] at h
  | some m =>
    have hilt := lt_length_of_getElem? _ _ _ hm
    have halt := lt_length_of_getElem? _ _ _ hp
    by_cases hl : m.locks > 0
    · cases hrem : scheduler_remove s (some a) with
      | none => simp [kmutex_lock, ha, hidx, hm, hl, hrem] at h
      | some s2 =>
        obtain ⟨p0, hp0, htbl2, hact2, hsub⟩ := scheduler_remove_inv s s2 a hinv.ok hrem
        rw [hp] at hp0
        injection hp0 with hp0
        subst hp0
        have hp2 : s2.proc_table[a]? = some (unqueued p) := by
          rw [htbl2]; exact List.getElem?_set_self halt
        cases hm2 : s2.mutexes[id.toNat]? with
        | none => simp [kmutex_lock, ha, hidx, hm, hl, hrem, hp2, hm2] at h
        | some m2 =>
          have hilt2 := lt_length_of_getElem? _ _ _ hm2
          have hq2 : s2.queue (queue_ref.mutex id.toNat) = some m2.wait_queue := by
            simp [Kernel.queue, hm2]
          simp only [kmutex_lock, ha, hidx, if_false, hm, hl, if_true, hrem, hp2, hm2,
            List.getElem?_set_self hilt2, List.set_set, Option.some.injEq, Prod.mk.injEq] at h
          obtain ⟨hs1, -⟩ := h
          have hspec := queue_in_getD_spec m2.wait_queue p.pid
            ((qsub_ok s s2 hsub) _ _ hq2).1
          obtain ⟨m5, hm5, hm5q⟩ : ∃ m5 : mutex_t, s1.mutexes = s2.mutexes.set id.toNat m5 ∧
              m5.wait_queue = (queue_in m2.wait_queue p.pid).getD m2.wait_queue := by
            refine ⟨_, by rw [← hs1], ?_⟩
            split <;> rfl
          have hq : ∀ r, s1.queue r = if r = queue_ref.mutex id.toNat
              then some ((queue_in m2.wait_queue p.pid).getD m2.wait_queue) else s2.queue r := by
            intro r
            rw [← hm5q]
            exact queue_mutex_update s2 s1 id.toNat m5 (by rw [← hs1]) (by rw [← hs1]) hm5
              (by rw [← hs1]) hilt2 r
          have hact1 : s1.active_proc = none := by
            rw [← hs1]
            show s2.active_proc = none
            rw [hact2, if_pos ha]
          exact sched_inv_block s s2 s1 a p (parked id.toNat (unqueued p))
            (queue_ref.mutex id.toNat) m2.wait_queue
            ((queue_in m2.wait_queue p.pid).getD m2.wait_queue) hinv ha hp hst (Or.inl hpid)
            hsub hq2 hq hspec.1 hspec.2
            (by rw [← hs1]; show s2.proc_table.set a _ = _; rw [htbl2, List.set_set]; rfl)
            (by simp [parked]) (Or.inr hact1)
    · simp only [kmutex_lock, ha, hidx, if_false, hm, hl, Option.some.injEq,
        Prod.mk.injEq] at h
      obtain ⟨hs1, -⟩ := h
      obtain ⟨m5, hm5, hm5q⟩ : ∃ m5 : mutex_t, s1.mutexes = s.mutexes.set id.toNat m5 ∧
          m5.wait_queue = m.wait_queue := by
        refine ⟨_, by rw [← hs1], ?_⟩
        split <;> rfl
      exact sched_inv_same s s1 hinv
        (fun r => queue_eq_mutex_set s s1 id.toNat m m5 (by rw [← hs1]) (by rw [← hs1]) hm5
          (by rw [← hs1]) hm hm5q r)
        (tmono_of_table_eq s s1 (by rw [← hs1])) (by rw [← hs1, ha])

theorem kmutex_unlock_inv (s s1 : Kernel) (id rc junk : Int) (hinv : sched_inv s)
    (hjunk : pid_to_proc s junk = none)
    (h : kmutex_unlock s id junk = some (s1, rc)) : sched_inv s1 := by
  by_cases hidx : id < 0
  · simp [kmutex_unlock, hidx] at h
  cases hm : s.mutexes[id.toNat]? with
  | none => simp [kmutex_unlock, hidx, hm] at h
  | some m =>
    have hilt := lt_length_of_getElem? _ _ _ hm
    have hq0 : s.queue (queue_ref.mutex id.toNat) = some m.wait_queue := by
      simp [Kernel.queue, hm]
    by_cases hl0 : m.locks = 0
    · simp only [kmutex_unlock, hidx, if_false, hm, hl0, if_true, Option.some.injEq,
        Prod.mk.injEq] at h
      rw [← h.1]; exact hinv
    by_cases hl1 : m.locks - 1 = 0
    · simp only [kmutex_unlock, hidx, if_false, hm, hl0, hl1, if_true, Option.some.injEq,
        Prod.mk.injEq] at h
      obtain ⟨hs1, -⟩ := h
      obtain ⟨m5, hm5, hm5q⟩ : ∃ m5 : mutex_t, s1.mutexes = s.mutexes.set id.toNat m5 ∧
          m5.wait_queue = m.wait_queue :=
        ⟨{ m with locks := 0, owner := none }, by rw [← hs1], rfl⟩
      exact sched_inv_same s s1 hinv
        (fun r => queue_eq_mutex_set s s1 id.toNat m m5
          (by rw [← hs1]) (by rw [← hs1]) hm5 (by rw [← hs1]) hm hm5q r)
        (tmono_of_table_eq s s1 (by rw [← hs1])) (by rw [← hs1])
    cases hout : queue_out m.wait_queue with
    | none =>
      have hfind : pid_to_proc
          { s with mutexes := s.mutexes.set id.toNat
                     { m with locks := m.locks - 1, wait_queue := m.wait_queue } } junk
          = none := hjunk
      simp only [kmutex_unlock, hidx, if_false, hm, hl0, hl1, hout, hfind,
        Option.some.injEq, Prod.mk.injEq] at h
      obtain ⟨hs1, -⟩ := h
      exact sched_inv_same s s1 hinv
        (fun r => queue_eq_mutex_set s s1 id.toNat m
          { m with locks := m.locks - 1, wait_queue := m.wait_queue }
          (by rw [← hs1]) (by rw [← hs1]) (by rw [← hs1]) (by rw [← hs1]) hm rfl r)
        (tmono_of_table_eq s s1 (by rw [← hs1])) (by rw [← hs1])
    | some r0 =>
      obtain ⟨x, q⟩ := r0
      obtain ⟨sA, hsA⟩ : ∃ sA : Kernel, sA =
          { s with mutexes := s.mutexes.set id.toNat
                     { m with locks := m.locks - 1, wait_queue := q } } := ⟨_, rfl⟩
      simp only [kmutex_unlock, hidx, if_false, hm, hl0, hl1, hout] at h
      rw [← hsA] at h
      have hqA : ∀ r, sA.queue r
          = if r = queue_ref.mutex id.toNat then some q else s.queue r :=
        fun r => queue_mutex_update s sA id.toNat
          { m with locks := m.locks - 1, wait_queue := q } (by rw [hsA]) (by rw [hsA])
          (by rw [hsA]) (by rw [hsA]) hilt r
      have hsubA : qsub s sA :=
        qsub_dequeue s sA (queue_ref.mutex id.toNat) m.wait_queue q x hinv.ok hq0 hqA hout
      have hokA := qsub_ok s sA hsubA
      obtain ⟨hqw, hql⟩ := queue_out_some_spec m.wait_queue q x (hinv.ok _ _ hq0).1 hout
      cases hfind : pid_to_proc sA x with
      | none =>
        simp only [hfind, Option.some.injEq, Prod.mk.injEq] at h
        rw [← h.1]
        exact sched_inv_shrink s sA hinv hsubA (tmono_of_table_eq s sA (by rw [hsA]))
          (Or.inl (by rw [hsA]))
      | some e =>
        simp only [hfind] at h
        cases hrem : scheduler_remove sA (some e) with
        | none => simp [hrem] at h
        | some s2 =>
          simp only [hrem] at h
          obtain ⟨pe, hpe, htbl2, hact2, hsub2⟩ := scheduler_remove_inv sA s2 e hokA hrem
          have helt := lt_length_of_getElem? _ _ _ hpe
          cases hadd : scheduler_add s2 (some e) with
          | none => simp [hadd] at h
          | some s3 =>
            simp only [hadd] at h
            obtain ⟨pe2, hpe2, htbl3, hact3, hqadd⟩ :=
              scheduler_add_qadd s2 s3 e (qsub_ok sA s2 hsub2) hadd
            have hpe2b : s2.proc_table[e]? = some (unqueued pe) := by
              rw [htbl2]; exact List.getElem?_set_self helt
            rw [hpe2b] at hpe2
            injection hpe2 with hpe2
            subst hpe2
            obtain ⟨p0, hp0, hp0x⟩ := pid_to_proc_some sA x e hfind
            rw [hpe] at hp0
            injection hp0 with hp0
            subst hp0
            cases hm3 : s3.mutexes[id.toNat]? with
            | none => simp [hm3] at h
            | some m3 =>
              simp only [hm3, Option.some.injEq, Prod.mk.injEq] at h
              obtain ⟨hs1, -⟩ := h
              have heq : ∀ r, s1.queue r = s3.queue r :=
                fun r => queue_eq_mutex_set s3 s1 id.toNat m3 { m3 with owner := some e }
                  (by rw [← hs1]) (by rw [← hs1]) (by rw [← hs1]) (by rw [← hs1]) hm3 rfl r
              have hpes : s.proc_table[e]? = some pe := by rw [← hpe, hsA]
              have htbl1 : s1.proc_table = s.proc_table.set e (requeued (unqueued pe)) := by
                rw [← hs1]
                show s3.proc_table = _
                rw [htbl3, htbl2, hsA, List.set_set]
              have hact1 : s1.active_proc
                  = (if s.active_proc = some e then none else s.active_proc) := by
                rw [← hs1]
                show s3.active_proc = _
                rw [hact3, hact2, hsA]
              have hxq : (unqueued pe).pid = x := hp0x
              rw [hxq] at hqadd
              refine sched_inv_wake s sA s2 s1 x q.toList (queue_ref.mutex id.toNat)
                queue_ref.run m.wait_queue q hinv hq0 hql hqA hqw rfl hsub2
                (qadd_congr s2 s3 s1 x queue_ref.run hqadd heq) (Or.inr rfl)
                (tmono_set s s1 e pe (requeued (unqueued pe)) hpes htbl1
                  (Or.inl (by simp [requeued]))) ?_
              by_cases hae : s.active_proc = some e
              · rw [if_pos hae] at hact1
                refine Or.inr ⟨hact1, ?_⟩
                intro e1 p1 he1 hp1
                rw [hae] at he1
                injection he1 with he1
                subst he1
                rw [htbl1, List.getElem?_set_self (lt_length_of_getElem? _ _ _ hpes)] at hp1
                injection hp1 with hp1
                subst hp1
                simp [requeued]
              · rw [if_neg hae] at hact1
                exact Or.inl hact1

theorem scheduler_sleep_inv (s s1 : Kernel) (time : Int) (a : Nat) (p : proc_t)
    (hinv : sched_inv s) (ha : s.active_proc = some a) (hp : s.proc_table[a]? = some p)
    (hst : p.state = proc_state.ACTIVE) (hpid : p.pid ≠ 0)
    (h : scheduler_sleep s (some a) time = some s1) : sched_inv s1 := by
  have halt := lt_length_of_getElem? _ _ _ hp
  have hns : ¬ p.state = proc_state.SLEEPING := by rw [hst]; decide
  obtain ⟨sA, hsA⟩ : ∃ sA : Kernel, sA = s.set_proc a { p with sleep_time := time } :=
    ⟨_, rfl⟩
  simp only [scheduler_sleep, hp, hns, if_false] at h
  rw [← hsA] at h
  have hqA : ∀ r, sA.queue r = s.queue r := fun r => by rw [hsA]; exact set_proc_queue s a _ r
  have hsubA : qsub s sA := qsub_of_queue_eq s sA hinv.ok hqA
  cases hrem : scheduler_remove sA (some a) with
  | none => simp [hrem] at h
  | some s2 =>
    simp only [hrem] at h
    obtain ⟨p0, hp0, htbl2, hact2, hsub2⟩ :=
      scheduler_remove_inv sA s2 a (qsub_ok s sA hsubA) hrem
    have hpA : sA.proc_table[a]? = some { p with sleep_time := time } := by
      rw [hsA]; exact List.getElem?_set_self halt
    rw [hpA] at hp0
    injection hp0 with hp0
    subst hp0
    have hp2 : s2.proc_table[a]? = some (unqueued { p with sleep_time := time }) := by
      rw [htbl2]
      exact List.getElem?_set_self (by rw [hsA]; simpa [Kernel.set_proc] using halt)
    simp only [hp2, Option.some.injEq] at h
    have hsub : qsub s s2 := qsub_trans s sA s2 hsubA hsub2
    have hspec := queue_in_getD_spec s2.sleep_queue p.pid
      ((qsub_ok s s2 hsub) queue_ref.sleep s2.sleep_queue rfl).1
    have hact1 : s1.active_proc = none := by
      rw [← h]
      show s2.active_proc = none
      rw [hact2, hsA]
      show (if s.active_proc = some a then none else s.active_proc) = none
      rw [if_pos ha]
    obtain ⟨p3, htbl1, hst3⟩ : ∃ p3 : proc_t, s1.proc_table = s.proc_table.set a p3 ∧
        p3.state ≠ proc_state.ACTIVE := by
      refine ⟨{ unqueued { p with sleep_time := time } with
                  state := proc_state.SLEEPING, scheduler_queue := some queue_ref.sleep },
        ?_, ?_⟩
      · rw [← h]
        show s2.proc_table.set a _ = _
        rw [htbl2, hsA]
        show ((s.proc_table.set a _).set a _).set a _ = _
        rw [List.set_set, List.set_set]
      · simp
    exact sched_inv_block s s2 s1 a p p3
      queue_ref.sleep s2.sleep_queue ((queue_in s2.sleep_queue p.pid).getD s2.sleep_queue)
      hinv ha hp hst (Or.inl hpid) hsub rfl
      (fun r => by
        rw [queue_sleep_update s2 s1 (by rw [← h]) (by rw [← h]) (by rw [← h]) r, ← h]
        rfl)
      hspec.1 hspec.2 htbl1 hst3 (Or.inr hact1)

theorem kproc_destroy_inv (s s1 : Kernel) (rc : Int) (e : Nat) (hinv : sched_inv s)
    (h : kproc_destroy s (some e) = some (s1, rc)) : sched_inv s1 := by
  cases hp : s.proc_table[e]? with
  | none => simp [kproc_destroy, hp] at h
  | some p =>
    have helt := lt_length_of_getElem? _ _ _ hp
    by_cases hpid : p.pid = 0
    · simp only [kproc_destroy, hp, hpid, if_true, Option.some.injEq, Prod.mk.injEq] at h
      rw [← h.1]; exact hinv
    · cases hrem : scheduler_remove s (some e) with
      | none => simp [kproc_destroy, hp, hpid, hrem] at h
      | some s2 =>
        obtain ⟨p0, hp0, htbl2, hact2, hsub⟩ := scheduler_remove_inv s s2 e hinv.ok hrem
        rw [hp] at hp0
        injection hp0 with hp0
        subst hp0
        cases hent : proc_to_entry s2 (some e) with
        | none => simp [kproc_destroy, hp, hpid, hrem, hent] at h
        | some entry =>
          by_cases hneg : entry < 0
          · simp [kproc_destroy, hp, hpid, hrem, hent, hneg] at h
          · simp only [kproc_destroy, hp, hpid, if_false, hrem, hent, hneg, Option.some.injEq,
              Prod.mk.injEq] at h
            obtain ⟨hs1, -⟩ := h
            have htbl1 : s1.proc_table = s.proc_table.set e proc_zero := by
              rw [← hs1]
              show s2.proc_table.set e proc_zero = _
              rw [htbl2, List.set_set]
            have hact1 : s1.active_proc
                = (if s.active_proc = some e then none else s.active_proc) := by
              rw [← hs1]; exact hact2
            have heq : ∀ r, s1.queue r = s2.queue r := by
              intro r
              rw [← hs1]
              cases r <;> rfl
            refine sched_inv_shrink s s1 hinv (qsub_congr s s2 s1 hsub heq)
              (tmono_set s s1 e p proc_zero hp htbl1 (Or.inl (by simp [proc_zero]))) ?_
            by_cases hae : s.active_proc = some e
            · rw [if_pos hae] at hact1
              refine Or.inr ⟨hact1, ?_⟩
              intro e1 p1 he1 hp1
              rw [hae] at he1
              injection he1 with he1
              subst he1
              rw [htbl1, List.getElem?_set_self helt] at hp1
              injection hp1 with hp1
              subst hp1
              simp [proc_zero]
            · rw [if_neg hae] at hact1
              exact Or.inl hact1

/-- A step that changes only fields outside the scheduler keeps the invariant. -/
theorem sched_inv_of_fields (s s1 : Kernel) (hinv : sched_inv s)
    (h0 : s1.active_proc = s.active_proc) (ht : s1.proc_table = s.proc_table)
    (h1 : s1.run_queue = s.run_queue) (h2 : s1.sleep_queue = s.sleep_queue)
    (h3 : s1.mutexes = s.mutexes) (h4 : s1.semaphores = s.semaphores) : sched_inv s1 :=
  sched_inv_same s s1 hinv (queue_eq_of_fields s s1 h1 h2 h3 h4) (tmono_of_table_eq s s1 ht) h0

/-- Storing a PCB with the same pid and state keeps the invariant. -/
theorem sched_inv_set_proc (s : Kernel) (e : Nat) (p p1 : proc_t) (hinv : sched_inv s)
    (hp : s.proc_table[e]? = some p) (hst : p1.state = p.state) (hpid : p1.pid = p.pid) :
    sched_inv (s.set_proc e p1) :=
  sched_inv_same s (s.set_proc e p1) hinv (set_proc_queue s e p1)
    (tmono_set s (s.set_proc e p1) e p p1 hp rfl (Or.inr ⟨hst, hpid⟩)) rfl

theorem ksyscall_io_write_inv (umem : Nat → Int) (s s1 : Kernel) (io : Int) (buf : Nat)
    (size rc : Int) (hinv : sched_inv s)
    (h : ksyscall_io_write umem s io buf size = some (s1, rc)) : sched_inv s1 := by
  unfold ksyscall_io_write at h
  split at h
  · injection h with h; injection h with h _; rw [← h]; exact hinv
  · split at h
    · cases h
    · injection h with h; injection h with h _
      exact sched_inv_of_fields s s1 hinv (by rw [← h]) (by rw [← h]) (by rw [← h])
        (by rw [← h]) (by rw [← h]) (by rw [← h])

theorem ksyscall_io_read_inv (s s1 : Kernel) (io : Int) (buf : Nat)
    (size rc : Int) (hinv : sched_inv s)
    (h : ksyscall_io_read s io buf size = some (s1, rc)) : sched_inv s1 := by
  unfold ksyscall_io_read at h
  split at h
  · injection h with h; injection h with h _; rw [← h]; exact hinv
  · split at h
    · cases h
    · injection h with h; injection h with h _
      exact sched_inv_of_fields s s1 hinv (by rw [← h]) (by rw [← h]) (by rw [← h])
        (by rw [← h]) (by rw [← h]) (by rw [← h])

theorem ksyscall_io_flush_inv (s s1 : Kernel) (io rc : Int) (hinv : sched_inv s)
    (h : ksyscall_io_flush s io = some (s1, rc)) : sched_inv s1 := by
  unfold ksyscall_io_flush at h
  split at h
  · injection h with h; injection h with h _; rw [← h]; exact hinv
  · split at h
    · cases h
    · injection h with h; injection h with h _
      exact sched_inv_of_fields s s1 hinv (by rw [← h]) (by rw [← h]) (by rw [← h])
        (by rw [← h]) (by rw [← h]) (by rw [← h])

/-- Every system call keeps the invariant, when it is issued by an active process in
state ACTIVE whose pid is not 0 and the indeterminate value of the uninitialised
locals is not the pid of a process. -/
theorem ksyscall_dispatch_inv (umem : Nat → Int) (junk : Int) (s s1 : Kernel)
    (syscall : Int) (arg1 arg2 arg3 : Nat) (rc : Int) (a : Nat) (p : proc_t)
    (hinv : sched_inv s) (ha : s.active_proc = some a) (hp : s.proc_table[a]? = some p)
    (hst : p.state = proc_state.ACTIVE) (hpid : p.pid ≠ 0)
    (hjunk : pid_to_proc s junk = none)
    (h : ksyscall_dispatch umem junk s syscall arg1 arg2 arg3 = some (s1, rc)) :
    sched_inv s1 := by
  unfold ksyscall_dispatch at h
  by_cases hn0 : syscall = SYSCALL_IO_WRITE
  · rw [if_pos hn0] at h
    exact ksyscall_io_write_inv umem s s1 _ _ _ rc hinv h
  rw [if_neg hn0] at h
  by_cases hn1 : syscall = SYSCALL_IO_READ
  · rw [if_pos hn1] at h
    exact ksyscall_io_read_inv s s1 _ _ _ rc hinv h
  rw [if_neg hn1] at h
  by_cases hn2 : syscall = SYSCALL_IO_FLUSH
  · rw [if_pos hn2] at h
    exact ksyscall_io_flush_inv s s1 _ rc hinv h
  rw [if_neg hn2] at h
  by_cases hn3 : syscall = SYSCALL_SYS_GET_TIME
  · rw [if_pos hn3] at h
    injection h with h; injection h with h _; rw [← h]; exact hinv
  rw [if_neg hn3] at h
  by_cases hn4 : syscall = SYSCALL_SYS_GET_NAME
  · rw [if_pos hn4] at h
    injection h with h; injection h with h _; rw [← h]; exact hinv
  rw [if_neg hn4] at h
  by_cases hn5 : syscall = SYSCALL_PROC_SLEEP
  · rw [if_pos hn5] at h
    unfold ksyscall_proc_sleep at h
    rw [ha] at h
    split at h
    · cases h
    · rename_i s2 hs2
      injection h with h; injection h with h _
      rw [← h]
      exact scheduler_sleep_inv s s2 _ a p hinv ha hp hst hpid hs2
  rw [if_neg hn5] at h
  by_cases hn6 : syscall = SYSCALL_PROC_EXIT
  · rw [if_pos hn6] at h
    unfold ksyscall_proc_exit at h
    rw [ha] at h
    exact kproc_destroy_inv s s1 rc a hinv h
  rw [if_neg hn6] at h
  by_cases hn7 : syscall = SYSCALL_PROC_GET_PID
  · rw [if_pos hn7] at h
    cases hg : ksyscall_proc_get_pid s with
    | none => rw [hg] at h; cases h
    | some v =>
      rw [hg] at h
      injection h with h; injection h with h _; rw [← h]; exact hinv
  rw [if_neg hn7] at h
  by_cases hn8 : syscall = SYSCALL_PROC_GET_NAME
  · rw [if_pos hn8] at h
    cases hg : ksyscall_proc_get_name s arg1 with
    | none => rw [hg] at h; cases h
    | some v =>
      rw [hg] at h
      injection h with h; injection h with h _; rw [← h]; exact hinv
  rw [if_neg hn8] at h
  by_cases hn9 : syscall = SYSCALL_MUTEX_INIT
  · rw [if_pos hn9] at h
    exact kmutex_init_inv s s1 junk rc hinv h
  rw [if_neg hn9] at h
  by_cases hn10 : syscall = SYSCALL_MUTEX_DESTROY
  · rw [if_pos hn10] at h
    unfold ksyscall_mutex_destroy at h
    split at h
    · injection h with h; injection h with h _; rw [← h]; exact hinv
    · exact kmutex_destroy_inv s s1 _ rc hinv h
  rw [if_neg hn10] at h
  by_cases hn11 : syscall = SYSCALL_MUTEX_LOCK
  · rw [if_pos hn11] at h
    unfold ksyscall_mutex_lock at h
    split at h
    · injection h with h; injection h with h _; rw [← h]; exact hinv
    · split at h
      · cases h
      · rename_i s2 lc hs2
        injection h with h; injection h with h _
        rw [← h]
        exact kmutex_lock_inv s s2 _ lc a p hinv ha hp hst hpid hs2
  rw [if_neg hn11] at h
  by_cases hn12 : syscall = SYSCALL_MUTEX_UNLOCK
  · rw [if_pos hn12] at h
    unfold ksyscall_mutex_unlock at h
    split at h
    · injection h with h; injection h with h _; rw [← h]; exact hinv
    · split at h
      · cases h
      · rename_i s2 lc hs2
        injection h with h; injection h with h _
        rw [← h]
        exact kmutex_unlock_inv s s2 _ lc junk hinv hjunk hs2
  rw [if_neg hn12] at h
  by_cases hn13 : syscall = SYSCALL_SEM_INIT
  · rw [if_pos hn13] at h
    exact ksem_init_inv s s1 _ junk rc hinv h
  rw [if_neg hn13] at h
  by_cases hn14 : syscall = SYSCALL_SEM_DESTROY
  · rw [if_pos hn14] at h
    unfold ksyscall_sem_destroy at h
    split at h
    · injection h with h; injection h with h _; rw [← h]; exact hinv
    · exact ksem_destroy_inv s s1 _ rc hinv h
  rw [if_neg hn14] at h
  by_cases hn15 : syscall = SYSCALL_SEM_POST
  · rw [if_pos hn15] at h
    unfold ksyscall_sem_post at h
    split at h
    · injection h with h; injection h with h _; rw [← h]; exact hinv
    · split at h
      · cases h
      · rename_i s2 lc hs2
        injection h with h; injection h with h _
        rw [← h]
        exact ksem_post_inv s s2 _ lc hinv hs2
  rw [if_neg hn15] at h
  by_cases hn16 : syscall = SYSCALL_SEM_WAIT
  · rw [if_pos hn16] at h
    unfold ksyscall_sem_wait at h
    split at h
    · injection h with h; injection h with h _; rw [← h]; exact hinv
    · split at h
      · cases h
      · rename_i s2 lc hs2
        injection h with h; injection h with h _
        rw [← h]
        exact ksem_wait_inv s s2 _ lc a p hinv ha hp hst hpid hs2
  rw [if_neg hn16] at h
  cases h

theorem ksyscall_irq_handler_inv (umem : Nat → Int) (junk : Int) (s s1 : Kernel)
    (a : Nat) (p : proc_t)
    (hinv : sched_inv s) (ha : s.active_proc = some a) (hp : s.proc_table[a]? = some p)
    (hst : p.state = proc_state.ACTIVE) (hpid : p.pid ≠ 0)
    (hjunk : pid_to_proc s junk = none)
    (h : ksyscall_irq_handler umem junk s = some s1) : sched_inv s1 := by
  unfold ksyscall_irq_handler at h
  simp only [ha, hp] at h
  split at h
  · cases h
  · rename_i tf htf
    split at h
    · cases h
    · rename_i s2 rc hs2
      have hinv2 := ksyscall_dispatch_inv umem junk s s2 _ _ _ _ rc a p hinv ha hp hst hpid
        hjunk hs2
      split at h
      · injection h with h; rw [← h]; exact hinv2
      · rename_i a1 ha1
        split at h
        · cases h
        · rename_i p1 hp1
          split at h
          · cases h
          · injection h with h
            rw [← h]
            exact sched_inv_set_proc s2 a1 p1 _ hinv2 hp1 rfl rfl

theorem qadd_congr_left (s s1 s2 : Kernel) (x : Int) (r2 : queue_ref) (h : qadd x r2 s1 s2)
    (heq : ∀ r, s1.queue r = s.queue r) : qadd x r2 s s2 := by
  intro r q hq
  obtain ⟨hw, q0, hq0, hl⟩ := h r q hq
  rw [heq r] at hq0
  exact ⟨hw, q0, hq0, hl⟩

/-- The loop of `scheduler_timer` keeps the invariant. -/
theorem scheduler_timer_loop_inv (fuel : Nat) :
    ∀ (i : Nat) (s s1 : Kernel), sched_inv s → scheduler_timer_loop fuel i s = some s1 →
      sched_inv s1 := by
  induction fuel with
  | zero =>
    intro i s s1 hinv h
    unfold scheduler_timer_loop at h
    split at h
    · cases h
    · injection h with h; rw [← h]; exact hinv
  | succ fuel ih =>
    intro i s s1 hinv h
    unfold scheduler_timer_loop at h
    by_cases hi : i < s.sleep_queue.size
    · rw [if_pos hi] at h
      cases hout : queue_out s.sleep_queue with
      | none =>
        simp only [hout] at h
        exact ih (i + 1) s s1 hinv h
      | some r0 =>
        obtain ⟨pid, q⟩ := r0
        simp only [hout] at h
        obtain ⟨sA, hsA⟩ : ∃ sA : Kernel, sA = { s with sleep_queue := q } := ⟨_, rfl⟩
        rw [← hsA] at h
        have hq0 : s.queue queue_ref.sleep = some s.sleep_queue := rfl
        have hqA : ∀ r, sA.queue r = if r = queue_ref.sleep then some q else s.queue r :=
          fun r => by
            rw [queue_sleep_update s sA (by rw [hsA]) (by rw [hsA]) (by rw [hsA]) r, hsA]
        have hsubA : qsub s sA :=
          qsub_dequeue s sA queue_ref.sleep s.sleep_queue q pid hinv.ok hq0 hqA hout
        have hokA := qsub_ok s sA hsubA
        obtain ⟨hqw, hql⟩ := queue_out_some_spec s.sleep_queue q pid (hinv.ok _ _ hq0).1 hout
        have hpid0 : pid ≠ 0 := by
          intro h0
          apply hinv.zero queue_ref.sleep s.sleep_queue hq0 (by decide)
          rw [hql, h0]
          exact List.mem_cons_self _ _
        cases hfind : pid_to_proc sA pid with
        | none =>
          simp only [hfind] at h
          exact ih (i + 1) sA s1
            (sched_inv_shrink s sA hinv hsubA (tmono_of_table_eq s sA (by rw [hsA]))
              (Or.inl (by rw [hsA]))) h
        | some e =>
          simp only [hfind] at h
          cases hpes : s.proc_table[e]? with
          | none => simp [hpes] at h
          | some pe =>
            simp only [hpes] at h
            have hpe : sA.proc_table[e]? = some pe := by rw [hsA]; exact hpes
            obtain ⟨p0, hp0, hp0x⟩ := pid_to_proc_some sA pid e hfind
            rw [hpe] at hp0
            injection hp0 with hp0
            subst hp0
            have helt := lt_length_of_getElem? _ _ _ hpes
            by_cases hsl : 0 ≤ pe.sleep_time
            · rw [if_pos hsl] at h
              refine ih (i + 1) _ s1 ?_ h
              have hspec := queue_in_getD_spec q pid hqw
              refine sched_inv_wake s sA sA _ pid q.toList queue_ref.sleep queue_ref.sleep
                s.sleep_queue q hinv hq0 hql hqA hqw rfl (qsub_refl sA hokA) ?_ (Or.inl hpid0)
                (tmono_set s _ e pe (slept pe) hpes (by rw [hsA]; rfl) (Or.inr ⟨rfl, rfl⟩))
                (Or.inl (by rw [hsA]; rfl))
              refine qadd_of_update sA _ queue_ref.sleep q ((queue_in q pid).getD q) pid hokA
                (by rw [hqA, if_pos rfl]) ?_ hspec.1 hspec.2
              intro r
              rw [queue_sleep_update sA _ (by rw [hsA]; rfl) (by rw [hsA]; rfl)
                (by rw [hsA]; rfl) r, hsA]
              rfl
            · rw [if_neg hsl] at h
              cases hadd : scheduler_add (sA.set_proc e (slept pe)) (some e) with
              | none =>
                have : scheduler_add (sA.set_proc e { pe with sleep_time := pe.sleep_time - 1 })
                    (some e) = none := hadd
                simp [this] at h
              | some s3 =>
                have hadd1 : scheduler_add
                    (sA.set_proc e { pe with sleep_time := pe.sleep_time - 1 }) (some e)
                    = some s3 := hadd
                simp only [hadd1] at h
                refine ih (i + 1) s3 s1 ?_ h
                have hqB : ∀ r, (sA.set_proc e (slept pe)).queue r = sA.queue r :=
                  fun r => set_proc_queue sA e _ r
                have hokB : queues_ok (sA.set_proc e (slept pe)) :=
                  qsub_ok sA _ (qsub_of_queue_eq sA _ hokA hqB)
                obtain ⟨pe2, hpe2, htbl3, hact3, hqadd⟩ :=
                  scheduler_add_qadd (sA.set_proc e (slept pe)) s3 e hokB hadd
                have hpeB : (sA.set_proc e (slept pe)).proc_table[e]? = some (slept pe) := by
                  show (sA.proc_table.set e _)[e]? = _
                  rw [hsA]
                  exact List.getElem?_set_self helt
                rw [hpeB] at hpe2
                injection hpe2 with hpe2
                subst hpe2
                have hx : (slept pe).pid = pid := hp0x
                rw [hx] at hqadd
                refine sched_inv_wake s sA sA s3 pid q.toList queue_ref.sleep queue_ref.run
                  s.sleep_queue q hinv hq0 hql hqA hqw rfl (qsub_refl sA hokA)
                  (qadd_congr_left sA _ s3 pid queue_ref.run hqadd hqB) (Or.inr rfl)
                  (tmono_set s s3 e pe (requeued (slept pe)) hpes
                    (by rw [htbl3, hsA]; show (s.proc_table.set e _).set e _ = _
                        rw [List.set_set])
                    (Or.inl (by simp [requeued])))
                  (Or.inl (by rw [hact3, hsA]; rfl))
    · rw [if_neg hi] at h
      injection h with h; rw [← h]; exact hinv

theorem scheduler_timer_inv (s s1 : Kernel) (hinv : sched_inv s)
    (h : scheduler_timer s = some s1) : sched_inv s1 := by
  unfold scheduler_timer at h
  cases ha : s.active_proc with
  | none =>
    simp only [ha] at h
    exact scheduler_timer_loop_inv _ 0 s s1 hinv h
  | some a =>
    simp only [ha] at h
    cases hp : s.proc_table[a]? with
    | none => simp [hp] at h
    | some p =>
      simp only [hp] at h
      exact scheduler_timer_loop_inv _ 0 (s.set_proc a (ticked p)) s1
        (sched_inv_set_proc s a p (ticked p) hinv hp rfl rfl) h

/-! ### `scheduler_run` establishes the single ACTIVE process -/

/-- With no active process and no pid of `pb` in a queue, making `pb` the active
process in state ACTIVE gives a state with exactly one ACTIVE process. -/
theorem sched_inv_activate (s s1 : Kernel) (b : Nat) (pb : proc_t) (hinv : sched_inv s)
    (hnone : s.active_proc = none) (hsub : qsub s s1) (hpb : s.proc_table[b]? = some pb)
    (ht : s1.proc_table = s.proc_table.set b (activated pb))
    (ha : s1.active_proc = some b)
    (hx : ∀ r q, s1.queue r = some q → pb.pid ∉ q.toList) :
    sched_inv s1 ∧ one_active s1 := by
  have hblt := lt_length_of_getElem? _ _ _ hpb
  have hp1 : s1.proc_table[b]? = some (activated pb) := by
    rw [ht]; exact List.getElem?_set_self hblt
  have huniq : ∀ e p1, s1.proc_table[e]? = some p1 → p1.state = proc_state.ACTIVE → e = b := by
    intro e p1 hp hst
    by_cases he : b = e
    · exact he.symm
    · rw [ht, List.getElem?_set_ne he] at hp
      have := hinv.current e p1 hp hst
      rw [hnone] at this
      cases this
  refine ⟨⟨qsub_ok s s1 hsub, ?_, ?_, ?_, ?_⟩, b, activated pb, ha, hp1, rfl, huniq, hx⟩
  · intro r r1 q q1 pid hq hq1 hp hp1
    obtain ⟨-, -, q0, hq0, hs0⟩ := hsub r q hq
    obtain ⟨-, -, q01, hq01, hs01⟩ := hsub r1 q1 hq1
    exact hinv.disjoint r r1 q0 q01 pid hq0 hq01 (hs0 pid hp) (hs01 pid hp1)
  · intro r q hq hr h0
    obtain ⟨-, -, q0, hq0, hs0⟩ := hsub r q hq
    exact hinv.zero r q0 hq0 hr (hs0 0 h0)
  · intro e p1 hp hst
    rw [huniq e p1 hp hst]; exact ha
  · intro a p1 ha1 hp hst r q hq
    rw [ha] at ha1
    injection ha1 with ha1
    subst ha1
    rw [hp1] at hp
    injection hp with hp
    subst hp
    exact hx r q hq

/-- An active process in state ACTIVE that keeps the CPU is the single ACTIVE process. -/
theorem sched_inv_keep (s : Kernel) (a : Nat) (p : proc_t) (hinv : sched_inv s)
    (ha : s.active_proc = some a) (hp : s.proc_table[a]? = some p)
    (hst : p.state = proc_state.ACTIVE) :
    sched_inv (s.set_proc a (activated p)) ∧ one_active (s.set_proc a (activated p)) := by
  have halt := lt_length_of_getElem? _ _ _ hp
  have hinv1 : sched_inv (s.set_proc a (activated p)) :=
    sched_inv_set_proc s a p (activated p) hinv hp hst.symm rfl
  have hp1 : (s.set_proc a (activated p)).proc_table[a]? = some (activated p) :=
    List.getElem?_set_self halt
  refine ⟨hinv1, a, activated p, ha, hp1, rfl, ?_, ?_⟩
  · intro e p1 hp2 hst1
    have := hinv1.current e p1 hp2 hst1
    rw [show (s.set_proc a (activated p)).active_proc = s.active_proc from rfl, ha] at this
    injection this with this
    exact this.symm
  · exact hinv1.unqueued a (activated p) ha hp1 rfl

theorem scheduler_run_drop_inv (s s1 : Kernel) (hinv : sched_inv s)
    (h : scheduler_run_drop s = some s1) :
    sched_inv s1 ∧ ∀ a p, s1.active_proc = some a → s1.proc_table[a]? = some p →
      p.state = proc_state.ACTIVE := by
  unfold scheduler_run_drop at h
  cases ha : s.active_proc with
  | none =>
    simp only [ha] at h
    injection h with h
    subst h
    exact ⟨hinv, fun a p h1 => by rw [ha] at h1; cases h1⟩
  | some a =>
    simp only [ha] at h
    cases hp : s.proc_table[a]? with
    | none => simp [hp] at h
    | some p =>
      simp only [hp, Option.some.injEq] at h
      by_cases hst : p.state = proc_state.ACTIVE
      · rw [if_neg (not_not.mpr hst)] at h
        subst h
        refine ⟨hinv, ?_⟩
        intro a1 p1 ha1 hp1
        rw [ha] at ha1
        injection ha1 with ha1
        subst ha1
        rw [hp] at hp1
        injection hp1 with hp1
        subst hp1
        exact hst
      · rw [if_pos hst] at h
        subst h
        refine ⟨?_, fun a1 p1 h1 => by cases h1⟩
        refine sched_inv_shrink s _ hinv
          (qsub_of_queue_eq s _ hinv.ok (fun r => by cases r <;> rfl))
          (tmono_of_table_eq s _ rfl) (Or.inr ⟨rfl, ?_⟩)
        intro e p1 he hp1
        rw [ha] at he
        injection he with he
        subst he
        have hp2 : s.proc_table[a]? = some p1 := hp1
        rw [hp] at hp2
        injection hp2 with hp2
        subst hp2
        exact hst

theorem scheduler_run_slice_inv (s s1 : Kernel) (hinv : sched_inv s)
    (hA : ∀ a p, s.active_proc = some a → s.proc_table[a]? = some p →
      p.state = proc_state.ACTIVE)
    (h : scheduler_run_slice s = some s1) :
    sched_inv s1 ∧ ∀ a p, s1.active_proc = some a → s1.proc_table[a]? = some p →
      p.state = proc_state.ACTIVE := by
  unfold scheduler_run_slice at h
  cases ha : s.active_proc with
  | none =>
    simp only [ha] at h
    injection h with h
    subst h
    exact ⟨hinv, hA⟩
  | some a =>
    simp only [ha] at h
    cases hp : s.proc_table[a]? with
    | none => simp [hp] at h
    | some p =>
      simp only [hp] at h
      have hst := hA a p ha hp
      have halt := lt_length_of_getElem? _ _ _ hp
      by_cases hc : p.cpu_time ≥ SCHEDULER_TIMESLICE
      · rw [if_pos hc] at h
        by_cases hpid : p.pid = 0
        · rw [if_neg (not_not.mpr hpid)] at h
          simp only [Option.some.injEq] at h
          refine ⟨?_, fun a1 p1 h1 => by rw [← h] at h1; cases h1⟩
          refine sched_inv_shrink s s1 hinv
            (qsub_of_queue_eq s s1 hinv.ok (fun r => by rw [← h]; cases r <;> rfl))
            (tmono_set s s1 a p { p with cpu_time := 0, state := proc_state.IDLE } hp
              (by rw [← h]; show (s.proc_table.set a _).set a _ = _; rw [List.set_set])
              (Or.inl (by simp)))
            (Or.inr ⟨by rw [← h], ?_⟩)
          intro e p1 he hp1
          rw [ha] at he
          injection he with he
          subst he
          rw [← h] at hp1
          have hp2 : ((s.proc_table.set a _).set a _)[a]? = some p1 := hp1
          rw [List.set_set, List.getElem?_set_self halt] at hp2
          injection hp2 with hp2
          rw [← hp2]
          simp
        · rw [if_pos hpid] at h
          cases hadd : scheduler_add (s.set_proc a { p with cpu_time := 0 }) (some a) with
          | none => simp [hadd] at h
          | some s3 =>
            simp only [hadd, Option.some.injEq] at h
            obtain ⟨pX, rq, hpX, hrq, hs3⟩ := scheduler_add_inv _ s3 a hadd
            have hpX1 : (s.set_proc a { p with cpu_time := 0 }).proc_table[a]?
                = some { p with cpu_time := 0 } := List.getElem?_set_self halt
            rw [hpX1] at hpX
            injection hpX with hpX
            subst hpX
            have hrq1 : queue_in s.run_queue p.pid = some rq := hrq
            have hspec := queue_in_getD_spec s.run_queue p.pid
              (hinv.ok queue_ref.run s.run_queue rfl).1
            rw [hrq1] at hspec
            refine ⟨?_, fun a1 p1 h1 => by rw [← h] at h1; cases h1⟩
            refine sched_inv_block s s s1 a p (requeued { p with cpu_time := 0 })
              queue_ref.run s.run_queue rq hinv ha hp hst (Or.inr rfl) (qsub_refl s hinv.ok) rfl
              ?_ hspec.1 hspec.2 ?_ (by simp [requeued]) (Or.inr (by rw [← h]))
            · intro r
              rw [queue_run_update s s1 (by rw [← h, hs3]; rfl) (by rw [← h, hs3]; rfl)
                (by rw [← h, hs3]; rfl) r, ← h, hs3]
            · rw [← h, hs3]
              show (s.proc_table.set a _).set a _ = _
              rw [List.set_set]
      · rw [if_neg hc] at h
        injection h with h
        subst h
        exact ⟨hinv, hA⟩

theorem scheduler_run_inv (s s1 : Kernel) (hinv : sched_inv s)
    (h : scheduler_run s = some s1) : sched_inv s1 ∧ one_active s1 := by
  unfold scheduler_run at h
  cases hd : scheduler_run_drop s with
  | none => simp [hd] at h
  | some sd =>
    simp only [hd] at h
    obtain ⟨hinvd, hAd⟩ := scheduler_run_drop_inv s sd hinv hd
    cases hsl : scheduler_run_slice sd with
    | none => simp [hsl] at h
    | some s2 =>
      simp only [hsl] at h
      obtain ⟨hinv2, hA2⟩ := scheduler_run_slice_inv sd s2 hinvd hAd hsl
      cases ha : s2.active_proc with
      | some a =>
        have hsel : scheduler_run_select s2 = s2 := by
          simp only [scheduler_run_select, ha]
        rw [hsel] at h
        simp only [ha] at h
        cases hp : s2.proc_table[a]? with
        | none => simp [hp] at h
        | some p =>
          simp only [hp, Option.some.injEq] at h
          rw [← h]
          exact sched_inv_keep s2 a p hinv2 ha hp (hA2 a p ha hp)
      | none =>
        cases hout : queue_out s2.run_queue with
        | some r0 =>
          obtain ⟨pid, q⟩ := r0
          have hsel : scheduler_run_select s2
              = { s2 with run_queue := q, active_proc := pid_to_proc s2 pid } := by
            simp only [scheduler_run_select, ha, hout]
          rw [hsel] at h
          cases hfind : pid_to_proc s2 pid with
          | none => simp [hfind] at h
          | some b =>
            simp only [hfind] at h
            cases hpb : s2.proc_table[b]? with
            | none => simp [hpb] at h
            | some pb =>
              simp only [hpb, Option.some.injEq] at h
              obtain ⟨p0, hp0, hp0x⟩ := pid_to_proc_some s2 pid b hfind
              rw [hpb] at hp0
              injection hp0 with hp0
              subst hp0
              have hq0 : s2.queue queue_ref.run = some s2.run_queue := rfl
              obtain ⟨hqw, hql⟩ :=
                queue_out_some_spec s2.run_queue q pid (hinv2.ok _ _ hq0).1 hout
              have hq1 : ∀ r, s1.queue r = if r = queue_ref.run then some q else s2.queue r := by
                intro r
                rw [queue_run_update s2 s1 (by rw [← h]; rfl) (by rw [← h]; rfl)
                  (by rw [← h]; rfl) r, ← h]
                rfl
              have hnd := (hinv2.ok _ _ hq0).2
              rw [hql] at hnd
              refine sched_inv_activate s2 s1 b pb hinv2 ha
                (qsub_dequeue s2 s1 queue_ref.run s2.run_queue q pid hinv2.ok hq0 hq1 hout) hpb
                (by rw [← h]; rfl) (by rw [← h]; rfl) ?_
              intro r q2 hq2 hmem
              rw [hp0x] at hmem
              rw [hq1 r] at hq2
              by_cases hr : r = queue_ref.run
              · rw [if_pos hr] at hq2
                injection hq2 with hq2
                subst hq2
                exact (List.nodup_cons.mp hnd).1 hmem
              · rw [if_neg hr] at hq2
                exact hr (hinv2.disjoint r queue_ref.run q2 s2.run_queue pid hq2 hq0 hmem
                  (by rw [hql]; exact List.mem_cons_self _ _))
        | none =>
          have hsel : scheduler_run_select s2
              = { s2 with active_proc := pid_to_proc s2 0 } := by
            simp only [scheduler_run_select, ha, hout]
          rw [hsel] at h
          cases hfind : pid_to_proc s2 0 with
          | none => simp [hfind] at h
          | some b =>
            simp only [hfind] at h
            cases hpb : s2.proc_table[b]? with
            | none => simp [hpb] at h
            | some pb =>
              simp only [hpb, Option.some.injEq] at h
              obtain ⟨p0, hp0, hp0x⟩ := pid_to_proc_some s2 0 b hfind
              rw [hpb] at hp0
              injection hp0 with hp0
              subst hp0
              have heq : ∀ r, s1.queue r = s2.queue r := by
                intro r; rw [← h]; cases r <;> rfl
              refine sched_inv_activate s2 s1 b pb hinv2 ha
                (qsub_of_queue_eq s2 s1 hinv2.ok heq) hpb
                (by rw [← h]; rfl) (by rw [← h]; rfl) ?_
              intro r q2 hq2 hmem
              rw [hp0x] at hmem
              rw [heq r] at hq2
              by_cases hr : r = queue_ref.run
              · subst hr
                have hq3 : some s2.run_queue = some q2 := hq2
                injection hq3 with hq3
                subst hq3
                have hsz := (queue_out_eq_none s2.run_queue).mp hout
                rw [(queue_toList_eq_nil s2.run_queue).mpr hsz] at hmem
                cases hmem
              · exact hinv2.zero r q2 hq2 hr hmem

/-! ### The state after boot -/

theorem boot_inv_sched (s : Kernel) (h : boot_inv s) : sched_inv s := by
  obtain ⟨ha, hst, hrw, hnd, -, hoth⟩ := h
  have hq : ∀ r q, s.queue r = some q → q.wf ∧ q.toList.Nodup := by
    intro r q hq
    by_cases hr : r = queue_ref.run
    · subst hr
      have : some s.run_queue = some q := hq
      injection this with this
      subst this
      exact ⟨hrw, hnd⟩
    · obtain ⟨h1, h2⟩ := hoth r q hq hr
      exact ⟨h1, by rw [h2]; exact List.nodup_nil⟩
  refine ⟨hq, ?_, ?_, ?_, ?_⟩
  · intro r r1 q q1 pid h1 h2 hp hp1
    by_cases hr : r = queue_ref.run
    · by_cases hr1 : r1 = queue_ref.run
      · rw [hr, hr1]
      · rw [(hoth r1 q1 h2 hr1).2] at hp1; cases hp1
    · rw [(hoth r q h1 hr).2] at hp; cases hp
  · intro r q h1 hr h0
    rw [(hoth r q h1 hr).2] at h0; cases h0
  · intro e p hp hs
    exact absurd hs (hst e p hp)
  · intro a p ha1
    rw [ha] at ha1; cases ha1

theorem kproc_create_boot_inv (env : create_env) (s s1 : Kernel) (proc_ptr : Nat)
    (proc_name : Option (List Nat)) (proc_type rc : Int) (hb : boot_inv s)
    (h : kproc_create env s proc_ptr proc_name proc_type = some (s1, rc)) : boot_inv s1 := by
  unfold kproc_create at h
  cases proc_name with
  | none => simp at h
  | some name =>
    simp only at h
    by_cases hptr : proc_ptr = 0
    · rw [if_pos hptr] at h; cases h
    · rw [if_neg hptr] at h
      cases hout : queue_out s.proc_allocator with
      | none =>
        simp only [hout, Option.some.injEq, Prod.mk.injEq] at h
        rw [← h.1]; exact hb
      | some r0 =>
        obtain ⟨pe, q⟩ := r0
        simp only [hout] at h
        by_cases hneg : pe < 0
        · rw [if_pos hneg] at h; cases h
        · rw [if_neg hneg] at h
          cases hp0 : s.proc_table[pe.toNat]? with
          | none => simp [hp0] at h
          | some p0 =>
            simp only [hp0] at h
            obtain ⟨sA, hsA⟩ : ∃ sA : Kernel, sA =
                { s with proc_allocator := q, next_pid := s.next_pid + 1,
                         proc_table := s.proc_table.set pe.toNat
                           (created_pcb env s.next_pid s.timer_ticks proc_ptr name proc_type) } :=
              ⟨_, rfl⟩
            rw [← hsA] at h
            cases hadd : scheduler_add sA (some pe.toNat) with
            | none => simp [hadd] at h
            | some s2 =>
              simp only [hadd, Option.some.injEq, Prod.mk.injEq] at h
              obtain ⟨h, -⟩ := h
              subst h
              obtain ⟨pX, rq, hpX, hrq, hs2⟩ := scheduler_add_inv sA s2 pe.toNat hadd
              have hlt := lt_length_of_getElem? _ _ _ hp0
              have hpA : sA.proc_table[pe.toNat]? =
                  some (created_pcb env s.next_pid s.timer_ticks proc_ptr name proc_type) := by
                rw [hsA]; exact List.getElem?_set_self hlt
              rw [hpA] at hpX
              injection hpX with hpX
              subst hpX
              have hrq1 : queue_in s.run_queue s.next_pid = some rq := by
                rw [hsA] at hrq; exact hrq
              obtain ⟨ha, hst, hrw, hnd, hbd, hoth⟩ := hb
              have hsz : s.run_queue.size < QUEUE_SIZE := by
                refine Nat.lt_of_le_of_ne hrw.2.2.1 ?_
                intro hfull
                rw [(queue_in_eq_none s.run_queue s.next_pid).mpr hfull] at hrq1
                cases hrq1
              obtain ⟨q1, hq1, hq1w, hq1l, -⟩ := queue_in_spec s.run_queue s.next_pid hrw hsz
              rw [hrq1] at hq1
              injection hq1 with hq1
              subst hq1
              have hact : s2.active_proc = none := by rw [hs2, hsA]; exact ha
              have htab : s2.proc_table = s.proc_table.set pe.toNat
                  (requeued (created_pcb env s.next_pid s.timer_ticks proc_ptr name
                    proc_type)) := by
                rw [hs2, hsA]
                show (s.proc_table.set _ _).set _ _ = _
                rw [List.set_set]
              have hrun : s2.run_queue = rq := by rw [hs2]
              have hnext : s2.next_pid = s.next_pid + 1 := by rw [hs2, hsA]
              have hqs : ∀ r, s2.queue r = if r = queue_ref.run then some s2.run_queue
                  else s.queue r :=
                queue_run_update s s2 (by rw [hs2, hsA]) (by rw [hs2, hsA]) (by rw [hs2, hsA])
              refine ⟨hact, ?_, by rw [hrun]; exact hq1w, ?_, ?_, ?_⟩
              · intro e p hp
                rw [htab] at hp
                by_cases he : pe.toNat = e
                · subst he
                  rw [List.getElem?_set_self hlt] at hp
                  injection hp with hp
                  rw [← hp]
                  simp [requeued]
                · rw [List.getElem?_set_ne he] at hp
                  exact hst e p hp
              · rw [hrun, hq1l]
                refine List.nodup_append.mpr ⟨hnd, List.nodup_singleton _, ?_⟩
                intro x hx hx1
                rw [List.mem_singleton] at hx1
                have := hbd x hx
                omega
              · intro x hx
                rw [hrun, hq1l, List.mem_append, List.mem_singleton] at hx
                rw [hnext]
                rcases hx with hx | hx
                · have := hbd x hx; omega
                · omega
              · intro r q2 hq2 hr
                rw [hqs r, if_neg hr] at hq2
                exact hoth r q2 hq2 hr

theorem kproc_attach_tty_boot_inv (s s1 : Kernel) (pid tty_number rc : Int) (hb : boot_inv s)
    (h : kproc_attach_tty s pid tty_number = some (s1, rc)) : boot_inv s1 := by
  unfold kproc_attach_tty at h
  cases ht : tty_get tty_number with
  | none => simp [ht] at h
  | some t =>
    simp only [ht] at h
    cases hf : pid_to_proc s pid with
    | none =>
      simp only [hf, Option.some.injEq, Prod.mk.injEq] at h
      rw [← h.1]; exact hb
    | some e =>
      simp only [hf] at h
      cases hp : s.proc_table[e]? with
      | none => simp [hp] at h
      | some p =>
        simp only [hp, Option.some.injEq, Prod.mk.injEq] at h
        obtain ⟨h, -⟩ := h
        subst h
        obtain ⟨ha, hst, hrw, hnd, hbd, hoth⟩ := hb
        have hlt := lt_length_of_getElem? _ _ _ hp
        refine ⟨ha, ?_, hrw, hnd, hbd, ?_⟩
        · intro e1 p1 hp1
          have hp2 : (s.proc_table.set e _)[e1]? = some p1 := hp1
          by_cases he : e = e1
          · subst he
            rw [List.getElem?_set_self hlt] at hp2
            injection hp2 with hp2
            rw [← hp2]
            exact hst e p hp
          · rw [List.getElem?_set_ne he] at hp2
            exact hst e1 p1 hp2
        · intro r q hq hr
          rw [set_proc_queue] at hq
          exact hoth r q hq hr

theorem create_attached_boot_inv (be : boot_env) (s s1 : Kernel) (prog : Nat)
    (name : List Nat) (tty : Int → Int) (hb : boot_inv s)
    (h : create_attached be s prog name tty = some s1) : boot_inv s1 := by
  unfold create_attached at h
  cases hc : kproc_create be.env s prog (some name) be.PROC_TYPE_USER with
  | none => simp [hc] at h
  | some r0 =>
    obtain ⟨s2, pid⟩ := r0
    simp only [hc] at h
    have hb2 := kproc_create_boot_inv be.env s s2 prog (some name) be.PROC_TYPE_USER pid hb hc
    cases hat : kproc_attach_tty s2 pid (tty pid) with
    | none => simp [hat] at h
    | some r1 =>
      obtain ⟨s3, rc⟩ := r1
      simp only [hat, Option.some.injEq] at h
      rw [← h]
      exact kproc_attach_tty_boot_inv s2 s3 pid (tty pid) rc hb2 hat

theorem create_loop_boot_inv (be : boot_env) (prog : Nat) (name : List Nat)
    (ttys : List (Int → Int)) :
    ∀ (s s1 : Kernel), boot_inv s → create_loop be prog name ttys s = some s1 →
      boot_inv s1 := by
  induction ttys with
  | nil =>
    intro s s1 hb h
    simp only [create_loop, Option.some.injEq] at h
    rw [← h]; exact hb
  | cons tty rest ih =>
    intro s s1 hb h
    simp only [create_loop] at h
    cases hc : create_attached be s prog name tty with
    | none => simp [hc] at h
    | some s2 =>
      simp only [hc] at h
      exact ih s2 s1 (create_attached_boot_inv be s s2 prog name tty hb hc) h

theorem kmutexes_init_fields (s : Kernel) :
    (kmutexes_init s).1.mutexes = List.replicate MUTEX_MAX mutex_zero ∧
      (kmutexes_init s).1.semaphores = s.semaphores ∧
      (kmutexes_init s).1.active_proc = s.active_proc ∧
      (kmutexes_init s).1.proc_table = s.proc_table := by
  unfold kmutexes_init
  split <;> exact ⟨rfl, rfl, rfl, rfl⟩

theorem ksemaphores_init_fields (s : Kernel) :
    (ksemaphores_init s).1.semaphores = List.replicate SEM_MAX sem_zero ∧
      (ksemaphores_init s).1.mutexes = s.mutexes ∧
      (ksemaphores_init s).1.active_proc = s.active_proc ∧
      (ksemaphores_init s).1.proc_table = s.proc_table := by
  unfold ksemaphores_init
  split <;> exact ⟨rfl, rfl, rfl, rfl⟩

theorem boot_inv_tables (s : Kernel) (ha : s.active_proc = none)
    (hm : s.mutexes = List.replicate MUTEX_MAX mutex_zero)
    (hs : s.semaphores = List.replicate SEM_MAX sem_zero) :
    boot_inv (kproc_init_tables (scheduler_init s)) := by
  refine ⟨ha, ?_, queue_init_wf, ?_, ?_, ?_⟩
  · intro e p hp
    have hp1 : (List.replicate s.proc_table.length proc_zero)[e]? = some p := hp
    rw [List.getElem?_replicate] at hp1
    split at hp1
    · injection hp1 with hp1
      rw [← hp1]
      simp [proc_zero]
    · cases hp1
  · show queue_init.toList.Nodup
    rw [queue_init_toList]; exact List.nodup_nil
  · intro x hx
    have hx1 : x ∈ queue_init.toList := hx
    rw [queue_init_toList] at hx1; cases hx1
  · intro r q hq hr
    cases r with
    | run => exact absurd rfl hr
    | sleep =>
      have : some queue_init = some q := hq
      injection this with this
      rw [← this]
      exact ⟨queue_init_wf, queue_init_toList⟩
    | mutex i =>
      have hq1 : (s.mutexes[i]?).map (fun m => m.wait_queue) = some q := hq
      rw [hm, List.getElem?_replicate] at hq1
      split at hq1
      · simp only [Option.map_some', Option.some.injEq] at hq1
        rw [← hq1]
        exact ⟨queue_init_wf, queue_init_toList⟩
      · cases hq1
    | sem i =>
      have hq1 : (s.semaphores[i]?).map (fun m => m.wait_queue) = some q := hq
      rw [hs, List.getElem?_replicate] at hq1
      split at hq1
      · simp only [Option.map_some', Option.some.injEq] at hq1
        rw [← hq1]
        exact ⟨queue_init_wf, queue_init_toList⟩
      · cases hq1

theorem kernel_boot_inv (be : boot_env) (b : Kernel) (h : kernel_boot be = some b) :
    boot_inv b := by
  unfold kernel_boot kproc_init at h
  obtain ⟨s0, hs0⟩ : ∃ s0, s0 = (ksemaphores_init (kmutexes_init (kernel_zero be.PROC_MAX)).1).1 :=
    ⟨_, rfl⟩
  rw [← hs0] at h
  have hm := kmutexes_init_fields (kernel_zero be.PROC_MAX)
  have hs := ksemaphores_init_fields (kmutexes_init (kernel_zero be.PROC_MAX)).1
  have hb0 : boot_inv (kproc_init_tables (scheduler_init s0)) := by
    refine boot_inv_tables s0 ?_ ?_ ?_
    · rw [hs0, hs.2.2.1, hm.2.2.1]; rfl
    · rw [hs0, hs.2.1, hm.1]
    · rw [hs0, hs.1]
  cases hc : kproc_create be.env (kproc_init_tables (scheduler_init s0)) be.kproc_idle
      (some [105, 100, 108, 101]) be.PROC_TYPE_KERNEL with
  | none => simp [hc] at h
  | some r0 =>
    obtain ⟨s1, pid⟩ := r0
    simp only [hc] at h
    have hb1 := kproc_create_boot_inv _ _ _ _ _ _ _ hb0 hc
    cases h2 : create_loop be be.prog_shell [115, 104, 101, 108, 108]
        [fun _ => 1, fun _ => 2, fun _ => 3, fun _ => 4] s1 with
    | none => simp [h2] at h
    | some s2 =>
      simp only [h2] at h
      have hb2 := create_loop_boot_inv _ _ _ _ _ _ hb1 h2
      cases h3 : create_loop be be.prog_ping [112, 105, 110, 103]
          [pingpong_tty, pingpong_tty, pingpong_tty] s2 with
      | none => simp [h3] at h
      | some s3 =>
        simp only [h3] at h
        exact create_loop_boot_inv _ _ _ _ _ _ (create_loop_boot_inv _ _ _ _ _ _ hb2 h3) h

/-! ### Kernel entries keep the scheduling invariant -/

theorem pid_to_proc_from_set (pid : Int) :
    ∀ (l : List proc_t) (i e : Nat) (p p1 : proc_t), l[e]? = some p → p1.pid = p.pid →
      pid_to_proc_from pid (l.set e p1) i = pid_to_proc_from pid l i := by
  intro l
  induction l with
  | nil => intro i e p p1 h; simp at h
  | cons x xs ih =>
    intro i e p p1 h hpid
    cases e with
    | zero =>
      simp only [List.getElem?_cons_zero, Option.some.injEq] at h
      subst h
      simp only [List.set_cons_zero, pid_to_proc_from, hpid]
    | succ e =>
      simp only [List.getElem?_cons_succ] at h
      simp only [List.set_cons_succ, pid_to_proc_from]
      rw [ih (i + 1) e p p1 h hpid]

theorem save_trapframe_spec (s s1 : Kernel) (tf : trapframe_t) (hinv : sched_inv s)
    (h : save_trapframe s tf = some s1) :
    sched_inv s1 ∧ s1.active_proc = s.active_proc ∧
      (∀ pid, pid_to_proc s1 pid = pid_to_proc s pid) ∧
      (∀ a p, s.active_proc = some a → s.proc_table[a]? = some p →
        ∃ p1, s1.proc_table[a]? = some p1 ∧ p1.state = p.state ∧ p1.pid = p.pid) := by
  unfold save_trapframe at h
  cases ha : s.active_proc with
  | none =>
    simp only [ha, Option.some.injEq] at h
    subst h
    refine ⟨hinv, ha, fun _ => rfl, ?_⟩
    intro a p ha1
    cases ha1
  | some a =>
    simp only [ha] at h
    cases hp : s.proc_table[a]? with
    | none => simp [hp] at h
    | some p =>
      simp only [hp, Option.some.injEq] at h
      subst h
      have hlt := lt_length_of_getElem? _ _ _ hp
      refine ⟨sched_inv_set_proc s a p _ hinv hp rfl rfl, ha, ?_, ?_⟩
      · intro pid
        exact pid_to_proc_from_set pid s.proc_table 0 a p _ hp rfl
      · intro a1 p1 ha1 hp1
        injection ha1 with ha1
        subst ha1
        rw [hp] at hp1
        injection hp1 with hp1
        subst hp1
        exact ⟨_, List.getElem?_set_self hlt, rfl, rfl⟩

theorem kernel_context_enter_inv (s s1 : Kernel) (e : kernel_entry) (hinv : sched_inv s)
    (hact : s.active_proc = none ∨ one_active s) (hu : user_syscall s e = true)
    (h : kernel_context_enter s e = some s1) : sched_inv s1 ∧ one_active s1 := by
  unfold kernel_context_enter at h
  cases hsave : save_trapframe s e.tf with
  | none => simp [hsave] at h
  | some sA =>
    simp only [hsave] at h
    obtain ⟨hinvA, hactA, hpidA, hpA⟩ := save_trapframe_spec s sA e.tf hinv hsave
    cases hh : entry_handler sA e with
    | none => simp [hh] at h
    | some s2 =>
      simp only [hh] at h
      have hinv2 : sched_inv s2 := by
        cases e with
        | timer tf io =>
          have hh1 : scheduler_timer
              { sA with timer_ticks := sA.timer_ticks + 1, ringbufs := io } = some s2 := hh
          exact scheduler_timer_inv
            { sA with timer_ticks := sA.timer_ticks + 1, ringbufs := io } s2
            (sched_inv_of_fields sA _ hinvA rfl rfl rfl rfl rfl rfl) hh1
        | syscall tf umem junk =>
          have hh1 : ksyscall_irq_handler umem junk sA = some s2 := hh
          rcases hact with hnone | ⟨a, p, ha, hp, hst, -, -⟩
          · unfold ksyscall_irq_handler at hh1
            rw [hactA, hnone] at hh1
            cases hh1
          · obtain ⟨p1, hp1, hst1, hpid1⟩ := hpA a p ha hp
            simp only [user_syscall, ha, hp, Bool.and_eq_true, decide_eq_true_eq,
              Option.isNone_iff_eq_none] at hu
            exact ksyscall_irq_handler_inv umem junk sA s2 a p1 hinvA (by rw [hactA, ha]) hp1
              (by rw [hst1, hst]) (by rw [hpid1]; exact hu.1) (by rw [hpidA]; exact hu.2) hh1
      cases hrun : scheduler_run s2 with
      | none => simp [hrun] at h
      | some s3 =>
        simp only [hrun] at h
        by_cases hn : s3.active_proc = none
        · rw [if_pos hn] at h; cases h
        · rw [if_neg hn] at h
          injection h with h
          subst h
          exact scheduler_run_inv s2 s3 hinv2 hrun

theorem kernel_entries_inv (es : List kernel_entry) :
    ∀ (s s1 : Kernel), sched_inv s → (s.active_proc = none ∨ one_active s) →
      user_syscalls s es = true → kernel_entries s es = some s1 →
      sched_inv s1 ∧ (es ≠ [] → one_active s1) := by
  induction es with
  | nil =>
    intro s s1 hinv _ _ h
    simp only [kernel_entries, Option.some.injEq] at h
    subst h
    exact ⟨hinv, fun hne => absurd rfl hne⟩
  | cons e rest ih =>
    intro s s1 hinv hact hu h
    simp only [user_syscalls, Bool.and_eq_true] at hu
    simp only [kernel_entries] at h
    cases hent : kernel_context_enter s e with
    | none => simp [hent] at h
    | some s2 =>
      simp only [hent] at h hu
      obtain ⟨hinv2, hone2⟩ := kernel_context_enter_inv s s2 e hinv hact hu.1 hent
      obtain ⟨hinv1, hone1⟩ := ih s2 s1 hinv2 (Or.inr hone2) hu.2 h
      refine ⟨hinv1, fun _ => ?_⟩
      cases rest with
      | nil =>
        simp only [kernel_entries, Option.some.injEq] at h
        subst h
        exact hone2
      | cons e1 rest1 => exact hone1 (List.cons_ne_nil _ _)

theorem option_eq_some_getD {α : Type} (o : Option α) (d : α) (h : o.isSome = true) :
    o = some (o.getD d) := by
  cases o with
  | none => cases h
  | some x => rfl

/-! ### The single ACTIVE process -/

set_option maxRecDepth 1000000 in
/-- C37 (code evaluated at the failing input). Sixteen calls of `kmutex_init` on
freshly initialised tables return the ids up to 15, empty the id free list and mark
every entry allocated.  On the seventeenth call `queue_out` fails and `id` keeps its
indeterminate value: when that value is 5 the call returns 5, not -1 (entry 5 is
marked allocated again); only a value above `MUTEX_MAX`, such as 17, gives -1; the
value 16 indexes the table out of bounds.  `ksem_init` behaves in the same way. -/
theorem C37_init_on_empty_free_list :
    mutex_init_view 5 16 = some (ex_exhausted 15) ∧
    mutex_init_view 5 17 = some (ex_exhausted 5) ∧
    mutex_init_view 17 17 = some (ex_exhausted (-1)) ∧
    mutex_init_view 16 17 = none ∧
    sem_init_view 5 16 = some (ex_exhausted 15) ∧
    sem_init_view 5 17 = some (ex_exhausted 5) ∧
    sem_init_view 17 17 = some (ex_exhausted (-1)) ∧
    sem_init_view 16 17 = none := by
  refine ⟨?_, ?_, ?_, ?_, ?_, ?_, ?_, ?_⟩ <;> decide

/-! ### A timer tick on which a sleeper wakes -/

set_option maxRecDepth 1000000 in
/-- C35 (code evaluated at the failing input). The sleep queue holds A, B, C (pids 1,
2, 3) with `sleep_time` -1, 5 and 7.  On the tick A is dequeued and moved to the run
queue in state IDLE, which shrinks `sleep_queue.size`, the bound of the loop, to 2; B
is dequeued, decremented to 4 and re-enqueued; the loop then stops and C is never
dequeued: its `sleep_time` is still 7 and it now stands before B in the sleep queue.
When nobody wakes (`sleep_time` 3, 5, 7) every sleeper is decremented once and the
order is kept. -/
theorem C35_timer_skips_after_wake :
    timer_view (scheduler_timer ex_three_sleepers) = some ex_after_wake ∧
    timer_view (scheduler_timer ex_three_asleep) = some ex_after_tick := by
  refine ⟨?_, ?_⟩ <;> decide

/-! ### The semaphore invariant -/

theorem sem_ok_zero : sem_ok sem_zero := by
  refine ⟨Int.le_refl 0, by decide, fun h => ?_⟩
  exact absurd h (by decide)

theorem sem_ok_set (l : List sem_t) (k : Nat) (m1 : sem_t)
    (h : sems_ok l) (h1 : sem_ok m1) : sems_ok (l.set k m1) := by
  intro i m hm
  by_cases hk : k = i
  · subst hk
    by_cases hlt : k < l.length
    · rw [List.getElem?_set_self hlt] at hm
      injection hm with hm
      rw [← hm]; exact h1
    · rw [List.getElem?_eq_none (by simpa using hlt)] at hm
      cases hm
  · rw [List.getElem?_set_ne hk] at hm
    exact h i m hm

theorem ksem_init_sem_ok (s s1 : Kernel) (value id0 rc : Int)
    (hok : sems_ok s.semaphores)
    (h : ksem_init s value id0 = some (s1, rc))  : sems_ok s1.semaphores := by
  unfold ksem_init at h
  simp only at h
  split at h
  · simp only [Option.some.injEq, Prod.mk.injEq] at h
    rw [← h.1]; exact hok
  · split at h
    · cases h
    · split at h
      · cases h
      · rename_i m0 hm0
        simp only [Option.some.injEq, Prod.mk.injEq] at h
        rw [← h.1]
        exact sem_ok_set _ _ _ hok (hok _ m0 hm0)

theorem ksem_destroy_sem_ok (s s1 : Kernel) (id rc : Int)
    (hok : sems_ok s.semaphores)
    (h : ksem_destroy s id = some (s1, rc))  : sems_ok s1.semaphores := by
  unfold ksem_destroy at h
  split at h
  · cases h
  · split at h
    · cases h
    · split at h
      · simp only [Option.some.injEq, Prod.mk.injEq] at h
        rw [← h.1]; exact hok
      · split at h
        · simp only [Option.some.injEq, Prod.mk.injEq] at h
          rw [← h.1]; exact hok
        · simp only [Option.some.injEq, Prod.mk.injEq] at h
          rw [← h.1]
          exact sem_ok_set _ _ _ hok sem_ok_zero

theorem ksem_wait_sem_ok (s s1 : Kernel) (id rc : Int)
    (hok : sems_ok s.semaphores)
    (h : ksem_wait s id = some (s1, rc))  : sems_ok s1.semaphores := by
  unfold ksem_wait at h
  cases ha : s.active_proc with
  | none => simp [ha] at h
  | some a =>
    simp only [ha] at h
    by_cases hidx : id < 0
    · rw [if_pos hidx] at h; cases h
    · rw [if_neg hidx] at h
      cases hm : s.semaphores[id.toNat]? with
      | none => simp [hm] at h
      | some m =>
        cases hp : s.proc_table[a]? with
        | none => simp [hm, hp] at h
        | some p =>
          simp only [hm, hp] at h
          have hmok := hok _ m hm
          have hlt := lt_length_of_getElem? _ _ _ hm
          by_cases hc : m.count = 0
          · simp only [hc, if_true, List.getElem?_set_self hlt, gt_iff_lt, Int.lt_irrefl,
              if_false, Option.some.injEq, Prod.mk.injEq] at h
            rw [← h.1]
            refine sem_ok_set _ _ _ (sem_ok_set _ _ _ hok ?_) ?_
            · exact ⟨by simp [hc], by simp [hc, INT_MAX], fun h0 => by simp [hc] at h0⟩
            · exact ⟨by simp [hc], by simp [hc, INT_MAX], fun h0 => by simp [hc] at h0⟩
          · have hpos : m.count > 0 := by
              have := hmok.1
              omega
            simp only [hc, if_false, hm, hpos, if_true, Option.some.injEq,
              Prod.mk.injEq] at h
            rw [← h.1]
            refine sem_ok_set _ _ _ hok ⟨by simp; omega, ?_, fun _ => ?_⟩
            · have := hmok.2.1
              show m.count - 1 ≤ INT_MAX
              omega
            · exact hmok.2.2 hpos

theorem ksem_post_sem_ok (s s1 : Kernel) (id rc : Int) (m : sem_t)
    (hok : sems_ok s.semaphores) (hm : s.semaphores[id.toNat]? = some m)
    (hbelow : m.count < INT_MAX)
    (h : ksem_post s id = some (s1, rc))  : sems_ok s1.semaphores := by
  unfold ksem_post at h
  by_cases hidx : id < 0
  · rw [if_pos hidx] at h; cases h
  · rw [if_neg hidx] at h
    simp only [hm] at h
    have hmok := hok _ m hm
    have hlt := lt_length_of_getElem? _ _ _ hm
    have hw1 : wrap_int (m.count + 1) = m.count + 1 :=
      wrap_int_succ m.count (by have := hmok.1; unfold INT_MIN; omega) hbelow
    have hw2 : wrap_int (wrap_int (m.count + 1) - 1) = m.count :=
      wrap_int_succ_pred m.count (by have := hmok.1; unfold INT_MIN; omega) hmok.2.1
    cases hout : queue_out m.wait_queue with
    | none =>
      simp only [hout, Option.some.injEq, Prod.mk.injEq] at h
      rw [← h.1]
      have hsz := (queue_out_eq_none m.wait_queue).mp hout
      refine sem_ok_set _ _ _ hok ⟨?_, ?_, fun _ => ⟨hsz, (queue_toList_eq_nil _).mpr hsz⟩⟩
      · have := hmok.1
        show 0 ≤ wrap_int (m.count + 1)
        rw [hw1]
        omega
      · show wrap_int (m.count + 1) ≤ INT_MAX
        rw [hw1]
        omega
    | some r0 =>
      obtain ⟨pid, q⟩ := r0
      simp only [hout] at h
      have hc0 : m.count = 0 := by
        by_cases hpos : 0 < m.count
        · have hsz := (hmok.2.2 hpos).1
          rw [(queue_out_eq_none m.wait_queue).mpr hsz] at hout
          cases hout
        · have := hmok.1
          omega
      obtain ⟨sA, hsA⟩ : ∃ sA : Kernel, sA =
          { s with semaphores := s.semaphores.set id.toNat
                     { ({ m with count := wrap_int (m.count + 1) } : sem_t) with
                         wait_queue := q } } :=
        ⟨_, rfl⟩
      rw [← hsA] at h
      cases hf : pid_to_proc sA pid with
      | none => simp [hf, scheduler_add] at h
      | some e =>
        simp only [hf] at h
        cases hadd : scheduler_add sA (some e) with
        | none => simp [hadd] at h
        | some s2 =>
          simp only [hadd] at h
          obtain ⟨pX, rq, -, -, hs2⟩ := scheduler_add_inv sA s2 e hadd
          obtain ⟨mA, hmA⟩ : ∃ mA : sem_t, mA =
              { ({ m with count := wrap_int (m.count + 1) } : sem_t) with
                  wait_queue := q } := ⟨_, rfl⟩
          have hsem : s2.semaphores = s.semaphores.set id.toNat mA := by
            rw [hs2, hsA, hmA]
          have hm2 : s2.semaphores[id.toNat]? = some mA := by
            rw [hsem]; exact List.getElem?_set_self hlt
          have hcA : mA.count = wrap_int (m.count + 1) := by rw [hmA]
          simp only [hm2, Option.some.injEq, Prod.mk.injEq] at h
          rw [← h.1]
          show sems_ok (s2.semaphores.set id.toNat _)
          rw [hsem, List.set_set]
          refine sem_ok_set _ _ _ hok ⟨?_, ?_, fun h0 => ?_⟩
          · show 0 ≤ wrap_int (mA.count - 1)
            rw [hcA, hw2]
            omega
          · show wrap_int (mA.count - 1) ≤ INT_MAX
            rw [hcA, hw2, hc0]
            decide
          · have h1 : 0 < wrap_int (mA.count - 1) := h0
            rw [hcA, hw2] at h1
            omega

theorem sem_reach_ok (s : Kernel) (h : sem_reach s) : sems_ok s.semaphores := by
  induction h with
  | init s0 =>
    intro i m hm
    rw [(ksemaphores_init_fields s0).1, List.getElem?_replicate] at hm
    split at hm
    · injection hm with hm
      rw [← hm]; exact sem_ok_zero
    · cases hm
  | other s s1 _ heq ih => rw [heq]; exact ih
  | sem_init s s1 value id0 rc _ _ hstep ih => exact ksem_init_sem_ok s s1 value id0 rc ih hstep
  | destroy s s1 id rc _ hstep ih => exact ksem_destroy_sem_ok s s1 id rc ih hstep
  | wait s s1 id rc _ hstep ih => exact ksem_wait_sem_ok s s1 id rc ih hstep
  | post s s1 id rc m _ hm hbelow hstep ih =>
    exact ksem_post_sem_ok s s1 id rc m ih hm hbelow hstep

/-- The function `wrap_int` is the identity on its own values. -/
theorem wrap_int_idem (x : Int) : wrap_int (wrap_int x) = wrap_int x := by
  unfold wrap_int
  omega

/-- What `ksem_post(0)` does to a semaphore 0 without waiters. -/
theorem ksem_post_no_waiter (s : Kernel) (m : sem_t) (hm : s.semaphores[0]? = some m)
    (hsz : m.wait_queue.size = 0) :
    ∃ s1, ksem_post s 0 = some (s1, wrap_int (m.count + 1)) ∧
      s1.semaphores = s.semaphores.set 0 { m with count := wrap_int (m.count + 1) } := by
  have hq : queue_out m.wait_queue = none := (queue_out_eq_none _).mpr hsz
  have hm1 : s.semaphores[(0 : Int).toNat]? = some m := hm
  have hidx : ¬ ((0 : Int) < 0) := by decide
  refine ⟨{ s with semaphores := s.semaphores.set 0 { m with count := wrap_int (m.count + 1) } },
    ?_, rfl⟩
  simp only [ksem_post, hidx, if_false, hm1, hq]
  rfl

/-- After `n` calls of `ksem_post(0)` on a semaphore 0 without waiters the count is
the old count plus `n`, wrapped into the 32-bit range. -/
theorem ksem_post_n_count (n : Nat) :
    ∀ (s : Kernel) (m : sem_t), s.semaphores[0]? = some m → m.wait_queue.size = 0 →
      wrap_int m.count = m.count →
      ∃ s1 m1, ksem_post_n 0 n s = some s1 ∧ s1.semaphores[0]? = some m1 ∧
        m1.count = wrap_int (m.count + (n : Int)) := by
  induction n with
  | zero =>
    intro s m hm _ hw
    exact ⟨s, m, rfl, hm, by simpa using hw.symm⟩
  | succ n ih =>
    intro s m hm hsz hw
    have hlt := lt_length_of_getElem? _ _ _ hm
    obtain ⟨sA, hpost, hsem⟩ := ksem_post_no_waiter s m hm hsz
    obtain ⟨s1, m1, h1, h2, h3⟩ := ih sA { m with count := wrap_int (m.count + 1) }
      (by rw [hsem]; exact List.getElem?_set_self hlt) hsz (wrap_int_idem _)
    refine ⟨s1, m1, ?_, h2, ?_⟩
    · simp only [ksem_post_n, hpost]
      exact h1
    · rw [h3]
      show wrap_int (wrap_int (m.count + 1) + (n : Int))
        = wrap_int (m.count + ((n + 1 : Nat) : Int))
      unfold wrap_int
      push_cast
      omega

/-- After `n` calls of `ksem_post(0)` on the semaphore table `ksemaphores_init` leaves,
the count of semaphore 0 is `n` wrapped into the 32-bit range. -/
theorem posted_count_eq (n : Nat) : posted_count n = some (wrap_int (n : Int)) := by
  have hm0 : (ksemaphores_init ex_a_running).1.semaphores[0]? = some sem_zero := by
    rw [(ksemaphores_init_fields ex_a_running).1]
    rfl
  obtain ⟨s1, m1, h1, h2, h3⟩ := ksem_post_n_count n _ sem_zero hm0 rfl (by decide)
  unfold posted_count
  rw [h1]
  simp only [h2, Option.map_some', h3]
  have : sem_zero.count = 0 := rfl
  rw [this, Int.zero_add]

/-- C34 (counterexample). From the semaphore table `ksemaphores_init` leaves, `2 ^ 31`
calls of `ksem_post(0)`, each with the in-range id 0, drive the 32-bit count of
semaphore 0 past `INT_MAX`: after the last call the count is `INT_MIN` =
-2147483648, which is negative; one call earlier it is `INT_MAX`. -/
theorem C34_counterexample :
    posted_count 2147483648 = some (-2147483648) ∧
      posted_count 2147483647 = some 2147483647 :=
  ⟨(posted_count_eq 2147483648).trans (congrArg some (by decide)),
   (posted_count_eq 2147483647).trans (congrArg some (by decide))⟩

/-- C34 (amended). In every state reachable from `ksemaphores_init` by `ksem_init`
(with a non-negative initial value), `ksem_destroy`, `ksem_wait` and `ksem_post`, in
any order and interleaved with any activity that leaves the semaphore table as it
is, where `ksem_post` is called only on a semaphore whose count is below `INT_MAX`,
every semaphore has `count >= 0`, and when its count is positive its wait queue is
empty. -/
theorem C34_semaphore_invariant (s : Kernel) (h : sem_reach s) (i : Nat) (m : sem_t)
    (hm : s.semaphores[i]? = some m) :
    0 ≤ m.count ∧ (0 < m.count → m.wait_queue.size = 0 ∧ m.wait_queue.toList = []) :=
  ⟨(sem_reach_ok s h i m hm).1, (sem_reach_ok s h i m hm).2.2⟩

set_option maxRecDepth 1000000 in
/-- Witness for C34: semaphore 0 after `ksem_init(1)` and one `ksem_post`, whose count
is 1. -/
theorem C34_witness :
    ∃ s m, ex_sem_posted.map (fun r => r.1) = some s ∧ s.semaphores[0]? = some m ∧
      m.count = 1 ∧ 0 ≤ m.count ∧
      (0 < m.count → m.wait_queue.size = 0 ∧ m.wait_queue.toList = []) := by
  have h1 := option_eq_some_getD (ksem_init (ksemaphores_init ex_a_running).1 1 0)
    (ex_a_running, 0) (by decide)
  have r1 := sem_reach.sem_init _ _ 1 0 _ (sem_reach.init ex_a_running) (by decide) h1
  have hm1 := option_eq_some_getD
    (((ksem_init (ksemaphores_init ex_a_running).1 1 0).getD
      (ex_a_running, 0)).1.semaphores[(0 : Int).toNat]?) sem_zero (by decide)
  have h2 := option_eq_some_getD (ksem_post
    ((ksem_init (ksemaphores_init ex_a_running).1 1 0).getD (ex_a_running, 0)).1 0)
    (ex_a_running, 0) (by decide)
  have r2 := sem_reach.post _ _ 0 _ _ r1 hm1 (by decide) h2
  have hm := option_eq_some_getD (((ksem_post
    ((ksem_init (ksemaphores_init ex_a_running).1 1 0).getD (ex_a_running, 0)).1 0).getD
      (ex_a_running, 0)).1.semaphores[0]?) sem_zero (by decide)
  exact ⟨_, _, by decide, hm, by decide, C34_semaphore_invariant _ r2 0 _ hm⟩

/-! ### Effect of `scheduler_remove` on the tables -/

theorem list_map_set_same {α β : Type} (f : α → β) (l : List α) (i : Nat) (a a1 : α)
    (h : l[i]? = some a) (hf : f a1 = f a) : (l.set i a1).map f = l.map f := by
  apply List.ext_getElem?
  intro j
  by_cases hj : i = j
  · subst hj
    have hlt := lt_length_of_getElem? _ _ _ h
    rw [List.getElem?_map, List.getElem?_map, List.getElem?_set_self hlt, h]
    simp [hf]
  · rw [List.getElem?_map, List.getElem?_map, List.getElem?_set_ne hj]

/-- Case analysis of a `scheduler_remove` that returns: the PCB had no queue and only
`active_proc` may change, or its queue `r` went through the removal loop. -/
theorem scheduler_remove_cases (s s2 : Kernel) (e : Nat)
    (h : scheduler_remove s (some e) = some s2) :
    ∃ p, s.proc_table[e]? = some p ∧
      s2.active_proc = (if s.active_proc = some e then none else s.active_proc) ∧
      s2.next_pid = s.next_pid ∧ s2.proc_allocator = s.proc_allocator ∧
      ((p.scheduler_queue = none ∧ s2.proc_table = s.proc_table ∧
          s2.run_queue = s.run_queue ∧ s2.sleep_queue = s.sleep_queue ∧
          s2.mutexes = s.mutexes ∧ s2.semaphores = s.semaphores) ∨
        ∃ r q q1, p.scheduler_queue = some r ∧ s.queue r = some q ∧
          scheduler_remove_loop p.pid q.size 0 q = some q1 ∧
          s2.proc_table = s.proc_table.set e (unqueued p) ∧
          s2.run_queue = (s.set_queue r q1).run_queue ∧
          s2.sleep_queue = (s.set_queue r q1).sleep_queue ∧
          s2.mutexes = (s.set_queue r q1).mutexes ∧
          s2.semaphores = (s.set_queue r q1).semaphores) := by
  unfold scheduler_remove at h
  cases hp : s.proc_table[e]? with
  | none => simp [hp] at h
  | some p =>
    simp only [hp] at h
    refine ⟨p, rfl, ?_⟩
    cases hsq : p.scheduler_queue with
    | none =>
      simp only [hsq, Option.some.injEq] at h
      subst h
      refine ⟨?_, ?_, ?_, Or.inl ⟨rfl, ?_, ?_, ?_, ?_, ?_⟩⟩ <;> split <;> simp_all
    | some r =>
      simp only [hsq] at h
      cases hq : s.queue r with
      | none => simp [hq] at h
      | some q =>
        simp only [hq] at h
        cases hloop : scheduler_remove_loop p.pid q.size 0 q with
        | none => simp [hloop] at h
        | some q1 =>
          simp only [hloop, Option.some.injEq] at h
          have hact0 : ((s.set_queue r q1).set_proc e { p with scheduler_queue := none }).active_proc
              = s.active_proc := by cases r <;> rfl
          have hnp : ((s.set_queue r q1).set_proc e { p with scheduler_queue := none }).next_pid
              = s.next_pid := by cases r <;> rfl
          have hal : ((s.set_queue r q1).set_proc e
              { p with scheduler_queue := none }).proc_allocator
              = s.proc_allocator := by cases r <;> rfl
          have htb : ((s.set_queue r q1).set_proc e { p with scheduler_queue := none }).proc_table
              = s.proc_table.set e (unqueued p) := by cases r <;> rfl
          subst h
          refine ⟨?_, ?_, ?_, Or.inr ⟨r, q, q1, rfl, hq, hloop, ?_, ?_, ?_, ?_, ?_⟩⟩
          · rw [hact0]; split <;> simp_all
          · split <;> exact hnp
          · split <;> exact hal
          · split <;> exact htb
          · split <;> rfl
          · split <;> rfl
          · split <;> rfl
          · split <;> rfl

theorem set_queue_mutex_core (s : Kernel) (r : queue_ref) (q : queue_t) :
    (s.set_queue r q).mutexes.map mutex_t.core = s.mutexes.map mutex_t.core := by
  cases r with
  | run => rfl
  | sleep => rfl
  | sem i => rfl
  | mutex i =>
    show (match s.mutexes[i]? with
      | some m => s.mutexes.set i { m with wait_queue := q }
      | none => s.mutexes).map mutex_t.core = _
    cases hm : s.mutexes[i]? with
    | none => rfl
    | some m => exact list_map_set_same _ _ _ _ _ hm rfl

theorem scheduler_remove_mutex_core (s s2 : Kernel) (e : Nat)
    (h : scheduler_remove s (some e) = some s2) :
    s2.mutexes.map mutex_t.core = s.mutexes.map mutex_t.core := by
  obtain ⟨p, -, -, -, -, hc⟩ := scheduler_remove_cases s s2 e h
  rcases hc with ⟨-, -, -, -, hm, -⟩ | ⟨r, q, q1, -, -, -, -, -, -, hm, -⟩
  · rw [hm]
  · rw [hm]; exact set_queue_mutex_core s r q1
/-! ### Effect of the mutex operations on lock counts and owners -/

theorem list_set_same {α : Type} (l : List α) (i : Nat) (a : α) (h : l[i]? = some a) :
    l.set i a = l := by
  apply List.ext_getElem?
  intro j
  by_cases hj : i = j
  · subst hj
    rw [List.getElem?_set_self (lt_length_of_getElem? _ _ _ h), h]
  · rw [List.getElem?_set_ne hj]

theorem core_getElem (l l1 : List mutex_t) (h : l1.map mutex_t.core = l.map mutex_t.core)
    (i : Nat) (m : mutex_t) (hm : l[i]? = some m) :
    ∃ m1, l1[i]? = some m1 ∧ m1.core = m.core := by
  have h1 : (l1.map mutex_t.core)[i]? = some m.core := by
    rw [h, List.getElem?_map, hm]; rfl
  rw [List.getElem?_map] at h1
  cases hm1 : l1[i]? with
  | none => rw [hm1] at h1; cases h1
  | some m1 =>
    rw [hm1] at h1
    exact ⟨m1, rfl, by simpa using h1⟩

theorem mutex_ok_of_core (m m1 : mutex_t) (h : m1.core = m.core) (hm : mutex_ok m) :
    mutex_ok m1 := by
  simp only [mutex_t.core, Prod.mk.injEq] at h
  obtain ⟨-, h2, h3⟩ := h
  unfold mutex_ok at *
  rw [h2, h3]; exact hm

theorem mutexes_ok_core_set (l l1 : List mutex_t) (i : Nat) (m1 : mutex_t)
    (h : l1.map mutex_t.core = (l.map mutex_t.core).set i m1.core)
    (hl : mutexes_ok l) (hc : mutex_ok m1) : mutexes_ok l1 := by
  intro j m hm
  have h1 : (l1.map mutex_t.core)[j]? = some m.core := by
    rw [List.getElem?_map, hm]; rfl
  rw [h] at h1
  by_cases hj : i = j
  · subst hj
    by_cases hlt : i < (l.map mutex_t.core).length
    · rw [List.getElem?_set_self hlt] at h1
      injection h1 with h1
      exact mutex_ok_of_core m1 m h1.symm hc
    · rw [List.getElem?_eq_none (by simpa using hlt)] at h1
      cases h1
  · rw [List.getElem?_set_ne hj, List.getElem?_map] at h1
    cases hm0 : l[j]? with
    | none => rw [hm0] at h1; cases h1
    | some m0 =>
      rw [hm0] at h1
      exact mutex_ok_of_core m0 m (by simpa using h1.symm) (hl j m0 hm0)

/-- The effect of `kmutex_lock` on lock counts and owners. -/
theorem kmutex_lock_core (s s1 : Kernel) (id rc : Int)
    (h : kmutex_lock s id = some (s1, rc)) :
    ∃ a m, s.active_proc = some a ∧ ¬ id < 0 ∧ s.mutexes[id.toNat]? = some m ∧
      rc = m.locks + 1 ∧
      s1.mutexes.map mutex_t.core = (s.mutexes.map mutex_t.core).set id.toNat
        (m.allocated, m.locks + 1, if m.locks = 0 then some a else m.owner) := by
  cases ha : s.active_proc with
  | none => simp [kmutex_lock, ha] at h
  | some a =>
    by_cases hidx : id < 0
    · simp [kmutex_lock, ha, hidx] at h
    cases hm : s.mutexes[id.toNat]? with
    | none => simp [kmutex_lock, ha, hidx, hm] at h
    | some m =>
      refine ⟨a, m, rfl, hidx, rfl, ?_⟩
      by_cases hl : m.locks > 0
      · have hl0 : ¬ m.locks = 0 := by omega
        cases hrem : scheduler_remove s (some a) with
        | none => simp [kmutex_lock, ha, hidx, hm, hl, hrem] at h
        | some s2 =>
          have hcore := scheduler_remove_mutex_core s s2 a hrem
          obtain ⟨m2, hm2, hm2c⟩ := core_getElem s.mutexes s2.mutexes hcore _ m hm
          have hilt2 := lt_length_of_getElem? _ _ _ hm2
          simp only [mutex_t.core, Prod.mk.injEq] at hm2c
          obtain ⟨hc1, hc2, hc3⟩ := hm2c
          cases hp2 : s2.proc_table[a]? with
          | none => simp [kmutex_lock, ha, hidx, hm, hl, hrem, hp2, hm2] at h
          | some p2 =>
            have hl2 : ¬ m2.locks = 0 := by omega
            simp only [kmutex_lock, ha, hidx, if_false, hm, hl, if_true, hrem, hp2, hm2,
              List.getElem?_set_self hilt2, List.set_set, hl2, Option.some.injEq,
              Prod.mk.injEq] at h
            obtain ⟨hs1, hrc⟩ := h
            refine ⟨by rw [← hrc, hc2], ?_⟩
            rw [← hs1, if_neg hl0]
            show (s2.mutexes.set id.toNat _).map mutex_t.core = _
            rw [List.map_set, hcore]
            simp only [mutex_t.core, hc1, hc2, hc3]
      · simp only [kmutex_lock, ha, hidx, if_false, hm, hl, Option.some.injEq,
          Prod.mk.injEq] at h
        obtain ⟨hs1, hrc⟩ := h
        by_cases hl0 : m.locks = 0
        · simp only [hl0, if_true] at hs1 hrc
          refine ⟨by rw [← hrc, hl0], ?_⟩
          rw [← hs1, if_pos hl0, hl0]
          show (s.mutexes.set id.toNat _).map mutex_t.core = _
          rw [List.map_set]
          rfl
        · simp only [hl0, if_false] at hs1 hrc
          refine ⟨by rw [← hrc], ?_⟩
          rw [← hs1, if_neg hl0]
          show (s.mutexes.set id.toNat _).map mutex_t.core = _
          rw [List.map_set]
          rfl

/-- The effect of `kmutex_unlock` on lock counts and owners: an unlocked mutex is left
alone; otherwise the count goes down by one, the owner is cleared when it reaches 0,
and is kept or replaced by a process taken from the wait queue when it does not. -/
theorem kmutex_unlock_core (s s1 : Kernel) (id junk rc : Int)
    (h : kmutex_unlock s id junk = some (s1, rc)) :
    ∃ m o, ¬ id < 0 ∧ s.mutexes[id.toNat]? = some m ∧
      rc = (if m.locks = 0 then 0 else m.locks - 1) ∧
      s1.mutexes.map mutex_t.core = (s.mutexes.map mutex_t.core).set id.toNat
        (m.allocated, rc, o) ∧
      (m.locks = 0 → o = m.owner) ∧ (m.locks ≠ 0 → rc = 0 → o = none) ∧
      (rc ≠ 0 → o = m.owner ∨ ∃ e, o = some e) := by
  by_cases hidx : id < 0
  · simp [kmutex_unlock, hidx] at h
  cases hm : s.mutexes[id.toNat]? with
  | none => simp [kmutex_unlock, hidx, hm] at h
  | some m =>
    have hilt := lt_length_of_getElem? _ _ _ hm
    by_cases hl0 : m.locks = 0
    · simp only [kmutex_unlock, hidx, if_false, hm, hl0, if_true, Option.some.injEq,
        Prod.mk.injEq] at h
      refine ⟨m, m.owner, hidx, rfl, by rw [if_pos hl0, ← h.2], ?_, fun _ => rfl,
        fun h0 => absurd hl0 h0, fun _ => Or.inl rfl⟩
      rw [← h.1, ← h.2]
      have hc : (s.mutexes.map mutex_t.core)[id.toNat]? = some (m.allocated, 0, m.owner) := by
        rw [List.getElem?_map, hm]
        simp [mutex_t.core, hl0]
      exact (list_set_same _ _ _ hc).symm
    by_cases hl1 : m.locks - 1 = 0
    · simp only [kmutex_unlock, hidx, if_false, hm, hl0, hl1, if_true, Option.some.injEq,
        Prod.mk.injEq] at h
      refine ⟨m, none, hidx, rfl, by rw [if_neg hl0, ← h.2, hl1], ?_, fun h0 => absurd h0 hl0,
        fun _ _ => rfl, fun h0 => absurd h.2.symm h0⟩
      rw [← h.1, ← h.2]
      show (s.mutexes.set id.toNat _).map mutex_t.core = _
      rw [List.map_set]
      rfl
    obtain ⟨x, q, hxq⟩ : ∃ x q, (match queue_out m.wait_queue with
        | some (x, q) => (x, q)
        | none => (junk, m.wait_queue)) = (x, q) := ⟨_, _, rfl⟩
    obtain ⟨sA, hsA⟩ : ∃ sA : Kernel, sA =
        { s with mutexes := s.mutexes.set id.toNat
                   { m with locks := m.locks - 1, wait_queue := q } } := ⟨_, rfl⟩
    have hcA : sA.mutexes.map mutex_t.core = (s.mutexes.map mutex_t.core).set id.toNat
        (m.allocated, m.locks - 1, m.owner) := by
      rw [hsA]
      show (s.mutexes.set id.toNat _).map mutex_t.core = _
      rw [List.map_set]
      rfl
    simp only [kmutex_unlock, hidx, if_false, hm, hl0, hl1, hxq] at h
    rw [← hsA] at h
    cases hfind : pid_to_proc sA x with
    | none =>
      simp only [hfind, Option.some.injEq, Prod.mk.injEq] at h
      refine ⟨m, m.owner, hidx, rfl, by rw [if_neg hl0, ← h.2], ?_, fun h0 => absurd h0 hl0,
        fun _ h0 => absurd (h.2.trans h0) hl1, fun _ => Or.inl rfl⟩
      rw [← h.1, ← h.2]
      exact hcA
    | some e =>
      simp only [hfind] at h
      cases hrem : scheduler_remove sA (some e) with
      | none => simp [hrem] at h
      | some s2 =>
        simp only [hrem] at h
        have hc2 := scheduler_remove_mutex_core sA s2 e hrem
        cases hadd : scheduler_add s2 (some e) with
        | none => simp [hadd] at h
        | some s3 =>
          simp only [hadd] at h
          obtain ⟨pX, rq, -, -, hs3⟩ := scheduler_add_inv s2 s3 e hadd
          have hm3eq : s3.mutexes = s2.mutexes := by rw [hs3]
          cases hm3 : s3.mutexes[id.toNat]? with
          | none => simp [hm3] at h
          | some m3 =>
            simp only [hm3, Option.some.injEq, Prod.mk.injEq] at h
            have hmA : sA.mutexes[id.toNat]? =
                some { m with locks := m.locks - 1, wait_queue := q } := by
              rw [hsA]; exact List.getElem?_set_self hilt
            obtain ⟨m2, hm2, hm2c⟩ := core_getElem sA.mutexes s2.mutexes hc2 _ _ hmA
            rw [hm3eq, hm2] at hm3
            injection hm3 with hm3
            subst hm3
            simp only [mutex_t.core, Prod.mk.injEq] at hm2c
            obtain ⟨hc1, hc2l, hc3⟩ := hm2c
            refine ⟨m, some e, hidx, rfl, by rw [if_neg hl0, ← h.2, hc2l], ?_,
              fun h0 => absurd h0 hl0,
              fun _ h0 => absurd ((h.2.trans h0).symm ▸ hc2l.symm) hl1,
              fun _ => Or.inr ⟨e, rfl⟩⟩
            rw [← h.1, ← h.2]
            show (s3.mutexes.set id.toNat _).map mutex_t.core = _
            rw [List.map_set, hm3eq, hc2, hcA, List.set_set]
            simp only [mutex_t.core, hc1, hc2l]
/-! ### `kmutex_unlock` does not read `active_proc` -/

theorem remove_final_active (X : Kernel) (a : Option Nat) (e : Nat) :
    ∃ b, (if ({ X with active_proc := a } : Kernel).active_proc = some e
        then { ({ X with active_proc := a } : Kernel) with active_proc := none }
        else { X with active_proc := a })
      = { (if X.active_proc = some e then { X with active_proc := none } else X) with
          active_proc := b } := by
  by_cases ha : a = some e
  · refine ⟨none, ?_⟩
    have h1 : ({ X with active_proc := a } : Kernel).active_proc = some e := ha
    rw [if_pos h1]
    split <;> rfl
  · refine ⟨a, ?_⟩
    have h1 : ¬ ({ X with active_proc := a } : Kernel).active_proc = some e := ha
    rw [if_neg h1]
    split <;> rfl

theorem scheduler_remove_active (s : Kernel) (a : Option Nat) (e : Nat) :
    ∃ b, scheduler_remove { s with active_proc := a } (some e)
      = (scheduler_remove s (some e)).map (fun s2 => { s2 with active_proc := b }) := by
  cases hp : s.proc_table[e]? with
  | none =>
    have hp1 : ({ s with active_proc := a } : Kernel).proc_table[e]? = none := hp
    exact ⟨none, by simp only [scheduler_remove, hp, hp1, Option.map_none']⟩
  | some p =>
    have hp1 : ({ s with active_proc := a } : Kernel).proc_table[e]? = some p := hp
    cases hsq : p.scheduler_queue with
    | none =>
      obtain ⟨b, hb⟩ := remove_final_active s a e
      refine ⟨b, ?_⟩
      simp only [scheduler_remove, hp, hp1, hsq, Option.map_some']
      exact congrArg some hb
    | some r =>
      have hq : ({ s with active_proc := a } : Kernel).queue r = s.queue r := by
        cases r <;> rfl
      cases hqr : s.queue r with
      | none =>
        rw [hqr] at hq
        exact ⟨none, by simp only [scheduler_remove, hp, hp1, hsq, hq, hqr, Option.map_none']⟩
      | some q =>
        rw [hqr] at hq
        cases hloop : scheduler_remove_loop p.pid q.size 0 q with
        | none =>
          exact ⟨none, by
            simp only [scheduler_remove, hp, hp1, hsq, hq, hqr, hloop, Option.map_none']⟩
        | some q1 =>
          have h1 : ((({ s with active_proc := a } : Kernel).set_queue r q1).set_proc e
              { p with scheduler_queue := none }) =
              { ((s.set_queue r q1).set_proc e { p with scheduler_queue := none }) with
                active_proc := a } := by
            cases r <;> rfl
          obtain ⟨b, hb⟩ := remove_final_active
            ((s.set_queue r q1).set_proc e { p with scheduler_queue := none }) a e
          refine ⟨b, ?_⟩
          simp only [scheduler_remove, hp, hp1, hsq, hq, hqr, hloop, Option.map_some']
          rw [h1]
          exact congrArg some hb

theorem scheduler_add_active (s : Kernel) (b : Option Nat) (e : Nat) :
    scheduler_add { s with active_proc := b } (some e)
      = (scheduler_add s (some e)).map (fun s2 => { s2 with active_proc := b }) := by
  cases hp : s.proc_table[e]? with
  | none =>
    have hp1 : ({ s with active_proc := b } : Kernel).proc_table[e]? = none := hp
    simp only [scheduler_add, hp, hp1, Option.map_none']
  | some p =>
    have hp1 : ({ s with active_proc := b } : Kernel).proc_table[e]? = some p := hp
    cases hq : queue_in s.run_queue p.pid with
    | none => simp only [scheduler_add, hp, hp1, hq, Option.map_none']
    | some q => simp only [scheduler_add, hp, hp1, hq, Option.map_some']

theorem kmutex_unlock_active (s : Kernel) (a : Option Nat) (id junk : Int) :
    ∃ b, kmutex_unlock { s with active_proc := a } id junk
      = (kmutex_unlock s id junk).map (fun r => ({ r.1 with active_proc := b }, r.2)) := by
  by_cases hidx : id < 0
  · exact ⟨none, by simp [kmutex_unlock, hidx]⟩
  cases hm : s.mutexes[id.toNat]? with
  | none =>
    refine ⟨none, ?_⟩
    have hm1 : ({ s with active_proc := a } : Kernel).mutexes[id.toNat]? = none := hm
    simp [kmutex_unlock, hidx, hm, hm1]
  | some m =>
    have hm1 : ({ s with active_proc := a } : Kernel).mutexes[id.toNat]? = some m := hm
    by_cases hl0 : m.locks = 0
    · exact ⟨a, by simp [kmutex_unlock, hidx, hm, hm1, hl0]⟩
    by_cases hl1 : m.locks - 1 = 0
    · exact ⟨a, by simp [kmutex_unlock, hidx, hm, hm1, hl0, hl1]⟩
    obtain ⟨x, q, hxq⟩ : ∃ x q, (match queue_out m.wait_queue with
        | some (x, q) => (x, q)
        | none => (junk, m.wait_queue)) = (x, q) := ⟨_, _, rfl⟩
    obtain ⟨sA, hsA⟩ : ∃ sA : Kernel, sA =
        { s with mutexes := s.mutexes.set id.toNat
                   { m with locks := m.locks - 1, wait_queue := q } } := ⟨_, rfl⟩
    have hL : kmutex_unlock s id junk =
        match pid_to_proc sA x with
        | none => some (sA, m.locks - 1)
        | some e =>
          match scheduler_remove sA (some e) with
          | none => none
          | some s2 =>
            match scheduler_add s2 (some e) with
            | none => none
            | some s3 =>
              match s3.mutexes[id.toNat]? with
              | none => none
              | some m3 =>
                some ({ s3 with mutexes := s3.mutexes.set id.toNat { m3 with owner := some e } },
                      m3.locks) := by
      simp only [kmutex_unlock, hidx, if_false, hm, hl0, hl1, hxq]
      rw [← hsA]
    have hR : kmutex_unlock { s with active_proc := a } id junk =
        match pid_to_proc sA x with
        | none => some ({ sA with active_proc := a }, m.locks - 1)
        | some e =>
          match scheduler_remove { sA with active_proc := a } (some e) with
          | none => none
          | some s2 =>
            match scheduler_add s2 (some e) with
            | none => none
            | some s3 =>
              match s3.mutexes[id.toNat]? with
              | none => none
              | some m3 =>
                some ({ s3 with mutexes := s3.mutexes.set id.toNat { m3 with owner := some e } },
                      m3.locks) := by
      simp only [kmutex_unlock, hidx, if_false, hm1, hl0, hl1, hxq]
      rw [hsA]
      rfl
    rw [hL, hR]
    cases hfind : pid_to_proc sA x with
    | none => exact ⟨a, rfl⟩
    | some e =>
      simp only []
      obtain ⟨b, hb⟩ := scheduler_remove_active sA a e
      rw [hb]
      refine ⟨b, ?_⟩
      cases hrem : scheduler_remove sA (some e) with
      | none => rfl
      | some s2 =>
        simp only [Option.map_some']
        rw [scheduler_add_active s2 b e]
        cases hadd : scheduler_add s2 (some e) with
        | none => rfl
        | some s3 =>
          simp only [Option.map_some']
          cases hm3 : s3.mutexes[id.toNat]? with
          | none =>
            have hm3b : ({ s3 with active_proc := b } : Kernel).mutexes[id.toNat]? = none := hm3
            simp only [hm3b, Option.map_none']
          | some m3 =>
            have hm3b : ({ s3 with active_proc := b } : Kernel).mutexes[id.toNat]? = some m3 :=
              hm3
            simp only [hm3b, Option.map_some']

/-! ### The mutex invariant -/

theorem mutex_ok_zero : mutex_ok mutex_zero :=
  ⟨Int.le_refl 0, ⟨fun _ => rfl, fun _ => rfl⟩⟩

theorem mutexes_ok_set (l : List mutex_t) (k : Nat) (m1 : mutex_t)
    (h : mutexes_ok l) (h1 : mutex_ok m1) : mutexes_ok (l.set k m1) := by
  intro i m hm
  by_cases hk : k = i
  · subst hk
    by_cases hlt : k < l.length
    · rw [List.getElem?_set_self hlt] at hm
      injection hm with hm
      rw [← hm]; exact h1
    · rw [List.getElem?_eq_none (by simpa using hlt)] at hm
      cases hm
  · rw [List.getElem?_set_ne hk] at hm
    exact h i m hm

theorem kmutex_init_mutex_ok (s s1 : Kernel) (id0 rc : Int) (hok : mutexes_ok s.mutexes)
    (h : kmutex_init s id0 = some (s1, rc)) : mutexes_ok s1.mutexes := by
  unfold kmutex_init at h
  simp only at h
  split at h
  · simp only [Option.some.injEq, Prod.mk.injEq] at h
    rw [← h.1]; exact hok
  · split at h
    · cases h
    · split at h
      · cases h
      · rename_i m0 hm0
        simp only [Option.some.injEq, Prod.mk.injEq] at h
        rw [← h.1]
        exact mutexes_ok_set _ _ _ hok (hok _ m0 hm0)

theorem kmutex_destroy_mutex_ok (s s1 : Kernel) (id rc : Int) (hok : mutexes_ok s.mutexes)
    (h : kmutex_destroy s id = some (s1, rc)) : mutexes_ok s1.mutexes := by
  unfold kmutex_destroy at h
  split at h
  · cases h
  · split at h
    · cases h
    · split at h
      · simp only [Option.some.injEq, Prod.mk.injEq] at h
        rw [← h.1]; exact hok
      · split at h
        · simp only [Option.some.injEq, Prod.mk.injEq] at h
          rw [← h.1]; exact hok
        · simp only [Option.some.injEq, Prod.mk.injEq] at h
          rw [← h.1]
          exact mutexes_ok_set _ _ _ hok mutex_ok_zero

theorem kmutex_lock_mutex_ok (s s1 : Kernel) (id rc : Int) (hok : mutexes_ok s.mutexes)
    (h : kmutex_lock s id = some (s1, rc)) : mutexes_ok s1.mutexes := by
  obtain ⟨a, m, -, -, hm, -, hcore⟩ := kmutex_lock_core s s1 id rc h
  obtain ⟨h0, hiff⟩ := hok _ m hm
  refine mutexes_ok_core_set s.mutexes s1.mutexes id.toNat
    { allocated := m.allocated, locks := m.locks + 1,
      owner := if m.locks = 0 then some a else m.owner, wait_queue := m.wait_queue }
    hcore hok ⟨?_, ?_, ?_⟩
  · show 0 ≤ m.locks + 1
    omega
  · intro h1
    have h2 : m.locks + 1 = 0 := h1
    omega
  · intro h1
    have h2 : (if m.locks = 0 then some a else m.owner) = none := h1
    by_cases hl : m.locks = 0
    · rw [if_pos hl] at h2; cases h2
    · rw [if_neg hl] at h2
      exact absurd (hiff.mpr h2) hl

theorem kmutex_unlock_mutex_ok (s s1 : Kernel) (id junk rc : Int)
    (hok : mutexes_ok s.mutexes)
    (h : kmutex_unlock s id junk = some (s1, rc)) : mutexes_ok s1.mutexes := by
  obtain ⟨m, o, -, hm, hrc, hcore, ho0, ho1, ho2⟩ := kmutex_unlock_core s s1 id junk rc h
  obtain ⟨h0, hiff⟩ := hok _ m hm
  refine mutexes_ok_core_set s.mutexes s1.mutexes id.toNat
    { allocated := m.allocated, locks := rc, owner := o, wait_queue := m.wait_queue }
    hcore hok ⟨?_, ?_, ?_⟩
  · show 0 ≤ rc
    rw [hrc]
    split <;> omega
  · intro h1
    have h2 : rc = 0 := h1
    show o = none
    by_cases hl : m.locks = 0
    · rw [ho0 hl]; exact hiff.mp hl
    · exact ho1 hl h2
  · intro h1
    have h2 : o = none := h1
    show rc = 0
    by_cases hl : m.locks = 0
    · rw [hrc, if_pos hl]
    · by_cases hr : rc = 0
      · exact hr
      · rcases ho2 hr with h3 | ⟨e, h3⟩
        · rw [h3] at h2
          exact absurd (hiff.mpr h2) hl
        · rw [h3] at h2; cases h2

theorem mutex_reach_ok (s : Kernel) (h : mutex_reach s) : mutexes_ok s.mutexes := by
  induction h with
  | init s0 =>
    intro i m hm
    rw [(kmutexes_init_fields s0).1, List.getElem?_replicate] at hm
    split at hm
    · injection hm with hm
      rw [← hm]; exact mutex_ok_zero
    · cases hm
  | other s s1 _ heq ih => rw [heq]; exact ih
  | mutex_init s s1 id0 rc _ hstep ih => exact kmutex_init_mutex_ok s s1 id0 rc ih hstep
  | destroy s s1 id rc _ hstep ih => exact kmutex_destroy_mutex_ok s s1 id rc ih hstep
  | lock s s1 id rc _ hstep ih => exact kmutex_lock_mutex_ok s s1 id rc ih hstep
  | unlock s s1 id junk rc _ hstep ih => exact kmutex_unlock_mutex_ok s s1 id junk rc ih hstep

/-- C39. For every mutex with lock count at least 1, whatever process is active (the
owner, another process, or none): when `kmutex_unlock` returns it has decremented the
lock count by one and returns the new count, and when the count has reached 0 the
owner is cleared.  It returns for a mutex locked once, and for a mutex locked more
often when the head of its wait queue is the pid of a table entry parked there and the
run queue has room.  Its return value and the mutex table it leaves are the same for
every value of `active_proc`. -/
theorem C39_unlock_no_owner_check (s : Kernel) (i : Nat) (junk : Int) (m : mutex_t)
    (hm : s.mutexes[i]? = some m) (hl : 1 ≤ m.locks) :
    (∀ s1 rc, kmutex_unlock s (i : Int) junk = some (s1, rc) →
      rc = m.locks - 1 ∧ ∃ m1, s1.mutexes[i]? = some m1 ∧ m1.locks = m.locks - 1 ∧
        m1.allocated = m.allocated ∧ (m1.locks = 0 → m1.owner = none)) ∧
    (m.locks = 1 → ∃ s1, kmutex_unlock s (i : Int) junk = some (s1, 0)) ∧
    (∀ (b : Nat) (B : Int) (rest : List Int) (pb : proc_t), 2 ≤ m.locks →
      m.wait_queue.wf → m.wait_queue.toList = B :: rest → B ∉ rest →
      pid_to_proc s B = some b → s.proc_table[b]? = some pb →
      pb.scheduler_queue = some (queue_ref.mutex i) →
      s.run_queue.wf → s.run_queue.size < QUEUE_SIZE →
      ∃ s1, kmutex_unlock s (i : Int) junk = some (s1, m.locks - 1)) ∧
    (∀ a, (kmutex_unlock { s with active_proc := a } (i : Int) junk).map
        (fun r => (r.1.mutexes, r.2))
      = (kmutex_unlock s (i : Int) junk).map (fun r => (r.1.mutexes, r.2))) := by
  have hito : ((i : Int)).toNat = i := Int.toNat_ofNat i
  refine ⟨?_, ?_, ?_, ?_⟩
  · intro s1 rc h
    obtain ⟨m0, o, -, hm0, hrc, hcore, -, ho1, -⟩ := kmutex_unlock_core s s1 (i : Int) junk rc h
    rw [hito, hm] at hm0
    injection hm0 with hm0
    subst hm0
    rw [hito] at hcore
    have hl0 : ¬ m.locks = 0 := by omega
    rw [if_neg hl0] at hrc
    have hilt := lt_length_of_getElem? _ _ _ hm
    have h1 : (s1.mutexes.map mutex_t.core)[i]? = some (m.allocated, rc, o) := by
      rw [hcore]
      exact List.getElem?_set_self (by simpa using hilt)
    rw [List.getElem?_map] at h1
    cases hm1 : s1.mutexes[i]? with
    | none => rw [hm1] at h1; cases h1
    | some m1 =>
      rw [hm1] at h1
      simp only [Option.map_some', Option.some.injEq, mutex_t.core, Prod.mk.injEq] at h1
      obtain ⟨h2, h3, h4⟩ := h1
      refine ⟨hrc, m1, rfl, by rw [h3, hrc], h2, fun h5 => ?_⟩
      rw [h4]
      exact ho1 hl0 (by rw [← h3]; exact h5)
  · intro h1
    exact ⟨_, kmutex_unlock_last s i m junk hm h1⟩
  · intro b B rest pb h2 hw hhead hnot hfind hpb hsq hrw hroom
    obtain ⟨s1, -, -, h, -⟩ := kmutex_unlock_handoff s i b m B rest pb junk hm (by omega) hw hhead
      hfind hpb hsq hnot hrw hroom
    exact ⟨s1, h⟩
  · intro a
    obtain ⟨b, hb⟩ := kmutex_unlock_active s a (i : Int) junk
    rw [hb]
    cases kmutex_unlock s (i : Int) junk with
    | none => rfl
    | some r => rfl

set_option maxRecDepth 1000000 in
/-- Witness for C39: mutex 0 is locked once by B (table entry 2) while A (entry 1) is
the active process; `kmutex_unlock(0)` releases it. -/
theorem C39_witness :
    ∃ s1 m1, kmutex_unlock (ex_mutex_held 2) 0 0 = some (s1, 0) ∧
      s1.mutexes[0]? = some m1 ∧ m1.locks = 0 ∧ m1.owner = none := by
  have hc := C39_unlock_no_owner_check (ex_mutex_held 2) 0 0
    { mutex_zero with allocated := 1, locks := 1, owner := some 2 } rfl (by decide)
  obtain ⟨s1, h1⟩ := hc.2.1 rfl
  obtain ⟨-, m1, h2, h3, -, h4⟩ := hc.1 s1 0 h1
  exact ⟨s1, m1, h1, h2, h3, h4 h3⟩

/-! ### Case analysis of `kmutex_lock` and `kmutex_unlock` -/

theorem kmutex_lock_cases (s s1 : Kernel) (id rc : Int)
    (h : kmutex_lock s id = some (s1, rc)) :
    ∃ a m, s.active_proc = some a ∧ ¬ id < 0 ∧ s.mutexes[id.toNat]? = some m ∧
      ((¬ m.locks > 0 ∧ s1.mutexes = s.mutexes.set id.toNat
          { m with owner := if m.locks = 0 then some a else m.owner, locks := m.locks + 1 }) ∨
        (m.locks > 0 ∧ ∃ s2 p2 m2, scheduler_remove s (some a) = some s2 ∧
          s2.proc_table[a]? = some p2 ∧ s2.mutexes[id.toNat]? = some m2 ∧
          s1.mutexes = s2.mutexes.set id.toNat
            { m2 with wait_queue := (queue_in m2.wait_queue p2.pid).getD m2.wait_queue,
                      locks := m2.locks + 1 })) := by
  cases ha : s.active_proc with
  | none => simp [kmutex_lock, ha] at h
  | some a =>
    by_cases hidx : id < 0
    · simp [kmutex_lock, ha, hidx] at h
    cases hm : s.mutexes[id.toNat]? with
    | none => simp [kmutex_lock, ha, hidx, hm] at h
    | some m =>
      refine ⟨a, m, rfl, hidx, rfl, ?_⟩
      by_cases hl : m.locks > 0
      · refine Or.inr ⟨hl, ?_⟩
        cases hrem : scheduler_remove s (some a) with
        | none => simp [kmutex_lock, ha, hidx, hm, hl, hrem] at h
        | some s2 =>
          have hcore := scheduler_remove_mutex_core s s2 a hrem
          obtain ⟨m2, hm2, hm2c⟩ := core_getElem s.mutexes s2.mutexes hcore _ m hm
          have hilt2 := lt_length_of_getElem? _ _ _ hm2
          simp only [mutex_t.core, Prod.mk.injEq] at hm2c
          cases hp2 : s2.proc_table[a]? with
          | none => simp [kmutex_lock, ha, hidx, hm, hl, hrem, hp2, hm2] at h
          | some p2 =>
            have hl2 : ¬ m2.locks = 0 := by omega
            simp only [kmutex_lock, ha, hidx, if_false, hm, hl, if_true, hrem, hp2, hm2,
              List.getElem?_set_self hilt2, List.set_set, hl2, Option.some.injEq,
              Prod.mk.injEq] at h
            exact ⟨s2, p2, m2, rfl, hp2, hm2, by rw [← h.1]⟩
      · refine Or.inl ⟨hl, ?_⟩
        simp only [kmutex_lock, ha, hidx, if_false, hm, hl, Option.some.injEq,
          Prod.mk.injEq] at h
        rw [← h.1]
        by_cases hl0 : m.locks = 0
        · simp only [hl0, if_true]
        · simp only [hl0, if_false]

theorem kmutex_unlock_cases (s s1 : Kernel) (id junk rc : Int)
    (h : kmutex_unlock s id junk = some (s1, rc)) :
    ∃ m, ¬ id < 0 ∧ s.mutexes[id.toNat]? = some m ∧
      ((m.locks = 0 ∧ s1 = s) ∨
        (m.locks ≠ 0 ∧ m.locks - 1 = 0 ∧ s1.mutexes = s.mutexes.set id.toNat
          { m with locks := m.locks - 1, owner := none }) ∨
        (m.locks ≠ 0 ∧ m.locks - 1 ≠ 0 ∧ ∃ x q sA,
          (match queue_out m.wait_queue with
            | some (x, q) => (x, q)
            | none => (junk, m.wait_queue)) = (x, q) ∧
          sA = { s with mutexes := s.mutexes.set id.toNat
                          { m with locks := m.locks - 1, wait_queue := q } } ∧
          ((pid_to_proc sA x = none ∧ s1 = sA) ∨
            ∃ e s2 s3 m3, pid_to_proc sA x = some e ∧
              scheduler_remove sA (some e) = some s2 ∧
              scheduler_add s2 (some e) = some s3 ∧ s3.mutexes[id.toNat]? = some m3 ∧
              s1.mutexes = s3.mutexes.set id.toNat { m3 with owner := some e }))) := by
  by_cases hidx : id < 0
  · simp [kmutex_unlock, hidx] at h
  cases hm : s.mutexes[id.toNat]? with
  | none => simp [kmutex_unlock, hidx, hm] at h
  | some m =>
    refine ⟨m, hidx, rfl, ?_⟩
    by_cases hl0 : m.locks = 0
    · simp only [kmutex_unlock, hidx, if_false, hm, hl0, if_true, Option.some.injEq,
        Prod.mk.injEq] at h
      exact Or.inl ⟨hl0, h.1.symm⟩
    by_cases hl1 : m.locks - 1 = 0
    · simp only [kmutex_unlock, hidx, if_false, hm, hl0, hl1, if_true, Option.some.injEq,
        Prod.mk.injEq] at h
      refine Or.inr (Or.inl ⟨hl0, hl1, ?_⟩)
      rw [← h.1, hl1]
    refine Or.inr (Or.inr ⟨hl0, hl1, ?_⟩)
    obtain ⟨x, q, hxq⟩ : ∃ x q, (match queue_out m.wait_queue with
        | some (x, q) => (x, q)
        | none => (junk, m.wait_queue)) = (x, q) := ⟨_, _, rfl⟩
    obtain ⟨sA, hsA⟩ : ∃ sA : Kernel, sA =
        { s with mutexes := s.mutexes.set id.toNat
                   { m with locks := m.locks - 1, wait_queue := q } } := ⟨_, rfl⟩
    refine ⟨x, q, sA, hxq, hsA, ?_⟩
    simp only [kmutex_unlock, hidx, if_false, hm, hl0, hl1, hxq] at h
    rw [← hsA] at h
    cases hfind : pid_to_proc sA x with
    | none =>
      simp only [hfind, Option.some.injEq, Prod.mk.injEq] at h
      exact Or.inl ⟨rfl, h.1.symm⟩
    | some e =>
      simp only [hfind] at h
      cases hrem : scheduler_remove sA (some e) with
      | none => simp [hrem] at h
      | some s2 =>
        simp only [hrem] at h
        cases hadd : scheduler_add s2 (some e) with
        | none => simp [hadd] at h
        | some s3 =>
          simp only [hadd] at h
          cases hm3 : s3.mutexes[id.toNat]? with
          | none => simp [hm3] at h
          | some m3 =>
            simp only [hm3, Option.some.injEq, Prod.mk.injEq] at h
            exact Or.inr ⟨e, s2, s3, m3, rfl, hrem, hadd, hm3, by rw [← h.1]⟩
/-! ### Mutex accounting -/

theorem on_no_mutex_queue_iff (s : Kernel) (pid : Int) :
    on_no_mutex_queue s pid ↔
      ∀ (i : Nat) (m : mutex_t), s.mutexes[i]? = some m → pid ∉ m.wait_queue.toList := by
  constructor
  · intro h i m hm
    exact h m (List.getElem?_mem hm)
  · intro h m hmem
    obtain ⟨i, hi⟩ := List.getElem?_of_mem hmem
    exact h i m hi

/-- Replacing the entry `i` by one that satisfies the entry invariant and whose wait
queue holds only pids it held before, or pids that were on no wait queue, keeps the
invariant. -/
theorem mutex_queues_ok_set (l : List mutex_t) (i : Nat) (m m1 : mutex_t)
    (hok : mutex_queues_ok l) (hm : l[i]? = some m)
    (h1 : m1.wait_queue.wf ∧ m1.wait_queue.toList.Nodup ∧ mutex_accounted m1)
    (hx : ∀ x ∈ m1.wait_queue.toList, x ∈ m.wait_queue.toList ∨
      ∀ (j : Nat) (mj : mutex_t), l[j]? = some mj → x ∉ mj.wait_queue.toList) :
    mutex_queues_ok (l.set i m1) := by
  have hlt := lt_length_of_getElem? _ _ _ hm
  have hget : ∀ (j : Nat) (mj : mutex_t), (l.set i m1)[j]? = some mj →
      (j = i ∧ mj = m1) ∨ (j ≠ i ∧ l[j]? = some mj) := by
    intro j mj hj
    by_cases hji : i = j
    · subst hji
      rw [List.getElem?_set_self hlt] at hj
      injection hj with hj
      exact Or.inl ⟨rfl, hj.symm⟩
    · rw [List.getElem?_set_ne hji] at hj
      exact Or.inr ⟨fun h => hji h.symm, hj⟩
  refine ⟨?_, ?_⟩
  · intro j mj hj
    rcases hget j mj hj with ⟨-, rfl⟩ | ⟨-, hj1⟩
    · exact h1
    · exact hok.1 j mj hj1
  · intro j k mj mk x hj hk hxj hxk
    rcases hget j mj hj with ⟨hji, rfl⟩ | ⟨hji, hj1⟩
    · rcases hget k mk hk with ⟨hki, -⟩ | ⟨hki, hk1⟩
      · rw [hji, hki]
      · rcases hx x hxj with h2 | h2
        · exact absurd (hok.2 i k m mk x hm hk1 h2 hxk).symm hki
        · exact absurd hxk (h2 k mk hk1)
    · rcases hget k mk hk with ⟨hki, rfl⟩ | ⟨hki, hk1⟩
      · rcases hx x hxk with h2 | h2
        · exact absurd (hok.2 j i mj m x hj1 hm hxj h2) hji
        · exact absurd hxj (h2 j mj hj1)
      · exact hok.2 j k mj mk x hj1 hk1 hxj hxk

/-- A `scheduler_remove` of a process whose pid is on no mutex wait queue leaves every
mutex with the same lock count, owner and wait-queue content. -/
theorem scheduler_remove_mutex_queues (s s2 : Kernel) (e : Nat) (p : proc_t)
    (hok : mutex_queues_ok s.mutexes) (hp : s.proc_table[e]? = some p)
    (hno : ∀ (j : Nat) (mj : mutex_t), s.mutexes[j]? = some mj →
      p.pid ∉ mj.wait_queue.toList)
    (h : scheduler_remove s (some e) = some s2) :
    mutex_queues_ok s2.mutexes ∧
      (∃ p2, s2.proc_table[e]? = some p2 ∧ p2.pid = p.pid) ∧
      (∀ pid, pid_to_proc s2 pid = pid_to_proc s pid) ∧
      s2.mutexes.length = s.mutexes.length ∧
      ∀ (j : Nat) (mj : mutex_t), s.mutexes[j]? = some mj →
        ∃ m2, s2.mutexes[j]? = some m2 ∧ m2.core = mj.core ∧ m2.wait_queue.wf ∧
          m2.wait_queue.toList = mj.wait_queue.toList := by
  obtain ⟨p0, hp0, -, -, -, hc⟩ := scheduler_remove_cases s s2 e h
  rw [hp] at hp0
  injection hp0 with hp0
  subst hp0
  have hlt := lt_length_of_getElem? _ _ _ hp
  have hsame : ∀ (l : List mutex_t), l = s.mutexes →
      ∀ (j : Nat) (mj : mutex_t), s.mutexes[j]? = some mj →
        ∃ m2, l[j]? = some m2 ∧ m2.core = mj.core ∧ m2.wait_queue.wf ∧
          m2.wait_queue.toList = mj.wait_queue.toList := by
    intro l hl j mj hj
    rw [hl]
    exact ⟨mj, hj, rfl, (hok.1 j mj hj).1, rfl⟩
  rcases hc with ⟨-, htb, -, -, hmx, -⟩ | ⟨r, q, q1, hsq, hq, hloop, htb, -, -, hmx, -⟩
  · refine ⟨by rw [hmx]; exact hok, ⟨p, by rw [htb]; exact hp, rfl⟩, ?_, by rw [hmx],
      hsame _ hmx⟩
    intro pid
    show pid_to_proc_from pid s2.proc_table 0 = pid_to_proc_from pid s.proc_table 0
    rw [htb]
  · have hp2 : s2.proc_table[e]? = some (unqueued p) := by
      rw [htb]; exact List.getElem?_set_self hlt
    have hpids : ∀ pid, pid_to_proc s2 pid = pid_to_proc s pid := by
      intro pid
      show pid_to_proc_from pid s2.proc_table 0 = pid_to_proc_from pid s.proc_table 0
      rw [htb]
      exact pid_to_proc_from_set pid s.proc_table 0 e p (unqueued p) hp rfl
    cases r with
    | run =>
      have hmx1 : s2.mutexes = s.mutexes := hmx
      exact ⟨by rw [hmx1]; exact hok, ⟨_, hp2, rfl⟩, hpids, by rw [hmx1], hsame _ hmx1⟩
    | sleep =>
      have hmx1 : s2.mutexes = s.mutexes := hmx
      exact ⟨by rw [hmx1]; exact hok, ⟨_, hp2, rfl⟩, hpids, by rw [hmx1], hsame _ hmx1⟩
    | sem k =>
      have hmx1 : s2.mutexes = s.mutexes := hmx
      exact ⟨by rw [hmx1]; exact hok, ⟨_, hp2, rfl⟩, hpids, by rw [hmx1], hsame _ hmx1⟩
    | mutex k =>
      cases hmk : s.mutexes[k]? with
      | none => simp [Kernel.queue, hmk] at hq
      | some mk =>
        have hqk : mk.wait_queue = q := by
          simpa [Kernel.queue, hmk] using hq
        subst hqk
        have hmx1 : s2.mutexes = s.mutexes.set k { mk with wait_queue := q1 } := by
          rw [hmx]
          show (match s.mutexes[k]? with
            | some m => s.mutexes.set k { m with wait_queue := q1 }
            | none => s.mutexes) = _
          rw [hmk]
        obtain ⟨hkw, hknd, hkacc⟩ := hok.1 k mk hmk
        obtain ⟨hq1w, -, hq1l⟩ :=
          removed_from_wf p.pid mk.wait_queue q1 (removed_from_loop p.pid _ q1 hkw hloop) hkw
        have hq1l := hq1l (hno k mk hmk)
        have hklt := lt_length_of_getElem? _ _ _ hmk
        refine ⟨?_, ⟨_, hp2, rfl⟩, hpids, by rw [hmx1, List.length_set], ?_⟩
        · rw [hmx1]
          refine mutex_queues_ok_set s.mutexes k mk _ hok hmk ⟨hq1w, ?_, ?_⟩ ?_
          · show q1.toList.Nodup
            rw [hq1l]; exact hknd
          · show (mk.locks = 0 ∧ q1.toList = []) ∨ mk.locks = 1 + (q1.toList.length : Int)
            rw [hq1l]; exact hkacc
          · intro x hx
            have hx1 : x ∈ q1.toList := hx
            rw [hq1l] at hx1
            exact Or.inl hx1
        · intro j mj hj
          rw [hmx1]
          by_cases hjk : k = j
          · subst hjk
            rw [hmk] at hj
            injection hj with hj
            subst hj
            exact ⟨_, List.getElem?_set_self hklt, rfl, hq1w, hq1l⟩
          · rw [List.getElem?_set_ne hjk]
            exact ⟨mj, hj, rfl, (hok.1 j mj hj).1, rfl⟩

theorem mutex_accounted_pos (m : mutex_t) (h : mutex_accounted m) (hl : m.locks ≠ 0) :
    m.locks = 1 + (m.wait_queue.toList.length : Int) := by
  rcases h with ⟨h0, -⟩ | h1
  · exact absurd h0 hl
  · exact h1

theorem kmutex_lock_queues (s s1 : Kernel) (id rc : Int) (a : Nat) (p : proc_t) (m : mutex_t)
    (hok : mutex_queues_ok s.mutexes) (ha : s.active_proc = some a)
    (hp : s.proc_table[a]? = some p) (hno : on_no_mutex_queue s p.pid)
    (hm : s.mutexes[id.toNat]? = some m) (hroom : m.wait_queue.size < QUEUE_SIZE)
    (h : kmutex_lock s id = some (s1, rc)) : mutex_queues_ok s1.mutexes := by
  obtain ⟨a0, m0, ha0, -, hm0, hc⟩ := kmutex_lock_cases s s1 id rc h
  rw [ha] at ha0
  injection ha0 with ha0
  subst ha0
  rw [hm] at hm0
  injection hm0 with hm0
  subst hm0
  have hno1 := (on_no_mutex_queue_iff s p.pid).mp hno
  obtain ⟨hw, hnd, hacc⟩ := hok.1 _ m hm
  rcases hc with ⟨hl, hs1⟩ | ⟨hl, s2, p2, m2, hrem, hp2, hm2, hs1⟩
  · have hl0 : m.locks = 0 := by
      rcases hacc with ⟨h0, -⟩ | h1
      · exact h0
      · omega
    have hemp : m.wait_queue.toList = [] := by
      rcases hacc with ⟨-, h0⟩ | h1
      · exact h0
      · omega
    rw [hs1]
    refine mutex_queues_ok_set s.mutexes id.toNat m _ hok hm ⟨hw, hnd, Or.inr ?_⟩
      (fun x hx => Or.inl hx)
    show m.locks + 1 = 1 + (m.wait_queue.toList.length : Int)
    rw [hl0, hemp]; rfl
  · obtain ⟨hok2, ⟨p2b, hp2b, hp2pid⟩, -, hlen2, hsim⟩ :=
      scheduler_remove_mutex_queues s s2 a p hok hp hno1 hrem
    rw [hp2] at hp2b
    injection hp2b with hp2b
    subst hp2b
    obtain ⟨m2b, hm2b, hcore, hw2, hl2⟩ := hsim _ m hm
    rw [hm2] at hm2b
    injection hm2b with hm2b
    subst hm2b
    simp only [mutex_t.core, Prod.mk.injEq] at hcore
    have hsz : m2.wait_queue.size < QUEUE_SIZE := by
      rw [← queue_toList_length, hl2, queue_toList_length]; exact hroom
    obtain ⟨q1, hq1, hq1w, hq1l, -⟩ := queue_in_spec m2.wait_queue p2.pid hw2 hsz
    rw [hs1, hq1, Option.getD_some]
    have hlocks := mutex_accounted_pos m hacc (by omega)
    have hno2 : ∀ (j : Nat) (mj : mutex_t), s2.mutexes[j]? = some mj →
        p.pid ∉ mj.wait_queue.toList := by
      intro j mj hj
      have hjlt := lt_length_of_getElem? _ _ _ hj
      rw [hlen2] at hjlt
      obtain ⟨mj2, hmj2, -, -, hmj2l⟩ := hsim j _ (List.getElem?_eq_getElem hjlt)
      rw [hj] at hmj2
      injection hmj2 with hmj2
      subst hmj2
      rw [hmj2l]
      exact hno1 j _ (List.getElem?_eq_getElem hjlt)
    refine mutex_queues_ok_set s2.mutexes id.toNat m2 _ hok2 hm2 ⟨hq1w, ?_, Or.inr ?_⟩ ?_
    · show q1.toList.Nodup
      rw [hq1l, hl2, hp2pid]
      refine List.nodup_append.mpr ⟨hnd, List.nodup_singleton _, ?_⟩
      intro x hx hx1
      rw [List.mem_singleton] at hx1
      subst hx1
      exact hno1 _ m hm hx
    · show m2.locks + 1 = 1 + (q1.toList.length : Int)
      rw [hq1l, hl2, hcore.2.1, hlocks]
      simp
      omega
    · intro x hx
      have hx1 : x ∈ q1.toList := hx
      rw [hq1l, List.mem_append, List.mem_singleton] at hx1
      rcases hx1 with hx1 | hx1
      · exact Or.inl hx1
      · right
        rw [hx1, hp2pid]
        exact hno2

theorem kmutex_unlock_queues (s s1 : Kernel) (id junk rc : Int)
    (hok : mutex_queues_ok s.mutexes)
    (h : kmutex_unlock s id junk = some (s1, rc)) : mutex_queues_ok s1.mutexes := by
  obtain ⟨m, hidx, hm, hc⟩ := kmutex_unlock_cases s s1 id junk rc h
  obtain ⟨hw, hnd, hacc⟩ := hok.1 _ m hm
  have hilt := lt_length_of_getElem? _ _ _ hm
  rcases hc with ⟨-, hs1⟩ | ⟨hl0, hl1, hs1⟩ | ⟨hl0, hl1, x, q, sA, hxq, hsA, hc2⟩
  · rw [hs1]; exact hok
  · have hlocks := mutex_accounted_pos m hacc hl0
    have hemp : m.wait_queue.toList = [] := by
      apply List.eq_nil_of_length_eq_zero
      omega
    rw [hs1]
    refine mutex_queues_ok_set s.mutexes id.toNat m _ hok hm ⟨hw, hnd, Or.inl ⟨hl1, hemp⟩⟩
      (fun x hx => Or.inl hx)
  · have hlocks := mutex_accounted_pos m hacc hl0
    have hpos : 0 < m.wait_queue.size := by
      rw [← queue_toList_length]
      omega
    obtain ⟨x0, q0, hout, hq0w, hq0l, -⟩ := queue_out_spec m.wait_queue hw hpos
    rw [hout] at hxq
    simp only [Prod.mk.injEq] at hxq
    obtain ⟨hx0, hq0⟩ := hxq
    subst hx0
    subst hq0
    rw [hq0l] at hnd
    have hndc := List.nodup_cons.mp hnd
    have hmA : sA.mutexes = s.mutexes.set id.toNat
        { m with locks := m.locks - 1, wait_queue := q0 } := by rw [hsA]
    have hokA : mutex_queues_ok sA.mutexes := by
      rw [hmA]
      refine mutex_queues_ok_set s.mutexes id.toNat m _ hok hm ⟨hq0w, hndc.2, Or.inr ?_⟩ ?_
      · show m.locks - 1 = 1 + (q0.toList.length : Int)
        rw [hlocks, hq0l]
        simp
        omega
      · intro y hy
        left
        rw [hq0l]
        exact List.mem_cons_of_mem _ hy
    rcases hc2 with ⟨-, hs1⟩ | ⟨e, s2, s3, m3, hfind, hrem, hadd, hm3, hs1⟩
    · rw [hs1]; exact hokA
    · obtain ⟨pe, hpe, hpex⟩ := pid_to_proc_some sA x0 e hfind
      have hnoA : ∀ (j : Nat) (mj : mutex_t), sA.mutexes[j]? = some mj →
          pe.pid ∉ mj.wait_queue.toList := by
        intro j mj hj
        rw [hpex]
        rw [hmA] at hj
        by_cases hji : id.toNat = j
        · subst hji
          rw [List.getElem?_set_self hilt] at hj
          injection hj with hj
          rw [← hj]
          exact hndc.1
        · rw [List.getElem?_set_ne hji] at hj
          intro hmem
          exact hji (hok.2 id.toNat j m mj x0 hm hj
            (by rw [hq0l]; exact List.mem_cons_self _ _) hmem)
      obtain ⟨hok2, -, -, -, -⟩ := scheduler_remove_mutex_queues sA s2 e pe hokA hpe hnoA hrem
      obtain ⟨pX, rq, -, -, hs3⟩ := scheduler_add_inv s2 s3 e hadd
      have hm3eq : s3.mutexes = s2.mutexes := by rw [hs3]
      rw [hs1, hm3eq]
      rw [hm3eq] at hm3
      exact mutex_queues_ok_set s2.mutexes id.toNat m3 _ hok2 hm3 (hok2.1 _ m3 hm3)
        (fun y hy => Or.inl hy)

theorem lock_reach_ok (s : Kernel) (h : lock_reach s) : mutex_queues_ok s.mutexes := by
  induction h with
  | init s0 =>
    have hq : ∀ (i : Nat) (m : mutex_t), (kmutexes_init s0).1.mutexes[i]? = some m →
        m = mutex_zero := by
      intro i m hm
      rw [(kmutexes_init_fields s0).1, List.getElem?_replicate] at hm
      split at hm
      · injection hm with hm
        exact hm.symm
      · cases hm
    refine ⟨?_, ?_⟩
    · intro i m hm
      rw [hq i m hm]
      refine ⟨queue_init_wf, ?_, Or.inl ⟨rfl, queue_init_toList⟩⟩
      show queue_init.toList.Nodup
      rw [queue_init_toList]; exact List.nodup_nil
    · intro i j m m1 x hm _ hx _
      rw [hq i m hm] at hx
      have hx1 : x ∈ queue_init.toList := hx
      rw [queue_init_toList] at hx1
      cases hx1
  | other s s1 _ heq ih => rw [heq]; exact ih
  | lock s s1 id rc a p m _ ha hp hno hm hroom hstep ih =>
    exact kmutex_lock_queues s s1 id rc a p m ih ha hp hno hm hroom hstep
  | unlock s s1 id junk rc _ hstep ih => exact kmutex_unlock_queues s s1 id junk rc ih hstep

/-- When a mutex locked more than once has a waiter, `kmutex_unlock` does not read the
indeterminate value of its uninitialised local. -/
theorem kmutex_unlock_junk (s : Kernel) (id junk junk1 : Int)
    (h : ∀ m, s.mutexes[id.toNat]? = some m → m.locks ≠ 0 → m.locks - 1 ≠ 0 →
      0 < m.wait_queue.size) :
    kmutex_unlock s id junk = kmutex_unlock s id junk1 := by
  by_cases hidx : id < 0
  · simp [kmutex_unlock, hidx]
  cases hm : s.mutexes[id.toNat]? with
  | none => simp [kmutex_unlock, hidx, hm]
  | some m =>
    by_cases hl0 : m.locks = 0
    · simp [kmutex_unlock, hidx, hm, hl0]
    by_cases hl1 : m.locks - 1 = 0
    · simp [kmutex_unlock, hidx, hm, hl0, hl1]
    have hpos := h m hm hl0 hl1
    cases hout : queue_out m.wait_queue with
    | none =>
      have := (queue_out_eq_none m.wait_queue).mp hout
      omega
    | some r =>
      simp only [kmutex_unlock, hidx, if_false, hm, hl0, hl1, hout]
theorem kproc_create_cases (env : create_env) (s s1 : Kernel) (proc_ptr : Nat)
    (proc_name : Option (List Nat)) (proc_type rc : Int)
    (h : kproc_create env s proc_ptr proc_name proc_type = some (s1, rc)) :
    (s1 = s ∧ rc = -1 ∧ queue_out s.proc_allocator = none) ∨
      ∃ (i : Int) (q rq : queue_t) (p0 pc : proc_t),
        queue_out s.proc_allocator = some (i, q) ∧ 0 ≤ i ∧
        s.proc_table[i.toNat]? = some p0 ∧ rc = s.next_pid ∧
        pc.pid = s.next_pid ∧ pc.state = proc_state.IDLE ∧
        pc.scheduler_queue = some queue_ref.run ∧
        queue_in s.run_queue s.next_pid = some rq ∧
        s1.proc_table = s.proc_table.set i.toNat pc ∧ s1.next_pid = s.next_pid + 1 ∧
        s1.proc_allocator = q ∧ s1.run_queue = rq ∧ s1.sleep_queue = s.sleep_queue ∧
        s1.mutexes = s.mutexes ∧ s1.semaphores = s.semaphores ∧
        s1.active_proc = s.active_proc := by
  unfold kproc_create at h
  cases proc_name with
  | none => simp at h
  | some name =>
    simp only at h
    by_cases hptr : proc_ptr = 0
    · rw [if_pos hptr] at h; cases h
    · rw [if_neg hptr] at h
      cases hout : queue_out s.proc_allocator with
      | none =>
        simp only [hout, Option.some.injEq, Prod.mk.injEq] at h
        exact Or.inl ⟨h.1.symm, h.2.symm, rfl⟩
      | some r0 =>
        obtain ⟨pe, q⟩ := r0
        simp only [hout] at h
        by_cases hneg : pe < 0
        · rw [if_pos hneg] at h; cases h
        · rw [if_neg hneg] at h
          cases hp0 : s.proc_table[pe.toNat]? with
          | none => simp [hp0] at h
          | some p0 =>
            simp only [hp0] at h
            obtain ⟨sA, hsA⟩ : ∃ sA : Kernel, sA =
                { s with proc_allocator := q, next_pid := s.next_pid + 1,
                         proc_table := s.proc_table.set pe.toNat
                           (created_pcb env s.next_pid s.timer_ticks proc_ptr name proc_type) } :=
              ⟨_, rfl⟩
            rw [← hsA] at h
            cases hadd : scheduler_add sA (some pe.toNat) with
            | none => simp [hadd] at h
            | some s2 =>
              simp only [hadd, Option.some.injEq, Prod.mk.injEq] at h
              obtain ⟨hs, hrc⟩ := h
              subst hs
              obtain ⟨pX, rq, hpX, hrq, hs2⟩ := scheduler_add_inv sA s2 pe.toNat hadd
              have hlt := lt_length_of_getElem? _ _ _ hp0
              have hpA : sA.proc_table[pe.toNat]? =
                  some (created_pcb env s.next_pid s.timer_ticks proc_ptr name proc_type) := by
                rw [hsA]; exact List.getElem?_set_self hlt
              rw [hpA] at hpX
              injection hpX with hpX
              subst hpX
              have hrq1 : queue_in s.run_queue s.next_pid = some rq := by
                rw [hsA] at hrq; exact hrq
              refine Or.inr ⟨pe, q, rq,  p0,
                requeued (created_pcb env s.next_pid s.timer_ticks proc_ptr name proc_type),
                rfl, by omega, hp0, hrc.symm, rfl, rfl, rfl, hrq1, ?_, by rw [hs2, hsA],
                by rw [hs2, hsA], by rw [hs2], by rw [hs2, hsA], by rw [hs2, hsA],
                by rw [hs2, hsA], by rw [hs2, hsA]⟩
              rw [hs2, hsA]
              show (s.proc_table.set _ _).set _ _ = _
              rw [List.set_set]

theorem kproc_destroy_cases (s s1 : Kernel) (e : Nat) (rc : Int)
    (h : kproc_destroy s (some e) = some (s1, rc)) :
    ∃ p, s.proc_table[e]? = some p ∧
      ((p.pid = 0 ∧ s1 = s ∧ rc = -1) ∨
        (p.pid ≠ 0 ∧ rc = 0 ∧ ∃ (s2 : Kernel) (entry : Int),
          scheduler_remove s (some e) = some s2 ∧
          proc_to_entry s2 (some e) = some entry ∧ 0 ≤ entry ∧
          s1 = { s2 with proc_table := s2.proc_table.set e proc_zero,
                         proc_allocator :=
                           (queue_in s2.proc_allocator entry).getD s2.proc_allocator })) := by
  unfold kproc_destroy at h
  cases hp : s.proc_table[e]? with
  | none => simp [hp] at h
  | some p =>
    simp only [hp] at h
    refine ⟨p, rfl, ?_⟩
    by_cases hpid : p.pid = 0
    · rw [if_pos hpid] at h
      simp only [Option.some.injEq, Prod.mk.injEq] at h
      exact Or.inl ⟨hpid, h.1.symm, h.2.symm⟩
    · rw [if_neg hpid] at h
      cases hrem : scheduler_remove s (some e) with
      | none => simp [hrem] at h
      | some s2 =>
        simp only [hrem] at h
        cases hent : proc_to_entry s2 (some e) with
        | none => simp [hent] at h
        | some entry =>
          simp only [hent] at h
          by_cases hneg : entry < 0
          · rw [if_pos hneg] at h; cases h
          · rw [if_neg hneg] at h
            simp only [Option.some.injEq, Prod.mk.injEq] at h
            exact Or.inr ⟨hpid, h.2.symm, s2, entry, rfl, hent, by omega, h.1.symm⟩
/-! ### The pid invariant -/

theorem alloc_fill_head (l : List Nat) :
    ∀ (q : queue_t) (x : Int) (xs : List Int), q.wf → q.toList = x :: xs →
      (alloc_fill q l).wf ∧ ∃ ys, (alloc_fill q l).toList = x :: ys := by
  induction l with
  | nil => intro q x xs hw hl; exact ⟨hw, xs, hl⟩
  | cons i rest ih =>
    intro q x xs hw hl
    obtain ⟨h1, h2⟩ := queue_in_getD_spec q (i : Int) hw
    rcases h2 with h2 | h2
    · exact ih _ x xs h1 (by rw [h2, hl])
    · exact ih _ x (xs ++ [(i : Int)]) h1 (by rw [h2, hl]; rfl)

theorem alloc_fill_range_head (n : Nat) :
    (alloc_fill queue_init (List.range (n + 1))).wf ∧
      ∃ ys, (alloc_fill queue_init (List.range (n + 1))).toList = 0 :: ys := by
  rw [List.range_succ_eq_map]
  obtain ⟨q1, hq1, hq1w, hq1l, -⟩ := queue_in_spec queue_init ((0 : Nat) : Int) queue_init_wf
    (by simp [queue_init, QUEUE_SIZE])
  simp only [alloc_fill, hq1, Option.getD_some]
  rw [queue_init_toList] at hq1l
  exact alloc_fill_head _ q1 0 [] hq1w (by simpa using hq1l)

theorem alloc_fill_nil_wf (l : List Nat) : ∀ (q : queue_t), q.wf → (alloc_fill q l).wf := by
  induction l with
  | nil => intro q hw; exact hw
  | cons i rest ih =>
    intro q hw
    exact ih _ (queue_in_getD_spec q (i : Int) hw).1

theorem pid_inv_init (s : Kernel) (h0 : s.next_pid = 0) : pid_inv (kproc_init_tables s) [] := by
  have hz : ∀ (e : Nat) (p : proc_t), (kproc_init_tables s).proc_table[e]? = some p →
      p = proc_zero := by
    intro e p hp
    have hp1 : (List.replicate s.proc_table.length proc_zero)[e]? = some p := hp
    rw [List.getElem?_replicate] at hp1
    split at hp1
    · injection hp1 with hp1; exact hp1.symm
    · cases hp1
  refine ⟨?_, ?_, ?_, ?_, ?_, ?_, ?_⟩
  · show 0 ≤ s.next_pid
    omega
  · intro e p hp _
    rw [hz e p hp]; rfl
  · intro e p hp hst
    rw [hz e p hp] at hst
    exact absurd rfl hst
  · intro e e1 p p1 hp _ hst
    rw [hz e p hp] at hst
    exact absurd rfl hst
  · intro e p hp hst
    rw [hz e p hp] at hst
    exact absurd rfl hst
  · intro _
    refine ⟨fun e p hp => by rw [hz e p hp]; rfl, ?_, ?_⟩
    · exact alloc_fill_nil_wf _ _ queue_init_wf
    · intro hne
      have hlen : (kproc_init_tables s).proc_table.length = s.proc_table.length := by
        show (List.replicate s.proc_table.length proc_zero).length = _
        simp
      cases hP : s.proc_table.length with
      | zero =>
        rw [hP] at hlen
        exact absurd (List.eq_nil_of_length_eq_zero hlen) hne
      | succ n =>
        show ∃ rest, (alloc_fill queue_init (List.range s.proc_table.length)).toList = 0 :: rest
        rw [hP]
        exact (alloc_fill_range_head n).2
  · intro x hx
    cases hx

theorem proc_shape_getElem (s s1 : Kernel) (h : proc_shape s1 = proc_shape s)
    (e : Nat) (p1 : proc_t) (hp1 : s1.proc_table[e]? = some p1) :
    ∃ p, s.proc_table[e]? = some p ∧ p.pid = p1.pid ∧
      (p.state = proc_state.NONE ↔ p1.state = proc_state.NONE) := by
  have h1 : (proc_shape s1)[e]? = some (p1.pid, decide (p1.state = proc_state.NONE)) := by
    unfold proc_shape
    rw [List.getElem?_map, hp1]; rfl
  rw [h] at h1
  unfold proc_shape at h1
  rw [List.getElem?_map] at h1
  cases hp : s.proc_table[e]? with
  | none => rw [hp] at h1; cases h1
  | some p =>
    rw [hp] at h1
    simp only [Option.map_some', Option.some.injEq, Prod.mk.injEq, decide_eq_decide] at h1
    exact ⟨p, rfl, h1.1, h1.2⟩

theorem proc_shape_length (s s1 : Kernel) (h : proc_shape s1 = proc_shape s) :
    s1.proc_table.length = s.proc_table.length := by
  have := congrArg List.length h
  simpa [proc_shape] using this

theorem pid_inv_other (s s1 : Kernel) (dead : List Int) (hinv : pid_inv s dead)
    (hsh : proc_shape s1 = proc_shape s) (hnext : s1.next_pid = s.next_pid)
    (hal : s1.proc_allocator = s.proc_allocator) : pid_inv s1 dead := by
  have hg := proc_shape_getElem s s1 hsh
  refine ⟨by rw [hnext]; exact hinv.next, ?_, ?_, ?_, ?_, ?_, ?_⟩
  · intro e p1 hp1 hst
    obtain ⟨p, hp, hpid, hiff⟩ := hg e p1 hp1
    rw [← hpid]; exact hinv.free e p hp (hiff.mpr hst)
  · intro e p1 hp1 hst
    obtain ⟨p, hp, hpid, hiff⟩ := hg e p1 hp1
    rw [← hpid, hnext]; exact hinv.used e p hp (fun h => hst (hiff.mp h))
  · intro e e1 p1 p2 hp1 hp2 hst1 hst2 heq
    obtain ⟨p, hp, hpid, hiff⟩ := hg e p1 hp1
    obtain ⟨q, hq, hqid, hqiff⟩ := hg e1 p2 hp2
    exact hinv.distinct e e1 p q hp hq (fun h => hst1 (hiff.mp h)) (fun h => hst2 (hqiff.mp h))
      (by rw [hpid, hqid]; exact heq)
  · intro e p1 hp1 hst h0
    obtain ⟨p, hp, hpid, hiff⟩ := hg e p1 hp1
    exact hinv.idle e p hp (fun h => hst (hiff.mp h)) (by rw [hpid]; exact h0)
  · intro h0
    rw [hnext] at h0
    obtain ⟨h1, h2, h3⟩ := hinv.fresh h0
    refine ⟨?_, by rw [hal]; exact h2, ?_⟩
    · intro e p1 hp1
      obtain ⟨p, hp, -, hiff⟩ := hg e p1 hp1
      exact hiff.mp (h1 e p hp)
    · intro hne
      rw [hal]
      apply h3
      intro hnil
      have hlen := proc_shape_length s s1 hsh
      rw [hnil] at hlen
      exact hne (List.eq_nil_of_length_eq_zero hlen)
  · intro x hx
    obtain ⟨h1, h2, h3⟩ := hinv.gone x hx
    refine ⟨h1, by rw [hnext]; exact h2, ?_⟩
    intro e p1 hp1
    obtain ⟨p, hp, hpid, -⟩ := hg e p1 hp1
    rw [← hpid]; exact h3 e p hp
theorem getElem?_set_cases {α : Type} (l : List α) (i e : Nat) (a b : α)
    (h : (l.set i a)[e]? = some b) : (e = i ∧ b = a) ∨ (e ≠ i ∧ l[e]? = some b) := by
  by_cases hi : i = e
  · subst hi
    by_cases hlt : i < l.length
    · rw [List.getElem?_set_self hlt] at h
      injection h with h
      exact Or.inl ⟨rfl, h.symm⟩
    · rw [List.getElem?_eq_none (by simpa using hlt)] at h
      cases h
  · rw [List.getElem?_set_ne hi] at h
    exact Or.inr ⟨fun h1 => hi h1.symm, h⟩

theorem pid_inv_create (env : create_env) (s s1 : Kernel) (proc_ptr : Nat)
    (proc_name : Option (List Nat)) (proc_type rc : Int) (dead : List Int)
    (hinv : pid_inv s dead)
    (h : kproc_create env s proc_ptr proc_name proc_type = some (s1, rc)) :
    pid_inv s1 dead := by
  rcases kproc_create_cases env s s1 proc_ptr proc_name proc_type rc h with
    ⟨hs, -, -⟩ | ⟨i, q, rq, p0, pc, hout, hi0, hp0, -, hpid, hst, -, -, htb, hnp, hal, -⟩
  · rw [hs]; exact hinv
  · have hnext := hinv.next
    have hpcl : pc.state ≠ proc_state.NONE := by rw [hst]; decide
    refine ⟨by rw [hnp]; omega, ?_, ?_, ?_, ?_, ?_, ?_⟩
    · intro e p hp hs0
      rw [htb] at hp
      rcases getElem?_set_cases _ _ _ _ _ hp with ⟨-, rfl⟩ | ⟨-, hp1⟩
      · exact absurd hs0 hpcl
      · exact hinv.free e p hp1 hs0
    · intro e p hp hs0
      rw [htb] at hp
      rw [hnp]
      rcases getElem?_set_cases _ _ _ _ _ hp with ⟨-, rfl⟩ | ⟨-, hp1⟩
      · rw [hpid]; omega
      · have := hinv.used e p hp1 hs0
        omega
    · intro e e1 p p1 hp hp1 hs0 hs1 heq
      rw [htb] at hp hp1
      rcases getElem?_set_cases _ _ _ _ _ hp with ⟨he, rfl⟩ | ⟨he, hp2⟩
      · rcases getElem?_set_cases _ _ _ _ _ hp1 with ⟨he1, -⟩ | ⟨-, hp3⟩
        · rw [he, he1]
        · have := hinv.used e1 p1 hp3 hs1
          omega
      · rcases getElem?_set_cases _ _ _ _ _ hp1 with ⟨-, rfl⟩ | ⟨-, hp3⟩
        · have := hinv.used e p hp2 hs0
          omega
        · exact hinv.distinct e e1 p p1 hp2 hp3 hs0 hs1 heq
    · intro e p hp hs0 h0
      rw [htb] at hp
      rcases getElem?_set_cases _ _ _ _ _ hp with ⟨he, rfl⟩ | ⟨-, hp1⟩
      · have hn0 : s.next_pid = 0 := by rw [← hpid]; exact h0
        obtain ⟨-, hw, hhead⟩ := hinv.fresh hn0
        have hne : s.proc_table ≠ [] := by
          intro hnil
          rw [hnil] at hp0
          simp at hp0
        obtain ⟨rest, hrest⟩ := hhead hne
        obtain ⟨-, hl⟩ := queue_out_some_spec s.proc_allocator q i hw hout
        rw [hrest] at hl
        injection hl with hl
        rw [he, ← hl]
        rfl
      · exact hinv.idle e p hp1 hs0 h0
    · intro h0
      rw [hnp] at h0
      omega
    · intro x hx
      obtain ⟨h1, h2, h3⟩ := hinv.gone x hx
      refine ⟨h1, by rw [hnp]; omega, ?_⟩
      intro e p hp
      rw [htb] at hp
      rcases getElem?_set_cases _ _ _ _ _ hp with ⟨-, rfl⟩ | ⟨-, hp1⟩
      · rw [hpid]; omega
      · exact h3 e p hp1

/-- The table after a successful `kproc_destroy` of entry `e`. -/
theorem kproc_destroy_table (s s1 : Kernel) (e : Nat) (rc : Int)
    (h : kproc_destroy s (some e) = some (s1, rc)) :
    ∃ p, s.proc_table[e]? = some p ∧
      ((p.pid = 0 ∧ s1 = s ∧ rc = -1) ∨
        (p.pid ≠ 0 ∧ rc = 0 ∧ s1.proc_table = s.proc_table.set e proc_zero ∧
          s1.next_pid = s.next_pid ∧
          ∃ (s2 : Kernel) (entry : Int), proc_shape s2 = proc_shape s ∧
            s2.next_pid = s.next_pid ∧ s2.proc_allocator = s.proc_allocator ∧
            proc_to_entry s2 (some e) = some entry ∧
            s1.proc_allocator = (queue_in s.proc_allocator entry).getD s.proc_allocator)) := by
  obtain ⟨p, hp, hc⟩ := kproc_destroy_cases s s1 e rc h
  refine ⟨p, hp, ?_⟩
  rcases hc with hc | ⟨hpid, hrc, s2, entry, hrem, hent, -, hs1⟩
  · exact Or.inl hc
  · refine Or.inr ⟨hpid, hrc, ?_⟩
    obtain ⟨p0, hp0, -, hnp, hal, hc2⟩ := scheduler_remove_cases s s2 e hrem
    rw [hp] at hp0
    injection hp0 with hp0
    subst hp0
    have htb2 : s2.proc_table = s.proc_table ∨ s2.proc_table = s.proc_table.set e (unqueued p) := by
      rcases hc2 with ⟨-, htb, -⟩ | ⟨r, q, q1, -, -, -, htb, -⟩
      · exact Or.inl htb
      · exact Or.inr htb
    have hsh : proc_shape s2 = proc_shape s := by
      unfold proc_shape
      rcases htb2 with htb | htb
      · rw [htb]
      · rw [htb]
        exact list_map_set_same _ _ _ _ _ hp rfl
    have htb1 : s1.proc_table = s.proc_table.set e proc_zero := by
      rw [hs1]
      show s2.proc_table.set e proc_zero = _
      rcases htb2 with htb | htb
      · rw [htb]
      · rw [htb, List.set_set]
    refine ⟨htb1, by rw [hs1]; exact hnp, s2, entry, hsh, hnp, hal, hent, ?_⟩
    rw [hs1]
    show (queue_in s2.proc_allocator entry).getD s2.proc_allocator = _
    rw [hal]

theorem pid_inv_destroy (s s1 : Kernel) (e : Nat) (p : proc_t) (rc : Int) (dead : List Int)
    (hinv : pid_inv s dead) (hp : s.proc_table[e]? = some p)
    (h : kproc_destroy s (some e) = some (s1, rc)) :
    pid_inv s1 (if rc = 0 then p.pid :: dead else dead) := by
  obtain ⟨p0, hp0, hc⟩ := kproc_destroy_table s s1 e rc h
  rw [hp] at hp0
  injection hp0 with hp0
  subst hp0
  rcases hc with ⟨-, hs, hrc⟩ | ⟨hpid, hrc, htb, hnp, -⟩
  · rw [hs, hrc]
    exact hinv
  · rw [hrc, if_pos rfl]
    have hlive : p.state ≠ proc_state.NONE := fun h0 => hpid (hinv.free e p hp h0)
    refine ⟨by rw [hnp]; exact hinv.next, ?_, ?_, ?_, ?_, ?_, ?_⟩
    · intro e1 p1 hp1 hs0
      rw [htb] at hp1
      rcases getElem?_set_cases _ _ _ _ _ hp1 with ⟨-, rfl⟩ | ⟨-, hp2⟩
      · rfl
      · exact hinv.free e1 p1 hp2 hs0
    · intro e1 p1 hp1 hs0
      rw [htb] at hp1
      rw [hnp]
      rcases getElem?_set_cases _ _ _ _ _ hp1 with ⟨-, rfl⟩ | ⟨-, hp2⟩
      · exact absurd rfl hs0
      · exact hinv.used e1 p1 hp2 hs0
    · intro e1 e2 p1 p2 hp1 hp2 hs1 hs2 heq
      rw [htb] at hp1 hp2
      rcases getElem?_set_cases _ _ _ _ _ hp1 with ⟨-, rfl⟩ | ⟨-, hp3⟩
      · exact absurd rfl hs1
      · rcases getElem?_set_cases _ _ _ _ _ hp2 with ⟨-, rfl⟩ | ⟨-, hp4⟩
        · exact absurd rfl hs2
        · exact hinv.distinct e1 e2 p1 p2 hp3 hp4 hs1 hs2 heq
    · intro e1 p1 hp1 hs0 h0
      rw [htb] at hp1
      rcases getElem?_set_cases _ _ _ _ _ hp1 with ⟨-, rfl⟩ | ⟨-, hp2⟩
      · exact absurd rfl hs0
      · exact hinv.idle e1 p1 hp2 hs0 h0
    · intro h0
      rw [hnp] at h0
      exact absurd ((hinv.fresh h0).1 e p hp) hlive
    · intro x hx
      rw [hnp]
      rcases List.mem_cons.mp hx with hx1 | hx1
      · subst hx1
        refine ⟨hpid, (hinv.used e p hp hlive).2, ?_⟩
        intro e1 p1 hp1
        rw [htb] at hp1
        rcases getElem?_set_cases _ _ _ _ _ hp1 with ⟨-, rfl⟩ | ⟨hne, hp2⟩
        · exact fun h0 => hpid h0.symm
        · intro heq
          by_cases hs0 : p1.state = proc_state.NONE
          · exact hpid (by rw [← heq]; exact hinv.free e1 p1 hp2 hs0)
          · exact hne (hinv.distinct e1 e p1 p hp2 hp hs0 hlive heq)
      · obtain ⟨h1, h2, h3⟩ := hinv.gone x hx1
        refine ⟨h1, h2, ?_⟩
        intro e1 p1 hp1
        rw [htb] at hp1
        rcases getElem?_set_cases _ _ _ _ _ hp1 with ⟨-, rfl⟩ | ⟨-, hp2⟩
        · exact fun h0 => h1 h0.symm
        · exact h3 e1 p1 hp2

theorem proc_reach_pid_inv (s : Kernel) (dead : List Int) (h : proc_reach s dead) :
    pid_inv s dead := by
  induction h with
  | init s0 h0 => exact pid_inv_init s0 h0
  | other s s1 dead _ hsh hnp hal ih => exact pid_inv_other s s1 dead ih hsh hnp hal
  | create env s s1 ptr name ty rc dead _ hstep ih =>
    exact pid_inv_create env s s1 ptr name ty rc dead ih hstep
  | destroy s s1 e p rc dead _ hp hstep ih => exact pid_inv_destroy s s1 e p rc dead ih hp hstep

theorem pid_to_proc_from_none (pid : Int) :
    ∀ (l : List proc_t) (i : Nat), (∀ p ∈ l, p.pid ≠ pid) → pid_to_proc_from pid l i = none := by
  intro l
  induction l with
  | nil => intro i _; rfl
  | cons x xs ih =>
    intro i h
    have hx : ¬ x.pid = pid := h x (List.mem_cons_self _ _)
    simp only [pid_to_proc_from, hx, if_false]
    exact ih (i + 1) (fun p hp => h p (List.mem_cons_of_mem _ hp))

theorem pid_inv_lookup (s : Kernel) (dead : List Int) (hinv : pid_inv s dead) (e : Nat)
    (p : proc_t) (hp : s.proc_table[e]? = some p) (hst : p.state ≠ proc_state.NONE) :
    pid_to_proc s p.pid = some e := by
  have h := pid_to_proc_from_first p.pid s.proc_table 0 e p hp rfl (by
    intro j pj hj hpj heq
    by_cases hs0 : pj.state = proc_state.NONE
    · have h0 : p.pid = 0 := by rw [← heq]; exact hinv.free j pj hpj hs0
      have := hinv.idle e p hp hst h0
      omega
    · have := hinv.distinct j e pj p hpj hp hs0 hst heq
      omega)
  simpa [pid_to_proc] using h
/-- C38. In every state reachable from the seeding of `kproc_init` by `kproc_create`
and `kproc_destroy` (interleaved with any activity that leaves pids, NONE states, free
list and `next_pid` as they are): the pids of the entries in use are pairwise
distinct; for every entry in use `pid_to_proc` of its pid returns that entry and
`proc_to_entry` returns its index; and for a pid other than 0 that was never assigned
(negative, or not below `next_pid`) or whose process was destroyed, `pid_to_proc`
returns none. -/
theorem C38_pid_lookup (s : Kernel) (dead : List Int) (h : proc_reach s dead) :
    (∀ (e e1 : Nat) (p p1 : proc_t), s.proc_table[e]? = some p →
      s.proc_table[e1]? = some p1 → p.state ≠ proc_state.NONE →
      p1.state ≠ proc_state.NONE → p.pid = p1.pid → e = e1) ∧
    (∀ (e : Nat) (p : proc_t), s.proc_table[e]? = some p → p.state ≠ proc_state.NONE →
      pid_to_proc s p.pid = some e ∧ proc_to_entry s (some e) = some (e : Int)) ∧
    (∀ pid : Int, pid ≠ 0 → (pid < 0 ∨ s.next_pid ≤ pid ∨ pid ∈ dead) →
      pid_to_proc s pid = none) := by
  have hinv := proc_reach_pid_inv s dead h
  refine ⟨hinv.distinct, ?_, ?_⟩
  · intro e p hp hst
    have h1 := pid_inv_lookup s dead hinv e p hp hst
    refine ⟨h1, ?_⟩
    simp only [proc_to_entry, hp, h1]
  · intro pid h0 hc
    apply pid_to_proc_from_none
    intro p hmem heq
    obtain ⟨e, he⟩ := List.getElem?_of_mem hmem
    by_cases hs0 : p.state = proc_state.NONE
    · exact h0 (by rw [← heq]; exact hinv.free e p he hs0)
    · have hu := hinv.used e p he hs0
      rcases hc with hc | hc | hc
      · omega
      · omega
      · exact (hinv.gone pid hc).2.2 e p he heq

set_option maxRecDepth 1000000 in
/-- Witness for C38: after the idle process and a second process were created and the
second one (pid 1) destroyed, pid 0 is found at entry 0, and neither the destroyed
pid 1 nor the never assigned pid 7 is found. -/
theorem C38_witness :
    ∃ s, ex_exit_one.map (fun r => r.1) = some s ∧
      pid_to_proc s 0 = some 0 ∧ pid_to_proc s 1 = none ∧ pid_to_proc s 7 = none := by
  have r0 : proc_reach ex_boot [] := proc_reach.init (scheduler_init (ex_kernel ex_table)) rfl
  have h1 := option_eq_some_getD (kproc_create ex_env ex_boot 4096 (some [105, 100, 108, 101]) 0)
    (ex_boot, 0) (by decide)
  have r1 := proc_reach.create ex_env _ _ 4096 (some [105, 100, 108, 101]) 0 _ [] r0 h1
  have h2 := option_eq_some_getD (kproc_create ex_env
    ((kproc_create ex_env ex_boot 4096 (some [105, 100, 108, 101]) 0).getD (ex_boot, 0)).1
    4096 (some [112]) 1) (ex_boot, 0) (by decide)
  have r2 := proc_reach.create ex_env _ _ 4096 (some [112]) 1 _ [] r1 h2
  have hp := option_eq_some_getD (((kproc_create ex_env
    ((kproc_create ex_env ex_boot 4096 (some [105, 100, 108, 101]) 0).getD (ex_boot, 0)).1
    4096 (some [112]) 1).getD (ex_boot, 0)).1.proc_table[1]?) proc_zero (by decide)
  have h3 := option_eq_some_getD (kproc_destroy ((kproc_create ex_env
    ((kproc_create ex_env ex_boot 4096 (some [105, 100, 108, 101]) 0).getD (ex_boot, 0)).1
    4096 (some [112]) 1).getD (ex_boot, 0)).1 (some 1)) (ex_boot, 0) (by decide)
  have r3 := proc_reach.destroy _ _ 1 _ _ [] r2 hp h3
  have hc := C38_pid_lookup _ _ r3
  refine ⟨_, by decide, ?_, hc.2.2 1 (by decide) (Or.inr (Or.inr (by decide))),
    hc.2.2 7 (by decide) (Or.inr (Or.inl (by decide)))⟩
  have hp0 := option_eq_some_getD (((kproc_destroy ((kproc_create ex_env
    ((kproc_create ex_env ex_boot 4096 (some [105, 100, 108, 101]) 0).getD (ex_boot, 0)).1
    4096 (some [112]) 1).getD (ex_boot, 0)).1 (some 1)).getD (ex_boot, 0)).1.proc_table[0]?)
    proc_zero (by decide)
  have := (hc.2.1 0 _ hp0 (by decide)).1
  exact this
/-! ### The free list invariant -/

theorem alloc_inv_init (s : Kernel) (hP : s.proc_table.length ≤ QUEUE_SIZE) :
    alloc_inv (kproc_init_tables s) := by
  obtain ⟨hw, hl⟩ := alloc_fill_spec queue_init (List.range s.proc_table.length) queue_init_wf
    (by simp [queue_init]; exact hP)
  rw [queue_init_toList, List.nil_append] at hl
  have hz : ∀ (e : Nat), e < s.proc_table.length →
      (kproc_init_tables s).proc_table[e]? = some proc_zero := by
    intro e he
    show (List.replicate s.proc_table.length proc_zero)[e]? = some proc_zero
    rw [List.getElem?_replicate, if_pos he]
  have hal : (kproc_init_tables s).proc_allocator.toList
      = (List.range s.proc_table.length).map (fun i : Nat => (i : Int)) := hl
  refine ⟨hw, ?_, ?_, ?_⟩
  · rw [hal]
    exact List.Nodup.map (fun a b h => by simpa using h) (List.nodup_range _)
  · intro i hi
    rw [hal, List.mem_map] at hi
    obtain ⟨k, hk, rfl⟩ := hi
    rw [List.mem_range] at hk
    exact ⟨by omega, proc_zero, by simpa using hz k hk, rfl⟩
  · intro e p hp _
    have he := lt_length_of_getElem? _ _ _ hp
    have hlen : (kproc_init_tables s).proc_table.length = s.proc_table.length := by
      show (List.replicate s.proc_table.length proc_zero).length = _
      simp
    rw [hal, List.mem_map]
    exact ⟨e, by rw [List.mem_range]; omega, rfl⟩

theorem alloc_inv_other (s s1 : Kernel) (hinv : alloc_inv s)
    (hsh : proc_shape s1 = proc_shape s) (hal : s1.proc_allocator = s.proc_allocator) :
    alloc_inv s1 := by
  refine ⟨by rw [hal]; exact hinv.wf, by rw [hal]; exact hinv.nodup, ?_, ?_⟩
  · intro i hi
    rw [hal] at hi
    obtain ⟨h0, p, hp, hst⟩ := hinv.free i hi
    have h1 : (proc_shape s)[i.toNat]? = some (p.pid, decide (p.state = proc_state.NONE)) := by
      unfold proc_shape
      rw [List.getElem?_map, hp]; rfl
    rw [← hsh] at h1
    unfold proc_shape at h1
    rw [List.getElem?_map] at h1
    cases hp1 : s1.proc_table[i.toNat]? with
    | none => rw [hp1] at h1; cases h1
    | some p1 =>
      rw [hp1] at h1
      simp only [Option.map_some', Option.some.injEq, Prod.mk.injEq, decide_eq_decide] at h1
      exact ⟨h0, p1, rfl, h1.2.mpr hst⟩
  · intro e p1 hp1 hst
    obtain ⟨p, hp, -, hiff⟩ := proc_shape_getElem s s1 hsh e p1 hp1
    rw [hal]
    exact hinv.listed e p hp (hiff.mpr hst)

theorem alloc_inv_create (env : create_env) (s s1 : Kernel) (proc_ptr : Nat)
    (proc_name : Option (List Nat)) (proc_type rc : Int) (hinv : alloc_inv s)
    (h : kproc_create env s proc_ptr proc_name proc_type = some (s1, rc)) :
    alloc_inv s1 := by
  rcases kproc_create_cases env s s1 proc_ptr proc_name proc_type rc h with
    ⟨hs, -, -⟩ | ⟨i, q, rq, p0, pc, hout, hi0, hp0, -, hpid, hst, -, -, htb, hnp, hal, -⟩
  · rw [hs]; exact hinv
  · obtain ⟨hqw, hql⟩ := queue_out_some_spec s.proc_allocator q i hinv.wf hout
    have hnd := hinv.nodup
    rw [hql] at hnd
    have hndc := List.nodup_cons.mp hnd
    have hpcl : pc.state ≠ proc_state.NONE := by rw [hst]; decide
    refine ⟨by rw [hal]; exact hqw, by rw [hal]; exact hndc.2, ?_, ?_⟩
    · intro j hj
      rw [hal] at hj
      obtain ⟨hj0, p, hp, hs0⟩ := hinv.free j (by rw [hql]; exact List.mem_cons_of_mem _ hj)
      have hne : i.toNat ≠ j.toNat := by
        intro heq
        have : i = j := by omega
        rw [this] at hndc
        exact hndc.1 hj
      exact ⟨hj0, p, by rw [htb, List.getElem?_set_ne hne]; exact hp, hs0⟩
    · intro e p hp hs0
      rw [htb] at hp
      rcases getElem?_set_cases _ _ _ _ _ hp with ⟨-, rfl⟩ | ⟨hne, hp1⟩
      · exact absurd hs0 hpcl
      · have := hinv.listed e p hp1 hs0
        rw [hql] at this
        rw [hal]
        rcases List.mem_cons.mp this with h1 | h1
        · exfalso
          apply hne
          rw [← h1]
          rfl
        · exact h1

/-- With an entry in use, the free list of a table of at most `QUEUE_SIZE` entries is
not full. -/
theorem alloc_inv_room (s : Kernel) (hinv : alloc_inv s) (hP : s.proc_table.length ≤ QUEUE_SIZE)
    (e : Nat) (p : proc_t) (hp : s.proc_table[e]? = some p) (hst : p.state ≠ proc_state.NONE) :
    s.proc_allocator.size < QUEUE_SIZE := by
  have helt := lt_length_of_getElem? _ _ _ hp
  have hnd : (s.proc_allocator.toList.map Int.toNat).Nodup := by
    refine List.Nodup.map_on ?_ hinv.nodup
    intro x hx y hy hxy
    have := (hinv.free x hx).1
    have := (hinv.free y hy).1
    omega
  have hsub : s.proc_allocator.toList.map Int.toNat ⊆ (List.range s.proc_table.length).erase e := by
    intro k hk
    rw [List.mem_map] at hk
    obtain ⟨i, hi, rfl⟩ := hk
    obtain ⟨-, q, hq, hq0⟩ := hinv.free i hi
    have hlt := lt_length_of_getElem? _ _ _ hq
    have hne : i.toNat ≠ e := by
      intro heq
      rw [heq, hp] at hq
      injection hq with hq
      rw [hq] at hst
      exact hst hq0
    exact (List.mem_erase_of_ne hne).mpr (List.mem_range.mpr hlt)
  have hle := (List.subperm_of_subset hnd hsub).length_le
  rw [List.length_map, queue_toList_length,
    List.length_erase_of_mem (List.mem_range.mpr helt), List.length_range] at hle
  omega

theorem alloc_inv_destroy (s s1 : Kernel) (e : Nat) (rc : Int) (dead : List Int)
    (hinv : alloc_inv s) (hpinv : pid_inv s dead) (hP : s.proc_table.length ≤ QUEUE_SIZE)
    (h : kproc_destroy s (some e) = some (s1, rc)) : alloc_inv s1 := by
  obtain ⟨p, hp, hc⟩ := kproc_destroy_table s s1 e rc h
  rcases hc with ⟨-, hs, -⟩ | ⟨hpid, -, htb, -, s2, entry, hsh, hnp2, hal2, hent, hal⟩
  · rw [hs]; exact hinv
  · have hlive : p.state ≠ proc_state.NONE := fun h0 => hpid (hpinv.free e p hp h0)
    have hpinv2 := pid_inv_other s s2 dead hpinv hsh hnp2 hal2
    have helt := lt_length_of_getElem? _ _ _ hp
    have hlen2 := proc_shape_length s s2 hsh
    obtain ⟨p2, hp2⟩ : ∃ p2, s2.proc_table[e]? = some p2 :=
      ⟨_, List.getElem?_eq_getElem (by rw [hlen2]; exact helt)⟩
    obtain ⟨p0, hp0, hp0pid, hp0iff⟩ := proc_shape_getElem s s2 hsh e p2 hp2
    rw [hp] at hp0
    injection hp0 with hp0
    subst hp0
    have hlive2 : p2.state ≠ proc_state.NONE := fun h0 => hlive (hp0iff.mpr h0)
    have hfind := pid_inv_lookup s2 dead hpinv2 e p2 hp2 hlive2
    have hentry : entry = (e : Int) := by
      simp only [proc_to_entry, hp2, hfind, Option.some.injEq] at hent
      exact hent.symm
    subst hentry
    have hroom := alloc_inv_room s hinv hP e p hp hlive
    obtain ⟨q1, hq1, hq1w, hq1l, -⟩ := queue_in_spec s.proc_allocator (e : Int) hinv.wf hroom
    rw [hq1, Option.getD_some] at hal
    have hnotin : (e : Int) ∉ s.proc_allocator.toList := by
      intro hmem
      obtain ⟨-, q, hq, hq0⟩ := hinv.free _ hmem
      rw [Int.toNat_ofNat, hp] at hq
      injection hq with hq
      rw [hq] at hlive
      exact hlive hq0
    refine ⟨by rw [hal]; exact hq1w, ?_, ?_, ?_⟩
    · rw [hal, hq1l]
      refine List.nodup_append.mpr ⟨hinv.nodup, List.nodup_singleton _, ?_⟩
      intro x hx hx1
      rw [List.mem_singleton] at hx1
      subst hx1
      exact hnotin hx
    · intro i hi
      rw [hal, hq1l, List.mem_append, List.mem_singleton] at hi
      rcases hi with hi | hi
      · obtain ⟨h0, q, hq, hq0⟩ := hinv.free i hi
        have hne : e ≠ i.toNat := by
          intro heq
          apply hnotin
          have : (e : Int) = i := by omega
          rw [this]; exact hi
        exact ⟨h0, q, by rw [htb, List.getElem?_set_ne hne]; exact hq, hq0⟩
      · subst hi
        refine ⟨by omega, proc_zero, ?_, rfl⟩
        rw [htb, Int.toNat_ofNat]
        exact List.getElem?_set_self helt
    · intro e1 p1 hp1 hs0
      rw [htb] at hp1
      rw [hal, hq1l, List.mem_append, List.mem_singleton]
      rcases getElem?_set_cases _ _ _ _ _ hp1 with ⟨he, -⟩ | ⟨-, hp3⟩
      · right; rw [he]
      · left; exact hinv.listed e1 p1 hp3 hs0

theorem proc_reach_length (s : Kernel) (dead : List Int) (h : proc_reach s dead) :
    ∃ s0 : Kernel, s.proc_table.length = s0.proc_table.length ∧
      (s0.proc_table.length ≤ QUEUE_SIZE → alloc_inv s) := by
  induction h with
  | init s0 h0 =>
    refine ⟨s0, ?_, alloc_inv_init s0⟩
    show (List.replicate s0.proc_table.length proc_zero).length = _
    simp
  | other s s1 dead _ hsh hnp hal ih =>
    obtain ⟨s0, hlen, hinv⟩ := ih
    exact ⟨s0, by rw [proc_shape_length s s1 hsh, hlen],
      fun hP => alloc_inv_other s s1 (hinv hP) hsh hal⟩
  | create env s s1 ptr name ty rc dead _ hstep ih =>
    obtain ⟨s0, hlen, hinv⟩ := ih
    refine ⟨s0, ?_, fun hP => alloc_inv_create env s s1 ptr name ty rc (hinv hP) hstep⟩
    rcases kproc_create_cases env s s1 ptr name ty rc hstep with
      ⟨hs, -, -⟩ | ⟨i, q, rq, p0, pc, -, -, -, -, -, -, -, -, htb, -⟩
    · rw [hs, hlen]
    · rw [htb, List.length_set, hlen]
  | destroy s s1 e p rc dead hr hp hstep ih =>
    obtain ⟨s0, hlen, hinv⟩ := ih
    refine ⟨s0, ?_, fun hP => alloc_inv_destroy s s1 e rc dead (hinv hP)
      (proc_reach_pid_inv s dead hr) (by rw [hlen]; exact hP) hstep⟩
    obtain ⟨p0, -, hc⟩ := kproc_destroy_table s s1 e rc hstep
    rcases hc with ⟨-, hs, -⟩ | ⟨-, -, htb, -⟩
    · rw [hs, hlen]
    · rw [htb, List.length_set, hlen]

/-- C32. Assuming `PROC_MAX <= QUEUE_SIZE` (`PROC_MAX` is the length of the process
table): in every state reachable from the seeding of `kproc_init` by `kproc_create`
and `kproc_destroy`, every index of the free list is the index of a table entry in
state NONE (so that free and allocated indices are disjoint and all are below
`PROC_MAX`), each free index occurs once, and every table entry in state NONE has its
index in the free list (so that free and allocated indices together are all of
`0 .. PROC_MAX-1`). -/
theorem C32_free_list (s : Kernel) (dead : List Int) (h : proc_reach s dead)
    (hP : s.proc_table.length ≤ QUEUE_SIZE) :
    s.proc_allocator.toList.Nodup ∧
    (∀ i ∈ s.proc_allocator.toList, 0 ≤ i ∧ i < s.proc_table.length ∧
      ∃ p, s.proc_table[i.toNat]? = some p ∧ p.state = proc_state.NONE) ∧
    (∀ (e : Nat), e < s.proc_table.length →
      (∃ p, s.proc_table[e]? = some p ∧ p.state ≠ proc_state.NONE) ∨
        (e : Int) ∈ s.proc_allocator.toList) := by
  obtain ⟨s0, hlen, hinv⟩ := proc_reach_length s dead h
  have hI := hinv (by rw [← hlen]; exact hP)
  refine ⟨hI.nodup, ?_, ?_⟩
  · intro i hi
    obtain ⟨h0, p, hp, hst⟩ := hI.free i hi
    have := lt_length_of_getElem? _ _ _ hp
    exact ⟨h0, by omega, p, hp, hst⟩
  · intro e he
    by_cases hst : (s.proc_table[e]).state = proc_state.NONE
    · exact Or.inr (hI.listed e _ (List.getElem?_eq_getElem he) hst)
    · exact Or.inl ⟨_, List.getElem?_eq_getElem he, hst⟩

set_option maxRecDepth 1000000 in
/-- Witness for C32: on the four-entry table, after two creations and the destruction
of the second process the free list is `[2, 3, 1]`. -/
theorem C32_witness :
    ∃ s, ex_exit_one.map (fun r => r.1) = some s ∧
      s.proc_allocator.toList = [2, 3, 1] ∧ s.proc_allocator.toList.Nodup ∧
      ((∃ p, s.proc_table[0]? = some p ∧ p.state ≠ proc_state.NONE) ∨
        ((0 : Nat) : Int) ∈ s.proc_allocator.toList) := by
  have r0 : proc_reach ex_boot [] := proc_reach.init (scheduler_init (ex_kernel ex_table)) rfl
  have h1 := option_eq_some_getD (kproc_create ex_env ex_boot 4096 (some [105, 100, 108, 101]) 0)
    (ex_boot, 0) (by decide)
  have r1 := proc_reach.create ex_env _ _ 4096 (some [105, 100, 108, 101]) 0 _ [] r0 h1
  have h2 := option_eq_some_getD (kproc_create ex_env
    ((kproc_create ex_env ex_boot 4096 (some [105, 100, 108, 101]) 0).getD (ex_boot, 0)).1
    4096 (some [112]) 1) (ex_boot, 0) (by decide)
  have r2 := proc_reach.create ex_env _ _ 4096 (some [112]) 1 _ [] r1 h2
  have hp := option_eq_some_getD (((kproc_create ex_env
    ((kproc_create ex_env ex_boot 4096 (some [105, 100, 108, 101]) 0).getD (ex_boot, 0)).1
    4096 (some [112]) 1).getD (ex_boot, 0)).1.proc_table[1]?) proc_zero (by decide)
  have h3 := option_eq_some_getD (kproc_destroy ((kproc_create ex_env
    ((kproc_create ex_env ex_boot 4096 (some [105, 100, 108, 101]) 0).getD (ex_boot, 0)).1
    4096 (some [112]) 1).getD (ex_boot, 0)).1 (some 1)) (ex_boot, 0) (by decide)
  have r3 := proc_reach.destroy _ _ 1 _ _ [] r2 hp h3
  have hc := C32_free_list _ _ r3 (by decide)
  exact ⟨_, by decide, by decide, hc.1, hc.2.2 0 (by decide)⟩

/-! ### The invariant of the PCB fields -/

theorem tsame_of_table_eq (s s1 : Kernel) (h : s1.proc_table = s.proc_table) : tsame s s1 := by
  refine ⟨by rw [h], ?_⟩
  intro e p1 hp1
  rw [h] at hp1
  exact ⟨p1, hp1, rfl, Iff.rfl, rfl, fun hst => Or.inl hst⟩

theorem tsame_set (s s1 : Kernel) (e : Nat) (p p1 : proc_t)
    (hp : s.proc_table[e]? = some p) (ht : s1.proc_table = s.proc_table.set e p1)
    (hpid : p1.pid = p.pid)
    (hlive : p1.state = proc_state.NONE ↔ p.state = proc_state.NONE)
    (hsq : p1.scheduler_queue = p.scheduler_queue)
    (hact : p1.state = proc_state.ACTIVE →
      p.state = proc_state.ACTIVE ∨ p1.scheduler_queue = some queue_ref.run) :
    tsame s s1 := by
  refine ⟨by rw [ht, List.length_set], ?_⟩
  intro e1 p2 hp2
  rw [ht] at hp2
  rcases getElem?_set_cases _ _ _ _ _ hp2 with ⟨he, hp2e⟩ | ⟨-, hp2e⟩
  · subst he
    subst hp2e
    exact ⟨p, hp, hpid, hlive, hsq, hact⟩
  · exact ⟨p2, hp2e, rfl, Iff.rfl, rfl, fun hst => Or.inl hst⟩

theorem tsame_trans (s s1 s2 : Kernel) (h1 : tsame s s1) (h2 : tsame s1 s2) : tsame s s2 := by
  refine ⟨by rw [h2.1, h1.1], ?_⟩
  intro e p2 hp2
  obtain ⟨p1, hp1, hpid1, hl1, hsq1, ha1⟩ := h2.2 e p2 hp2
  obtain ⟨p, hp, hpid, hl, hsq, ha⟩ := h1.2 e p1 hp1
  refine ⟨p, hp, by rw [hpid1, hpid], hl1.trans hl, by rw [hsq1, hsq], ?_⟩
  intro hst
  rcases ha1 hst with h | h
  · rcases ha h with h3 | h3
    · exact Or.inl h3
    · exact Or.inr (by rw [hsq1]; exact h3)
  · exact Or.inr h

/-- The invariant is kept by a step that only removes pids from queues and keeps the
pid, the use and the `scheduler_queue` of every PCB. -/
theorem pcb_inv_shrink (s s1 : Kernel) (hinv : pcb_inv s) (hsub : qsub s s1)
    (ht : tsame s s1) (hnp : s1.next_pid = s.next_pid)
    (hal : s1.proc_allocator = s.proc_allocator) : pcb_inv s1 := by
  obtain ⟨hlen, ht⟩ := ht
  refine ⟨?_, ?_, ?_, ?_, ?_, ?_, ?_, by rw [hal]; exact hinv.awf,
    by rw [hal]; exact hinv.anodup, ?_⟩
  · intro e p1 hp1 hst
    obtain ⟨p, hp, hpid, hl, -, -⟩ := ht e p1 hp1
    rw [hpid]; exact hinv.free e p hp (hl.mp hst)
  · intro e p1 hp1 hst
    obtain ⟨p, hp, hpid, hl, -, -⟩ := ht e p1 hp1
    rw [hpid, hnp]; exact hinv.used e p hp (fun h => hst (hl.mpr h))
  · intro e e1 p1 p2 hp1 hp2 hst1 hst2 heq
    obtain ⟨p, hp, hpid, hl, -, -⟩ := ht e p1 hp1
    obtain ⟨p0, hp0, hpid0, hl0, -, -⟩ := ht e1 p2 hp2
    exact hinv.distinct e e1 p p0 hp hp0 (fun h => hst1 (hl.mpr h))
      (fun h => hst2 (hl0.mpr h)) (by rw [← hpid, ← hpid0]; exact heq)
  · intro e p1 hp1
    have he : 0 < s1.proc_table.length := by
      have := lt_length_of_getElem? _ _ _ hp1
      omega
    obtain ⟨p2, hp2⟩ : ∃ p2, s1.proc_table[0]? = some p2 :=
      ⟨s1.proc_table[0], List.getElem?_eq_getElem he⟩
    obtain ⟨p, hp, hpid, hl, hsq, -⟩ := ht 0 p2 hp2
    obtain ⟨p0, hp0, h1, h2, h3⟩ := hinv.idle 0 p hp
    rw [hp] at hp0
    injection hp0 with hp0
    subst hp0
    exact ⟨p2, hp2, by rw [hpid]; exact h1, fun h => h2 (hl.mp h), by rw [hsq]; exact h3⟩
  · intro r q1 x hq1 hx
    obtain ⟨-, -, q, hq, hs⟩ := hsub r q1 hq1
    rw [hnp]; exact hinv.bound r q x hq (hs x hx)
  · intro r q1 e p1 hq1 hp1 hst hmem
    obtain ⟨-, -, q, hq, hs⟩ := hsub r q1 hq1
    obtain ⟨p, hp, hpid, hl, hsq, -⟩ := ht e p1 hp1
    rw [hsq]
    exact hinv.sq r q e p hq hp (fun h => hst (hl.mpr h)) (by rw [← hpid]; exact hs _ hmem)
  · intro e p1 hp1 hst
    obtain ⟨p, hp, hpid, hl, hsq, ha⟩ := ht e p1 hp1
    rcases ha hst with h | h
    · rw [hsq]; exact hinv.act e p hp h
    · exact h
  · intro i hi
    rw [hal] at hi
    obtain ⟨h0, p, hp, hst⟩ := hinv.afree i hi
    have hlt : i.toNat < s1.proc_table.length := by
      rw [hlen]; exact lt_length_of_getElem? _ _ _ hp
    obtain ⟨p2, hp2⟩ : ∃ p2, s1.proc_table[i.toNat]? = some p2 :=
      ⟨s1.proc_table[i.toNat], List.getElem?_eq_getElem hlt⟩
    obtain ⟨p0, hp0, -, hl, -, -⟩ := ht i.toNat p2 hp2
    rw [hp] at hp0
    injection hp0 with hp0
    subst hp0
    exact ⟨h0, p2, hp2, hl.mpr hst⟩

/-- The invariant is kept by a step that changes no queue. -/
theorem pcb_inv_same (s s1 : Kernel) (hok : queues_ok s) (hinv : pcb_inv s)
    (hq : ∀ r, s1.queue r = s.queue r) (ht : tsame s s1) (hnp : s1.next_pid = s.next_pid)
    (hal : s1.proc_allocator = s.proc_allocator) : pcb_inv s1 :=
  pcb_inv_shrink s s1 hinv (qsub_of_queue_eq s s1 hok hq) ht hnp hal

/-- The invariant is kept by a step that removes pids from queues and may then append
the pid `x`, held by no queue and below `next_pid`, to the queue `r2`, when the PCB
in use with pid `x` gets `scheduler_queue` naming `r2`. -/
theorem pcb_inv_step (s s1 s2 : Kernel) (x : Int) (r2 : queue_ref)
    (hinv : pcb_inv s) (hsub : qsub s s1)
    (hx : ∀ r q, s1.queue r = some q → x ∉ q.toList)
    (hadd : qadd x r2 s1 s2) (hz : x ≠ 0 ∨ r2 = queue_ref.run)
    (ht : tstep x r2 s s2) (hxb : x < s.next_pid) (hnp : s2.next_pid = s.next_pid)
    (hal : s2.proc_allocator = s.proc_allocator) : pcb_inv s2 := by
  obtain ⟨hlen, ht⟩ := ht
  have hmem : ∀ r q2 pid, s2.queue r = some q2 → pid ∈ q2.toList →
      (pid ≠ x ∧ ∃ q, s.queue r = some q ∧ pid ∈ q.toList) ∨ (pid = x ∧ r = r2) := by
    intro r q2 pid hq2 hp
    obtain ⟨-, q1, hq1, hl⟩ := hadd r q2 hq2
    obtain ⟨-, -, q, hq, hs⟩ := hsub r q1 hq1
    rcases hl with hl | ⟨hr, hl⟩
    · rw [hl] at hp
      refine Or.inl ⟨?_, q, hq, hs pid hp⟩
      intro hpx
      rw [hpx] at hp
      exact hx r q1 hq1 hp
    · rw [hl] at hp
      rcases List.mem_append.mp hp with hp | hp
      · refine Or.inl ⟨?_, q, hq, hs pid hp⟩
        intro hpx
        rw [hpx] at hp
        exact hx r q1 hq1 hp
      · exact Or.inr ⟨by simpa using hp, hr⟩
  refine ⟨?_, ?_, ?_, ?_, ?_, ?_, ?_, by rw [hal]; exact hinv.awf,
    by rw [hal]; exact hinv.anodup, ?_⟩
  · intro e p1 hp1 hst
    obtain ⟨p, hp, hpid, hl, -, -, -⟩ := ht e p1 hp1
    rw [hpid]; exact hinv.free e p hp (hl.mp hst)
  · intro e p1 hp1 hst
    obtain ⟨p, hp, hpid, hl, -, -, -⟩ := ht e p1 hp1
    rw [hpid, hnp]; exact hinv.used e p hp (fun h => hst (hl.mpr h))
  · intro e e1 p1 p2 hp1 hp2 hst1 hst2 heq
    obtain ⟨p, hp, hpid, hl, -, -, -⟩ := ht e p1 hp1
    obtain ⟨p0, hp0, hpid0, hl0, -, -, -⟩ := ht e1 p2 hp2
    exact hinv.distinct e e1 p p0 hp hp0 (fun h => hst1 (hl.mpr h))
      (fun h => hst2 (hl0.mpr h)) (by rw [← hpid, ← hpid0]; exact heq)
  · intro e p1 hp1
    have he : 0 < s2.proc_table.length := by
      have := lt_length_of_getElem? _ _ _ hp1
      omega
    obtain ⟨p2, hp2⟩ : ∃ p2, s2.proc_table[0]? = some p2 :=
      ⟨s2.proc_table[0], List.getElem?_eq_getElem he⟩
    obtain ⟨p, hp, hpid, hl, hsq, hsx, -⟩ := ht 0 p2 hp2
    obtain ⟨p0, hp0, h1, h2, h3⟩ := hinv.idle 0 p hp
    rw [hp] at hp0
    injection hp0 with hp0
    subst hp0
    have hlive : p2.state ≠ proc_state.NONE := fun h => h2 (hl.mp h)
    refine ⟨p2, hp2, by rw [hpid]; exact h1, hlive, ?_⟩
    rcases hsq with hsq | hsq
    · rw [hsq]; exact h3
    · rw [hsx hsq hlive]
      rcases hz with hz | hz
      · exact absurd (by rw [← hsq, hpid, h1]) hz
      · rw [hz]
  · intro r q2 y hq2 hy
    rw [hnp]
    rcases hmem r q2 y hq2 hy with ⟨-, q, hq, hyq⟩ | ⟨hyx, -⟩
    · exact hinv.bound r q y hq hyq
    · rw [hyx]; exact hxb
  · intro r q2 e p1 hq2 hp1 hst hm
    obtain ⟨p, hp, hpid, hl, hsq, hsx, -⟩ := ht e p1 hp1
    rcases hmem r q2 p1.pid hq2 hm with ⟨hne, q, hq, hyq⟩ | ⟨hyx, hr⟩
    · rcases hsq with hsq | hsq
      · rw [hsq]
        exact hinv.sq r q e p hq hp (fun h => hst (hl.mpr h)) (by rw [← hpid]; exact hyq)
      · exact absurd hsq hne
    · rw [hsx hyx hst, hr]
  · intro e p1 hp1 hst
    obtain ⟨p, hp, hpid, hl, -, -, ha⟩ := ht e p1 hp1
    rcases ha hst with ⟨h, hsq⟩ | h
    · rw [hsq]; exact hinv.act e p hp h
    · exact h
  · intro i hi
    rw [hal] at hi
    obtain ⟨h0, p, hp, hst⟩ := hinv.afree i hi
    have hlt : i.toNat < s2.proc_table.length := by
      rw [hlen]; exact lt_length_of_getElem? _ _ _ hp
    obtain ⟨p2, hp2⟩ : ∃ p2, s2.proc_table[i.toNat]? = some p2 :=
      ⟨s2.proc_table[i.toNat], List.getElem?_eq_getElem hlt⟩
    obtain ⟨p0, hp0, -, hl, -, -, -⟩ := ht i.toNat p2 hp2
    rw [hp] at hp0
    injection hp0 with hp0
    subst hp0
    exact ⟨h0, p2, hp2, hl.mpr hst⟩

/-- Replacing the PCB in use at entry `e`, with pid `x`, by one in use with the same
pid, not ACTIVE and with `scheduler_queue` naming `r2`. -/
theorem tstep_set (s s1 : Kernel) (e : Nat) (p p1 : proc_t) (x : Int) (r2 : queue_ref)
    (hinv : pcb_inv s) (hp : s.proc_table[e]? = some p) (hlive : p.state ≠ proc_state.NONE)
    (ht : s1.proc_table = s.proc_table.set e p1) (hpid : p1.pid = p.pid)
    (hlive1 : p1.state ≠ proc_state.NONE) (hx : p.pid = x)
    (hsq : p1.scheduler_queue = some r2) (hna : p1.state ≠ proc_state.ACTIVE) :
    tstep x r2 s s1 := by
  refine ⟨by rw [ht, List.length_set], ?_⟩
  intro e1 p2 hp2
  rw [ht] at hp2
  rcases getElem?_set_cases _ _ _ _ _ hp2 with ⟨he, hp2e⟩ | ⟨hne, hp2e⟩
  · subst he
    subst hp2e
    exact ⟨p, hp, hpid, ⟨fun h => absurd h hlive1, fun h => absurd h hlive⟩,
      Or.inr (by rw [hpid, hx]), fun _ _ => hsq, fun h => absurd h hna⟩
  · refine ⟨p2, hp2e, rfl, Iff.rfl, Or.inl rfl, ?_, fun h => Or.inl ⟨h, rfl⟩⟩
    intro hpx hst
    exact absurd (hinv.distinct e1 e p2 p hp2e hp hst hlive (by rw [hpx, hx])) hne
/-- The entry `pid_to_proc` finds is a PCB in use. -/
theorem found_live (s : Kernel) (x : Int) (e : Nat) (p : proc_t) (hinv : pcb_inv s)
    (h : pid_to_proc s x = some e) (hp : s.proc_table[e]? = some p) :
    p.state ≠ proc_state.NONE := by
  intro hst
  obtain ⟨p1, hp1, hpx⟩ := pid_to_proc_some s x e h
  rw [hp] at hp1
  injection hp1 with hp1
  subst hp1
  have h0 : p.pid = 0 := hinv.free e p hp hst
  obtain ⟨p0, hp0, hpid0, hlive0, -⟩ := hinv.idle e p hp
  have hfirst := pid_to_proc_from_first 0 s.proc_table 0 0 p0 hp0 hpid0
    (by intro j pj hj; omega)
  have hx0 : x = 0 := by rw [← hpx, h0]
  rw [hx0] at h
  unfold pid_to_proc at h
  rw [hfirst] at h
  injection h with h
  have he : e = 0 := by omega
  subst he
  rw [hp] at hp0
  injection hp0 with hp0
  subst hp0
  exact hlive0 hst

theorem scheduler_remove_frame (s s2 : Kernel) (e : Nat)
    (h : scheduler_remove s (some e) = some s2) :
    s2.next_pid = s.next_pid ∧ s2.proc_allocator = s.proc_allocator := by
  obtain ⟨p, -, -, h1, h2, -⟩ := scheduler_remove_cases s s2 e h
  exact ⟨h1, h2⟩

/-- The invariant of the PCB fields is kept when the active process, in state ACTIVE,
blocks on the queue `r2`. -/
theorem pcb_inv_block (s s1 s2 : Kernel) (a : Nat) (p p1 : proc_t) (r2 : queue_ref)
    (q0 q1 : queue_t) (hinv : sched_inv s) (hpcb : pcb_inv s)
    (ha : s.active_proc = some a) (hp : s.proc_table[a]? = some p)
    (hst : p.state = proc_state.ACTIVE) (hz : p.pid ≠ 0 ∨ r2 = queue_ref.run)
    (hsub : qsub s s1) (h0 : s1.queue r2 = some q0)
    (hq : ∀ r, s2.queue r = if r = r2 then some q1 else s1.queue r)
    (hw : q1.wf) (hl : q1.toList = q0.toList ∨ q1.toList = q0.toList ++ [p.pid])
    (ht : s2.proc_table = s.proc_table.set a p1) (hst1 : p1.state ≠ proc_state.ACTIVE)
    (hpid1 : p1.pid = p.pid) (hlive1 : p1.state ≠ proc_state.NONE)
    (hsq1 : p1.scheduler_queue = some r2) (hnp : s2.next_pid = s.next_pid)
    (hal : s2.proc_allocator = s.proc_allocator) : pcb_inv s2 := by
  have hlive : p.state ≠ proc_state.NONE := by rw [hst]; decide
  refine pcb_inv_step s s1 s2 p.pid r2 hpcb hsub ?_
    (qadd_of_update s1 s2 r2 q0 q1 p.pid (qsub_ok s s1 hsub) h0 hq hw hl) hz
    (tstep_set s s2 a p p1 p.pid r2 hpcb hp hlive ht hpid1 hlive1 rfl hsq1 hst1)
    (hpcb.used a p hp hlive) hnp hal
  intro r q hq1 hmem
  obtain ⟨-, -, q2, hq2, hs⟩ := hsub r q hq1
  exact hinv.unqueued a p ha hp hst r q2 hq2 (hs _ hmem)

/-- The invariant of the PCB fields is kept when a queued pid is woken. -/
theorem pcb_inv_wake (s s1 s2 s3 : Kernel) (x : Int) (rest : List Int)
    (r0 r2 : queue_ref) (q0 q1 : queue_t) (hinv : sched_inv s) (hpcb : pcb_inv s)
    (h0 : s.queue r0 = some q0) (hx : q0.toList = x :: rest)
    (hq1 : ∀ r, s1.queue r = if r = r0 then some q1 else s.queue r)
    (hw1 : q1.wf) (hl1 : q1.toList = rest)
    (hsub : qsub s1 s2) (hadd : qadd x r2 s2 s3) (hz : x ≠ 0 ∨ r2 = queue_ref.run)
    (ht : tstep x r2 s s3) (hnp : s3.next_pid = s.next_pid)
    (hal : s3.proc_allocator = s.proc_allocator) : pcb_inv s3 := by
  have hnd := (hinv.ok r0 q0 h0).2
  rw [hx] at hnd
  have hnd1 := List.nodup_cons.mp hnd
  have hsub1 : qsub s s1 :=
    qsub_of_update s s1 r0 q0 q1 hinv.ok h0 hq1 hw1 (by rw [hl1]; exact hnd1.2)
      (by intro pid hpid; rw [hl1] at hpid; rw [hx]; exact List.mem_cons_of_mem _ hpid)
  refine pcb_inv_step s s2 s3 x r2 hpcb (qsub_trans s s1 s2 hsub1 hsub) ?_ hadd hz ht
    (hpcb.bound r0 q0 x h0 (by rw [hx]; exact List.mem_cons_self _ _)) hnp hal
  intro r q hq hmem
  obtain ⟨-, -, q2, hq2, hs⟩ := hsub r q hq
  have hmem2 := hs _ hmem
  rw [hq1 r] at hq2
  by_cases hr : r = r0
  · rw [if_pos hr] at hq2
    injection hq2 with hq2
    subst hq2
    rw [hl1] at hmem2
    exact hnd1.1 hmem2
  · rw [if_neg hr] at hq2
    exact hr (hinv.disjoint r r0 q2 q0 x hq2 h0 hmem2
      (by rw [hx]; exact List.mem_cons_self _ _))

theorem ksem_init_pcb (s s1 : Kernel) (value id0 rc : Int) (hinv : sched_inv s)
    (hpcb : pcb_inv s) (h : ksem_init s value id0 = some (s1, rc)) : pcb_inv s1 := by
  unfold ksem_init at h
  simp only [] at h
  split at h
  · injection h with h
    injection h with h _
    exact pcb_inv_same s s1 hinv.ok hpcb (fun r => queue_eq_of_fields s s1 (by rw [← h])
      (by rw [← h]) (by rw [← h]) (by rw [← h]) r) (tsame_of_table_eq s s1 (by rw [← h]))
      (by rw [← h]) (by rw [← h])
  · split at h
    · cases h
    · split at h
      · cases h
      · rename_i m hm
        injection h with h
        injection h with h _
        exact pcb_inv_same s s1 hinv.ok hpcb
          (fun r => queue_eq_sem_set s s1 _ m { m with allocated := 1 } (by rw [← h]) (by rw [← h]) (by rw [← h])
            (by rw [← h]) hm rfl r)
          (tsame_of_table_eq s s1 (by rw [← h])) (by rw [← h]) (by rw [← h])

theorem kmutex_init_pcb (s s1 : Kernel) (id0 rc : Int) (hinv : sched_inv s)
    (hpcb : pcb_inv s) (h : kmutex_init s id0 = some (s1, rc)) : pcb_inv s1 := by
  unfold kmutex_init at h
  simp only [] at h
  split at h
  · injection h with h
    injection h with h _
    exact pcb_inv_same s s1 hinv.ok hpcb (fun r => queue_eq_of_fields s s1 (by rw [← h])
      (by rw [← h]) (by rw [← h]) (by rw [← h]) r) (tsame_of_table_eq s s1 (by rw [← h]))
      (by rw [← h]) (by rw [← h])
  · split at h
    · cases h
    · split at h
      · cases h
      · rename_i m hm
        injection h with h
        injection h with h _
        exact pcb_inv_same s s1 hinv.ok hpcb
          (fun r => queue_eq_mutex_set s s1 _ m { m with allocated := 1 } (by rw [← h]) (by rw [← h]) (by rw [← h])
            (by rw [← h]) hm rfl r)
          (tsame_of_table_eq s s1 (by rw [← h])) (by rw [← h]) (by rw [← h])

theorem ksem_destroy_pcb (s s1 : Kernel) (id rc : Int) (hinv : sched_inv s)
    (hpcb : pcb_inv s) (h : ksem_destroy s id = some (s1, rc)) : pcb_inv s1 := by
  unfold ksem_destroy at h
  split at h
  · cases h
  · split at h
    · cases h
    · rename_i m hm
      split at h
      · injection h with h
        injection h with h _
        rw [← h]; exact hpcb
      · split at h
        · injection h with h
          injection h with h _
          rw [← h]; exact hpcb
        · injection h with h
          injection h with h _
          have hq0 : s.queue (queue_ref.sem id.toNat) = some m.wait_queue := by
            simp [Kernel.queue, hm]
          refine pcb_inv_shrink s s1 hpcb
            (qsub_of_update s s1 (queue_ref.sem id.toNat) m.wait_queue sem_zero.wait_queue
              hinv.ok hq0
              (fun r => queue_sem_update s s1 id.toNat sem_zero (by rw [← h]) (by rw [← h])
                (by rw [← h]) (by rw [← h]) (lt_length_of_getElem? _ _ _ hm) r)
              queue_init_wf (by rw [show sem_zero.wait_queue = queue_init from rfl,
                queue_init_toList]; exact List.nodup_nil)
              (by rw [show sem_zero.wait_queue = queue_init from rfl, queue_init_toList]
                  intro pid hpid; cases hpid))
            (tsame_of_table_eq s s1 (by rw [← h])) (by rw [← h]) (by rw [← h])

theorem kmutex_destroy_pcb (s s1 : Kernel) (id rc : Int) (hinv : sched_inv s)
    (hpcb : pcb_inv s) (h : kmutex_destroy s id = some (s1, rc)) : pcb_inv s1 := by
  unfold kmutex_destroy at h
  split at h
  · cases h
  · split at h
    · cases h
    · rename_i m hm
      split at h
      · injection h with h
        injection h with h _
        rw [← h]; exact hpcb
      · split at h
        · injection h with h
          injection h with h _
          rw [← h]; exact hpcb
        · injection h with h
          injection h with h _
          have hq0 : s.queue (queue_ref.mutex id.toNat) = some m.wait_queue := by
            simp [Kernel.queue, hm]
          refine pcb_inv_shrink s s1 hpcb
            (qsub_of_update s s1 (queue_ref.mutex id.toNat) m.wait_queue mutex_zero.wait_queue
              hinv.ok hq0
              (fun r => queue_mutex_update s s1 id.toNat mutex_zero (by rw [← h]) (by rw [← h])
                (by rw [← h]) (by rw [← h]) (lt_length_of_getElem? _ _ _ hm) r)
              queue_init_wf (by rw [show mutex_zero.wait_queue = queue_init from rfl,
                queue_init_toList]; exact List.nodup_nil)
              (by rw [show mutex_zero.wait_queue = queue_init from rfl, queue_init_toList]
                  intro pid hpid; cases hpid))
            (tsame_of_table_eq s s1 (by rw [← h])) (by rw [← h]) (by rw [← h])

theorem ksem_wait_pcb (s s1 : Kernel) (id rc : Int) (a : Nat) (p : proc_t)
    (hinv : sched_inv s) (hpcb : pcb_inv s) (ha : s.active_proc = some a)
    (hp : s.proc_table[a]? = some p)
    (hst : p.state = proc_state.ACTIVE) (hpid : p.pid ≠ 0)
    (h : ksem_wait s id = some (s1, rc)) : pcb_inv s1 := by
  by_cases hidx : id < 0
  · simp [ksem_wait, ha, hidx] at h
  cases hm : s.semaphores[id.toNat]? with
  | none => simp [ksem_wait, ha, hidx, hm] at h
  | some m =>
    have hilt := lt_length_of_getElem? _ _ _ hm
    have hq0 : s.queue (queue_ref.sem id.toNat) = some m.wait_queue := by
      simp [Kernel.queue, hm]
    by_cases hc : m.count = 0
    · have hnp : ¬ (0 : Int) > 0 := by omega
      simp only [ksem_wait, ha, hidx, if_false, hm, hp, hc, if_true,
        List.getElem?_set_self hilt, hnp, List.set_set, Option.some.injEq,
        Prod.mk.injEq] at h
      obtain ⟨hs1, -⟩ := h
      have h1 : s1.run_queue = s.run_queue := by rw [← hs1]
      have h2 : s1.sleep_queue = s.sleep_queue := by rw [← hs1]
      have h3 : s1.mutexes = s.mutexes := by rw [← hs1]
      have h4 : s1.semaphores = s.semaphores.set id.toNat
          { m with count := 0,
                   wait_queue := (queue_in m.wait_queue p.pid).getD m.wait_queue } := by
        rw [← hs1]
      have h5 : s1.proc_table = s.proc_table.set a (sem_parked id.toNat p) := by rw [← hs1]; rfl
      have hspec := queue_in_getD_spec m.wait_queue p.pid (hinv.ok _ _ hq0).1
      exact pcb_inv_block s s s1 a p (sem_parked id.toNat p) (queue_ref.sem id.toNat)
        m.wait_queue ((queue_in m.wait_queue p.pid).getD m.wait_queue) hinv hpcb ha hp hst
        (Or.inl hpid) (qsub_refl s hinv.ok) hq0
        (fun r => queue_sem_update s s1 id.toNat _ h1 h2 h3 h4 hilt r)
        hspec.1 hspec.2 h5 (by simp [sem_parked]) rfl (by simp [sem_parked]) rfl
        (by rw [← hs1]) (by rw [← hs1])
    · simp only [ksem_wait, ha, hidx, if_false, hm, hp, hc, Option.some.injEq,
        Prod.mk.injEq] at h
      obtain ⟨hs1, -⟩ := h
      have h1 : s1.run_queue = s.run_queue := by rw [← hs1]
      have h2 : s1.sleep_queue = s.sleep_queue := by rw [← hs1]
      have h3 : s1.mutexes = s.mutexes := by rw [← hs1]
      have h4 : s1.semaphores = s.semaphores.set id.toNat
          (if m.count > 0 then { m with count := m.count - 1 } else m) := by
        rw [← hs1]
      have h5 : s1.proc_table = s.proc_table := by rw [← hs1]
      refine pcb_inv_same s s1 hinv.ok hpcb ?_ (tsame_of_table_eq s s1 h5) (by rw [← hs1])
        (by rw [← hs1])
      intro r
      rw [queue_sem_update s s1 id.toNat _ h1 h2 h3 h4 hilt r]
      by_cases hr : r = queue_ref.sem id.toNat
      · rw [if_pos hr, hr, hq0]
        split <;> rfl
      · rw [if_neg hr]

theorem ksem_post_pcb (s s1 : Kernel) (id rc : Int) (hinv : sched_inv s) (hpcb : pcb_inv s)
    (h : ksem_post s id = some (s1, rc)) : pcb_inv s1 := by
  by_cases hidx : id < 0
  · simp [ksem_post, hidx] at h
  cases hm : s.semaphores[id.toNat]? with
  | none => simp [ksem_post, hidx, hm] at h
  | some m =>
    have hilt := lt_length_of_getElem? _ _ _ hm
    have hq0 : s.queue (queue_ref.sem id.toNat) = some m.wait_queue := by
      simp [Kernel.queue, hm]
    cases hout : queue_out m.wait_queue with
    | none =>
      simp only [ksem_post, hidx, if_false, hm, hout, Option.some.injEq, Prod.mk.injEq] at h
      obtain ⟨hs1, -⟩ := h
      exact pcb_inv_same s s1 hinv.ok hpcb
        (fun r => queue_eq_sem_set s s1 id.toNat m { m with count := wrap_int (m.count + 1) }
          (by rw [← hs1]) (by rw [← hs1]) (by rw [← hs1]) (by rw [← hs1]) hm rfl r)
        (tsame_of_table_eq s s1 (by rw [← hs1])) (by rw [← hs1]) (by rw [← hs1])
    | some r0 =>
      obtain ⟨x, q⟩ := r0
      obtain ⟨sA, hsA⟩ : ∃ sA : Kernel, sA =
          { s with semaphores := s.semaphores.set id.toNat
                     { m with count := wrap_int (m.count + 1), wait_queue := q } } := ⟨_, rfl⟩
      simp only [ksem_post, hidx, if_false, hm, hout] at h
      rw [← hsA] at h
      have hqA : ∀ r, sA.queue r = if r = queue_ref.sem id.toNat then some q else s.queue r :=
        fun r => queue_sem_update s sA id.toNat
          { m with count := wrap_int (m.count + 1), wait_queue := q } (by rw [hsA]) (by rw [hsA])
          (by rw [hsA]) (by rw [hsA]) hilt r
      have hsubA : qsub s sA :=
        qsub_dequeue s sA (queue_ref.sem id.toNat) m.wait_queue q x hinv.ok hq0 hqA hout
      have hokA := qsub_ok s sA hsubA
      obtain ⟨hqw, hql⟩ := queue_out_some_spec m.wait_queue q x (hinv.ok _ _ hq0).1 hout
      cases hfind : pid_to_proc sA x with
      | none => simp [hfind, scheduler_add] at h
      | some e =>
        rw [hfind] at h
        cases hadd : scheduler_add sA (some e) with
        | none => simp [hadd] at h
        | some s2 =>
          rw [hadd] at h
          obtain ⟨pe, rq, hpe, -, hs2⟩ := scheduler_add_inv sA s2 e hadd
          obtain ⟨pe1, hpe1, -, -, hqadd⟩ := scheduler_add_qadd sA s2 e hokA hadd
          rw [hpe] at hpe1
          injection hpe1 with hpe1
          subst hpe1
          obtain ⟨p0, hp0, hp0x⟩ := pid_to_proc_some sA x e hfind
          rw [hpe] at hp0
          injection hp0 with hp0
          subst hp0
          have hsem2 : s2.semaphores[id.toNat]?
              = some { m with count := wrap_int (m.count + 1), wait_queue := q } := by
            rw [hs2, hsA]; exact List.getElem?_set_self hilt
          simp only [hsem2, Option.some.injEq, Prod.mk.injEq] at h
          obtain ⟨hs1, -⟩ := h
          have heq : ∀ r, s1.queue r = s2.queue r :=
            fun r => queue_eq_sem_set s2 s1 id.toNat _
              { m with count := wrap_int (wrap_int (m.count + 1) - 1), wait_queue := q }
              (by rw [← hs1]) (by rw [← hs1]) (by rw [← hs1]) (by rw [← hs1]) hsem2 rfl r
          have hpes : s.proc_table[e]? = some pe := by rw [← hpe, hsA]
          rw [hp0x] at hqadd
          have hfind1 : pid_to_proc s x = some e := by rw [← hfind, hsA]; rfl
          have hlive := found_live s x e pe hpcb hfind1 hpes
          exact pcb_inv_wake s sA sA s1 x q.toList (queue_ref.sem id.toNat) queue_ref.run
            m.wait_queue q hinv hpcb hq0 hql hqA hqw rfl (qsub_refl sA hokA)
            (qadd_congr sA s2 s1 x queue_ref.run hqadd heq) (Or.inr rfl)
            (tstep_set s s1 e pe (requeued pe) x queue_ref.run hpcb hpes hlive
              (by rw [← hs1, hs2, hsA]) rfl (by simp [requeued]) hp0x rfl
              (by simp [requeued]))
            (by rw [← hs1, hs2, hsA]) (by rw [← hs1, hs2, hsA])
theorem kmutex_lock_pcb (s s1 : Kernel) (id rc : Int) (a : Nat) (p : proc_t)
    (hinv : sched_inv s) (hpcb : pcb_inv s) (ha : s.active_proc = some a)
    (hp : s.proc_table[a]? = some p)
    (hst : p.state = proc_state.ACTIVE) (hpid : p.pid ≠ 0)
    (h : kmutex_lock s id = some (s1, rc)) : pcb_inv s1 := by
  by_cases hidx : id < 0
  · simp [kmutex_lock, ha, hidx] at h
  cases hm : s.mutexes[id.toNat]? with
  | none => simp [kmutex_lock, ha, hidx, hm] at h
  | some m =>
    have hilt := lt_length_of_getElem? _ _ _ hm
    have halt := lt_length_of_getElem? _ _ _ hp
    by_cases hl : m.locks > 0
    · cases hrem : scheduler_remove s (some a) with
      | none => simp [kmutex_lock, ha, hidx, hm, hl, hrem] at h
      | some s2 =>
        obtain ⟨p0, hp0, htbl2, hact2, hsub⟩ := scheduler_remove_inv s s2 a hinv.ok hrem
        obtain ⟨hnp2, hal2⟩ := scheduler_remove_frame s s2 a hrem
        rw [hp] at hp0
        injection hp0 with hp0
        subst hp0
        have hp2 : s2.proc_table[a]? = some (unqueued p) := by
          rw [htbl2]; exact List.getElem?_set_self halt
        cases hm2 : s2.mutexes[id.toNat]? with
        | none => simp [kmutex_lock, ha, hidx, hm, hl, hrem, hp2, hm2] at h
        | some m2 =>
          have hilt2 := lt_length_of_getElem? _ _ _ hm2
          have hq2 : s2.queue (queue_ref.mutex id.toNat) = some m2.wait_queue := by
            simp [Kernel.queue, hm2]
          simp only [kmutex_lock, ha, hidx, if_false, hm, hl, if_true, hrem, hp2, hm2,
            List.getElem?_set_self hilt2, List.set_set, Option.some.injEq, Prod.mk.injEq] at h
          obtain ⟨hs1, -⟩ := h
          have hspec := queue_in_getD_spec m2.wait_queue p.pid
            ((qsub_ok s s2 hsub) _ _ hq2).1
          obtain ⟨m5, hm5, hm5q⟩ : ∃ m5 : mutex_t, s1.mutexes = s2.mutexes.set id.toNat m5 ∧
              m5.wait_queue = (queue_in m2.wait_queue p.pid).getD m2.wait_queue := by
            refine ⟨_, by rw [← hs1], ?_⟩
            split <;> rfl
          have hq : ∀ r, s1.queue r = if r = queue_ref.mutex id.toNat
              then some ((queue_in m2.wait_queue p.pid).getD m2.wait_queue) else s2.queue r := by
            intro r
            rw [← hm5q]
            exact queue_mutex_update s2 s1 id.toNat m5 (by rw [← hs1]) (by rw [← hs1]) hm5
              (by rw [← hs1]) hilt2 r
          exact pcb_inv_block s s2 s1 a p (parked id.toNat (unqueued p))
            (queue_ref.mutex id.toNat) m2.wait_queue
            ((queue_in m2.wait_queue p.pid).getD m2.wait_queue) hinv hpcb ha hp hst
            (Or.inl hpid) hsub hq2 hq hspec.1 hspec.2
            (by rw [← hs1]; show s2.proc_table.set a _ = _; rw [htbl2, List.set_set]; rfl)
            (by simp [parked]) rfl (by simp [parked]) rfl
            (by rw [← hs1]; exact hnp2) (by rw [← hs1]; exact hal2)
    · simp only [kmutex_lock, ha, hidx, if_false, hm, hl, Option.some.injEq,
        Prod.mk.injEq] at h
      obtain ⟨hs1, -⟩ := h
      obtain ⟨m5, hm5, hm5q⟩ : ∃ m5 : mutex_t, s1.mutexes = s.mutexes.set id.toNat m5 ∧
          m5.wait_queue = m.wait_queue := by
        refine ⟨_, by rw [← hs1], ?_⟩
        split <;> rfl
      exact pcb_inv_same s s1 hinv.ok hpcb
        (fun r => queue_eq_mutex_set s s1 id.toNat m m5 (by rw [← hs1]) (by rw [← hs1]) hm5
          (by rw [← hs1]) hm hm5q r)
        (tsame_of_table_eq s s1 (by rw [← hs1])) (by rw [← hs1]) (by rw [← hs1])

theorem kmutex_unlock_pcb (s s1 : Kernel) (id rc junk : Int) (hinv : sched_inv s)
    (hpcb : pcb_inv s) (hjunk : pid_to_proc s junk = none)
    (h : kmutex_unlock s id junk = some (s1, rc)) : pcb_inv s1 := by
  by_cases hidx : id < 0
  · simp [kmutex_unlock, hidx] at h
  cases hm : s.mutexes[id.toNat]? with
  | none => simp [kmutex_unlock, hidx, hm] at h
  | some m =>
    have hilt := lt_length_of_getElem? _ _ _ hm
    have hq0 : s.queue (queue_ref.mutex id.toNat) = some m.wait_queue := by
      simp [Kernel.queue, hm]
    by_cases hl0 : m.locks = 0
    · simp only [kmutex_unlock, hidx, if_false, hm, hl0, if_true, Option.some.injEq,
        Prod.mk.injEq] at h
      rw [← h.1]; exact hpcb
    by_cases hl1 : m.locks - 1 = 0
    · simp only [kmutex_unlock, hidx, if_false, hm, hl0, hl1, if_true, Option.some.injEq,
        Prod.mk.injEq] at h
      obtain ⟨hs1, -⟩ := h
      obtain ⟨m5, hm5, hm5q⟩ : ∃ m5 : mutex_t, s1.mutexes = s.mutexes.set id.toNat m5 ∧
          m5.wait_queue = m.wait_queue :=
        ⟨{ m with locks := 0, owner := none }, by rw [← hs1], rfl⟩
      exact pcb_inv_same s s1 hinv.ok hpcb
        (fun r => queue_eq_mutex_set s s1 id.toNat m m5
          (by rw [← hs1]) (by rw [← hs1]) hm5 (by rw [← hs1]) hm hm5q r)
        (tsame_of_table_eq s s1 (by rw [← hs1])) (by rw [← hs1]) (by rw [← hs1])
    cases hout : queue_out m.wait_queue with
    | none =>
      have hfind : pid_to_proc
          { s with mutexes := s.mutexes.set id.toNat
                     { m with locks := m.locks - 1, wait_queue := m.wait_queue } } junk
          = none := hjunk
      simp only [kmutex_unlock, hidx, if_false, hm, hl0, hl1, hout, hfind,
        Option.some.injEq, Prod.mk.injEq] at h
      obtain ⟨hs1, -⟩ := h
      exact pcb_inv_same s s1 hinv.ok hpcb
        (fun r => queue_eq_mutex_set s s1 id.toNat m
          { m with locks := m.locks - 1, wait_queue := m.wait_queue }
          (by rw [← hs1]) (by rw [← hs1]) (by rw [← hs1]) (by rw [← hs1]) hm rfl r)
        (tsame_of_table_eq s s1 (by rw [← hs1])) (by rw [← hs1]) (by rw [← hs1])
    | some r0 =>
      obtain ⟨x, q⟩ := r0
      obtain ⟨sA, hsA⟩ : ∃ sA : Kernel, sA =
          { s with mutexes := s.mutexes.set id.toNat
                     { m with locks := m.locks - 1, wait_queue := q } } := ⟨_, rfl⟩
      simp only [kmutex_unlock, hidx, if_false, hm, hl0, hl1, hout] at h
      rw [← hsA] at h
      have hqA : ∀ r, sA.queue r
          = if r = queue_ref.mutex id.toNat then some q else s.queue r :=
        fun r => queue_mutex_update s sA id.toNat
          { m with locks := m.locks - 1, wait_queue := q } (by rw [hsA]) (by rw [hsA])
          (by rw [hsA]) (by rw [hsA]) hilt r
      have hsubA : qsub s sA :=
        qsub_dequeue s sA (queue_ref.mutex id.toNat) m.wait_queue q x hinv.ok hq0 hqA hout
      have hokA := qsub_ok s sA hsubA
      obtain ⟨hqw, hql⟩ := queue_out_some_spec m.wait_queue q x (hinv.ok _ _ hq0).1 hout
      cases hfind : pid_to_proc sA x with
      | none =>
        simp only [hfind, Option.some.injEq, Prod.mk.injEq] at h
        rw [← h.1]
        exact pcb_inv_shrink s sA hpcb hsubA (tsame_of_table_eq s sA (by rw [hsA]))
          (by rw [hsA]) (by rw [hsA])
      | some e =>
        simp only [hfind] at h
        cases hrem : scheduler_remove sA (some e) with
        | none => simp [hrem] at h
        | some s2 =>
          simp only [hrem] at h
          obtain ⟨pe, hpe, htbl2, hact2, hsub2⟩ := scheduler_remove_inv sA s2 e hokA hrem
          obtain ⟨hnp2, hal2⟩ := scheduler_remove_frame sA s2 e hrem
          have helt := lt_length_of_getElem? _ _ _ hpe
          cases hadd : scheduler_add s2 (some e) with
          | none => simp [hadd] at h
          | some s3 =>
            simp only [hadd] at h
            obtain ⟨pe2, hpe2, htbl3, hact3, hqadd⟩ :=
              scheduler_add_qadd s2 s3 e (qsub_ok sA s2 hsub2) hadd
            obtain ⟨pe3, rq3, -, -, hs3⟩ := scheduler_add_inv s2 s3 e hadd
            have hnp3 : s3.next_pid = s2.next_pid := by rw [hs3]
            have hal3 : s3.proc_allocator = s2.proc_allocator := by rw [hs3]
            have hpe2b : s2.proc_table[e]? = some (unqueued pe) := by
              rw [htbl2]; exact List.getElem?_set_self helt
            rw [hpe2b] at hpe2
            injection hpe2 with hpe2
            subst hpe2
            obtain ⟨p0, hp0, hp0x⟩ := pid_to_proc_some sA x e hfind
            rw [hpe] at hp0
            injection hp0 with hp0
            subst hp0
            cases hm3 : s3.mutexes[id.toNat]? with
            | none => simp [hm3] at h
            | some m3 =>
              simp only [hm3, Option.some.injEq, Prod.mk.injEq] at h
              obtain ⟨hs1, -⟩ := h
              have heq : ∀ r, s1.queue r = s3.queue r :=
                fun r => queue_eq_mutex_set s3 s1 id.toNat m3 { m3 with owner := some e }
                  (by rw [← hs1]) (by rw [← hs1]) (by rw [← hs1]) (by rw [← hs1]) hm3 rfl r
              have hpes : s.proc_table[e]? = some pe := by rw [← hpe, hsA]
              have htbl1 : s1.proc_table = s.proc_table.set e (requeued (unqueued pe)) := by
                rw [← hs1]
                show s3.proc_table = _
                rw [htbl3, htbl2, hsA, List.set_set]
              have hxq : (unqueued pe).pid = x := hp0x
              rw [hxq] at hqadd
              have hfind1 : pid_to_proc s x = some e := by rw [← hfind, hsA]; rfl
              have hlive := found_live s x e pe hpcb hfind1 hpes
              exact pcb_inv_wake s sA s2 s1 x q.toList (queue_ref.mutex id.toNat)
                queue_ref.run m.wait_queue q hinv hpcb hq0 hql hqA hqw rfl hsub2
                (qadd_congr s2 s3 s1 x queue_ref.run hqadd heq) (Or.inr rfl)
                (tstep_set s s1 e pe (requeued (unqueued pe)) x queue_ref.run hpcb hpes hlive
                  htbl1 rfl (by simp [requeued]) hp0x rfl (by simp [requeued]))
                (by rw [← hs1]; show s3.next_pid = _; rw [hnp3, hnp2, hsA])
                (by rw [← hs1]; show s3.proc_allocator = _; rw [hal3, hal2, hsA])

theorem scheduler_sleep_pcb (s s1 : Kernel) (time : Int) (a : Nat) (p : proc_t)
    (hinv : sched_inv s) (hpcb : pcb_inv s) (ha : s.active_proc = some a)
    (hp : s.proc_table[a]? = some p)
    (hst : p.state = proc_state.ACTIVE) (hpid : p.pid ≠ 0)
    (h : scheduler_sleep s (some a) time = some s1) : pcb_inv s1 := by
  have halt := lt_length_of_getElem? _ _ _ hp
  have hns : ¬ p.state = proc_state.SLEEPING := by rw [hst]; decide
  obtain ⟨sA, hsA⟩ : ∃ sA : Kernel, sA = s.set_proc a { p with sleep_time := time } :=
    ⟨_, rfl⟩
  simp only [scheduler_sleep, hp, hns, if_false] at h
  rw [← hsA] at h
  have hqA : ∀ r, sA.queue r = s.queue r := fun r => by rw [hsA]; exact set_proc_queue s a _ r
  have hsubA : qsub s sA := qsub_of_queue_eq s sA hinv.ok hqA
  cases hrem : scheduler_remove sA (some a) with
  | none => simp [hrem] at h
  | some s2 =>
    simp only [hrem] at h
    obtain ⟨p0, hp0, htbl2, hact2, hsub2⟩ :=
      scheduler_remove_inv sA s2 a (qsub_ok s sA hsubA) hrem
    obtain ⟨hnp2, hal2⟩ := scheduler_remove_frame sA s2 a hrem
    have hpA : sA.proc_table[a]? = some { p with sleep_time := time } := by
      rw [hsA]; exact List.getElem?_set_self halt
    rw [hpA] at hp0
    injection hp0 with hp0
    subst hp0
    have hp2 : s2.proc_table[a]? = some (unqueued { p with sleep_time := time }) := by
      rw [htbl2]
      exact List.getElem?_set_self (by rw [hsA]; simpa [Kernel.set_proc] using halt)
    simp only [hp2, Option.some.injEq] at h
    have hsub : qsub s s2 := qsub_trans s sA s2 hsubA hsub2
    have hspec := queue_in_getD_spec s2.sleep_queue p.pid
      ((qsub_ok s s2 hsub) queue_ref.sleep s2.sleep_queue rfl).1
    obtain ⟨p3, htbl1, hst3, hpid3, hlive3, hsq3⟩ : ∃ p3 : proc_t,
        s1.proc_table = s.proc_table.set a p3 ∧
        p3.state ≠ proc_state.ACTIVE ∧ p3.pid = p.pid ∧ p3.state ≠ proc_state.NONE ∧
        p3.scheduler_queue = some queue_ref.sleep := by
      refine ⟨{ unqueued { p with sleep_time := time } with
                  state := proc_state.SLEEPING, scheduler_queue := some queue_ref.sleep },
        ?_, ?_, rfl, ?_, rfl⟩
      · rw [← h]
        show s2.proc_table.set a _ = _
        rw [htbl2, hsA]
        show ((s.proc_table.set a _).set a _).set a _ = _
        rw [List.set_set, List.set_set]
      · simp
      · simp
    exact pcb_inv_block s s2 s1 a p p3
      queue_ref.sleep s2.sleep_queue ((queue_in s2.sleep_queue p.pid).getD s2.sleep_queue)
      hinv hpcb ha hp hst (Or.inl hpid) hsub rfl
      (fun r => by
        rw [queue_sleep_update s2 s1 (by rw [← h]) (by rw [← h]) (by rw [← h]) r, ← h]
        rfl)
      hspec.1 hspec.2 htbl1 hst3 hpid3 hlive3 hsq3
      (by rw [← h]; show s2.next_pid = _; rw [hnp2, hsA]; rfl)
      (by rw [← h]; show s2.proc_allocator = _; rw [hal2, hsA]; rfl)

/-- The entry of a PCB in use is the one `pid_to_proc` finds for its pid. -/
theorem pcb_lookup (s : Kernel) (e : Nat) (p : proc_t) (hinv : pcb_inv s)
    (hp : s.proc_table[e]? = some p) (hst : p.state ≠ proc_state.NONE) :
    pid_to_proc s p.pid = some e := by
  have h := pid_to_proc_from_first p.pid s.proc_table 0 e p hp rfl (by
    intro j pj hj hpj heq
    by_cases hs0 : pj.state = proc_state.NONE
    · have h0 : p.pid = 0 := by rw [← heq]; exact hinv.free j pj hpj hs0
      obtain ⟨p0, hp0, hpid0, hlive0, -⟩ := hinv.idle e p hp
      have := hinv.distinct e 0 p p0 hp hp0 hst hlive0 (by rw [h0, hpid0])
      omega
    · have := hinv.distinct j e pj p hpj hp hs0 hst heq
      omega)
  unfold pid_to_proc
  rw [h, Nat.zero_add]

theorem kproc_destroy_pcb (s s1 : Kernel) (rc : Int) (e : Nat) (hinv : sched_inv s)
    (hpcb : pcb_inv s) (h : kproc_destroy s (some e) = some (s1, rc)) : pcb_inv s1 := by
  cases hp : s.proc_table[e]? with
  | none => simp [kproc_destroy, hp] at h
  | some p =>
    have helt := lt_length_of_getElem? _ _ _ hp
    by_cases hpid : p.pid = 0
    · simp only [kproc_destroy, hp, hpid, if_true, Option.some.injEq, Prod.mk.injEq] at h
      rw [← h.1]; exact hpcb
    · have hlive : p.state ≠ proc_state.NONE := fun h0 => hpid (hpcb.free e p hp h0)
      cases hrem : scheduler_remove s (some e) with
      | none => simp [kproc_destroy, hp, hpid, hrem] at h
      | some s2 =>
        obtain ⟨p0, hp0, htbl2, hact2, hsub⟩ := scheduler_remove_inv s s2 e hinv.ok hrem
        obtain ⟨hnp2, hal2⟩ := scheduler_remove_frame s s2 e hrem
        rw [hp] at hp0
        injection hp0 with hp0
        subst hp0
        have hfind2 : pid_to_proc s2 p.pid = some e := by
          unfold pid_to_proc
          rw [htbl2, pid_to_proc_from_set p.pid s.proc_table 0 e p (unqueued p) hp rfl]
          exact pcb_lookup s e p hpcb hp hlive
        have hp2 : s2.proc_table[e]? = some (unqueued p) := by
          rw [htbl2]; exact List.getElem?_set_self helt
        have hent : proc_to_entry s2 (some e) = some (e : Int) := by
          simp only [proc_to_entry, hp2]
          rw [show (unqueued p).pid = p.pid from rfl, hfind2]
        have hneg : ¬ ((e : Int) < 0) := by omega
        simp only [kproc_destroy, hp, hpid, if_false, hrem, hent, hneg, Option.some.injEq,
          Prod.mk.injEq] at h
        obtain ⟨hs1, -⟩ := h
        have htbl1 : s1.proc_table = s.proc_table.set e proc_zero := by
          rw [← hs1]
          show s2.proc_table.set e proc_zero = _
          rw [htbl2, List.set_set]
        have heq : ∀ r, s1.queue r = s2.queue r := by
          intro r
          rw [← hs1]
          cases r <;> rfl
        have hsub1 : qsub s s1 := qsub_congr s s2 s1 hsub heq
        have hnp1 : s1.next_pid = s.next_pid := by rw [← hs1]; exact hnp2
        have hal1 : s1.proc_allocator
            = (queue_in s.proc_allocator (e : Int)).getD s.proc_allocator := by
          rw [← hs1]
          show (queue_in s2.proc_allocator (e : Int)).getD s2.proc_allocator = _
          rw [hal2]
        have hspec := queue_in_getD_spec s.proc_allocator (e : Int) hpcb.awf
        rw [← hal1] at hspec
        have he0 : e ≠ 0 := by
          intro he
          subst he
          obtain ⟨p0, hp0, hpid0, -, -⟩ := hpcb.idle 0 p hp
          rw [hp] at hp0
          injection hp0 with hp0
          subst hp0
          exact hpid hpid0
        have hget : ∀ (e1 : Nat) (p1 : proc_t), s1.proc_table[e1]? = some p1 →
            (e1 = e ∧ p1 = proc_zero) ∨ (e1 ≠ e ∧ s.proc_table[e1]? = some p1) := by
          intro e1 p1 hp1
          rw [htbl1] at hp1
          exact getElem?_set_cases _ _ _ _ _ hp1
        have hnotin : (e : Int) ∉ s.proc_allocator.toList := by
          intro hmem
          obtain ⟨-, pf, hpf, hstf⟩ := hpcb.afree _ hmem
          rw [Int.toNat_ofNat, hp] at hpf
          injection hpf with hpf
          subst hpf
          exact hlive hstf
        refine ⟨?_, ?_, ?_, ?_, ?_, ?_, ?_, hspec.1, ?_, ?_⟩
        · intro e1 p1 hp1 hst1
          rcases hget e1 p1 hp1 with ⟨-, hz⟩ | ⟨-, hp1s⟩
          · rw [hz]; rfl
          · exact hpcb.free e1 p1 hp1s hst1
        · intro e1 p1 hp1 hst1
          rcases hget e1 p1 hp1 with ⟨-, hz⟩ | ⟨-, hp1s⟩
          · rw [hz] at hst1; exact absurd rfl hst1
          · rw [hnp1]; exact hpcb.used e1 p1 hp1s hst1
        · intro e1 e2 p1 p2 hp1 hp2 hst1 hst2 hpeq
          rcases hget e1 p1 hp1 with ⟨-, hz⟩ | ⟨-, hp1s⟩
          · rw [hz] at hst1; exact absurd rfl hst1
          · rcases hget e2 p2 hp2 with ⟨-, hz⟩ | ⟨-, hp2s⟩
            · rw [hz] at hst2; exact absurd rfl hst2
            · exact hpcb.distinct e1 e2 p1 p2 hp1s hp2s hst1 hst2 hpeq
        · intro e1 p1 _
          obtain ⟨p0, hp0, h1, h2, h3⟩ := hpcb.idle e p hp
          refine ⟨p0, ?_, h1, h2, h3⟩
          rw [htbl1, List.getElem?_set_ne he0]
          exact hp0
        · intro r q1 x hq1 hx
          obtain ⟨-, -, q, hq, hs⟩ := hsub1 r q1 hq1
          rw [hnp1]; exact hpcb.bound r q x hq (hs x hx)
        · intro r q1 e1 p1 hq1 hp1 hst1 hmem
          obtain ⟨-, -, q, hq, hs⟩ := hsub1 r q1 hq1
          rcases hget e1 p1 hp1 with ⟨-, hz⟩ | ⟨-, hp1s⟩
          · rw [hz] at hst1; exact absurd rfl hst1
          · exact hpcb.sq r q e1 p1 hq hp1s hst1 (hs _ hmem)
        · intro e1 p1 hp1 hst1
          rcases hget e1 p1 hp1 with ⟨-, hz⟩ | ⟨-, hp1s⟩
          · rw [hz] at hst1; cases hst1
          · exact hpcb.act e1 p1 hp1s hst1
        · rcases hspec.2 with hl | hl
          · rw [hl]; exact hpcb.anodup
          · rw [hl]
            exact List.Nodup.append hpcb.anodup (List.nodup_singleton _)
              (by
                intro y hy1 hy2
                simp only [List.mem_singleton] at hy2
                subst hy2
                exact hnotin hy1)
        · intro i hi
          have hi2 : i ∈ s.proc_allocator.toList ∨ i = (e : Int) := by
            rcases hspec.2 with hl | hl
            · rw [hl] at hi; exact Or.inl hi
            · rw [hl] at hi
              rcases List.mem_append.mp hi with h1 | h1
              · exact Or.inl h1
              · exact Or.inr (by simpa using h1)
          rcases hi2 with hi2 | hi2
          · obtain ⟨h0, pf, hpf, hstf⟩ := hpcb.afree i hi2
            refine ⟨h0, pf, ?_, hstf⟩
            have hne : e ≠ i.toNat := by
              intro hei
              rw [← hei, hp] at hpf
              injection hpf with hpf
              subst hpf
              exact hlive hstf
            rw [htbl1, List.getElem?_set_ne hne]
            exact hpf
          · subst hi2
            refine ⟨by omega, proc_zero, ?_, rfl⟩
            rw [htbl1, Int.toNat_ofNat]
            exact List.getElem?_set_self helt

theorem ksyscall_io_write_pcb (umem : Nat → Int) (s s1 : Kernel) (io : Int) (buf : Nat)
    (size rc : Int) (hinv : sched_inv s) (hpcb : pcb_inv s)
    (h : ksyscall_io_write umem s io buf size = some (s1, rc)) : pcb_inv s1 := by
  unfold ksyscall_io_write at h
  split at h
  · injection h with h; injection h with h _; rw [← h]; exact hpcb
  · split at h
    · cases h
    · injection h with h; injection h with h _
      exact pcb_inv_same s s1 hinv.ok hpcb
        (queue_eq_of_fields s s1 (by rw [← h]) (by rw [← h]) (by rw [← h]) (by rw [← h]))
        (tsame_of_table_eq s s1 (by rw [← h])) (by rw [← h]) (by rw [← h])

theorem ksyscall_io_read_pcb (s s1 : Kernel) (io : Int) (buf : Nat)
    (size rc : Int) (hinv : sched_inv s) (hpcb : pcb_inv s)
    (h : ksyscall_io_read s io buf size = some (s1, rc)) : pcb_inv s1 := by
  unfold ksyscall_io_read at h
  split at h
  · injection h with h; injection h with h _; rw [← h]; exact hpcb
  · split at h
    · cases h
    · injection h with h; injection h with h _
      exact pcb_inv_same s s1 hinv.ok hpcb
        (queue_eq_of_fields s s1 (by rw [← h]) (by rw [← h]) (by rw [← h]) (by rw [← h]))
        (tsame_of_table_eq s s1 (by rw [← h])) (by rw [← h]) (by rw [← h])

theorem ksyscall_io_flush_pcb (s s1 : Kernel) (io rc : Int) (hinv : sched_inv s) (hpcb : pcb_inv s)
    (h : ksyscall_io_flush s io = some (s1, rc)) : pcb_inv s1 := by
  unfold ksyscall_io_flush at h
  split at h
  · injection h with h; injection h with h _; rw [← h]; exact hpcb
  · split at h
    · cases h
    · injection h with h; injection h with h _
      exact pcb_inv_same s s1 hinv.ok hpcb
        (queue_eq_of_fields s s1 (by rw [← h]) (by rw [← h]) (by rw [← h]) (by rw [← h]))
        (tsame_of_table_eq s s1 (by rw [← h])) (by rw [← h]) (by rw [← h])

theorem ksyscall_dispatch_pcb (umem : Nat → Int) (junk : Int) (s s1 : Kernel)
    (syscall : Int) (arg1 arg2 arg3 : Nat) (rc : Int) (a : Nat) (p : proc_t)
    (hinv : sched_inv s) (hpcb : pcb_inv s) (ha : s.active_proc = some a) (hp : s.proc_table[a]? = some p)
    (hst : p.state = proc_state.ACTIVE) (hpid : p.pid ≠ 0)
    (hjunk : pid_to_proc s junk = none)
    (h : ksyscall_dispatch umem junk s syscall arg1 arg2 arg3 = some (s1, rc)) :
    pcb_inv s1 := by
  unfold ksyscall_dispatch at h
  by_cases hn0 : syscall = SYSCALL_IO_WRITE
  · rw [if_pos hn0] at h
    exact ksyscall_io_write_pcb umem s s1 _ _ _ rc hinv hpcb h
  rw [if_neg hn0] at h
  by_cases hn1 : syscall = SYSCALL_IO_READ
  · rw [if_pos hn1] at h
    exact ksyscall_io_read_pcb s s1 _ _ _ rc hinv hpcb h
  rw [if_neg hn1] at h
  by_cases hn2 : syscall = SYSCALL_IO_FLUSH
  · rw [if_pos hn2] at h
    exact ksyscall_io_flush_pcb s s1 _ rc hinv hpcb h
  rw [if_neg hn2] at h
  by_cases hn3 : syscall = SYSCALL_SYS_GET_TIME
  · rw [if_pos hn3] at h
    injection h with h; injection h with h _; rw [← h]; exact hpcb
  rw [if_neg hn3] at h
  by_cases hn4 : syscall = SYSCALL_SYS_GET_NAME
  · rw [if_pos hn4] at h
    injection h with h; injection h with h _; rw [← h]; exact hpcb
  rw [if_neg hn4] at h
  by_cases hn5 : syscall = SYSCALL_PROC_SLEEP
  · rw [if_pos hn5] at h
    unfold ksyscall_proc_sleep at h
    rw [ha] at h
    split at h
    · cases h
    · rename_i s2 hs2
      injection h with h; injection h with h _
      rw [← h]
      exact scheduler_sleep_pcb s s2 _ a p hinv hpcb ha hp hst hpid hs2
  rw [if_neg hn5] at h
  by_cases hn6 : syscall = SYSCALL_PROC_EXIT
  · rw [if_pos hn6] at h
    unfold ksyscall_proc_exit at h
    rw [ha] at h
    exact kproc_destroy_pcb s s1 rc a hinv hpcb h
  rw [if_neg hn6] at h
  by_cases hn7 : syscall = SYSCALL_PROC_GET_PID
  · rw [if_pos hn7] at h
    cases hg : ksyscall_proc_get_pid s with
    | none => rw [hg] at h; cases h
    | some v =>
      rw [hg] at h
      injection h with h; injection h with h _; rw [← h]; exact hpcb
  rw [if_neg hn7] at h
  by_cases hn8 : syscall = SYSCALL_PROC_GET_NAME
  · rw [if_pos hn8] at h
    cases hg : ksyscall_proc_get_name s arg1 with
    | none => rw [hg] at h; cases h
    | some v =>
      rw [hg] at h
      injection h with h; injection h with h _; rw [← h]; exact hpcb
  rw [if_neg hn8] at h
  by_cases hn9 : syscall = SYSCALL_MUTEX_INIT
  · rw [if_pos hn9] at h
    exact kmutex_init_pcb s s1 junk rc hinv hpcb h
  rw [if_neg hn9] at h
  by_cases hn10 : syscall = SYSCALL_MUTEX_DESTROY
  · rw [if_pos hn10] at h
    unfold ksyscall_mutex_destroy at h
    split at h
    · injection h with h; injection h with h _; rw [← h]; exact hpcb
    · exact kmutex_destroy_pcb s s1 _ rc hinv hpcb h
  rw [if_neg hn10] at h
  by_cases hn11 : syscall = SYSCALL_MUTEX_LOCK
  · rw [if_pos hn11] at h
    unfold ksyscall_mutex_lock at h
    split at h
    · injection h with h; injection h with h _; rw [← h]; exact hpcb
    · split at h
      · cases h
      · rename_i s2 lc hs2
        injection h with h; injection h with h _
        rw [← h]
        exact kmutex_lock_pcb s s2 _ lc a p hinv hpcb ha hp hst hpid hs2
  rw [if_neg hn11] at h
  by_cases hn12 : syscall = SYSCALL_MUTEX_UNLOCK
  · rw [if_pos hn12] at h
    unfold ksyscall_mutex_unlock at h
    split at h
    · injection h with h; injection h with h _; rw [← h]; exact hpcb
    · split at h
      · cases h
      · rename_i s2 lc hs2
        injection h with h; injection h with h _
        rw [← h]
        exact kmutex_unlock_pcb s s2 _ lc junk hinv hpcb hjunk hs2
  rw [if_neg hn12] at h
  by_cases hn13 : syscall = SYSCALL_SEM_INIT
  · rw [if_pos hn13] at h
    exact ksem_init_pcb s s1 _ junk rc hinv hpcb h
  rw [if_neg hn13] at h
  by_cases hn14 : syscall = SYSCALL_SEM_DESTROY
  · rw [if_pos hn14] at h
    unfold ksyscall_sem_destroy at h
    split at h
    · injection h with h; injection h with h _; rw [← h]; exact hpcb
    · exact ksem_destroy_pcb s s1 _ rc hinv hpcb h
  rw [if_neg hn14] at h
  by_cases hn15 : syscall = SYSCALL_SEM_POST
  · rw [if_pos hn15] at h
    unfold ksyscall_sem_post at h
    split at h
    · injection h with h; injection h with h _; rw [← h]; exact hpcb
    · split at h
      · cases h
      · rename_i s2 lc hs2
        injection h with h; injection h with h _
        rw [← h]
        exact ksem_post_pcb s s2 _ lc hinv hpcb hs2
  rw [if_neg hn15] at h
  by_cases hn16 : syscall = SYSCALL_SEM_WAIT
  · rw [if_pos hn16] at h
    unfold ksyscall_sem_wait at h
    split at h
    · injection h with h; injection h with h _; rw [← h]; exact hpcb
    · split at h
      · cases h
      · rename_i s2 lc hs2
        injection h with h; injection h with h _
        rw [← h]
        exact ksem_wait_pcb s s2 _ lc a p hinv hpcb ha hp hst hpid hs2
  rw [if_neg hn16] at h
  cases h
/-- Storing a PCB with the same pid, state and `scheduler_queue` keeps the invariant
of the PCB fields. -/
theorem pcb_inv_set_proc (s : Kernel) (e : Nat) (p p1 : proc_t) (hok : queues_ok s)
    (hpcb : pcb_inv s) (hp : s.proc_table[e]? = some p) (hst : p1.state = p.state)
    (hpid : p1.pid = p.pid) (hsq : p1.scheduler_queue = p.scheduler_queue) :
    pcb_inv (s.set_proc e p1) :=
  pcb_inv_same s (s.set_proc e p1) hok hpcb (set_proc_queue s e p1)
    (tsame_set s (s.set_proc e p1) e p p1 hp rfl hpid (by rw [hst]) hsq
      (fun h => Or.inl (by rw [← hst]; exact h))) rfl rfl

theorem ksyscall_irq_handler_pcb (umem : Nat → Int) (junk : Int) (s s1 : Kernel)
    (a : Nat) (p : proc_t)
    (hinv : sched_inv s) (hpcb : pcb_inv s) (ha : s.active_proc = some a)
    (hp : s.proc_table[a]? = some p)
    (hst : p.state = proc_state.ACTIVE) (hpid : p.pid ≠ 0)
    (hjunk : pid_to_proc s junk = none)
    (h : ksyscall_irq_handler umem junk s = some s1) : pcb_inv s1 := by
  unfold ksyscall_irq_handler at h
  simp only [ha, hp] at h
  split at h
  · cases h
  · rename_i tf htf
    split at h
    · cases h
    · rename_i s2 rc hs2
      have hinv2 := ksyscall_dispatch_inv umem junk s s2 _ _ _ _ rc a p hinv ha hp hst hpid
        hjunk hs2
      have hpcb2 := ksyscall_dispatch_pcb umem junk s s2 _ _ _ _ rc a p hinv hpcb ha hp hst
        hpid hjunk hs2
      split at h
      · injection h with h; rw [← h]; exact hpcb2
      · rename_i a1 ha1
        split at h
        · cases h
        · rename_i p1 hp1
          split at h
          · cases h
          · injection h with h
            rw [← h]
            exact pcb_inv_set_proc s2 a1 p1 _ hinv2.ok hpcb2 hp1 rfl rfl rfl
/-- A queued pid is not the pid of a PCB in state ACTIVE. -/
theorem queued_not_active (s : Kernel) (hinv : sched_inv s) (e : Nat) (p : proc_t)
    (hp : s.proc_table[e]? = some p) (r : queue_ref) (q : queue_t) (hq : s.queue r = some q)
    (hmem : p.pid ∈ q.toList) : p.state ≠ proc_state.ACTIVE := by
  intro hst
  have ha := hinv.current e p hp hst
  exact hinv.unqueued e p ha hp hst r q hq hmem

/-- The loop of `scheduler_timer` keeps the invariant of the PCB fields. -/
theorem scheduler_timer_loop_pcb (fuel : Nat) :
    ∀ (i : Nat) (s s1 : Kernel), sched_inv s → pcb_inv s →
      scheduler_timer_loop fuel i s = some s1 → pcb_inv s1 := by
  induction fuel with
  | zero =>
    intro i s s1 hinv hpcb h
    unfold scheduler_timer_loop at h
    split at h
    · cases h
    · injection h with h; rw [← h]; exact hpcb
  | succ fuel ih =>
    intro i s s1 hinv hpcb h
    unfold scheduler_timer_loop at h
    by_cases hi : i < s.sleep_queue.size
    · rw [if_pos hi] at h
      cases hout : queue_out s.sleep_queue with
      | none =>
        simp only [hout] at h
        exact ih (i + 1) s s1 hinv hpcb h
      | some r0 =>
        obtain ⟨pid, q⟩ := r0
        simp only [hout] at h
        obtain ⟨sA, hsA⟩ : ∃ sA : Kernel, sA = { s with sleep_queue := q } := ⟨_, rfl⟩
        rw [← hsA] at h
        have hq0 : s.queue queue_ref.sleep = some s.sleep_queue := rfl
        have hqA : ∀ r, sA.queue r = if r = queue_ref.sleep then some q else s.queue r :=
          fun r => by
            rw [queue_sleep_update s sA (by rw [hsA]) (by rw [hsA]) (by rw [hsA]) r, hsA]
        have hsubA : qsub s sA :=
          qsub_dequeue s sA queue_ref.sleep s.sleep_queue q pid hinv.ok hq0 hqA hout
        have hokA := qsub_ok s sA hsubA
        obtain ⟨hqw, hql⟩ := queue_out_some_spec s.sleep_queue q pid (hinv.ok _ _ hq0).1 hout
        have hpid0 : pid ≠ 0 := by
          intro h0
          apply hinv.zero queue_ref.sleep s.sleep_queue hq0 (by decide)
          rw [hql, h0]
          exact List.mem_cons_self _ _
        cases hfind : pid_to_proc sA pid with
        | none =>
          simp only [hfind] at h
          exact ih (i + 1) sA s1
            (sched_inv_shrink s sA hinv hsubA (tmono_of_table_eq s sA (by rw [hsA]))
              (Or.inl (by rw [hsA])))
            (pcb_inv_shrink s sA hpcb hsubA (tsame_of_table_eq s sA (by rw [hsA]))
              (by rw [hsA]) (by rw [hsA])) h
        | some e =>
          simp only [hfind] at h
          cases hpes : s.proc_table[e]? with
          | none => simp [hpes] at h
          | some pe =>
            simp only [hpes] at h
            have hpe : sA.proc_table[e]? = some pe := by rw [hsA]; exact hpes
            obtain ⟨p0, hp0, hp0x⟩ := pid_to_proc_some sA pid e hfind
            rw [hpe] at hp0
            injection hp0 with hp0
            subst hp0
            have helt := lt_length_of_getElem? _ _ _ hpes
            have hfind1 : pid_to_proc s pid = some e := by rw [← hfind, hsA]; rfl
            have hlive := found_live s pid e pe hpcb hfind1 hpes
            have hmem : pe.pid ∈ s.sleep_queue.toList := by
              rw [hql, hp0x]; exact List.mem_cons_self _ _
            have hsqe : pe.scheduler_queue = some queue_ref.sleep :=
              hpcb.sq queue_ref.sleep s.sleep_queue e pe hq0 hpes hlive hmem
            have hnae : pe.state ≠ proc_state.ACTIVE :=
              queued_not_active s hinv e pe hpes queue_ref.sleep s.sleep_queue hq0 hmem
            by_cases hsl : 0 ≤ pe.sleep_time
            · rw [if_pos hsl] at h
              have hspec := queue_in_getD_spec q pid hqw
              refine ih (i + 1) _ s1 ?_ ?_ h
              · refine sched_inv_wake s sA sA _ pid q.toList queue_ref.sleep queue_ref.sleep
                  s.sleep_queue q hinv hq0 hql hqA hqw rfl (qsub_refl sA hokA) ?_ (Or.inl hpid0)
                  (tmono_set s _ e pe (slept pe) hpes (by rw [hsA]; rfl) (Or.inr ⟨rfl, rfl⟩))
                  (Or.inl (by rw [hsA]; rfl))
                refine qadd_of_update sA _ queue_ref.sleep q ((queue_in q pid).getD q) pid hokA
                  (by rw [hqA, if_pos rfl]) ?_ hspec.1 hspec.2
                intro r
                rw [queue_sleep_update sA _ (by rw [hsA]; rfl) (by rw [hsA]; rfl)
                  (by rw [hsA]; rfl) r, hsA]
                rfl
              · refine pcb_inv_wake s sA sA _ pid q.toList queue_ref.sleep queue_ref.sleep
                  s.sleep_queue q hinv hpcb hq0 hql hqA hqw rfl (qsub_refl sA hokA) ?_
                  (Or.inl hpid0)
                  (tstep_set s _ e pe (slept pe) pid queue_ref.sleep hpcb hpes hlive
                    (by rw [hsA]; rfl) rfl hlive hp0x hsqe hnae)
                  (by rw [hsA]; rfl) (by rw [hsA]; rfl)
                refine qadd_of_update sA _ queue_ref.sleep q ((queue_in q pid).getD q) pid hokA
                  (by rw [hqA, if_pos rfl]) ?_ hspec.1 hspec.2
                intro r
                rw [queue_sleep_update sA _ (by rw [hsA]; rfl) (by rw [hsA]; rfl)
                  (by rw [hsA]; rfl) r, hsA]
                rfl
            · rw [if_neg hsl] at h
              cases hadd : scheduler_add (sA.set_proc e (slept pe)) (some e) with
              | none =>
                have : scheduler_add (sA.set_proc e { pe with sleep_time := pe.sleep_time - 1 })
                    (some e) = none := hadd
                simp [this] at h
              | some s3 =>
                have hadd1 : scheduler_add
                    (sA.set_proc e { pe with sleep_time := pe.sleep_time - 1 }) (some e)
                    = some s3 := hadd
                simp only [hadd1] at h
                have hqB : ∀ r, (sA.set_proc e (slept pe)).queue r = sA.queue r :=
                  fun r => set_proc_queue sA e _ r
                have hokB : queues_ok (sA.set_proc e (slept pe)) :=
                  qsub_ok sA _ (qsub_of_queue_eq sA _ hokA hqB)
                obtain ⟨pe2, hpe2, htbl3, hact3, hqadd⟩ :=
                  scheduler_add_qadd (sA.set_proc e (slept pe)) s3 e hokB hadd
                obtain ⟨pe3, rq3, -, -, hs3⟩ :=
                  scheduler_add_inv (sA.set_proc e (slept pe)) s3 e hadd
                have hpeB : (sA.set_proc e (slept pe)).proc_table[e]? = some (slept pe) := by
                  show (sA.proc_table.set e _)[e]? = _
                  rw [hsA]
                  exact List.getElem?_set_self helt
                rw [hpeB] at hpe2
                injection hpe2 with hpe2
                subst hpe2
                have hx : (slept pe).pid = pid := hp0x
                rw [hx] at hqadd
                have htbl3s : s3.proc_table = s.proc_table.set e (requeued (slept pe)) := by
                  rw [htbl3, hsA]
                  show (s.proc_table.set e _).set e _ = _
                  rw [List.set_set]
                refine ih (i + 1) s3 s1 ?_ ?_ h
                · exact sched_inv_wake s sA sA s3 pid q.toList queue_ref.sleep queue_ref.run
                    s.sleep_queue q hinv hq0 hql hqA hqw rfl (qsub_refl sA hokA)
                    (qadd_congr_left sA _ s3 pid queue_ref.run hqadd hqB) (Or.inr rfl)
                    (tmono_set s s3 e pe (requeued (slept pe)) hpes htbl3s
                      (Or.inl (by simp [requeued])))
                    (Or.inl (by rw [hact3, hsA]; rfl))
                · exact pcb_inv_wake s sA sA s3 pid q.toList queue_ref.sleep queue_ref.run
                    s.sleep_queue q hinv hpcb hq0 hql hqA hqw rfl (qsub_refl sA hokA)
                    (qadd_congr_left sA _ s3 pid queue_ref.run hqadd hqB) (Or.inr rfl)
                    (tstep_set s s3 e pe (requeued (slept pe)) pid queue_ref.run hpcb hpes
                      hlive htbl3s rfl (by simp [requeued]) hp0x rfl (by simp [requeued]))
                    (by rw [hs3, hsA]; rfl) (by rw [hs3, hsA]; rfl)
    · rw [if_neg hi] at h
      injection h with h; rw [← h]; exact hpcb

theorem scheduler_timer_pcb (s s1 : Kernel) (hinv : sched_inv s) (hpcb : pcb_inv s)
    (h : scheduler_timer s = some s1) : pcb_inv s1 := by
  unfold scheduler_timer at h
  cases ha : s.active_proc with
  | none =>
    simp only [ha] at h
    exact scheduler_timer_loop_pcb _ 0 s s1 hinv hpcb h
  | some a =>
    simp only [ha] at h
    cases hp : s.proc_table[a]? with
    | none => simp [hp] at h
    | some p =>
      simp only [hp] at h
      exact scheduler_timer_loop_pcb _ 0 (s.set_proc a (ticked p)) s1
        (sched_inv_set_proc s a p (ticked p) hinv hp rfl rfl)
        (pcb_inv_set_proc s a p (ticked p) hinv.ok hpcb hp rfl rfl rfl) h
theorem scheduler_run_drop_pcb (s s1 : Kernel) (hinv : sched_inv s) (hpcb : pcb_inv s)
    (h : scheduler_run_drop s = some s1) : pcb_inv s1 := by
  unfold scheduler_run_drop at h
  cases ha : s.active_proc with
  | none =>
    simp only [ha] at h
    injection h with h
    subst h
    exact hpcb
  | some a =>
    simp only [ha] at h
    cases hp : s.proc_table[a]? with
    | none => simp [hp] at h
    | some p =>
      simp only [hp, Option.some.injEq] at h
      by_cases hst : p.state = proc_state.ACTIVE
      · rw [if_neg (not_not.mpr hst)] at h
        subst h
        exact hpcb
      · rw [if_pos hst] at h
        subst h
        exact pcb_inv_same s _ hinv.ok hpcb (fun r => by cases r <;> rfl)
          (tsame_of_table_eq s _ rfl) rfl rfl

theorem scheduler_run_slice_pcb (s s1 : Kernel) (hinv : sched_inv s) (hpcb : pcb_inv s)
    (hA : ∀ a p, s.active_proc = some a → s.proc_table[a]? = some p →
      p.state = proc_state.ACTIVE)
    (h : scheduler_run_slice s = some s1) : pcb_inv s1 := by
  unfold scheduler_run_slice at h
  cases ha : s.active_proc with
  | none =>
    simp only [ha] at h
    injection h with h
    subst h
    exact hpcb
  | some a =>
    simp only [ha] at h
    cases hp : s.proc_table[a]? with
    | none => simp [hp] at h
    | some p =>
      simp only [hp] at h
      have hst := hA a p ha hp
      have halt := lt_length_of_getElem? _ _ _ hp
      by_cases hc : p.cpu_time ≥ SCHEDULER_TIMESLICE
      · rw [if_pos hc] at h
        by_cases hpid : p.pid = 0
        · rw [if_neg (not_not.mpr hpid)] at h
          simp only [Option.some.injEq] at h
          refine pcb_inv_same s s1 hinv.ok hpcb (fun r => by rw [← h]; cases r <;> rfl)
            (tsame_set s s1 a p { p with cpu_time := 0, state := proc_state.IDLE } hp
              (by rw [← h]; show (s.proc_table.set a _).set a _ = _; rw [List.set_set])
              rfl ?_ rfl (by simp)) (by rw [← h]; rfl) (by rw [← h]; rfl)
          rw [hst]
          simp
        · rw [if_pos hpid] at h
          cases hadd : scheduler_add (s.set_proc a { p with cpu_time := 0 }) (some a) with
          | none => simp [hadd] at h
          | some s3 =>
            simp only [hadd, Option.some.injEq] at h
            obtain ⟨pX, rq, hpX, hrq, hs3⟩ := scheduler_add_inv _ s3 a hadd
            have hpX1 : (s.set_proc a { p with cpu_time := 0 }).proc_table[a]?
                = some { p with cpu_time := 0 } := List.getElem?_set_self halt
            rw [hpX1] at hpX
            injection hpX with hpX
            subst hpX
            have hrq1 : queue_in s.run_queue p.pid = some rq := hrq
            have hspec := queue_in_getD_spec s.run_queue p.pid
              (hinv.ok queue_ref.run s.run_queue rfl).1
            rw [hrq1] at hspec
            refine pcb_inv_block s s s1 a p (requeued { p with cpu_time := 0 })
              queue_ref.run s.run_queue rq hinv hpcb ha hp hst (Or.inr rfl)
              (qsub_refl s hinv.ok) rfl
              ?_ hspec.1 hspec.2 ?_ (by simp [requeued]) rfl (by simp [requeued]) rfl
              (by rw [← h, hs3]; rfl) (by rw [← h, hs3]; rfl)
            · intro r
              rw [queue_run_update s s1 (by rw [← h, hs3]; rfl) (by rw [← h, hs3]; rfl)
                (by rw [← h, hs3]; rfl) r, ← h, hs3]
            · rw [← h, hs3]
              show (s.proc_table.set a _).set a _ = _
              rw [List.set_set]
      · rw [if_neg hc] at h
        injection h with h
        subst h
        exact hpcb

theorem scheduler_run_pcb (s s1 : Kernel) (hinv : sched_inv s) (hpcb : pcb_inv s)
    (h : scheduler_run s = some s1) : pcb_inv s1 := by
  unfold scheduler_run at h
  cases hd : scheduler_run_drop s with
  | none => simp [hd] at h
  | some sd =>
    simp only [hd] at h
    obtain ⟨hinvd, hAd⟩ := scheduler_run_drop_inv s sd hinv hd
    have hpcbd := scheduler_run_drop_pcb s sd hinv hpcb hd
    cases hsl : scheduler_run_slice sd with
    | none => simp [hsl] at h
    | some s2 =>
      simp only [hsl] at h
      obtain ⟨hinv2, hA2⟩ := scheduler_run_slice_inv sd s2 hinvd hAd hsl
      have hpcb2 := scheduler_run_slice_pcb sd s2 hinvd hpcbd hAd hsl
      cases ha : s2.active_proc with
      | some a =>
        have hsel : scheduler_run_select s2 = s2 := by
          simp only [scheduler_run_select, ha]
        rw [hsel] at h
        simp only [ha] at h
        cases hp : s2.proc_table[a]? with
        | none => simp [hp] at h
        | some p =>
          simp only [hp, Option.some.injEq] at h
          rw [← h]
          exact pcb_inv_set_proc s2 a p (activated p) hinv2.ok hpcb2 hp
            (hA2 a p ha hp).symm rfl rfl
      | none =>
        cases hout : queue_out s2.run_queue with
        | some r0 =>
          obtain ⟨pid, q⟩ := r0
          have hsel : scheduler_run_select s2
              = { s2 with run_queue := q, active_proc := pid_to_proc s2 pid } := by
            simp only [scheduler_run_select, ha, hout]
          rw [hsel] at h
          cases hfind : pid_to_proc s2 pid with
          | none => simp [hfind] at h
          | some b =>
            simp only [hfind] at h
            cases hpb : s2.proc_table[b]? with
            | none => simp [hpb] at h
            | some pb =>
              simp only [hpb, Option.some.injEq] at h
              obtain ⟨p0, hp0, hp0x⟩ := pid_to_proc_some s2 pid b hfind
              rw [hpb] at hp0
              injection hp0 with hp0
              subst hp0
              have hq0 : s2.queue queue_ref.run = some s2.run_queue := rfl
              obtain ⟨hqw, hql⟩ :=
                queue_out_some_spec s2.run_queue q pid (hinv2.ok _ _ hq0).1 hout
              have hq1 : ∀ r, s1.queue r = if r = queue_ref.run then some q else s2.queue r := by
                intro r
                rw [queue_run_update s2 s1 (by rw [← h]; rfl) (by rw [← h]; rfl)
                  (by rw [← h]; rfl) r, ← h]
                rfl
              have hlive := found_live s2 pid b pb hpcb2 hfind hpb
              have hsq : pb.scheduler_queue = some queue_ref.run :=
                hpcb2.sq queue_ref.run s2.run_queue b pb hq0 hpb hlive
                  (by rw [hql, hp0x]; exact List.mem_cons_self _ _)
              exact pcb_inv_shrink s2 s1 hpcb2
                (qsub_dequeue s2 s1 queue_ref.run s2.run_queue q pid hinv2.ok hq0 hq1 hout)
                (tsame_set s2 s1 b pb (activated pb) hpb (by rw [← h]; rfl) rfl
                  ⟨fun h0 => (by simp [activated] at h0), fun h0 => absurd h0 hlive⟩ rfl
                  (fun _ => Or.inr hsq))
                (by rw [← h]; rfl) (by rw [← h]; rfl)
        | none =>
          have hsel : scheduler_run_select s2
              = { s2 with active_proc := pid_to_proc s2 0 } := by
            simp only [scheduler_run_select, ha, hout]
          rw [hsel] at h
          cases hfind : pid_to_proc s2 0 with
          | none => simp [hfind] at h
          | some b =>
            simp only [hfind] at h
            cases hpb : s2.proc_table[b]? with
            | none => simp [hpb] at h
            | some pb =>
              simp only [hpb, Option.some.injEq] at h
              have heq : ∀ r, s1.queue r = s2.queue r := by
                intro r; rw [← h]; cases r <;> rfl
              have hlive := found_live s2 0 b pb hpcb2 hfind hpb
              obtain ⟨p0, hp0, hpid0, hlive0, hsq0⟩ := hpcb2.idle b pb hpb
              have hlook := pcb_lookup s2 0 p0 hpcb2 hp0 hlive0
              rw [hpid0, hfind] at hlook
              injection hlook with hlook
              rw [← hlook, hpb] at hp0
              injection hp0 with hp0
              subst hp0
              exact pcb_inv_shrink s2 s1 hpcb2 (qsub_of_queue_eq s2 s1 hinv2.ok heq)
                (tsame_set s2 s1 b pb (activated pb) hpb (by rw [← h]; rfl) rfl
                  ⟨fun h0 => (by simp [activated] at h0), fun h0 => absurd h0 hlive⟩ rfl
                  (fun _ => Or.inr hsq0))
                (by rw [← h]; rfl) (by rw [← h]; rfl)

theorem save_trapframe_pcb (s s1 : Kernel) (tf : trapframe_t) (hinv : sched_inv s)
    (hpcb : pcb_inv s) (h : save_trapframe s tf = some s1) : pcb_inv s1 := by
  unfold save_trapframe at h
  cases ha : s.active_proc with
  | none =>
    simp only [ha, Option.some.injEq] at h
    subst h
    exact hpcb
  | some a =>
    simp only [ha] at h
    cases hp : s.proc_table[a]? with
    | none => simp [hp] at h
    | some p =>
      simp only [hp, Option.some.injEq] at h
      rw [← h]
      exact pcb_inv_set_proc s a p _ hinv.ok hpcb hp rfl rfl rfl
/-! ### Process creation and boot keep the invariants -/

/-- What a successful `kproc_create` does to the queues. -/
theorem kproc_create_queues (s s1 : Kernel) (rq : queue_t)
    (h1 : s1.run_queue = rq) (h2 : s1.sleep_queue = s.sleep_queue)
    (h3 : s1.mutexes = s.mutexes) (h4 : s1.semaphores = s.semaphores) (r : queue_ref) :
    s1.queue r = if r = queue_ref.run then some rq else s.queue r := by
  rw [queue_run_update s s1 h2 h3 h4 r, h1]

theorem kproc_create_sched (env : create_env) (s s1 : Kernel) (proc_ptr : Nat)
    (proc_name : Option (List Nat)) (proc_type rc : Int) (hinv : sched_inv s)
    (hpcb : pcb_inv s)
    (h : kproc_create env s proc_ptr proc_name proc_type = some (s1, rc)) : sched_inv s1 := by
  rcases kproc_create_cases env s s1 proc_ptr proc_name proc_type rc h with
    ⟨hs, -, -⟩ | ⟨i, q, rq, p0, pc, hout, hi0, hp0, -, hpid, hst, hsq, hrq, htb, hnp, hal,
      h1, h2, h3, h4, h5⟩
  · rw [hs]; exact hinv
  · have hspec := queue_in_getD_spec s.run_queue s.next_pid
      (hinv.ok queue_ref.run s.run_queue rfl).1
    rw [hrq] at hspec
    have hq := kproc_create_queues s s1 rq h1 h2 h3 h4
    refine sched_inv_step s s s1 s.next_pid queue_ref.run hinv (qsub_refl s hinv.ok) ?_
      (qadd_of_update s s1 queue_ref.run s.run_queue rq s.next_pid hinv.ok rfl hq
        hspec.1 hspec.2) (Or.inr rfl)
      (tmono_set s s1 i.toNat p0 pc hp0 htb (Or.inl (by rw [hst]; decide))) (Or.inl h5) ?_
    · intro r q0 hq0 hmem
      have := hpcb.bound r q0 _ hq0 hmem
      omega
    · intro a p2 _ hp2 hst2 hpx
      rw [htb] at hp2
      rcases getElem?_set_cases _ _ _ _ _ hp2 with ⟨-, hpe⟩ | ⟨-, hpe⟩
      · rw [hpe, hst] at hst2; cases hst2
      · have := hpcb.used a p2 hpe (by rw [hst2]; decide)
        omega

theorem kproc_create_pcb (env : create_env) (s s1 : Kernel) (proc_ptr : Nat)
    (proc_name : Option (List Nat)) (proc_type rc : Int) (hinv : sched_inv s)
    (hpcb : pcb_inv s)
    (h : kproc_create env s proc_ptr proc_name proc_type = some (s1, rc)) : pcb_inv s1 := by
  rcases kproc_create_cases env s s1 proc_ptr proc_name proc_type rc h with
    ⟨hs, -, -⟩ | ⟨i, q, rq, p0, pc, hout, hi0, hp0, -, hpid, hst, hsq, hrq, htb, hnp, hal,
      h1, h2, h3, h4, h5⟩
  · rw [hs]; exact hpcb
  · have hspec := queue_in_getD_spec s.run_queue s.next_pid
      (hinv.ok queue_ref.run s.run_queue rfl).1
    rw [hrq] at hspec
    simp only [Option.getD_some] at hspec
    have hq := kproc_create_queues s s1 rq h1 h2 h3 h4
    obtain ⟨hqw, hql⟩ := queue_out_some_spec s.proc_allocator q i hpcb.awf hout
    have hnd := hpcb.anodup
    rw [hql] at hnd
    have hnd1 := List.nodup_cons.mp hnd
    obtain ⟨-, pf, hpf, hstf⟩ := hpcb.afree i (by rw [hql]; exact List.mem_cons_self _ _)
    rw [hp0] at hpf
    injection hpf with hpf
    subst hpf
    have hlive : pc.state ≠ proc_state.NONE := by rw [hst]; decide
    have hget : ∀ (e1 : Nat) (p1 : proc_t), s1.proc_table[e1]? = some p1 →
        (e1 = i.toNat ∧ p1 = pc) ∨ (e1 ≠ i.toNat ∧ s.proc_table[e1]? = some p1) := by
      intro e1 p1 hp1
      rw [htb] at hp1
      exact getElem?_set_cases _ _ _ _ _ hp1
    have hmemq : ∀ r q1 x, s1.queue r = some q1 → x ∈ q1.toList →
        (∃ q0, s.queue r = some q0 ∧ x ∈ q0.toList) ∨ (x = s.next_pid ∧ r = queue_ref.run) := by
      intro r q1 x hq1 hx
      rw [hq r] at hq1
      by_cases hr : r = queue_ref.run
      · rw [if_pos hr] at hq1
        injection hq1 with hq1
        subst hq1
        rcases hspec.2 with hl | hl
        · rw [hl] at hx
          exact Or.inl ⟨s.run_queue, by rw [hr]; rfl, hx⟩
        · rw [hl] at hx
          rcases List.mem_append.mp hx with hx | hx
          · exact Or.inl ⟨s.run_queue, by rw [hr]; rfl, hx⟩
          · exact Or.inr ⟨by simpa using hx, hr⟩
      · rw [if_neg hr] at hq1
        exact Or.inl ⟨q1, hq1, hx⟩
    refine ⟨?_, ?_, ?_, ?_, ?_, ?_, ?_, by rw [hal]; exact hqw,
      by rw [hal]; exact hnd1.2, ?_⟩
    · intro e1 p1 hp1 hst1
      rcases hget e1 p1 hp1 with ⟨-, hpe⟩ | ⟨-, hpe⟩
      · rw [hpe] at hst1; exact absurd hst1 hlive
      · exact hpcb.free e1 p1 hpe hst1
    · intro e1 p1 hp1 hst1
      rw [hnp]
      rcases hget e1 p1 hp1 with ⟨-, hpe⟩ | ⟨-, hpe⟩
      · rw [hpe, hpid]; omega
      · have := hpcb.used e1 p1 hpe hst1
        omega
    · intro e1 e2 p1 p2 hp1 hp2 hst1 hst2 hpeq
      rcases hget e1 p1 hp1 with ⟨he1, hpe1⟩ | ⟨he1, hpe1⟩
      · rcases hget e2 p2 hp2 with ⟨he2, hpe2⟩ | ⟨he2, hpe2⟩
        · rw [he1, he2]
        · have := hpcb.used e2 p2 hpe2 hst2
          rw [hpe1, hpid] at hpeq
          omega
      · rcases hget e2 p2 hp2 with ⟨he2, hpe2⟩ | ⟨he2, hpe2⟩
        · have := hpcb.used e1 p1 hpe1 hst1
          rw [hpe2, hpid] at hpeq
          omega
        · exact hpcb.distinct e1 e2 p1 p2 hpe1 hpe2 hst1 hst2 hpeq
    · intro e1 p1 _
      obtain ⟨pz, hpz, hz1, hz2, hz3⟩ := hpcb.idle i.toNat p0 hp0
      refine ⟨pz, ?_, hz1, hz2, hz3⟩
      have hne : i.toNat ≠ 0 := by
        intro h0
        rw [h0, hpz] at hp0
        injection hp0 with hp0
        subst hp0
        exact hz2 hstf
      rw [htb, List.getElem?_set_ne hne]
      exact hpz
    · intro r q1 x hq1 hx
      rw [hnp]
      rcases hmemq r q1 x hq1 hx with ⟨q0, hq0, hx0⟩ | ⟨hxn, -⟩
      · have := hpcb.bound r q0 x hq0 hx0
        omega
      · omega
    · intro r q1 e1 p1 hq1 hp1 hst1 hmem
      rcases hget e1 p1 hp1 with ⟨-, hpe⟩ | ⟨-, hpe⟩
      · rcases hmemq r q1 p1.pid hq1 hmem with ⟨q0, hq0, hx0⟩ | ⟨-, hr⟩
        · have := hpcb.bound r q0 _ hq0 hx0
          rw [hpe, hpid] at this
          omega
        · rw [hpe, hsq, hr]
      · rcases hmemq r q1 p1.pid hq1 hmem with ⟨q0, hq0, hx0⟩ | ⟨hxn, -⟩
        · exact hpcb.sq r q0 e1 p1 hq0 hpe hst1 hx0
        · have := hpcb.used e1 p1 hpe hst1
          omega
    · intro e1 p1 hp1 hst1
      rcases hget e1 p1 hp1 with ⟨-, hpe⟩ | ⟨-, hpe⟩
      · rw [hpe, hst] at hst1; cases hst1
      · exact hpcb.act e1 p1 hpe hst1
    · intro j hj
      rw [hal] at hj
      obtain ⟨hj0, pj, hpj, hstj⟩ := hpcb.afree j (by rw [hql]; exact List.mem_cons_of_mem _ hj)
      refine ⟨hj0, pj, ?_, hstj⟩
      have hne : i.toNat ≠ j.toNat := by
        intro heq
        have : i = j := by omega
        rw [this] at hnd1
        exact hnd1.1 hj
      rw [htb, List.getElem?_set_ne hne]
      exact hpj

/-- Filling the free list appends some of the indices, in order. -/
theorem alloc_fill_sublist (l : List Nat) :
    ∀ (q : queue_t), q.wf → (alloc_fill q l).wf ∧
      ∃ l1 : List Nat, l1.Sublist l ∧
        (alloc_fill q l).toList = q.toList ++ l1.map (fun i : Nat => (i : Int)) := by
  induction l with
  | nil => intro q hw; exact ⟨hw, [], List.Sublist.refl _, by simp [alloc_fill]⟩
  | cons i rest ih =>
    intro q hw
    obtain ⟨h1, h2⟩ := queue_in_getD_spec q (i : Int) hw
    obtain ⟨h3, l1, hl1, h4⟩ := ih _ h1
    refine ⟨h3, ?_⟩
    rcases h2 with h2 | h2
    · exact ⟨l1, List.Sublist.cons _ hl1, by rw [show alloc_fill q (i :: rest)
        = alloc_fill ((queue_in q (i : Int)).getD q) rest from rfl, h4, h2]⟩
    · refine ⟨i :: l1, List.Sublist.cons₂ _ hl1, ?_⟩
      rw [show alloc_fill q (i :: rest)
        = alloc_fill ((queue_in q (i : Int)).getD q) rest from rfl, h4, h2]
      simp

/-- The first creation after the seeding of `kproc_init` establishes the invariant of
the PCB fields: the process gets pid 0 and table entry 0. -/
theorem kproc_create_first (env : create_env) (s0 s1 : Kernel) (proc_ptr : Nat)
    (proc_name : Option (List Nat)) (proc_type rc : Int) (h0 : s0.next_pid = 0)
    (hb : boot_inv (kproc_init_tables (scheduler_init s0)))
    (h : kproc_create env (kproc_init_tables (scheduler_init s0)) proc_ptr proc_name proc_type
      = some (s1, rc)) : pcb_inv s1 := by
  obtain ⟨s, hs⟩ : ∃ s, s = kproc_init_tables (scheduler_init s0) := ⟨_, rfl⟩
  rw [← hs] at h hb
  have hzero : ∀ (e : Nat) (p : proc_t), s.proc_table[e]? = some p → p = proc_zero := by
    intro e p hp
    rw [hs] at hp
    have hp1 : (List.replicate (scheduler_init s0).proc_table.length proc_zero)[e]? = some p := hp
    rw [List.getElem?_replicate] at hp1
    split at hp1
    · injection hp1 with hp1; exact hp1.symm
    · cases hp1
  have hlen : s.proc_table.length = s0.proc_table.length := by
    rw [hs]
    show (List.replicate (scheduler_init s0).proc_table.length proc_zero).length = _
    rw [List.length_replicate]
    rfl
  have hnp0 : s.next_pid = 0 := by rw [hs]; exact h0
  have hrun : s.run_queue.toList = [] := by
    rw [hs]
    show queue_init.toList = []
    exact queue_init_toList
  have hempty : ∀ r q0, s.queue r = some q0 → q0.toList = [] := by
    intro r q0 hq0
    by_cases hr : r = queue_ref.run
    · subst hr
      have : some s.run_queue = some q0 := hq0
      injection this with this
      rw [← this]; exact hrun
    · exact (hb.2.2.2.2.2 r q0 hq0 hr).2
  obtain ⟨haw, l1, hl1, hal0⟩ := alloc_fill_sublist (List.range s0.proc_table.length)
    queue_init queue_init_wf
  have hal1 : s.proc_allocator.toList = l1.map (fun i : Nat => (i : Int)) := by
    rw [hs]
    show (alloc_fill queue_init (List.range (scheduler_init s0).proc_table.length)).toList = _
    rw [show (scheduler_init s0).proc_table.length = s0.proc_table.length from rfl, hal0,
      queue_init_toList, List.nil_append]
  have hawf : s.proc_allocator.wf := by rw [hs]; exact haw
  have hl1nd : l1.Nodup := List.Nodup.sublist hl1 (List.nodup_range _)
  have hal_nd : s.proc_allocator.toList.Nodup := by
    rw [hal1]
    exact List.Nodup.map (fun a b hab => by simpa using hab) hl1nd
  have hal_free : ∀ j ∈ s.proc_allocator.toList,
      0 ≤ j ∧ s.proc_table[j.toNat]? = some proc_zero := by
    intro j hj
    rw [hal1] at hj
    obtain ⟨k, hk, hkj⟩ := List.mem_map.mp hj
    have hk1 := List.mem_range.mp (hl1.subset hk)
    subst hkj
    refine ⟨by omega, ?_⟩
    rw [Int.toNat_ofNat]
    have hlt : k < s.proc_table.length := by rw [hlen]; exact hk1
    rw [List.getElem?_eq_getElem hlt]
    exact congrArg some (hzero k _ (List.getElem?_eq_getElem hlt))
  rcases kproc_create_cases env s s1 proc_ptr proc_name proc_type rc h with
    ⟨hs1, -, hnone⟩ | ⟨i, q, rq, p0, pc, hout, hi0, hp0, -, hpid, hst, hsq, hrq, htb, hnp, hal,
      h1, h2, h3, h4, h5⟩
  · -- no free entry: the table is empty
    have hsz := (queue_out_eq_none s.proc_allocator).mp hnone
    have hnil : s.proc_table = [] := by
      rcases Nat.eq_zero_or_pos s0.proc_table.length with hz | hpos
      · exact List.eq_nil_of_length_eq_zero (by rw [hlen]; exact hz)
      · obtain ⟨n, hn⟩ : ∃ n, s0.proc_table.length = n + 1 := ⟨s0.proc_table.length - 1, by omega⟩
        obtain ⟨-, ys, hys⟩ := alloc_fill_range_head n
        have : s.proc_allocator.toList = 0 :: ys := by
          rw [hs]
          show (alloc_fill queue_init (List.range (scheduler_init s0).proc_table.length)).toList
            = _
          rw [show (scheduler_init s0).proc_table.length = s0.proc_table.length from rfl, hn]
          exact hys
        rw [(queue_toList_eq_nil s.proc_allocator).mpr hsz] at this
        cases this
    have hno : ∀ (e : Nat) (p : proc_t), s.proc_table[e]? = some p → False := by
      intro e p hp
      rw [hnil] at hp
      simp at hp
    rw [hs1]
    refine ⟨fun e p hp => absurd hp (fun h => hno e p h), fun e p hp => (hno e p hp).elim,
      fun e _ p _ hp => (hno e p hp).elim, fun e p hp => (hno e p hp).elim, ?_,
      fun _ _ e p _ hp => (hno e p hp).elim, fun e p hp => (hno e p hp).elim, hawf, hal_nd, ?_⟩
    · intro r q0 x hq0 hx
      rw [hempty r q0 hq0] at hx
      cases hx
    · intro j hj
      obtain ⟨hj0, hpj⟩ := hal_free j hj
      exact ⟨hj0, proc_zero, hpj, rfl⟩
  · have hrw : s.run_queue.wf := by
      rw [hs]
      show queue_init.wf
      exact queue_init_wf
    have hspec := queue_in_getD_spec s.run_queue s.next_pid hrw
    rw [hrq, hrun, List.nil_append] at hspec
    simp only [Option.getD_some] at hspec
    have hq := kproc_create_queues s s1 rq h1 h2 h3 h4
    obtain ⟨hqw, hql⟩ := queue_out_some_spec s.proc_allocator q i hawf hout
    have hnd := hal_nd
    rw [hql] at hnd
    have hnd1 := List.nodup_cons.mp hnd
    have hi : i = 0 := by
      have hpos : 0 < s0.proc_table.length := by
        rw [← hlen]; exact Nat.lt_of_le_of_lt (Nat.zero_le _) (lt_length_of_getElem? _ _ _ hp0)
      obtain ⟨n, hn⟩ : ∃ n, s0.proc_table.length = n + 1 := ⟨s0.proc_table.length - 1, by omega⟩
      obtain ⟨-, ys, hys⟩ := alloc_fill_range_head n
      have : s.proc_allocator.toList = 0 :: ys := by
        rw [hs]
        show (alloc_fill queue_init (List.range (scheduler_init s0).proc_table.length)).toList
          = _
        rw [show (scheduler_init s0).proc_table.length = s0.proc_table.length from rfl, hn]
        exact hys
      rw [hql] at this
      injection this
    subst hi
    have hpc0 : pc.pid = 0 := by rw [hpid, hnp0]
    have hlive : pc.state ≠ proc_state.NONE := by rw [hst]; decide
    have hget : ∀ (e1 : Nat) (p1 : proc_t), s1.proc_table[e1]? = some p1 →
        (e1 = 0 ∧ p1 = pc) ∨ (e1 ≠ 0 ∧ p1 = proc_zero) := by
      intro e1 p1 hp1
      rw [htb] at hp1
      rcases getElem?_set_cases _ _ _ _ _ hp1 with ⟨h6, h7⟩ | ⟨h6, h7⟩
      · exact Or.inl ⟨h6, h7⟩
      · exact Or.inr ⟨h6, hzero e1 p1 h7⟩
    have hmemq : ∀ r q1 x, s1.queue r = some q1 → x ∈ q1.toList →
        x = 0 ∧ r = queue_ref.run := by
      intro r q1 x hq1 hx
      rw [hq r] at hq1
      by_cases hr : r = queue_ref.run
      · rw [if_pos hr] at hq1
        injection hq1 with hq1
        subst hq1
        rcases hspec.2 with hl | hl
        · rw [hl] at hx; cases hx
        · rw [hl, hnp0] at hx
          exact ⟨by simpa using hx, hr⟩
      · rw [if_neg hr] at hq1
        rw [hempty r q1 hq1] at hx
        cases hx
    have hp1z : s1.proc_table[0]? = some pc := by
      rw [htb]
      exact List.getElem?_set_self (lt_length_of_getElem? _ _ _ hp0)
    refine ⟨?_, ?_, ?_, ?_, ?_, ?_, ?_, by rw [hal]; exact hqw,
      by rw [hal]; exact hnd1.2, ?_⟩
    · intro e1 p1 hp1 hst1
      rcases hget e1 p1 hp1 with ⟨-, hpe⟩ | ⟨-, hpe⟩
      · rw [hpe] at hst1; exact absurd hst1 hlive
      · rw [hpe]; rfl
    · intro e1 p1 hp1 hst1
      rcases hget e1 p1 hp1 with ⟨-, hpe⟩ | ⟨-, hpe⟩
      · rw [hpe, hpc0, hnp, hnp0]; decide
      · rw [hpe] at hst1; exact absurd rfl hst1
    · intro e1 e2 p1 p2 hp1 hp2 hst1 hst2 _
      rcases hget e1 p1 hp1 with ⟨he1, -⟩ | ⟨-, hpe⟩
      · rcases hget e2 p2 hp2 with ⟨he2, -⟩ | ⟨-, hpe2⟩
        · rw [he1, he2]
        · rw [hpe2] at hst2; exact absurd rfl hst2
      · rw [hpe] at hst1; exact absurd rfl hst1
    · intro e1 p1 _
      exact ⟨pc, hp1z, hpc0, hlive, hsq⟩
    · intro r q1 x hq1 hx
      rw [(hmemq r q1 x hq1 hx).1, hnp, hnp0]
      decide
    · intro r q1 e1 p1 hq1 hp1 hst1 hmem
      rcases hget e1 p1 hp1 with ⟨-, hpe⟩ | ⟨-, hpe⟩
      · rw [hpe, hsq, (hmemq r q1 _ hq1 hmem).2]
      · rw [hpe] at hst1; exact absurd rfl hst1
    · intro e1 p1 hp1 hst1
      rcases hget e1 p1 hp1 with ⟨-, hpe⟩ | ⟨-, hpe⟩
      · rw [hpe, hst] at hst1; cases hst1
      · rw [hpe] at hst1; cases hst1
    · intro j hj
      rw [hal] at hj
      obtain ⟨hj0, hpj⟩ := hal_free j (by rw [hql]; exact List.mem_cons_of_mem _ hj)
      refine ⟨hj0, proc_zero, ?_, rfl⟩
      have hne : (0 : Int).toNat ≠ j.toNat := by
        intro heq
        have : (0 : Int) = j := by
          have h7 : (0 : Int).toNat = 0 := rfl
          omega
        rw [← this] at hj
        exact hnd1.1 hj
      rw [htb, List.getElem?_set_ne hne]
      exact hpj

theorem kproc_attach_tty_pcb (s s1 : Kernel) (pid tty_number rc : Int) (hok : queues_ok s)
    (hpcb : pcb_inv s) (h : kproc_attach_tty s pid tty_number = some (s1, rc)) :
    pcb_inv s1 := by
  unfold kproc_attach_tty at h
  cases ht : tty_get tty_number with
  | none => simp [ht] at h
  | some t =>
    simp only [ht] at h
    cases hf : pid_to_proc s pid with
    | none =>
      simp only [hf, Option.some.injEq, Prod.mk.injEq] at h
      rw [← h.1]; exact hpcb
    | some e =>
      simp only [hf] at h
      cases hp : s.proc_table[e]? with
      | none => simp [hp] at h
      | some p =>
        simp only [hp, Option.some.injEq, Prod.mk.injEq] at h
        obtain ⟨h, -⟩ := h
        rw [← h]
        exact pcb_inv_set_proc s e p _ hok hpcb hp rfl rfl rfl

theorem create_attached_pcb (be : boot_env) (s s1 : Kernel) (prog : Nat)
    (name : List Nat) (tty : Int → Int) (hb : boot_inv s) (hpcb : pcb_inv s)
    (h : create_attached be s prog name tty = some s1) : pcb_inv s1 := by
  unfold create_attached at h
  cases hc : kproc_create be.env s prog (some name) be.PROC_TYPE_USER with
  | none => simp [hc] at h
  | some r0 =>
    obtain ⟨s2, pid⟩ := r0
    simp only [hc] at h
    have hb2 := kproc_create_boot_inv be.env s s2 prog (some name) be.PROC_TYPE_USER pid hb hc
    have hpcb2 := kproc_create_pcb be.env s s2 prog (some name) be.PROC_TYPE_USER pid
      (boot_inv_sched s hb) hpcb hc
    cases hat : kproc_attach_tty s2 pid (tty pid) with
    | none => simp [hat] at h
    | some r1 =>
      obtain ⟨s3, rc⟩ := r1
      simp only [hat, Option.some.injEq] at h
      rw [← h]
      exact kproc_attach_tty_pcb s2 s3 pid (tty pid) rc (boot_inv_sched s2 hb2).ok hpcb2 hat

theorem create_loop_pcb (be : boot_env) (prog : Nat) (name : List Nat)
    (ttys : List (Int → Int)) :
    ∀ (s s1 : Kernel), boot_inv s → pcb_inv s → create_loop be prog name ttys s = some s1 →
      pcb_inv s1 := by
  induction ttys with
  | nil =>
    intro s s1 _ hpcb h
    simp only [create_loop, Option.some.injEq] at h
    rw [← h]; exact hpcb
  | cons tty rest ih =>
    intro s s1 hb hpcb h
    simp only [create_loop] at h
    cases hc : create_attached be s prog name tty with
    | none => simp [hc] at h
    | some s2 =>
      simp only [hc] at h
      exact ih s2 s1 (create_attached_boot_inv be s s2 prog name tty hb hc)
        (create_attached_pcb be s s2 prog name tty hb hpcb hc) h

theorem boot_tables_next_pid (P : Nat) :
    (ksemaphores_init (kmutexes_init (kernel_zero P)).1).1.next_pid = 0 := by
  unfold ksemaphores_init kmutexes_init
  split <;> split <;> rfl

/-- The boot state satisfies the invariant of the PCB fields. -/
theorem kernel_boot_pcb (be : boot_env) (b : Kernel) (h : kernel_boot be = some b) :
    pcb_inv b := by
  unfold kernel_boot kproc_init at h
  have hnp := boot_tables_next_pid be.PROC_MAX
  obtain ⟨s0, hs0⟩ : ∃ s0, s0 = (ksemaphores_init (kmutexes_init (kernel_zero be.PROC_MAX)).1).1 :=
    ⟨_, rfl⟩
  rw [← hs0] at h hnp
  have hm := kmutexes_init_fields (kernel_zero be.PROC_MAX)
  have hs := ksemaphores_init_fields (kmutexes_init (kernel_zero be.PROC_MAX)).1
  have hb0 : boot_inv (kproc_init_tables (scheduler_init s0)) := by
    refine boot_inv_tables s0 ?_ ?_ ?_
    · rw [hs0, hs.2.2.1, hm.2.2.1]; rfl
    · rw [hs0, hs.2.1, hm.1]
    · rw [hs0, hs.1]
  cases hc : kproc_create be.env (kproc_init_tables (scheduler_init s0)) be.kproc_idle
      (some [105, 100, 108, 101]) be.PROC_TYPE_KERNEL with
  | none => simp [hc] at h
  | some r0 =>
    obtain ⟨s1, pid⟩ := r0
    simp only [hc] at h
    have hb1 := kproc_create_boot_inv _ _ _ _ _ _ _ hb0 hc
    have hp1 := kproc_create_first be.env s0 s1 _ _ _ pid hnp hb0 hc
    cases h2 : create_loop be be.prog_shell [115, 104, 101, 108, 108]
        [fun _ => 1, fun _ => 2, fun _ => 3, fun _ => 4] s1 with
    | none => simp [h2] at h
    | some s2 =>
      simp only [h2] at h
      have hb2 := create_loop_boot_inv _ _ _ _ _ _ hb1 h2
      have hp2 := create_loop_pcb _ _ _ _ _ _ hb1 hp1 h2
      cases h3 : create_loop be be.prog_ping [112, 105, 110, 103]
          [pingpong_tty, pingpong_tty, pingpong_tty] s2 with
      | none => simp [h3] at h
      | some s3 =>
        simp only [h3] at h
        exact create_loop_pcb _ _ _ _ _ _ (create_loop_boot_inv _ _ _ _ _ _ hb2 h3)
          (create_loop_pcb _ _ _ _ _ _ hb2 hp2 h3) h

/-- Every reachable kernel state satisfies the scheduling invariant and the invariant
of the PCB fields. -/
theorem kernel_reach_inv (s : Kernel) (h : kernel_reach s) : sched_inv s ∧ pcb_inv s := by
  induction h with
  | boot be b hb =>
    exact ⟨boot_inv_sched b (kernel_boot_inv be b hb), kernel_boot_pcb be b hb⟩
  | create env s s1 ptr name ty rc _ hstep ih =>
    exact ⟨kproc_create_sched env s s1 ptr name ty rc ih.1 ih.2 hstep,
      kproc_create_pcb env s s1 ptr name ty rc ih.1 ih.2 hstep⟩
  | frame s s1 tf _ hstep ih =>
    exact ⟨(save_trapframe_spec s s1 tf ih.1 hstep).1, save_trapframe_pcb s s1 tf ih.1 ih.2 hstep⟩
  | tick s s1 io _ hstep ih =>
    have hinvA : sched_inv { s with timer_ticks := s.timer_ticks + 1, ringbufs := io } :=
      sched_inv_of_fields s _ ih.1 rfl rfl rfl rfl rfl rfl
    have hpcbA : pcb_inv { s with timer_ticks := s.timer_ticks + 1, ringbufs := io } :=
      pcb_inv_same s _ ih.1.ok ih.2 (fun r => by cases r <;> rfl) (tsame_of_table_eq s _ rfl)
        rfl rfl
    exact ⟨scheduler_timer_inv _ s1 hinvA hstep, scheduler_timer_pcb _ s1 hinvA hpcbA hstep⟩
  | run s s1 _ hstep ih =>
    exact ⟨(scheduler_run_inv s s1 ih.1 hstep).1, scheduler_run_pcb s s1 ih.1 ih.2 hstep⟩
  | call s s1 umem junk a p _ ha hp hst hpid hjunk hstep ih =>
    exact ⟨ksyscall_irq_handler_inv umem junk s s1 a p ih.1 ha hp hst hpid hjunk hstep,
      ksyscall_irq_handler_pcb umem junk s s1 a p ih.1 ih.2 ha hp hst hpid hjunk hstep⟩
theorem queue_refs_nodup (s : Kernel) : (queue_refs s).Nodup := by
  unfold queue_refs
  have hm : ((List.range s.mutexes.length).map queue_ref.mutex).Nodup :=
    List.Nodup.map (fun a b hab => by injection hab) (List.nodup_range _)
  have hs : ((List.range s.semaphores.length).map queue_ref.sem).Nodup :=
    List.Nodup.map (fun a b hab => by injection hab) (List.nodup_range _)
  refine List.Nodup.append (List.Nodup.append (by decide) hm ?_) hs ?_
  · intro x hx hy
    obtain ⟨k, -, hk⟩ := List.mem_map.mp hy
    subst hk
    simp at hx
  · intro x hx hy
    obtain ⟨k, -, hk⟩ := List.mem_map.mp hy
    subst hk
    rcases List.mem_append.mp hx with hx | hx
    · simp at hx
    · obtain ⟨j, -, hj⟩ := List.mem_map.mp hx
      cases hj

/-- A complete kernel entry leads from a reachable state to a reachable state. -/
theorem kernel_context_enter_reach (s s1 : Kernel) (e : kernel_entry) (hr : kernel_reach s)
    (hact : s.active_proc = none ∨ one_active s) (hu : user_syscall s e = true)
    (h : kernel_context_enter s e = some s1) : kernel_reach s1 := by
  have hinv := (kernel_reach_inv s hr).1
  unfold kernel_context_enter at h
  cases hsave : save_trapframe s e.tf with
  | none => simp [hsave] at h
  | some sA =>
    simp only [hsave] at h
    obtain ⟨hinvA, hactA, hpidA, hpA⟩ := save_trapframe_spec s sA e.tf hinv hsave
    have hrA : kernel_reach sA := kernel_reach.frame s sA e.tf hr hsave
    cases hh : entry_handler sA e with
    | none => simp [hh] at h
    | some s2 =>
      simp only [hh] at h
      have hr2 : kernel_reach s2 := by
        cases e with
        | timer tf io =>
          have hh1 : scheduler_timer
              { sA with timer_ticks := sA.timer_ticks + 1, ringbufs := io } = some s2 := hh
          exact kernel_reach.tick sA s2 io hrA hh1
        | syscall tf umem junk =>
          have hh1 : ksyscall_irq_handler umem junk sA = some s2 := hh
          rcases hact with hnone | ⟨a, p, ha, hp, hst, -, -⟩
          · unfold ksyscall_irq_handler at hh1
            rw [hactA, hnone] at hh1
            cases hh1
          · obtain ⟨p1, hp1, hst1, hpid1⟩ := hpA a p ha hp
            simp only [user_syscall, ha, hp, Bool.and_eq_true, decide_eq_true_eq,
              Option.isNone_iff_eq_none] at hu
            exact kernel_reach.call sA s2 umem junk a p1 hrA (by rw [hactA, ha]) hp1
              (by rw [hst1, hst]) (by rw [hpid1]; exact hu.1) (by rw [hpidA]; exact hu.2) hh1
      cases hrun : scheduler_run s2 with
      | none => simp [hrun] at h
      | some s3 =>
        simp only [hrun] at h
        by_cases hn : s3.active_proc = none
        · rw [if_pos hn] at h; cases h
        · rw [if_neg hn] at h
          injection h with h
          subst h
          exact kernel_reach.run s2 s3 hr2 hrun

/-- A sequence of complete kernel entries, none of them a system call of the process
with pid 0 or with an indeterminate value naming a table entry, leads from a
reachable state to a reachable state. -/
theorem kernel_entries_reach (es : List kernel_entry) :
    ∀ (s s1 : Kernel), kernel_reach s → (s.active_proc = none ∨ one_active s) →
      user_syscalls s es = true → kernel_entries s es = some s1 → kernel_reach s1 := by
  induction es with
  | nil =>
    intro s s1 hr _ _ h
    simp only [kernel_entries, Option.some.injEq] at h
    subst h
    exact hr
  | cons e rest ih =>
    intro s s1 hr hact hu h
    simp only [user_syscalls, Bool.and_eq_true] at hu
    simp only [kernel_entries] at h
    cases hent : kernel_context_enter s e with
    | none => simp [hent] at h
    | some s2 =>
      simp only [hent] at h hu
      have hone2 := (kernel_context_enter_inv s s2 e (kernel_reach_inv s hr).1 hact hu.1 hent).2
      exact ih s2 s1 (kernel_context_enter_reach s s2 e hr hact hu.1 hent) (Or.inr hone2) hu.2 h

/-! ### The queue invariants of the reachable states -/

end GmkOS
